import Mathlib

/-!
The storage engine of aimemo, package `internal/db`.

A shallow embedding of the SQLite-backed store of aimemo (`schema.go`,
`entity.go`, `observation.go`, `relation.go`, `search.go`, `journal.go`).

* A database state `DB` holds the four base tables and the three full-text
  indexes as lists of rows in rowid order, plus the AUTOINCREMENT counters.
* Every Go method `func (db *DB) F(ctx, args) (T, error)` becomes a function
  `F : DB → args → Except String T × DB`: the result and the state the call
  leaves behind (which matters when a call fails half-way).
* Go strings are Lean strings (sequences of code points); `len(s)` is the
  UTF-8 byte length `String.utf8ByteSize`.
* Timestamps are unix milliseconds.  A statement that writes
  `unixepoch('now', 'subsec') * 1000` or `time.Now().UnixMilli()` takes the
  clock reading `now` as an argument.
* The `tags` column holds the JSON array written by `json.Marshal`; it is kept
  decoded, as the list of strings `json.Unmarshal` gives back.
* The full-text engine (tokenizer and MATCH) and the floating-point importance
  score are parameters of `Search`; `sqlEngine` is the engine with the score in exact
  real arithmetic.
* A full-text index is the list of the documents the triggers have handed to it and not
  taken back.  The functions on `DB` give the effect of a call whose statements the
  engine accepts; the refusal of a trigger command by FTS5 is followed in `Store`, which
  adds the totals of the entity index (`Store.UpsertEntity`, `Store.SoftDeleteEntity`,
  `Store.HardDeleteEntity`).
-/

namespace Aimemo

/-! ## Strings -/

/-- SQLite `lower(X)`: folds the ASCII letters `A`..`Z` only. -/
def sqlLower (s : String) : String := String.mk (s.data.map Char.toLower)

/-- Lexicographic comparison of code-point sequences; on UTF-8 text this is the
byte order (`memcmp`) of the BINARY collation. -/
def codesLe : List Nat → List Nat → Bool
  | [], _ => true
  | _ :: _, [] => false
  | a :: as, b :: bs => decide (a < b) || (decide (a = b) && codesLe as bs)

/-- BINARY collation order on text values. -/
def textLe (a b : String) : Bool :=
  codesLe (a.data.map Char.toNat) (b.data.map Char.toNat)

/-- Go `unicode.IsSpace`. -/
def isSpace (c : Char) : Bool :=
  let n := c.toNat
  n = 9 || n = 10 || n = 11 || n = 12 || n = 13 || n = 32 || n = 0x85 || n = 0xA0 ||
  n = 0x1680 || (0x2000 ≤ n && n ≤ 0x200A) || n = 0x2028 || n = 0x2029 || n = 0x202F ||
  n = 0x205F || n = 0x3000

/-- Go `strings.TrimSpace`. -/
def trimSpace (s : String) : String :=
  String.mk ((s.data.dropWhile isSpace).reverse.dropWhile isSpace).reverse

/-- Go `strings.ReplaceAll(q, "\"", "\"\"")` on the code points of `q`. -/
def doubleQuotes : List Char → List Char
  | [] => []
  | c :: cs => if c = '"' then '"' :: '"' :: doubleQuotes cs else c :: doubleQuotes cs

/-- The escapes of Go `%q` for a double quote and a backslash. -/
def quoteEscape : List Char → List Char
  | [] => []
  | c :: cs =>
    if c = '"' ∨ c = '\\' then '\\' :: c :: quoteEscape cs else c :: quoteEscape cs

/-- Go `%q` in the error messages: the text in double quotes, a double quote and a
backslash escaped.  The escapes Go also writes for control and non-printable characters
are not reproduced. -/
def goQuote (s : String) : String := String.mk ('"' :: quoteEscape s.data ++ ['"'])

/-- Source: `ftsEscape` (search.go). -/
def ftsEscape (q : String) : String :=
  let t := trimSpace q
  if t = "" then "" else String.mk ('"' :: doubleQuotes t.data ++ ['"'])

/-! ## Tables (schema.go) -/

/-- A row of table `entities`. -/
structure EntityRow where
  id : Nat
  name : String
  entity_type : String
  tags : List String
  created_at : Nat
  updated_at : Nat
  deleted_at : Option Nat
  access_count : Nat
  last_accessed : Option Nat
deriving DecidableEq, Repr

/-- A row of table `observations`. -/
structure ObservationRow where
  id : Nat
  entity_id : Nat
  content : String
  created_at : Nat
deriving DecidableEq, Repr

/-- A row of table `relations`. -/
structure RelationRow where
  id : Nat
  from_id : Nat
  to_id : Nat
  relation : String
  created_at : Nat
deriving DecidableEq, Repr

/-- A row of table `journal`. -/
structure JournalRow where
  id : Nat
  content : String
  tags : List String
  created_at : Nat
deriving DecidableEq, Repr

/-- A document of the full-text index `entities_fts` (columns `name`,
`entity_type`), as handed to it by the triggers. -/
structure EntityDoc where
  rowid : Nat
  name : String
  entity_type : String
deriving DecidableEq, Repr

/-- A document of `observations_fts` or `journal_fts` (column `content`). -/
structure TextDoc where
  rowid : Nat
  content : String
deriving DecidableEq, Repr

/-- The database file: base tables in rowid order, the full-text indexes, and per
table the largest rowid AUTOINCREMENT has handed out (`sqlite_sequence`). -/
structure DB where
  entities : List EntityRow
  observations : List ObservationRow
  relations : List RelationRow
  journal : List JournalRow
  entities_fts : List EntityDoc
  observations_fts : List TextDoc
  journal_fts : List TextDoc
  seq_entities : Nat
  seq_observations : Nat
  seq_relations : Nat
  seq_journal : Nat
deriving DecidableEq, Repr

/-- The store right after `Open` on a new file: the schema is installed, all
tables are empty. -/
def DB.empty : DB :=
  { entities := [], observations := [], relations := [], journal := [],
    entities_fts := [], observations_fts := [], journal_fts := [],
    seq_entities := 0, seq_observations := 0, seq_relations := 0, seq_journal := 0 }

/-- The stored rows and index documents of a database, without the rowid
counters. -/
structure Contents where
  entities : List EntityRow
  observations : List ObservationRow
  relations : List RelationRow
  journal : List JournalRow
  entities_fts : List EntityDoc
  observations_fts : List TextDoc
  journal_fts : List TextDoc
deriving DecidableEq, Repr

/-- What the tables and indexes of `db` hold. -/
def DB.contents (db : DB) : Contents :=
  { entities := db.entities, observations := db.observations, relations := db.relations,
    journal := db.journal, entities_fts := db.entities_fts,
    observations_fts := db.observations_fts, journal_fts := db.journal_fts }

/-- `deleted_at IS NULL`. -/
def EntityRow.live (e : EntityRow) : Bool := e.deleted_at.isNone

/-- `lower(name) = lower(?)`. -/
def EntityRow.nameMatches (name : String) (e : EntityRow) : Bool :=
  decide (sqlLower e.name = sqlLower name)

/-- The document the entity triggers index for a row. -/
def EntityRow.doc (e : EntityRow) : EntityDoc :=
  { rowid := e.id, name := e.name, entity_type := e.entity_type }

/-- The document the observation triggers index for a row. -/
def ObservationRow.doc (o : ObservationRow) : TextDoc :=
  { rowid := o.id, content := o.content }

/-- The document the journal triggers index for a row. -/
def JournalRow.doc (j : JournalRow) : TextDoc :=
  { rowid := j.id, content := j.content }

/-! ## Triggers (schema.go) -/

/-- Trigger `entities_fts_update`: AFTER UPDATE OF name, entity_type, when the row
is live before and after. -/
def entities_fts_update (old new : EntityRow) (idx : List EntityDoc) : List EntityDoc :=
  if old.deleted_at = none ∧ new.deleted_at = none then idx.erase old.doc ++ [new.doc] else idx

/-- Trigger `entities_fts_soft_delete`: AFTER UPDATE OF deleted_at, live before and
deleted after. -/
def entities_fts_soft_delete (old new : EntityRow) (idx : List EntityDoc) : List EntityDoc :=
  if old.deleted_at = none ∧ new.deleted_at ≠ none then idx.erase old.doc else idx

/-- Trigger `entities_fts_soft_restore`: AFTER UPDATE OF deleted_at, deleted before
and live after. -/
def entities_fts_soft_restore (old new : EntityRow) (idx : List EntityDoc) : List EntityDoc :=
  if old.deleted_at ≠ none ∧ new.deleted_at = none then idx ++ [new.doc] else idx

/-- Trigger `entities_fts_delete`, once per deleted row. -/
def entities_fts_delete (olds : List EntityRow) (idx : List EntityDoc) : List EntityDoc :=
  olds.foldl (fun i old => i.erase old.doc) idx

/-- Trigger `observations_fts_delete`, once per deleted row. -/
def observations_fts_delete (olds : List ObservationRow) (idx : List TextDoc) : List TextDoc :=
  olds.foldl (fun i old => i.erase old.doc) idx

/-! ## ORDER BY -/

/-- `ORDER BY` over rows that arrive in scan order: a stable insertion sort, so that
rows the ordering does not separate stay in scan order. -/
def orderBy {α : Type} (le : α → α → Bool) (rows : List α) : List α :=
  rows.insertionSort (fun a b => le a b = true)

/-! ## Values returned to Go callers -/

/-- Source: `type Entity struct` (entity.go). -/
structure Entity where
  ID : Nat
  Name : String
  EntityType : String
  Tags : List String
  CreatedAt : Nat
  UpdatedAt : Nat
  DeletedAt : Option Nat
  AccessCount : Nat
  LastAccessed : Option Nat
  Observations : List String
deriving DecidableEq, Repr

set_option linter.dupNamespace false in
/-- Source: `type Relation struct` (relation.go). -/
structure Relation where
  ID : Nat
  FromID : Nat
  FromName : String
  ToID : Nat
  ToName : String
  Relation : String
  CreatedAt : Nat
deriving DecidableEq, Repr

/-- Source: `type JournalEntry struct` (journal.go). -/
structure JournalEntry where
  ID : Nat
  Content : String
  Tags : List String
  CreatedAt : Nat
deriving DecidableEq, Repr

/-- Source: `type Stats struct` (search.go); `StoragePath` is not set by `GetStats`. -/
structure Stats where
  EntityCount : Nat
  ObservationCount : Nat
  RelationCount : Nat
  JournalCount : Nat
deriving DecidableEq, Repr

/-- Source: `type SearchResult struct` (search.go): an entity and its score. -/
structure SearchResult (κ : Type) where
  entity : Entity
  Score : κ

/-- Source: `scanEntity` (entity.go): the columns of a row, without observations. -/
def scanEntity (r : EntityRow) : Entity :=
  { ID := r.id, Name := r.name, EntityType := r.entity_type, Tags := r.tags,
    CreatedAt := r.created_at, UpdatedAt := r.updated_at, DeletedAt := r.deleted_at,
    AccessCount := r.access_count, LastAccessed := r.last_accessed, Observations := [] }

/-! ## Observations (observation.go) -/

/-- The order in which `SELECT content FROM observations WHERE entity_id = ? ORDER BY
created_at ASC` yields rows: by `created_at`; rows of equal `created_at` come out in
the order of the `UNIQUE(entity_id, content)` index that serves the WHERE clause,
that is by content. -/
def obsOrder (a b : ObservationRow) : Bool :=
  decide (a.created_at < b.created_at) ||
    (decide (a.created_at = b.created_at) && textLe a.content b.content)

/-- Source: `ListObservationsByEntityID` (observation.go).  The Go error result is
a driver failure only and is left out. -/
def ListObservationsByEntityID (db : DB) (entityID : Nat) : List String :=
  (orderBy obsOrder (db.observations.filter (fun o => decide (o.entity_id = entityID)))).map
    (fun o => o.content)

/-- Source: `AddObservation` (observation.go): `INSERT ... ON CONFLICT(entity_id,
content) DO NOTHING`.  The statement draws a rowid before it looks for the conflict;
the foreign key `entity_id REFERENCES entities(id)` is enforced. -/
def AddObservation (db : DB) (now entityID : Nat) (content : String) : Except String Unit × DB :=
  if content.utf8ByteSize > 10 * 1024 then
    (.error "observation content exceeds 10KB limit", db)
  else if db.observations.any (fun o => decide (o.entity_id = entityID ∧ o.content = content)) then
    (.ok (), { db with seq_observations := db.seq_observations + 1 })
  else if db.entities.any (fun e => decide (e.id = entityID)) then
    let row : ObservationRow :=
      { id := db.seq_observations + 1, entity_id := entityID, content := content,
        created_at := now }
    (.ok (), { db with observations := db.observations ++ [row],
                       observations_fts := db.observations_fts ++ [row.doc],
                       seq_observations := db.seq_observations + 1 })
  else
    (.error "FOREIGN KEY constraint failed", db)

/-- Source: `RetractObservation` (observation.go). -/
def RetractObservation (db : DB) (entityName content : String) :
    Except String (List String) × DB :=
  match db.entities.find? (fun e => e.nameMatches entityName && e.live) with
  | none => (.error ("entity " ++ goQuote entityName ++ " not found"), db)
  | some e =>
    let hit := db.observations.filter
      (fun o => decide (o.entity_id = e.id ∧ o.content = content))
    let db1 : DB :=
      { db with observations := db.observations.filter
                  (fun o => !decide (o.entity_id = e.id ∧ o.content = content)),
                observations_fts := observations_fts_delete hit db.observations_fts }
    if hit.length = 0 then
      (.error ("observation not found in entity " ++ goQuote entityName), db1)
    else
      (.ok (ListObservationsByEntityID db1 e.id), db1)

/-! ## Entities (entity.go) -/

/-- The statement of `UpsertEntity`: `INSERT INTO entities (name, entity_type, tags,
updated_at) ... ON CONFLICT(name) DO UPDATE SET entity_type, tags, updated_at,
deleted_at = NULL`, with the triggers it fires. -/
def upsertEntityRow (db : DB) (now : Nat) (name entityType : String) (tags : List String) : DB :=
  match db.entities.find? (fun e => decide (e.name = name)) with
  | none =>
    let row : EntityRow :=
      { id := db.seq_entities + 1, name := name, entity_type := entityType, tags := tags,
        created_at := now, updated_at := now, deleted_at := none, access_count := 0,
        last_accessed := none }
    { db with entities := db.entities ++ [row],
              entities_fts := db.entities_fts ++ [row.doc],
              seq_entities := db.seq_entities + 1 }
  | some old =>
    let new : EntityRow :=
      { old with entity_type := entityType, tags := tags, updated_at := now, deleted_at := none }
    { db with entities := db.entities.map (fun e => if e.id = old.id then new else e),
              entities_fts := entities_fts_soft_restore old new
                (entities_fts_soft_delete old new (entities_fts_update old new db.entities_fts)),
              seq_entities := db.seq_entities + 1 }

/-- Source: `UpsertEntity` (entity.go), for a call whose upsert statement the engine
accepts; `Store.UpsertEntity` is the call with the refusal of a trigger command. -/
def UpsertEntity (db : DB) (now : Nat) (name entityType : String) (tags : List String) :
    Except String Nat × DB :=
  if name.utf8ByteSize = 0 then (.error "entity name cannot be empty", db)
  else if name.utf8ByteSize > 1024 then (.error "entity name exceeds 1KB limit", db)
  else if entityType.utf8ByteSize > 256 then (.error "entity type exceeds 256-byte limit", db)
  else
    let db1 := upsertEntityRow db now name entityType tags
    match db1.entities.find? (fun e => decide (e.name = name)) with
    | some e => (.ok e.id, db1)
    | none => (.error "get entity id: sql: no rows in result set", db1)

/-- Source: `GetEntity` (entity.go).  `QueryRow` takes the first row of the scan. -/
def GetEntity (db : DB) (now : Nat) (name : String) : Except String (Option Entity) × DB :=
  match db.entities.find? (fun e => e.nameMatches name && e.live) with
  | none => (.ok none, db)
  | some r =>
    let db1 : DB :=
      { db with entities := db.entities.map (fun e =>
          if e.id = r.id then
            { e with access_count := e.access_count + 1, last_accessed := some now }
          else e) }
    (.ok (some { scanEntity r with
                   AccessCount := r.access_count + 1, LastAccessed := some now,
                   Observations := ListObservationsByEntityID db1 r.id }), db1)

/-- Source: `GetEntityByID` (entity.go). -/
def GetEntityByID (db : DB) (id : Nat) : Option Entity :=
  (db.entities.find? (fun e => decide (e.id = id) && e.live)).map scanEntity

/-- Source: `SoftDeleteEntity` (entity.go): `UPDATE entities SET deleted_at = ? WHERE
lower(name) = lower(?) AND deleted_at IS NULL`, then the check of `RowsAffected`; for a
call whose statement the engine accepts, `Store.SoftDeleteEntity` being the call with the
refusal of a trigger command. -/
def SoftDeleteEntity (db : DB) (now : Nat) (name : String) : Except String Unit × DB :=
  let hit := db.entities.filter (fun e => e.nameMatches name && e.live)
  let db1 : DB :=
    { db with entities := db.entities.map (fun e =>
                if e.nameMatches name && e.live then { e with deleted_at := some now } else e),
              entities_fts := hit.foldl (fun i old =>
                entities_fts_soft_restore old { old with deleted_at := some now }
                  (entities_fts_soft_delete old { old with deleted_at := some now } i))
                db.entities_fts }
  if hit.length = 0 then (.error ("entity " ++ goQuote name ++ " not found"), db1)
  else (.ok (), db1)

/-- Source: `HardDeleteEntity` (entity.go): `DELETE FROM entities WHERE lower(name) =
lower(?)`; the foreign keys of `observations` and `relations` are `ON DELETE
CASCADE`, and the delete triggers fire for every removed row; for a call whose statement
the engine accepts, `Store.HardDeleteEntity` being the call with the refusal of a trigger
command. -/
def HardDeleteEntity (db : DB) (name : String) : Except String Unit × DB :=
  let hit := db.entities.filter (fun e => e.nameMatches name)
  let gone : Nat → Bool := fun i => hit.any (fun e => decide (e.id = i))
  let db1 : DB :=
    { db with entities := db.entities.filter (fun e => !e.nameMatches name),
              observations := db.observations.filter (fun o => !gone o.entity_id),
              relations := db.relations.filter (fun r => !gone r.from_id && !gone r.to_id),
              entities_fts := entities_fts_delete hit db.entities_fts,
              observations_fts := observations_fts_delete
                (db.observations.filter (fun o => gone o.entity_id)) db.observations_fts }
  if hit.length = 0 then (.error ("entity " ++ goQuote name ++ " not found"), db1)
  else (.ok (), db1)

/-! ## Relations (relation.go) -/

/-- Source: `UpsertRelation` (relation.go): `INSERT ... ON CONFLICT(from_id, to_id,
relation) DO NOTHING`, with both foreign keys enforced. -/
def UpsertRelation (db : DB) (now fromID toID : Nat) (relation : String) :
    Except String Unit × DB :=
  if db.relations.any
      (fun r => decide (r.from_id = fromID ∧ r.to_id = toID ∧ r.relation = relation)) then
    (.ok (), { db with seq_relations := db.seq_relations + 1 })
  else if db.entities.any (fun e => decide (e.id = fromID)) &&
      db.entities.any (fun e => decide (e.id = toID)) then
    let row : RelationRow :=
      { id := db.seq_relations + 1, from_id := fromID, to_id := toID, relation := relation,
        created_at := now }
    (.ok (), { db with relations := db.relations ++ [row],
                       seq_relations := db.seq_relations + 1 })
  else
    (.error "FOREIGN KEY constraint failed", db)

/-- Source: `ensureEntity` (relation.go): `INSERT OR IGNORE INTO entities (name,
entity_type, tags) VALUES (?, 'concept', '[]')`, then the lookup of the id by name. -/
def ensureEntity (db : DB) (now : Nat) (name : String) : Except String Nat × DB :=
  let db1 : DB :=
    match db.entities.find? (fun e => decide (e.name = name)) with
    | some _ => { db with seq_entities := db.seq_entities + 1 }
    | none =>
      let row : EntityRow :=
        { id := db.seq_entities + 1, name := name, entity_type := "concept", tags := [],
          created_at := now, updated_at := now, deleted_at := none, access_count := 0,
          last_accessed := none }
      { db with entities := db.entities ++ [row],
                entities_fts := db.entities_fts ++ [row.doc],
                seq_entities := db.seq_entities + 1 }
  match db1.entities.find? (fun e => decide (e.name = name)) with
  | some e => (.ok e.id, db1)
  | none => (.error "sql: no rows in result set", db1)

/-- Source: `UpsertRelationByName` (relation.go).  The three statements read the
clock at `t1`, `t2` and `t3`. -/
def UpsertRelationByName (db : DB) (t1 t2 t3 : Nat) (fromName toName relation : String) :
    Except String Unit × DB :=
  match ensureEntity db t1 fromName with
  | (.error err, db1) => (.error ("ensure entity " ++ goQuote fromName ++ ": " ++ err), db1)
  | (.ok fromID, db1) =>
    match ensureEntity db1 t2 toName with
    | (.error err, db2) => (.error ("ensure entity " ++ goQuote toName ++ ": " ++ err), db2)
    | (.ok toID, db2) => UpsertRelation db2 t3 fromID toID relation

/-- The rows of `relations r JOIN entities fe ON r.from_id = fe.id JOIN entities te
ON r.to_id = te.id`, relations scanned in rowid order. -/
def joinRelations (db : DB) : List (RelationRow × EntityRow × EntityRow) :=
  db.relations.flatMap (fun r =>
    (db.entities.filter (fun fe => decide (r.from_id = fe.id))).flatMap (fun fe =>
      (db.entities.filter (fun te => decide (r.to_id = te.id))).map (fun te => (r, fe, te))))

/-- Source: `ListRelationsByEntity` (relation.go). -/
def ListRelationsByEntity (db : DB) (name : String) : List Relation :=
  ((orderBy (fun a b => decide (a.1.created_at ≤ b.1.created_at))
      ((joinRelations db).filter (fun x =>
        (x.2.1.nameMatches name || x.2.2.nameMatches name) && x.2.1.live && x.2.2.live))).map
    (fun x =>
      { ID := x.1.id, FromID := x.1.from_id, FromName := x.2.1.name, ToID := x.1.to_id,
        ToName := x.2.2.name, Relation := x.1.relation, CreatedAt := x.1.created_at }))

/-! ## Journal (journal.go) -/

/-- Source: `AppendJournal` (journal.go). -/
def AppendJournal (db : DB) (now : Nat) (content : String) (tags : List String) :
    Except String JournalEntry × DB :=
  if content.utf8ByteSize > 10 * 1024 then (.error "journal content exceeds 10KB limit", db)
  else
    let row : JournalRow :=
      { id := db.seq_journal + 1, content := content, tags := tags, created_at := now }
    let db1 : DB :=
      { db with journal := db.journal ++ [row], journal_fts := db.journal_fts ++ [row.doc],
                seq_journal := db.seq_journal + 1 }
    match db1.journal.find? (fun j => decide (j.id = row.id)) with
    | some j =>
      (.ok { ID := j.id, Content := j.content, Tags := j.tags, CreatedAt := j.created_at }, db1)
    | none => (.error "sql: no rows in result set", db1)

/-! ## Search and statistics (search.go) -/

/-- The two parts of the SQL engine that `Search` uses and that are taken as given:
the full-text MATCH of the `porter unicode61` tokenizer, and the floating-point
expression `importance_rank` with the order `ORDER BY` puts on its values. -/
structure Engine (κ : Type) where
  /-- The MATCH operator: `fts q` is `none` when the engine refuses the query text `q`
  (a syntax error), else the test on the column texts of an indexed document. -/
  fts : String → Option (List String → Bool)
  /-- The value of `0.6 / LOG((now - updated_at) / 3600000.0 + 2) + 0.4 *
  LOG(access_count + 1)`, from `now`, `updated_at` and `access_count`; `none` is the SQL
  NULL that a division by zero or a logarithm outside its domain gives. -/
  rank : Nat → Nat → Nat → Option κ
  /-- The order of `ORDER BY importance_rank` on these values. -/
  rankLe : Option κ → Option κ → Bool
  /-- The constant `0.0` that `listAll` selects as `final_rank`. -/
  zero : κ

/-- The tag filter `(SELECT COUNT(*) FROM json_each(e.tags) WHERE value IN (?, ...)) =
len(tags)`, appended to the query when `len(tags) > 0`. -/
def tagFilter (tags : List String) (e : EntityRow) : Bool :=
  tags.length = 0 ||
    decide ((e.tags.filter (fun v => tags.contains v)).length = tags.length)

/-- The type filter `e.entity_type = ?`, appended when `entityType` is not empty. -/
def typeFilter (entityType : String) (e : EntityRow) : Bool :=
  decide (entityType = "") || decide (e.entity_type = entityType)

/-- Source: `scanSearchRows` (search.go): the scanned rows with their scores, then the
observations of each result. -/
def scanSearchRows {κ : Type} (db : DB) (rows : List (EntityRow × κ)) : List (SearchResult κ) :=
  rows.map (fun x =>
    { entity := { scanEntity x.1 with Observations := ListObservationsByEntityID db x.1.id },
      Score := x.2 })

/-- The scan of the `importance_rank` column into a Go `float64`: `rows.Scan` fails on the
first NULL. -/
def scanScores {κ : Type} : List (EntityRow × Option κ) → Option (List (EntityRow × κ))
  | [] => some []
  | (_, none) :: _ => none
  | (e, some score) :: rest => (scanScores rest).map (fun l => (e, score) :: l)

/-- The `ORDER BY` clause `listAll` picks for a sort key. -/
def listOrder (sort : String) (a b : EntityRow) : Bool :=
  if sort = "accessed" then decide (b.last_accessed.getD 0 ≤ a.last_accessed.getD 0)
  else if sort = "name" then textLe a.name b.name
  else decide (b.updated_at ≤ a.updated_at)

/-- Source: `listAll` (search.go). -/
def listAll {κ : Type} (eng : Engine κ) (db : DB) (entityType : String) (tags : List String)
    (sort : String) (limit : Int) : List (SearchResult κ) :=
  scanSearchRows db
    (((orderBy (listOrder sort)
        (db.entities.filter (fun e => e.live && typeFilter entityType e && tagFilter tags e))).take
      limit.toNat).map (fun e => (e, eng.zero)))

/-- Source: `Search` (search.go).  `now` is the reading of `unixepoch('now') * 1000`. -/
def Search {κ : Type} (eng : Engine κ) (db : DB) (now : Nat) (query entityType : String)
    (tags : List String) (sort : String) (limit : Int) : Except String (List (SearchResult κ)) :=
  let limit := if limit ≤ 0 then 10 else limit
  if query = "" then .ok (listAll eng db entityType tags sort limit)
  else
    match eng.fts (ftsEscape query) with
    | none => .error "search query: fts5: syntax error"
    | some hit =>
      let byName : Nat → Bool := fun i =>
        db.entities_fts.any (fun d => decide (d.rowid = i) && hit [d.name, d.entity_type])
      let byObservation : Nat → Bool := fun i =>
        db.observations.any (fun o => decide (o.entity_id = i) &&
          db.observations_fts.any (fun d => decide (d.rowid = o.id) && hit [d.content]))
      let rows := (db.entities.filter (fun e =>
        e.live && (byName e.id || byObservation e.id) && typeFilter entityType e &&
          tagFilter tags e)).map (fun e => (e, eng.rank now e.updated_at e.access_count))
      match scanScores ((orderBy (fun a b => eng.rankLe b.2 a.2) rows).take limit.toNat) with
      | none => .error "sql: Scan error: converting NULL to float64 is unsupported"
      | some scanned => .ok (scanSearchRows db scanned)

/-- Source: `GetStats` (search.go). -/
def GetStats (db : DB) : Stats :=
  { EntityCount := (db.entities.filter (fun e => e.live)).length,
    ObservationCount := (db.observations.flatMap (fun o =>
      db.entities.filter (fun e => decide (o.entity_id = e.id) && e.live))).length,
    RelationCount := ((joinRelations db).filter (fun x => x.2.1.live && x.2.2.live)).length,
    JournalCount := db.journal.length }

/-! ## Sequences of calls -/

/-- A call of one of the methods of `*DB` that write to the store, with its
arguments and the clock readings of its statements. -/
inductive Op where
  | upsertEntity (now : Nat) (name entityType : String) (tags : List String)
  | getEntity (now : Nat) (name : String)
  | softDeleteEntity (now : Nat) (name : String)
  | hardDeleteEntity (name : String)
  | addObservation (now entityID : Nat) (content : String)
  | retractObservation (entityName content : String)
  | upsertRelation (now fromID toID : Nat) (relation : String)
  | upsertRelationByName (t1 t2 t3 : Nat) (fromName toName relation : String)
  | appendJournal (now : Nat) (content : String) (tags : List String)
deriving DecidableEq, Repr

/-- The store a call leaves behind. -/
def Op.apply (db : DB) : Op → DB
  | .upsertEntity now name entityType tags => (UpsertEntity db now name entityType tags).2
  | .getEntity now name => (GetEntity db now name).2
  | .softDeleteEntity now name => (SoftDeleteEntity db now name).2
  | .hardDeleteEntity name => (HardDeleteEntity db name).2
  | .addObservation now entityID content => (AddObservation db now entityID content).2
  | .retractObservation entityName content => (RetractObservation db entityName content).2
  | .upsertRelation now fromID toID relation => (UpsertRelation db now fromID toID relation).2
  | .upsertRelationByName t1 t2 t3 fromName toName relation =>
    (UpsertRelationByName db t1 t2 t3 fromName toName relation).2
  | .appendJournal now content tags => (AppendJournal db now content tags).2

/-- The store after a sequence of calls. -/
def run (db : DB) (ops : List Op) : DB := ops.foldl Op.apply db

/-- A store that a sequence of calls produces from the empty store. -/
def Reachable (db : DB) : Prop := ∃ ops : List Op, run DB.empty ops = db

/-! ## Schema constraints -/

/-- The constraints the schema puts on the base tables: primary keys, the UNIQUE
constraints, the foreign keys, and rowids no larger than the AUTOINCREMENT counter. -/
structure DB.WF (db : DB) : Prop where
  entity_ids : (db.entities.map (fun e => e.id)).Nodup
  entity_names : (db.entities.map (fun e => e.name)).Nodup
  entity_seq : ∀ e ∈ db.entities, e.id ≤ db.seq_entities
  observation_ids : (db.observations.map (fun o => o.id)).Nodup
  observation_keys : (db.observations.map (fun o => (o.entity_id, o.content))).Nodup
  observation_seq : ∀ o ∈ db.observations, o.id ≤ db.seq_observations
  observation_fk : ∀ o ∈ db.observations, ∃ e ∈ db.entities, e.id = o.entity_id
  relation_ids : (db.relations.map (fun r => r.id)).Nodup
  relation_keys : (db.relations.map (fun r => (r.from_id, r.to_id, r.relation))).Nodup
  relation_seq : ∀ r ∈ db.relations, r.id ≤ db.seq_relations
  relation_fk : ∀ r ∈ db.relations,
    (∃ e ∈ db.entities, e.id = r.from_id) ∧ (∃ e ∈ db.entities, e.id = r.to_id)
  journal_ids : (db.journal.map (fun j => j.id)).Nodup
  journal_seq : ∀ j ∈ db.journal, j.id ≤ db.seq_journal

instance DB.decidableWF (db : DB) : Decidable db.WF :=
  decidable_of_iff
    ((db.entities.map (fun e => e.id)).Nodup ∧ (db.entities.map (fun e => e.name)).Nodup ∧
      (∀ e ∈ db.entities, e.id ≤ db.seq_entities) ∧
      (db.observations.map (fun o => o.id)).Nodup ∧
      (db.observations.map (fun o => (o.entity_id, o.content))).Nodup ∧
      (∀ o ∈ db.observations, o.id ≤ db.seq_observations) ∧
      (∀ o ∈ db.observations, ∃ e ∈ db.entities, e.id = o.entity_id) ∧
      (db.relations.map (fun r => r.id)).Nodup ∧
      (db.relations.map (fun r => (r.from_id, r.to_id, r.relation))).Nodup ∧
      (∀ r ∈ db.relations, r.id ≤ db.seq_relations) ∧
      (∀ r ∈ db.relations,
        (∃ e ∈ db.entities, e.id = r.from_id) ∧ (∃ e ∈ db.entities, e.id = r.to_id)) ∧
      (db.journal.map (fun j => j.id)).Nodup ∧ (∀ j ∈ db.journal, j.id ≤ db.seq_journal))
    ⟨fun h => ⟨h.1, h.2.1, h.2.2.1, h.2.2.2.1, h.2.2.2.2.1, h.2.2.2.2.2.1, h.2.2.2.2.2.2.1,
        h.2.2.2.2.2.2.2.1, h.2.2.2.2.2.2.2.2.1, h.2.2.2.2.2.2.2.2.2.1,
        h.2.2.2.2.2.2.2.2.2.2.1, h.2.2.2.2.2.2.2.2.2.2.2.1, h.2.2.2.2.2.2.2.2.2.2.2.2⟩,
      fun h => ⟨h.entity_ids, h.entity_names, h.entity_seq, h.observation_ids,
        h.observation_keys, h.observation_seq, h.observation_fk, h.relation_ids,
        h.relation_keys, h.relation_seq, h.relation_fk, h.journal_ids, h.journal_seq⟩⟩

/-! ## Sequences of `AddObservation` calls -/

/-- A sequence of `AddObservation` calls on one entity, each with its clock reading and
its content: the results of the calls, and the store they leave. -/
def addObservations (db : DB) (entityID : Nat) :
    List (Nat × String) → List (Except String Unit) × DB
  | [] => ([], db)
  | call :: calls =>
    ((AddObservation db call.1 entityID call.2).1 ::
        (addObservations (AddObservation db call.1 entityID call.2).2 entityID calls).1,
      (addObservations (AddObservation db call.1 entityID call.2).2 entityID calls).2)

/-- The listed contents `acc` followed by the contents of `cs` in the order of their
first insertion: a content that is already listed is skipped. -/
def appendNew : List String → List String → List String
  | acc, [] => acc
  | acc, c :: cs => appendNew (if c ∈ acc then acc else acc ++ [c]) cs

/-! ## What a call can do to entity rows -/

/-- The names of the entity rows a call can insert. -/
def Op.inserts : Op → List String
  | .upsertEntity _ name _ _ => [name]
  | .upsertRelationByName _ _ _ fromName toName _ => [fromName, toName]
  | _ => []

/-- The names of the entity rows a call can undelete: only `UpsertEntity` clears
`deleted_at`, on the row of exactly that name. -/
def Op.restores : Op → List String
  | .upsertEntity _ name _ _ => [name]
  | _ => []

/-- The live rows that `lower(name) = lower(?) AND deleted_at IS NULL` selects. -/
def liveMatches (db : DB) (name : String) : List EntityRow :=
  db.entities.filter (fun e => e.nameMatches name && e.live)

/-! ## The importance score in exact arithmetic -/

/-- SQLite `LOG(X)`: the base-10 logarithm of `X` (with one argument `LOG` is `LOG10`; the
natural logarithm is `LN`), and NULL when `X` is not positive.  The engine computes on
IEEE doubles; this is the value in exact real arithmetic. -/
noncomputable def sqlLOG (x : ℝ) : Option ℝ :=
  if 0 < x then some (Real.logb 10 x) else none

/-- The expression `importance_rank` of `Search` (search.go): `0.6 / LOG((now -
updated_at) / 3600000.0 + 2) + 0.4 * LOG(access_count + 1)`, in exact real arithmetic.
`now - updated_at` is an integer subtraction; a NULL operand and a division by zero give
NULL. -/
noncomputable def importance_rank (now updated_at access_count : Nat) : Option ℝ :=
  match sqlLOG (((now : ℝ) - (updated_at : ℝ)) / 3600000 + 2),
      sqlLOG ((access_count : ℝ) + 1) with
  | some a, some c => if a = 0 then none else some (0.6 / a + 0.4 * c)
  | _, _ => none

/-- The order of `ORDER BY` on a nullable REAL column: NULL sorts below every number. -/
noncomputable def realLe : Option ℝ → Option ℝ → Bool
  | none, _ => true
  | some _, none => false
  | some a, some b => decide (a ≤ b)

/-- The SQL engine with the score in exact real arithmetic; the full-text MATCH stays a
parameter. -/
noncomputable def sqlEngine (fts : String → Option (List String → Bool)) : Engine ℝ :=
  { fts := fts, rank := importance_rank, rankLe := realLe, zero := 0 }

/-! ## Time windows and the journal listing (journal.go) -/

/-- Two's-complement wrap-around of Go `int64` arithmetic. -/
def wrap64 (x : Int) : Int := (x + 2 ^ 63) % 2 ^ 64 - 2 ^ 63

/-- The `SkipSpace` of package `fmt` outside the line-based scans: spaces are skipped, a
newline is an error. -/
def skipSpace : List Char → Option (List Char)
  | [] => some []
  | c :: cs =>
    if c.toNat = 10 then none else if isSpace c then skipSpace cs else some (c :: cs)

/-- An ASCII decimal digit. -/
def isDigit (c : Char) : Bool := decide (48 ≤ c.toNat) && decide (c.toNat ≤ 57)

/-- The value of a sequence of decimal digits. -/
def digitsValue (cs : List Char) : Nat := cs.foldl (fun acc c => acc * 10 + (c.toNat - 48)) 0

/-- Go `strconv.ParseInt(tok, 10, 64)` on a token made of a sign and `body`: a token
without digits is a syntax error, a value outside `int64` a range error. -/
def parseDecimal (neg : Bool) (body : List Char) : Option Int :=
  if body.all isDigit && !body.isEmpty then
    let v : Int := if neg then -(digitsValue body : Int) else (digitsValue body : Int)
    if -2 ^ 63 ≤ v ∧ v ≤ 2 ^ 63 - 1 then some v else none
  else none

/-- Go `fmt.Sscanf(s, "%d", &n)` for an `int` of 64 bits: skip spaces, accept one sign,
take the longest run of the decimal digits `0123456789` (for the verb `%d` an underscore
is not a digit: the scan stops in front of it), and convert it; `none` is a scan error.
What follows the run in `s` is not read. -/
def sscanInt (s : String) : Option Int :=
  match skipSpace s.data with
  | none => none
  | some cs =>
    let signed := cs.head? = some '-' ∨ cs.head? = some '+'
    let rest := if signed then cs.tail else cs
    parseDecimal (cs.head? = some '-') (rest.takeWhile isDigit)

/-- Go `daysIn` of package `time`. -/
def daysIn (month year : Nat) : Nat :=
  if month = 2 then
    (if year % 4 = 0 ∧ (year % 100 ≠ 0 ∨ year % 400 = 0) then 29 else 28)
  else if month = 4 ∨ month = 6 ∨ month = 9 ∨ month = 11 then 30
  else 31

/-- Go `time.Parse` with the layout `2006-01-02`: four digits, two digits, two digits,
then the check of the month and of the day of the month; year, month and day. -/
def parseDate (s : String) : Option (Nat × Nat × Nat) :=
  match s.data with
  | [y1, y2, y3, y4, c1, m1, m2, c2, d1, d2] =>
    if c1.toNat = 45 ∧ c2.toNat = 45 ∧ [y1, y2, y3, y4, m1, m2, d1, d2].all isDigit then
      let year := digitsValue [y1, y2, y3, y4]
      let month := digitsValue [m1, m2]
      let day := digitsValue [d1, d2]
      if 1 ≤ month ∧ month ≤ 12 ∧ 1 ≤ day ∧ day ≤ daysIn month year then
        some (year, month, day)
      else none
    else none
  | _ => none

/-- Source: `ParseSince` (journal.go).  `now` is the reading of `time.Now()` in unix
nanoseconds, `localMidnight y m d` the unix milliseconds of
`time.Date(y, m, d, 0, 0, 0, 0, time.Local)`; the result is in unix milliseconds.
`time.Duration` is an `int64` of nanoseconds and its products wrap around. -/
def ParseSince (localMidnight : Nat → Nat → Nat → Int) (now : Int) (s : String) :
    Except String Int :=
  let s := trimSpace s
  if s = "" then .ok ((now + -24 * 3600000000000) / 1000000)
  else
    match parseDate s with
    | some (year, month, day) => .ok (localMidnight year month day)
    | none =>
      match (if s.data.getLast? = some 'd' then sscanInt (String.mk s.data.dropLast)
             else none) with
      | some days =>
        .ok ((now + wrap64 (wrap64 (wrap64 (-days) * 24) * 3600000000000)) / 1000000)
      | none =>
        match (if s.data.getLast? = some 'h' then sscanInt (String.mk s.data.dropLast)
               else none) with
        | some hours => .ok ((now + wrap64 (wrap64 (-hours) * 3600000000000)) / 1000000)
        | none =>
          .error ("cannot parse since " ++ goQuote s ++
            ": use formats like '2h', '24h', '7d', or '2026-02-17'")

/-- Source: `scanJournalRows` (journal.go), one row. -/
def scanJournalRow (j : JournalRow) : JournalEntry :=
  { ID := j.id, Content := j.content, Tags := j.tags, CreatedAt := j.created_at }

/-- Source: `ListJournal` (journal.go): `SELECT ... FROM journal [WHERE created_at >= ?]
ORDER BY created_at DESC LIMIT ?`; rows of equal `created_at` come out in rowid
order. -/
def ListJournal (db : DB) (localMidnight : Nat → Nat → Nat → Int) (now : Int)
    (sinceStr : String) (limit : Int) : Except String (List JournalEntry) :=
  let limit := if limit ≤ 0 then 50 else limit
  let list : (JournalRow → Bool) → List JournalEntry := fun keep =>
    ((orderBy (fun a b => decide (b.created_at ≤ a.created_at)) (db.journal.filter keep)).take
      limit.toNat).map scanJournalRow
  if sinceStr = "" then .ok (list (fun _ => true))
  else
    match ParseSince localMidnight now sinceStr with
    | .error err => .error err
    | .ok sinceMs => .ok (list (fun j => decide (sinceMs ≤ (j.created_at : Int))))

/-! ## Index parity -/

/-- The full-text indexes mirror the base tables: `entities_fts` holds one document per
live entity row, with its id, name and type; `observations_fts` one document per
observation row and `journal_fts` one per journal row (as multisets: the order of the
documents in an index is of no account). -/
def DB.ftsInStep (db : DB) : Prop :=
  db.entities_fts.Perm ((db.entities.filter (fun e => e.live)).map EntityRow.doc) ∧
    db.observations_fts.Perm (db.observations.map ObservationRow.doc) ∧
    db.journal_fts.Perm (db.journal.map JournalRow.doc)

/-- Whether a call is `UpsertRelationByName`, the one call that creates entity rows
through `ensureEntity` rather than through `UpsertEntity`. -/
def Op.createsEndpoints : Op → Bool
  | .upsertRelationByName _ _ _ _ _ _ => true
  | _ => false

/-! ## The totals of the entity index

FTS5 keeps, next to the documents of an index, its totals: the number of rows and, per
column, the number of tokens (the averages record of `entities_fts_data`).  An insert
command adds the document it is handed to the totals.  A 'delete' command takes the
tokens of the document it is handed from the column totals and one from the row total,
and is refused with SQLITE_CORRUPT_VTAB ("database disk image is malformed") when a
column total would drop below zero or the row total is below one; the refusal rolls back
the statement that fired the trigger, the draw of its rowid included.  The functions above
give the effect of a call whose statements the engine accepts; `Store` adds the totals of
`entities_fts` and the refusal.  The totals of the two other indexes are not followed:
a 'delete' command reaches them only for a row that is deleted from the table, whose
document the index holds, and such a command is never refused.

The tokenizer is a parameter: `tokens text` stands for the number of tokens that `porter
unicode61` finds in `text`. -/

/-- The number of tokens of `unicode61` in a text of ASCII characters: the maximal runs of
letters and digits.  A code point outside ASCII is counted as a token character, which is
what `unicode61` does for letters and digits, not for other symbols; the examples use ASCII
text only. -/
def asciiTokens (s : String) : Nat :=
  ((s.data.splitOnP (fun c => !(c.isAlphanum || decide (128 ≤ c.toNat)))).filter
    (fun w => !w.isEmpty)).length

/-- The documents that the triggers hand to 'delete' commands of `entities_fts` during a
call: `entities_fts_update` that of the live row an upsert updates,
`entities_fts_soft_delete` that of each row a soft delete stamps, `entities_fts_delete` that
of each row a hard delete removes, whether the row is live or soft-deleted. -/
def Op.ftsDeleted (db : DB) : Op → List EntityDoc
  | .upsertEntity _ name entityType _ =>
    if name.utf8ByteSize = 0 ∨ name.utf8ByteSize > 1024 ∨ entityType.utf8ByteSize > 256 then []
    else (db.entities.filter (fun e => decide (e.name = name) && e.live)).map EntityRow.doc
  | .softDeleteEntity _ name =>
    (db.entities.filter (fun e => e.nameMatches name && e.live)).map EntityRow.doc
  | .hardDeleteEntity name =>
    (db.entities.filter (fun e => e.nameMatches name)).map EntityRow.doc
  | _ => []

/-- The documents that the triggers hand to insert commands of `entities_fts` during a
call: for an upsert the document of the row of that name as the statement leaves it
(`entities_fts_insert` for a new row, `entities_fts_update` for a live row,
`entities_fts_soft_restore` for a soft-deleted one), for `UpsertRelationByName` those of
the endpoint rows it creates. -/
def Op.ftsInserted (db : DB) : Op → List EntityDoc
  | .upsertEntity _ name entityType _ =>
    if name.utf8ByteSize = 0 ∨ name.utf8ByteSize > 1024 ∨ entityType.utf8ByteSize > 256 then []
    else
      match db.entities.find? (fun e => decide (e.name = name)) with
      | some old => [EntityDoc.mk old.id old.name entityType]
      | none => [EntityDoc.mk (db.seq_entities + 1) name entityType]
  | .upsertRelationByName t1 t2 t3 fromName toName relation =>
    ((UpsertRelationByName db t1 t2 t3 fromName toName relation).2.entities.drop
      db.entities.length).map EntityRow.doc
  | _ => []

/-- A database with the totals FTS5 keeps for `entities_fts`: the number of rows and the
number of tokens in the columns `name` and `entity_type`. -/
structure Store where
  db : DB
  entities_fts_rows : Nat
  entities_fts_name_tokens : Nat
  entities_fts_type_tokens : Nat
deriving DecidableEq, Repr

/-- The store right after `Open` on a new file. -/
def Store.empty : Store :=
  { db := DB.empty, entities_fts_rows := 0, entities_fts_name_tokens := 0,
    entities_fts_type_tokens := 0 }

/-- A call as the engine runs it: `none` when a 'delete' command of its triggers is
refused, and the store is then left as it was.  The 'delete' commands of a statement come
before its insert command, so they are refused exactly when their documents together
exceed one of the totals. -/
def Store.apply (tokens : String → Nat) (s : Store) (op : Op) : Option Store :=
  if (op.ftsDeleted s.db).length ≤ s.entities_fts_rows ∧
      ((op.ftsDeleted s.db).map (fun d => tokens d.name)).sum ≤ s.entities_fts_name_tokens ∧
      ((op.ftsDeleted s.db).map (fun d => tokens d.entity_type)).sum ≤
        s.entities_fts_type_tokens then
    some { db := op.apply s.db,
           entities_fts_rows :=
             s.entities_fts_rows - (op.ftsDeleted s.db).length + (op.ftsInserted s.db).length,
           entities_fts_name_tokens :=
             s.entities_fts_name_tokens - ((op.ftsDeleted s.db).map (fun d => tokens d.name)).sum +
               ((op.ftsInserted s.db).map (fun d => tokens d.name)).sum,
           entities_fts_type_tokens :=
             s.entities_fts_type_tokens -
               ((op.ftsDeleted s.db).map (fun d => tokens d.entity_type)).sum +
               ((op.ftsInserted s.db).map (fun d => tokens d.entity_type)).sum }
  else none

/-- The store after a sequence of calls; a refused call changes nothing. -/
def Store.run (tokens : String → Nat) (s : Store) : List Op → Store
  | [] => s
  | op :: ops => Store.run tokens ((s.apply tokens op).getD s) ops

/-- The text of the error the driver returns for SQLITE_CORRUPT_VTAB. -/
def corruptVtab : String := "database disk image is malformed (267)"

/-- A call of a method of `*DB` as the engine runs it: the result and the store of the
call when its statements are accepted, the error `refused` and the store as it was when
a 'delete' command of its triggers is refused. -/
def Store.exec {α : Type} (tokens : String → Nat) (s : Store) (op : Op) (refused : String)
    (result : Except String α) : Except String α × Store :=
  match s.apply tokens op with
  | some s1 => (result, s1)
  | none => (.error refused, s)

/-- Source: `UpsertEntity` (entity.go), with the refusal of the engine: the error of
`ExecContext` is wrapped in `upsert entity: `. -/
def Store.UpsertEntity (tokens : String → Nat) (s : Store) (now : Nat)
    (name entityType : String) (tags : List String) : Except String Nat × Store :=
  s.exec tokens (.upsertEntity now name entityType tags) ("upsert entity: " ++ corruptVtab)
    (Aimemo.UpsertEntity s.db now name entityType tags).1

/-- Source: `SoftDeleteEntity` (entity.go), with the refusal of the engine. -/
def Store.SoftDeleteEntity (tokens : String → Nat) (s : Store) (now : Nat) (name : String) :
    Except String Unit × Store :=
  s.exec tokens (.softDeleteEntity now name) corruptVtab
    (Aimemo.SoftDeleteEntity s.db now name).1

/-- Source: `HardDeleteEntity` (entity.go), with the refusal of the engine. -/
def Store.HardDeleteEntity (tokens : String → Nat) (s : Store) (name : String) :
    Except String Unit × Store :=
  s.exec tokens (.hardDeleteEntity name) corruptVtab (Aimemo.HardDeleteEntity s.db name).1

/-- Source: `AddObservation` (observation.go) on a `Store`; no trigger of the statement
sends a 'delete' command. -/
def Store.AddObservation (tokens : String → Nat) (s : Store) (now entityID : Nat)
    (content : String) : Except String Unit × Store :=
  s.exec tokens (.addObservation now entityID content) corruptVtab
    (Aimemo.AddObservation s.db now entityID content).1

/-- Source: `AppendJournal` (journal.go) on a `Store`; no trigger of the statement sends
a 'delete' command. -/
def Store.AppendJournal (tokens : String → Nat) (s : Store) (now : Nat) (content : String)
    (tags : List String) : Except String JournalEntry × Store :=
  s.exec tokens (.appendJournal now content tags) corruptVtab
    (Aimemo.AppendJournal s.db now content tags).1

/-- The totals of the entity index agree with its documents, and the documents with the
tables: the state of every store on which no hard delete has hit a soft-deleted entity. -/
def Store.InStep (tokens : String → Nat) (s : Store) : Prop :=
  s.db.WF ∧ s.db.ftsInStep ∧ s.entities_fts_rows = s.db.entities_fts.length ∧
    s.entities_fts_name_tokens = (s.db.entities_fts.map (fun d => tokens d.name)).sum ∧
    s.entities_fts_type_tokens = (s.db.entities_fts.map (fun d => tokens d.entity_type)).sum

/-- A call that sends no 'delete' command for a document the index does not hold: every
call but a hard delete that matches a soft-deleted row. -/
def Op.clean (db : DB) : Op → Prop
  | .hardDeleteEntity name => ∀ e ∈ db.entities, e.nameMatches name = true → e.live = true
  | _ => True

/-! ## Batches (entity.go) -/

/-- Source: `type EntityInput struct` (entity.go). -/
structure EntityInput where
  Name : String
  EntityType : String
  Observations : List String
  Tags : List String
deriving DecidableEq, Repr

/-- The loop over `inp.Observations` in `StoreEntities`: one `AddObservation` per
content, each with the clock reading of its statement, until one fails. -/
def storeObservations (db : DB) (id : Nat) : List (Nat × String) → Except String Unit × DB
  | [] => (.ok (), db)
  | call :: calls =>
    match AddObservation db call.1 id call.2 with
    | (.error err, db1) => (.error err, db1)
    | (.ok _, db1) => storeObservations db1 id calls

/-- Source: `StoreEntities` (entity.go).  Each input comes with the clock reading of its
upsert and the readings of its observation inserts, in order (a reading that is not given
counts as 0). -/
def StoreEntities (db : DB) :
    List (EntityInput × Nat × List Nat) → Except String (List Entity) × DB
  | [] => (.ok [], db)
  | call :: calls =>
    match UpsertEntity db call.2.1 call.1.Name
        (if call.1.EntityType = "" then "concept" else call.1.EntityType) call.1.Tags with
    | (.error err, db1) => (.error ("upsert " ++ goQuote call.1.Name ++ ": " ++ err), db1)
    | (.ok id, db1) =>
      match storeObservations db1 id
          (call.1.Observations.enum.map (fun x => (call.2.2.getD x.1 0, x.2))) with
      | (.error err, db2) =>
        (.error ("add observation to " ++ goQuote call.1.Name ++ ": " ++ err), db2)
      | (.ok _, db2) =>
        match StoreEntities db2 calls with
        | (.error err, db3) => (.error err, db3)
        | (.ok results, db3) =>
          (.ok ((match GetEntityByID db2 id with
                  | some e => [{ e with Observations := ListObservationsByEntityID db2 id }]
                  | none => []) ++ results), db3)

/-! ## Context names (internal/locate) -/

/-- Go `strings.ToLower` on one character, as far as it matters to `SanitizeContext`: the
characters that `unicode.ToLower` maps into ASCII are `A`..`Z`, U+0130 (to `i`) and the
Kelvin sign U+212A (to `k`).  Any other character is left in place here; Go may put
another non-ASCII character there, which the pattern of `SanitizeContext` replaces by
`-` just as it replaces the character itself. -/
def toLower (c : Char) : Char :=
  if c.toNat = 0x130 then 'i' else if c.toNat = 0x212A then 'k' else c.toLower

/-- The characters the pattern `[^a-z0-9-]` does not match. -/
def isContextChar (c : Char) : Bool :=
  (decide (97 ≤ c.toNat) && decide (c.toNat ≤ 122)) ||
    (decide (48 ≤ c.toNat) && decide (c.toNat ≤ 57)) || decide (c.toNat = 45)

/-- Go `strings.Trim(s, "-")` on the characters of `s`. -/
def trimDashes (cs : List Char) : List Char :=
  ((cs.dropWhile (fun c => decide (c = '-'))).reverse.dropWhile
    (fun c => decide (c = '-'))).reverse

/-- Source: `SanitizeContext` (locate.go): `strings.ToLower`, then
`contextSanitize.ReplaceAllString(lower, "-")` with the pattern `[^a-z0-9-]`, then
`strings.Trim(sanitized, "-")`. -/
def SanitizeContext (context : String) : String :=
  String.mk (trimDashes
    ((context.data.map toLower).map (fun c => if isContextChar c then c else '-')))

/-- Source: `dbName` (locate.go). -/
def dbName (context : String) : String :=
  if context = "" ∨ context = "default" then "memory.db"
  else "memory-" ++ SanitizeContext context ++ ".db"

/-- Source: `SearchJournal` (journal.go): the journal rows whose document matches the
escaped query, newest first; rows of equal `created_at` come out in rowid order. -/
def SearchJournal {κ : Type} (eng : Engine κ) (db : DB) (query : String) (limit : Int) :
    Except String (List JournalEntry) :=
  let limit := if limit ≤ 0 then 10 else limit
  match eng.fts (ftsEscape query) with
  | none => .error "journal search: fts5: syntax error"
  | some hit =>
    .ok (((orderBy (fun a b => decide (b.created_at ≤ a.created_at))
      (db.journal.filter (fun j =>
        db.journal_fts.any (fun d => decide (d.rowid = j.id) && hit [d.content])))).take
      limit.toNat).map scanJournalRow)

/-! ## The MCP server (internal/mcp)

A `json.RawMessage` is kept as what `json.Unmarshal` makes of it: the decoded value, or
the decoding error.  A request id (`any`) is kept as its JSON text, `none` being `nil`. -/

/-- Source: `type Tool struct` (protocol.go); the description and the input schema,
constant texts, are left out. -/
structure Tool where
  Name : String
deriving DecidableEq, Repr

/-- Source: `allTools` (tools.go). -/
def allTools : List Tool :=
  [Tool.mk "memory_context", Tool.mk "memory_store", Tool.mk "memory_search",
    Tool.mk "memory_forget", Tool.mk "memory_link"]

/-- Source: `type ContentItem struct` (protocol.go); `Kind` is the field `Type`. -/
structure ContentItem where
  Kind : String
  Text : String
deriving DecidableEq, Repr

/-- Source: `type ToolResult struct` (protocol.go). -/
structure ToolResult where
  Content : List ContentItem
  IsError : Bool
deriving DecidableEq, Repr

/-- Source: `type Error struct` (protocol.go). -/
structure RpcError where
  Code : Int
  Message : String
deriving DecidableEq, Repr

/-- The values the server puts in `Response.Result`: the constant map of
`handleInitialize`, the map with the tool list, or a `ToolResult`. -/
inductive ResultValue where
  | initializeResult
  | tools (tools : List Tool)
  | toolResult (result : ToolResult)
deriving DecidableEq, Repr

/-- Source: `type Response struct` (protocol.go). -/
structure Response where
  JSONRPC : String
  ID : Option String
  Result : Option ResultValue
  Error : Option RpcError
deriving DecidableEq, Repr

/-- The parameters `handleMemoryStore` decodes. -/
structure StoreParams where
  Entities : List EntityInput
  Journal : String
  Tags : List String
  Context : String

/-- The parameters `handleMemorySearch` decodes; `Kind` is the field `Type` and `SortKey`
the field `Sort`. -/
structure SearchParams where
  Query : String
  Name : String
  Journal : Bool
  Since : String
  Context : String
  Kind : String
  Tags : List String
  Limit : Int
  SortKey : String

/-- The parameters `handleMemoryForget` decodes. -/
structure ForgetParams where
  Name : String
  Observation : String
  Permanent : Bool
  Context : String

/-- The parameters `handleMemoryLink` decodes. -/
structure LinkParams where
  From : String
  To : String
  Relation : String
  Context : String

/-- The parameters `handleMemoryContext` decodes; it ignores a decoding error and goes on
with what was decoded. -/
structure ContextParams where
  Since : String
  Limit : Int

/-- The raw arguments of a tool call, as `json.Unmarshal` decodes them into the parameter
struct of each handler. -/
structure Arguments where
  store : Except String StoreParams
  search : Except String SearchParams
  forget : Except String ForgetParams
  link : Except String LinkParams
  context : ContextParams

/-- The raw message `{}`: every struct decodes to its zero value. -/
def Arguments.empty : Arguments :=
  { store := .ok { Entities := [], Journal := "", Tags := [], Context := "" },
    search := .ok { Query := "", Name := "", Journal := false, Since := "", Context := "",
                    Kind := "", Tags := [], Limit := 0, SortKey := "" },
    forget := .ok { Name := "", Observation := "", Permanent := false, Context := "" },
    link := .ok { From := "", To := "", Relation := "", Context := "" },
    context := { Since := "", Limit := 0 } }

/-- Source: `type ToolCallParams struct` (protocol.go); `Arguments` is `none` when the
raw message is `nil`. -/
structure ToolCallParams where
  Name : String
  Arguments : Option Arguments

/-- Source: `type Request struct` (protocol.go); `Params` is what
`json.Unmarshal(req.Params, &p)` gives for a `ToolCallParams`. -/
structure Request where
  JSONRPC : String
  ID : Option String
  Method : String
  Params : Except String ToolCallParams

/-- The clock readings of one tool call: `ms k` is the reading, in unix milliseconds, of
its statement number `k`, `batch` the readings of a `StoreEntities` call (per input, the
reading of the upsert and those of the observation inserts), `ns` the reading of
`time.Now()` in `ParseSince`, in unix nanoseconds. -/
structure Clock where
  ms : Nat → Nat
  batch : List (Nat × List Nat)
  ns : Int

/-- What a tool handler returns, one case per map it builds. -/
inductive ToolOutput (κ γ : Type) where
  | storedJournal (id : Nat)
  | storedEntities (count : Nat) (entities : List Entity)
  | journal (entries : List JournalEntry) (count : Nat)
  | named (entities : List Entity) (count : Nat)
  | found (entities : List (SearchResult κ)) (count : Nat)
      (journal : Option (List JournalEntry × Nat))
  | retracted (entity deleted : String) (remaining : List String)
  | hardDeleted (entity : String)
  | softDeleted (entity : String)
  | linked (source target relation : String) (created : Nat)
  | context (value : γ)

/-- The server and what it takes as given: the SQL engine, the time zone, `json.Marshal`
on tool results, and `handleMemoryContext`, which reads the store in parallel
sub-queries under a deadline and writes nothing. -/
structure Server (κ γ : Type) where
  eng : Engine κ
  localMidnight : Nat → Nat → Nat → Int
  dbPath : String
  handleMemoryContext : DB → Clock → ContextParams → Except String γ
  marshal : ToolOutput κ γ → Except String String

/-- Source: `errorResponse` (protocol.go). -/
def errorResponse (id : Option String) (code : Int) (message : String) : Response :=
  { JSONRPC := "2.0", ID := id, Result := none, Error := some { Code := code, Message := message } }

/-- Source: `successResponse` (protocol.go). -/
def successResponse (id : Option String) (result : ResultValue) : Response :=
  { JSONRPC := "2.0", ID := id, Result := some result, Error := none }

/-- The inputs of a batch with the clock readings of their statements. -/
def stamp (inputs : List EntityInput) (readings : List (Nat × List Nat)) :
    List (EntityInput × Nat × List Nat) :=
  inputs.enum.map (fun x => (x.2, (readings.getD x.1 (0, [])).1, (readings.getD x.1 (0, [])).2))

/-- Source: `handleMemoryStore` (tools.go). -/
def handleMemoryStore {κ γ : Type} (db : DB) (clock : Clock) (args : Arguments) :
    Except String (ToolOutput κ γ) × DB :=
  match args.store with
  | .error err => (.error ("invalid params: " ++ err), db)
  | .ok p =>
    if p.Journal ≠ "" then
      match AppendJournal db (clock.ms 0) p.Journal p.Tags with
      | (.error err, db1) => (.error err, db1)
      | (.ok entry, db1) => (.ok (.storedJournal entry.ID), db1)
    else if p.Entities.length = 0 then (.error "entities or journal is required", db)
    else
      match StoreEntities db (stamp p.Entities clock.batch) with
      | (.error err, db1) => (.error err, db1)
      | (.ok results, db1) => (.ok (.storedEntities results.length results), db1)

/-- Source: `handleMemorySearch` (tools.go); `SearchByName` is `GetEntity`. -/
def handleMemorySearch {κ γ : Type} (srv : Server κ γ) (db : DB) (clock : Clock)
    (args : Arguments) : Except String (ToolOutput κ γ) × DB :=
  match args.search with
  | .error err => (.error ("invalid params: " ++ err), db)
  | .ok p =>
    let limit : Int := if p.Limit ≤ 0 then 10 else if p.Limit > 50 then 50 else p.Limit
    if p.Journal then
      match ListJournal db srv.localMidnight clock.ns p.Since limit with
      | .error err => (.error err, db)
      | .ok entries => (.ok (.journal entries entries.length), db)
    else if p.Name ≠ "" then
      match GetEntity db (clock.ms 0) p.Name with
      | (.error err, db1) => (.error err, db1)
      | (.ok none, db1) => (.ok (.named [] 0), db1)
      | (.ok (some e), db1) => (.ok (.named [e] 1), db1)
    else
      match Search srv.eng db (clock.ms 0) p.Query p.Kind p.Tags p.SortKey limit with
      | .error err => (.error err, db)
      | .ok results =>
        if p.Query ≠ "" then
          match SearchJournal srv.eng db p.Query limit with
          | .error err => (.error err, db)
          | .ok entries =>
            (.ok (.found results results.length (some (entries, entries.length))), db)
        else (.ok (.found results results.length none), db)

/-- Source: `handleMemoryForget` (tools.go). -/
def handleMemoryForget {κ γ : Type} (db : DB) (clock : Clock) (args : Arguments) :
    Except String (ToolOutput κ γ) × DB :=
  match args.forget with
  | .error err => (.error ("invalid params: " ++ err), db)
  | .ok p =>
    if p.Name = "" then (.error "name is required", db)
    else if p.Observation ≠ "" then
      match RetractObservation db p.Name p.Observation with
      | (.error err, db1) => (.error err, db1)
      | (.ok remaining, db1) => (.ok (.retracted p.Name p.Observation remaining), db1)
    else if p.Permanent then
      match HardDeleteEntity db p.Name with
      | (.error err, db1) => (.error err, db1)
      | (.ok _, db1) => (.ok (.hardDeleted p.Name), db1)
    else
      match SoftDeleteEntity db (clock.ms 0) p.Name with
      | (.error err, db1) => (.error err, db1)
      | (.ok _, db1) => (.ok (.softDeleted p.Name), db1)

/-- Source: `handleMemoryLink` (tools.go). -/
def handleMemoryLink {κ γ : Type} (db : DB) (clock : Clock) (args : Arguments) :
    Except String (ToolOutput κ γ) × DB :=
  match args.link with
  | .error err => (.error ("invalid params: " ++ err), db)
  | .ok p =>
    if p.From = "" ∨ p.To = "" ∨ p.Relation = "" then
      (.error "from, to, and relation are required", db)
    else
      match UpsertRelationByName db (clock.ms 0) (clock.ms 1) (clock.ms 2) p.From p.To
          p.Relation with
      | (.error err, db1) => (.error err, db1)
      | (.ok _, db1) => (.ok (.linked p.From p.To p.Relation (clock.ms 3)), db1)

/-- Source: `dispatch` (tools.go). -/
def dispatch {κ γ : Type} (srv : Server κ γ) (db : DB) (clock : Clock) (name : String)
    (args : Arguments) : Except String (ToolOutput κ γ) × DB :=
  if name = "memory_context" then
    (match srv.handleMemoryContext db clock args.context with
      | .error err => .error err
      | .ok value => .ok (.context value), db)
  else if name = "memory_store" then handleMemoryStore db clock args
  else if name = "memory_search" then handleMemorySearch srv db clock args
  else if name = "memory_forget" then handleMemoryForget db clock args
  else if name = "memory_link" then handleMemoryLink db clock args
  else (.error ("unknown tool: " ++ name), db)

/-- Source: `handleToolCall` (server.go). -/
def handleToolCall {κ γ : Type} (srv : Server κ γ) (db : DB) (clock : Clock) (req : Request) :
    Response × DB :=
  match req.Params with
  | .error err => (errorResponse req.ID (-32602) ("invalid params: " ++ err), db)
  | .ok p =>
    match dispatch srv db clock p.Name (p.Arguments.getD Arguments.empty) with
    | (.error err, db1) =>
      (successResponse req.ID (.toolResult
        { Content := [{ Kind := "text", Text := err }], IsError := true }), db1)
    | (.ok result, db1) =>
      match srv.marshal result with
      | .error err => (errorResponse req.ID (-32603) ("marshal error: " ++ err), db1)
      | .ok text =>
        (successResponse req.ID (.toolResult
          { Content := [{ Kind := "text", Text := text }], IsError := false }), db1)

/-- Source: `handleInitialize` (server.go). -/
def handleInitialize (req : Request) : Response := successResponse req.ID .initializeResult

/-- Source: `handleToolsList` (server.go). -/
def handleToolsList (req : Request) : Response := successResponse req.ID (.tools allTools)

/-- Source: `handle` (server.go).  On `notifications/initialized` the server also sends
the client a `notifications/message` when it runs on stdio; that message is not part of
the response. -/
def handle {κ γ : Type} (srv : Server κ γ) (db : DB) (clock : Clock) (req : Request) :
    Response × DB :=
  if req.Method = "initialize" then (handleInitialize req, db)
  else if req.Method = "notifications/initialized" then
    ({ JSONRPC := "", ID := none, Result := none, Error := none }, db)
  else if req.Method = "tools/list" then (handleToolsList req, db)
  else if req.Method = "tools/call" then handleToolCall srv db clock req
  else (errorResponse req.ID (-32601) "method not found", db)

/-- The reply `ServeStdio` writes for a response: none when the response has no id, no
result and no error. -/
def reply (resp : Response) : Option Response :=
  if resp.ID = none ∧ resp.Error = none ∧ resp.Result = none then none else some resp

/-! ## Export and import (cli/export.go, cli/import.go) -/

/-- Source: `type exportEntry struct` (export.go) and `type record struct` (import.go),
which have the same fields under the same JSON keys; `Kind` is the field `Type`.  A slice
that is `nil` or left out of the JSON text and an empty slice are both `[]`. -/
structure exportEntry where
  Kind : String
  Name : String
  EntityType : String
  Observations : List String
  Tags : List String
  From : String
  To : String
  RelationType : String
deriving DecidableEq, Repr

/-- Source: `exportJSON` (export.go): per search result its entity entry, followed by an
entry for each listed relation that starts at the entity. -/
def exportJSON {κ : Type} (db : DB) (entities : List (SearchResult κ)) : List exportEntry :=
  entities.flatMap (fun r =>
    { Kind := "entity", Name := r.entity.Name, EntityType := r.entity.EntityType,
      Observations := r.entity.Observations, Tags := r.entity.Tags, From := "", To := "",
      RelationType := "" } ::
    ((ListRelationsByEntity db r.entity.Name).filter
        (fun rel => decide (rel.FromName = r.entity.Name))).map
      (fun rel =>
        { Kind := "relation", Name := "", EntityType := "", Observations := [], Tags := [],
          From := rel.FromName, To := rel.ToName, RelationType := rel.Relation }))

/-- Source: `exportCmd` (export.go) with `--format json`: the entries whose JSON array the
command prints. -/
def exportCmd {κ : Type} (eng : Engine κ) (db : DB) (now : Nat) :
    Except String (List exportEntry) :=
  match Search eng db now "" "" [] "name" 1000 with
  | .error err => .error ("export: " ++ err)
  | .ok entities => .ok (exportJSON db entities)

/-- The records `importCmd` decodes from the text `exportJSON` prints for `entries`.
`encoding/json` prints a list that is not empty as an array, which decodes to the same
records; the empty list is the `nil` slice, printed as `null`, which `importCmd` reads as
one line that decodes to the zero record. -/
def decodeRecords (entries : List exportEntry) : List exportEntry :=
  if entries.isEmpty then
    [{ Kind := "", Name := "", EntityType := "", Observations := [], Tags := [], From := "",
       To := "", RelationType := "" }]
  else entries

/-- What the loop of `importCmd` does with one record. -/
inductive ImportOutcome where
  | entity
  | relation
  | skipped
deriving DecidableEq, Repr

/-- Source: the body of the loop over `records` in `importCmd` (import.go).  The clock
readings of the record are `readings.1` for the upsert of an entity with `readings.2` for
its observations, and `readings.1` with the first two of `readings.2` for the three
statements of a relation. -/
def importRecord (db : DB) (rec : exportEntry) (readings : Nat × List Nat) :
    ImportOutcome × DB :=
  if rec.Kind = "entity" then
    if rec.Name = "" then (.skipped, db)
    else
      match StoreEntities db
        [({ Name := rec.Name,
            EntityType := if rec.EntityType = "" then "concept" else rec.EntityType,
            Observations := rec.Observations, Tags := rec.Tags }, readings.1, readings.2)] with
      | (.error _, db1) => (.skipped, db1)
      | (.ok _, db1) => (.entity, db1)
  else if rec.Kind = "relation" then
    if rec.From = "" ∨ rec.To = "" ∨ rec.RelationType = "" then (.skipped, db)
    else
      match UpsertRelationByName db readings.1 (readings.2.getD 0 0) (readings.2.getD 1 0)
        rec.From rec.To rec.RelationType with
      | (.error _, db1) => (.skipped, db1)
      | (.ok _, db1) => (.relation, db1)
  else (.skipped, db)

/-- The loop of `importCmd` over the records with their clock readings: the outcome per
record and the store it leaves. -/
def importRecords (db : DB) : List (exportEntry × Nat × List Nat) → List ImportOutcome × DB
  | [] => ([], db)
  | x :: rest =>
    ((importRecord db x.1 x.2).1 :: (importRecords (importRecord db x.1 x.2).2 rest).1,
      (importRecords (importRecord db x.1 x.2).2 rest).2)

/-- Source: `importCmd` (import.go) on decoded records: the counters `entityCount`,
`relationCount` and `skipCount` it prints, and the store. -/
def importCmd (db : DB) (records : List (exportEntry × Nat × List Nat)) :
    (Nat × Nat × Nat) × DB :=
  (((importRecords db records).1.count .entity, (importRecords db records).1.count .relation,
    (importRecords db records).1.count .skipped), (importRecords db records).2)

/-- The records with the clock readings of their statements. -/
def stampRecords (records : List exportEntry) (readings : List (Nat × List Nat)) :
    List (exportEntry × Nat × List Nat) :=
  records.enum.map (fun x => (x.2, readings.getD x.1 (0, [])))

/-- What the import of `records` into the store `db` has done when it leaves `db2`, in
terms of rows: the rows of `db` keep their ids and names, an entity record sets the type
and tags of the row of its name and adds its observations to it, a relation record adds
an edge between the rows of its two names. -/
structure Imports (db : DB) (records : List exportEntry) (db2 : DB) : Prop where
  wf : db2.WF
  live : ∀ e ∈ db2.entities, e.deleted_at = none
  stable : ∀ r ∈ db.entities, ∃ r2 ∈ db2.entities, r2.id = r.id ∧ r2.name = r.name
  pres : ∀ r ∈ db.entities, (∀ rec ∈ records, rec.Kind = "entity" → rec.Name ≠ r.name) →
    r ∈ db2.entities
  names : ∀ r2 ∈ db2.entities, (∃ r ∈ db.entities, r.name = r2.name) ∨
    ∃ rec ∈ records, (rec.Kind = "entity" ∧ rec.Name = r2.name) ∨
      (rec.Kind = "relation" ∧ (rec.From = r2.name ∨ rec.To = r2.name))
  has : ∀ rec ∈ records, rec.Kind = "entity" → ∃ row ∈ db2.entities, row.name = rec.Name
  ent : ((records.filter (fun rec => decide (rec.Kind = "entity"))).map
      (fun rec => rec.Name)).Nodup →
    ∀ rec ∈ records, rec.Kind = "entity" → ∃ row ∈ db2.entities, row.name = rec.Name ∧
      row.entity_type = (if rec.EntityType = "" then "concept" else rec.EntityType) ∧
      row.tags = rec.Tags
  obs : ∀ (i : Nat) (c : String),
    (∃ o ∈ db2.observations, o.entity_id = i ∧ o.content = c) ↔
      ((∃ o ∈ db.observations, o.entity_id = i ∧ o.content = c) ∨
        ∃ rec ∈ records, rec.Kind = "entity" ∧ c ∈ rec.Observations ∧
          ∃ row ∈ db2.entities, row.name = rec.Name ∧ row.id = i)
  rel : ∀ (a b : Nat) (l : String),
    (∃ r ∈ db2.relations, r.from_id = a ∧ r.to_id = b ∧ r.relation = l) ↔
      ((∃ r ∈ db.relations, r.from_id = a ∧ r.to_id = b ∧ r.relation = l) ∨
        ∃ rec ∈ records, rec.Kind = "relation" ∧ rec.RelationType = l ∧
          ∃ fe ∈ db2.entities, ∃ te ∈ db2.entities,
            fe.name = rec.From ∧ te.name = rec.To ∧ fe.id = a ∧ te.id = b)
  ends : ∀ rec ∈ records, rec.Kind = "relation" →
    (∃ fe ∈ db2.entities, fe.name = rec.From) ∧ ∃ te ∈ db2.entities, te.name = rec.To

/-- A record the import does not skip and the store does not refuse: an entity record
within the size limits of `UpsertEntity` and `AddObservation`, a relation record with
its three fields, or a record of another type, which the import passes over. -/
def exportEntry.Good (rec : exportEntry) : Prop :=
  (rec.Kind = "entity" → 0 < rec.Name.utf8ByteSize ∧ rec.Name.utf8ByteSize ≤ 1024 ∧
    rec.EntityType.utf8ByteSize ≤ 256 ∧ ∀ c ∈ rec.Observations, c.utf8ByteSize ≤ 10240) ∧
  (rec.Kind = "relation" → rec.From ≠ "" ∧ rec.To ≠ "" ∧ rec.RelationType ≠ "")

/-- The entity entry `exportJSON` writes for a search result scanned from the row `e`. -/
def entityEntry (db : DB) (e : EntityRow) : exportEntry :=
  { Kind := "entity", Name := e.name, EntityType := e.entity_type,
    Observations := ListObservationsByEntityID db e.id, Tags := e.tags, From := "", To := "",
    RelationType := "" }

/-- The relation entry `exportJSON` writes for a listed relation. -/
def relationEntry (x : Relation) : exportEntry :=
  { Kind := "relation", Name := "", EntityType := "", Observations := [], Tags := [],
    From := x.FromName, To := x.ToName, RelationType := x.Relation }

/-- The entries `exportJSON` writes for the search results scanned from `rows`. -/
def exportRows (db : DB) (rows : List EntityRow) : List exportEntry :=
  rows.flatMap (fun e => entityEntry db e ::
    ((ListRelationsByEntity db e.name).filter
      (fun rel => decide (rel.FromName = e.name))).map relationEntry)

/-! ## Batches and `memory_store` as the engine runs them -/

/-- The loop over `inp.Observations` in `StoreEntities`, on a `Store`. -/
def Store.storeObservations (tokens : String → Nat) (s : Store) (id : Nat) :
    List (Nat × String) → Except String Unit × Store
  | [] => (.ok (), s)
  | call :: calls =>
    match s.AddObservation tokens call.1 id call.2 with
    | (.error err, s1) => (.error err, s1)
    | (.ok _, s1) => Store.storeObservations tokens s1 id calls

/-- Source: `StoreEntities` (entity.go), with the refusal of the engine in
`UpsertEntity`. -/
def Store.StoreEntities (tokens : String → Nat) (s : Store) :
    List (EntityInput × Nat × List Nat) → Except String (List Entity) × Store
  | [] => (.ok [], s)
  | call :: calls =>
    match s.UpsertEntity tokens call.2.1 call.1.Name
        (if call.1.EntityType = "" then "concept" else call.1.EntityType) call.1.Tags with
    | (.error err, s1) => (.error ("upsert " ++ goQuote call.1.Name ++ ": " ++ err), s1)
    | (.ok id, s1) =>
      match s1.storeObservations tokens id
          (call.1.Observations.enum.map (fun x => (call.2.2.getD x.1 0, x.2))) with
      | (.error err, s2) =>
        (.error ("add observation to " ++ goQuote call.1.Name ++ ": " ++ err), s2)
      | (.ok _, s2) =>
        match Store.StoreEntities tokens s2 calls with
        | (.error err, s3) => (.error err, s3)
        | (.ok results, s3) =>
          (.ok ((match GetEntityByID s2.db id with
                  | some e => [{ e with Observations := ListObservationsByEntityID s2.db id }]
                  | none => []) ++ results), s3)

/-- Source: `handleMemoryStore` (tools.go), with the refusal of the engine. -/
def Store.handleMemoryStore {κ γ : Type} (tokens : String → Nat) (s : Store) (clock : Clock)
    (args : Arguments) : Except String (ToolOutput κ γ) × Store :=
  match args.store with
  | .error err => (.error ("invalid params: " ++ err), s)
  | .ok p =>
    if p.Journal ≠ "" then
      match s.AppendJournal tokens (clock.ms 0) p.Journal p.Tags with
      | (.error err, s1) => (.error err, s1)
      | (.ok entry, s1) => (.ok (.storedJournal entry.ID), s1)
    else if p.Entities.length = 0 then (.error "entities or journal is required", s)
    else
      match s.StoreEntities tokens (stamp p.Entities clock.batch) with
      | (.error err, s1) => (.error err, s1)
      | (.ok results, s1) => (.ok (.storedEntities results.length results), s1)

/-! # Theorems -/

/-! ## ORDER BY -/

theorem orderBy_perm {α : Type} (le : α → α → Bool) (l : List α) : (orderBy le l).Perm l :=
  List.perm_insertionSort _ l

theorem mem_orderBy {α : Type} {le : α → α → Bool} {l : List α} {a : α} :
    a ∈ orderBy le l ↔ a ∈ l :=
  (orderBy_perm le l).mem_iff

theorem orderBy_sorted {α : Type} (le : α → α → Bool)
    (htot : ∀ a b, le a b = true ∨ le b a = true)
    (htr : ∀ a b c, le a b = true → le b c = true → le a c = true) (l : List α) :
    (orderBy le l).Pairwise (fun a b => le a b = true) := by
  haveI : IsTotal α (fun a b => le a b = true) := ⟨htot⟩
  haveI : IsTrans α (fun a b => le a b = true) := ⟨htr⟩
  exact List.sorted_insertionSort _ l

/-- Inserting below every element puts the new element first. -/
theorem orderedInsert_of_forall_le {α : Type} (le : α → α → Bool) (a : α) (l : List α)
    (h : ∀ b ∈ l, le a b = true) :
    l.orderedInsert (fun a b => le a b = true) a = a :: l := by
  cases l with
  | nil => rfl
  | cons b l => simp [List.orderedInsert, h b (List.mem_cons_self _ _)]

/-- Filtering commutes with insertion into a sorted list. -/
theorem filter_orderedInsert {α : Type} (le : α → α → Bool)
    (htr : ∀ a b c, le a b = true → le b c = true → le a c = true) (p : α → Bool) (a : α)
    (l : List α) (hs : l.Pairwise (fun a b => le a b = true)) :
    (l.orderedInsert (fun a b => le a b = true) a).filter p =
      if p a = true then (l.filter p).orderedInsert (fun a b => le a b = true) a
      else l.filter p := by
  induction l with
  | nil => by_cases hp : p a = true <;> simp [hp]
  | cons b l ih =>
    rw [List.pairwise_cons] at hs
    have ih2 := ih hs.2
    by_cases hab : le a b = true
    · have hall : ∀ c ∈ (b :: l).filter p, le a c = true := by
        intro c hc
        rcases List.mem_cons.1 (List.mem_of_mem_filter hc) with rfl | hcl
        · exact hab
        · exact htr _ _ _ hab (hs.1 c hcl)
      rw [orderedInsert_of_forall_le le a _ hall]
      simp only [List.orderedInsert, hab, if_true, List.filter_cons]
    · by_cases hpb : p b = true <;> by_cases hp : p a = true <;>
        simp [hpb, hp, List.orderedInsert, hab, ih2, List.filter_cons]

/-- ORDER BY commutes with a WHERE filter on the scanned rows. -/
theorem orderBy_filter {α : Type} (le : α → α → Bool)
    (htot : ∀ a b, le a b = true ∨ le b a = true)
    (htr : ∀ a b c, le a b = true → le b c = true → le a c = true) (p : α → Bool)
    (l : List α) : (orderBy le l).filter p = orderBy le (l.filter p) := by
  induction l with
  | nil => rfl
  | cons a l ih =>
    have hs := orderBy_sorted le htot htr l
    unfold orderBy at ih hs ⊢
    rw [List.insertionSort, filter_orderedInsert le htr p a _ hs, ih]
    by_cases hp : p a = true <;> simp [hp, List.filter_cons]

/-- A row that sorts strictly after all others is returned last. -/
theorem orderBy_append_last {α : Type} (le : α → α → Bool) (l : List α) (x : α)
    (h : ∀ y ∈ l, le y x = true ∧ le x y = false) :
    orderBy le (l ++ [x]) = orderBy le l ++ [x] := by
  have key : ∀ (m : List α) (a : α), le a x = true ∧ le x a = false →
      (m ++ [x]).orderedInsert (fun a b => le a b = true) a =
        m.orderedInsert (fun a b => le a b = true) a ++ [x] := by
    intro m a ha
    induction m with
    | nil => simp [List.orderedInsert, ha.1]
    | cons b m ihm =>
      by_cases hab : le a b = true
      · simp [List.orderedInsert, hab]
      · simp [List.orderedInsert, hab, ihm]
  induction l with
  | nil => rfl
  | cons a l ih =>
    have ih2 := ih (fun y hy => h y (List.mem_cons_of_mem _ hy))
    unfold orderBy at ih2 ⊢
    rw [List.cons_append, List.insertionSort, ih2, key _ _ (h a (List.mem_cons_self _ _))]
    rfl

/-! ## Schema constraints as functions -/

theorem DB.WF.entity_eq_of_id {db : DB} (h : db.WF) {a b : EntityRow} (ha : a ∈ db.entities)
    (hb : b ∈ db.entities) (hab : a.id = b.id) : a = b :=
  List.inj_on_of_nodup_map h.entity_ids ha hb hab

theorem DB.WF.entity_eq_of_name {db : DB} (h : db.WF) {a b : EntityRow} (ha : a ∈ db.entities)
    (hb : b ∈ db.entities) (hab : a.name = b.name) : a = b :=
  List.inj_on_of_nodup_map h.entity_names ha hb hab

/-- The lookup `find?` only looks at the test on the rows of the list. -/
theorem find?_congr_mem {α : Type} {p q : α → Bool} {l : List α}
    (h : ∀ x ∈ l, p x = q x) : l.find? p = l.find? q := by
  induction l with
  | nil => rfl
  | cons a l ih =>
    have ha := h a (List.mem_cons_self _ _)
    have ih2 := ih (fun x hx => h x (List.mem_cons_of_mem _ hx))
    simp only [List.find?_cons, ha, ih2]

/-! ## UpsertEntity -/

/-- The rows of `entities` after the upsert statement: the rows of other names are
untouched, and any row of the upserted name carries the new type and tags and is live. -/
theorem mem_upsertEntityRow {db : DB} (hwf : db.WF) (now : Nat) (n t : String)
    (ts : List String) (r : EntityRow)
    (hr : r ∈ (upsertEntityRow db now n t ts).entities) :
    (r ∈ db.entities ∧ r.name ≠ n) ∨
      (r.name = n ∧ r.entity_type = t ∧ r.tags = ts ∧ r.deleted_at = none ∧
        r.updated_at = now) := by
  unfold upsertEntityRow at hr
  split at hr
  · next hnone =>
    rw [List.find?_eq_none] at hnone
    simp only [List.mem_append, List.mem_singleton] at hr
    rcases hr with hr | rfl
    · left
      exact ⟨hr, by simpa using hnone r hr⟩
    · right; simp
  · next old hsome =>
    have hold := List.mem_of_find?_eq_some hsome
    have hname : old.name = n := by simpa using List.find?_some hsome
    simp only [List.mem_map] at hr
    obtain ⟨e, he, rfl⟩ := hr
    by_cases hid : e.id = old.id
    · right; simp [hid, hname]
    · left
      simp only [hid, if_false]
      refine ⟨he, fun hen => hid ?_⟩
      rw [hwf.entity_eq_of_name he hold (hen.trans hname.symm)]

/-- After the upsert statement the lookup by name finds a live row of the upserted
name with the new type and tags; it has the id of the row of that name, if there was
one. -/
theorem find?_upsertEntityRow {db : DB} (hwf : db.WF) (now : Nat) (n t : String)
    (ts : List String) :
    ∃ e, (upsertEntityRow db now n t ts).entities.find? (fun e => decide (e.name = n)) = some e ∧
      e.name = n ∧ e.entity_type = t ∧ e.tags = ts ∧ e.deleted_at = none ∧
      e.updated_at = now ∧
      ∀ old ∈ db.entities, old.name = n →
        e = { old with entity_type := t, tags := ts, updated_at := now, deleted_at := none } := by
  unfold upsertEntityRow
  split
  · next hnone =>
    refine ⟨EntityRow.mk (db.seq_entities + 1) n t ts now now none 0 none,
      ?_, rfl, rfl, rfl, rfl, rfl, ?_⟩
    · simp only [List.find?_append, hnone, Option.none_or]
      simp
    · intro old hold hn
      rw [List.find?_eq_none] at hnone
      exact absurd hn (by simpa using hnone old hold)
  · next old hsome =>
    have hold := List.mem_of_find?_eq_some hsome
    have hname : old.name = n := by simpa using List.find?_some hsome
    refine ⟨{ old with entity_type := t, tags := ts, updated_at := now, deleted_at := none },
      ?_, hname, rfl, rfl, rfl, rfl, ?_⟩
    · simp only [List.find?_map]
      rw [find?_congr_mem (q := fun e => decide (e.name = n)), hsome]
      · simp
      · intro e he
        by_cases hid : e.id = old.id
        · simp [hid, hname, hwf.entity_eq_of_id he hold hid]
        · simp [hid]
    · intro o ho hon
      rw [hwf.entity_eq_of_name ho hold (hon.trans hname.symm)]

/-! ## The operations keep the schema constraints -/

theorem nodup_map_append_singleton {α β : Type} (f : α → β) (l : List α) (x : α)
    (h : (l.map f).Nodup) (hx : ∀ a ∈ l, f a ≠ f x) : ((l ++ [x]).map f).Nodup := by
  rw [List.map_append, List.nodup_append]
  refine ⟨h, by simp, ?_⟩
  intro b hb hb2
  simp only [List.map_cons, List.map_nil, List.mem_singleton] at hb2
  obtain ⟨a, ha, rfl⟩ := List.mem_map.1 hb
  exact hx a ha hb2

theorem nodup_map_filter {α β : Type} (f : α → β) (p : α → Bool) (l : List α)
    (h : (l.map f).Nodup) : ((l.filter p).map f).Nodup :=
  h.sublist ((List.filter_sublist l).map f)

theorem DB.empty_WF : DB.empty.WF := by decide

/-- An UPDATE of entity rows that keeps `id` and `name`. -/
theorem DB.WF.map_entities {db : DB} (hwf : db.WF) (g : EntityRow → EntityRow)
    (hid : ∀ e ∈ db.entities, (g e).id = e.id) (hname : ∀ e ∈ db.entities, (g e).name = e.name)
    (fts : List EntityDoc) (k : Nat) :
    DB.WF { db with entities := db.entities.map g, entities_fts := fts,
                    seq_entities := db.seq_entities + k } := by
  have h1 : (db.entities.map g).map (fun e => e.id) = db.entities.map (fun e => e.id) := by
    rw [List.map_map]; exact List.map_congr_left hid
  have h2 : (db.entities.map g).map (fun e => e.name) = db.entities.map (fun e => e.name) := by
    rw [List.map_map]; exact List.map_congr_left hname
  have hex : ∀ i, (∃ e ∈ db.entities, e.id = i) → ∃ e ∈ db.entities.map g, e.id = i := by
    rintro i ⟨e, he, rfl⟩
    exact ⟨g e, List.mem_map_of_mem g he, hid e he⟩
  refine ⟨?_, ?_, ?_, hwf.observation_ids, hwf.observation_keys, hwf.observation_seq, ?_,
    hwf.relation_ids, hwf.relation_keys, hwf.relation_seq, ?_, hwf.journal_ids,
    hwf.journal_seq⟩
  · show ((db.entities.map g).map (fun e => e.id)).Nodup
    rw [h1]; exact hwf.entity_ids
  · show ((db.entities.map g).map (fun e => e.name)).Nodup
    rw [h2]; exact hwf.entity_names
  · intro e he
    obtain ⟨e0, he0, rfl⟩ := List.mem_map.1 he
    have := hwf.entity_seq e0 he0
    show (g e0).id ≤ db.seq_entities + k
    rw [hid e0 he0]; omega
  · intro o ho
    exact hex _ (hwf.observation_fk o ho)
  · intro r hr
    exact ⟨hex _ (hwf.relation_fk r hr).1, hex _ (hwf.relation_fk r hr).2⟩

/-- An INSERT of an entity row with the next rowid and a new name. -/
theorem DB.WF.insert_entity {db : DB} (hwf : db.WF) (row : EntityRow)
    (hid : row.id = db.seq_entities + 1) (hname : ∀ e ∈ db.entities, e.name ≠ row.name)
    (fts : List EntityDoc) :
    DB.WF { db with entities := db.entities ++ [row], entities_fts := fts,
                    seq_entities := db.seq_entities + 1 } := by
  have hex : ∀ i, (∃ e ∈ db.entities, e.id = i) → ∃ e ∈ db.entities ++ [row], e.id = i := by
    rintro i ⟨e, he, rfl⟩
    exact ⟨e, List.mem_append_left _ he, rfl⟩
  refine ⟨?_, ?_, ?_, hwf.observation_ids, hwf.observation_keys, hwf.observation_seq, ?_,
    hwf.relation_ids, hwf.relation_keys, hwf.relation_seq, ?_, hwf.journal_ids,
    hwf.journal_seq⟩
  · refine nodup_map_append_singleton _ _ _ hwf.entity_ids (fun a ha => ?_)
    have := hwf.entity_seq a ha
    omega
  · exact nodup_map_append_singleton _ _ _ hwf.entity_names hname
  · intro e he
    rcases List.mem_append.1 he with he | he
    · have := hwf.entity_seq e he
      show e.id ≤ db.seq_entities + 1
      omega
    · rw [List.mem_singleton.1 he, hid]
  · intro o ho
    exact hex _ (hwf.observation_fk o ho)
  · intro r hr
    exact ⟨hex _ (hwf.relation_fk r hr).1, hex _ (hwf.relation_fk r hr).2⟩

/-- A statement that only draws a rowid from the entity counter. -/
theorem DB.WF.bump_entities {db : DB} (hwf : db.WF) :
    DB.WF { db with seq_entities := db.seq_entities + 1 } := by
  refine ⟨hwf.entity_ids, hwf.entity_names, ?_, hwf.observation_ids, hwf.observation_keys,
    hwf.observation_seq, hwf.observation_fk, hwf.relation_ids, hwf.relation_keys,
    hwf.relation_seq, hwf.relation_fk, hwf.journal_ids, hwf.journal_seq⟩
  intro e he
  have := hwf.entity_seq e he
  show e.id ≤ db.seq_entities + 1
  omega

theorem upsertEntityRow_WF {db : DB} (hwf : db.WF) (now : Nat) (n t : String)
    (ts : List String) : (upsertEntityRow db now n t ts).WF := by
  unfold upsertEntityRow
  split
  · next hnone =>
    rw [List.find?_eq_none] at hnone
    exact hwf.insert_entity _ rfl (fun e he => by simpa using hnone e he) _
  · next old hsome =>
    have hold := List.mem_of_find?_eq_some hsome
    refine hwf.map_entities _ (fun e _ => ?_) (fun e he => ?_) _ 1
    · by_cases hid : e.id = old.id <;> simp [hid]
    · by_cases hid : e.id = old.id
      · simp [hid, hwf.entity_eq_of_id he hold hid]
      · simp [hid]

theorem UpsertEntity_WF {db : DB} (hwf : db.WF) (now : Nat) (n t : String)
    (ts : List String) : (UpsertEntity db now n t ts).2.WF := by
  unfold UpsertEntity
  split
  · exact hwf
  · split
    · exact hwf
    · split
      · exact hwf
      · simp only
        split <;> exact upsertEntityRow_WF hwf now n t ts

theorem GetEntity_WF {db : DB} (hwf : db.WF) (now : Nat) (n : String) :
    (GetEntity db now n).2.WF := by
  unfold GetEntity
  split
  · exact hwf
  · next r _ =>
    have := hwf.map_entities (fun e =>
        if e.id = r.id then
          { e with access_count := e.access_count + 1, last_accessed := some now }
        else e)
      (fun e _ => by by_cases hid : e.id = r.id <;> simp [hid])
      (fun e _ => by by_cases hid : e.id = r.id <;> simp [hid]) db.entities_fts 0
    exact this

theorem SoftDeleteEntity_WF {db : DB} (hwf : db.WF) (now : Nat) (n : String) :
    (SoftDeleteEntity db now n).2.WF := by
  unfold SoftDeleteEntity
  simp only
  have := hwf.map_entities (fun e =>
      if e.nameMatches n && e.live then { e with deleted_at := some now } else e)
    (fun e _ => by simp only; split <;> rfl) (fun e _ => by simp only; split <;> rfl)
    ((db.entities.filter (fun e => e.nameMatches n && e.live)).foldl (fun i old =>
      entities_fts_soft_restore old { old with deleted_at := some now }
        (entities_fts_soft_delete old { old with deleted_at := some now } i)) db.entities_fts) 0
  split <;> exact this

theorem HardDeleteEntity_WF {db : DB} (hwf : db.WF) (n : String) :
    (HardDeleteEntity db n).2.WF := by
  have key : DB.WF
      { db with entities := db.entities.filter (fun e => !e.nameMatches n),
                observations := db.observations.filter (fun o =>
                  !(db.entities.filter (fun e => e.nameMatches n)).any
                    (fun e => decide (e.id = o.entity_id))),
                relations := db.relations.filter (fun r =>
                  !(db.entities.filter (fun e => e.nameMatches n)).any
                      (fun e => decide (e.id = r.from_id)) &&
                    !(db.entities.filter (fun e => e.nameMatches n)).any
                      (fun e => decide (e.id = r.to_id))),
                entities_fts := entities_fts_delete
                  (db.entities.filter (fun e => e.nameMatches n)) db.entities_fts,
                observations_fts := observations_fts_delete
                  (db.observations.filter (fun o =>
                    (db.entities.filter (fun e => e.nameMatches n)).any
                      (fun e => decide (e.id = o.entity_id)))) db.observations_fts } := by
    have hkeep : ∀ i, (∃ e ∈ db.entities, e.id = i) →
        (db.entities.filter (fun e => e.nameMatches n)).any (fun e => decide (e.id = i)) = false →
        ∃ e ∈ db.entities.filter (fun e => !e.nameMatches n), e.id = i := by
      rintro i ⟨e, he, rfl⟩ hgone
      refine ⟨e, List.mem_filter.2 ⟨he, ?_⟩, rfl⟩
      cases hm : e.nameMatches n with
      | false => rfl
      | true =>
        have : (db.entities.filter (fun e => e.nameMatches n)).any
            (fun e2 => decide (e2.id = e.id)) = true :=
          List.any_eq_true.2 ⟨e, List.mem_filter.2 ⟨he, hm⟩, by simp⟩
        rw [this] at hgone
        exact absurd hgone (by simp)
    refine ⟨nodup_map_filter _ _ _ hwf.entity_ids, nodup_map_filter _ _ _ hwf.entity_names,
      fun e he => hwf.entity_seq e (List.mem_of_mem_filter he),
      nodup_map_filter _ _ _ hwf.observation_ids, nodup_map_filter _ _ _ hwf.observation_keys,
      fun o ho => hwf.observation_seq o (List.mem_of_mem_filter ho), ?_,
      nodup_map_filter _ _ _ hwf.relation_ids, nodup_map_filter _ _ _ hwf.relation_keys,
      fun r hr => hwf.relation_seq r (List.mem_of_mem_filter hr), ?_, hwf.journal_ids,
      hwf.journal_seq⟩
    · intro o ho
      have ho2 := List.mem_filter.1 ho
      exact hkeep _ (hwf.observation_fk o ho2.1) (by simpa using ho2.2)
    · intro r hr
      have hr2 := List.mem_filter.1 hr
      have hb : (db.entities.filter (fun e => e.nameMatches n)).any
            (fun e => decide (e.id = r.from_id)) = false ∧
          (db.entities.filter (fun e => e.nameMatches n)).any
            (fun e => decide (e.id = r.to_id)) = false := by
        have := hr2.2
        simp only [Bool.and_eq_true, Bool.not_eq_true'] at this
        exact this
      exact ⟨hkeep _ (hwf.relation_fk r hr2.1).1 hb.1, hkeep _ (hwf.relation_fk r hr2.1).2 hb.2⟩
  unfold HardDeleteEntity
  simp only
  split <;> exact key

theorem AddObservation_WF {db : DB} (hwf : db.WF) (now e : Nat) (c : String) :
    (AddObservation db now e c).2.WF := by
  unfold AddObservation
  split
  · exact hwf
  · split
    · refine ⟨hwf.entity_ids, hwf.entity_names, hwf.entity_seq, hwf.observation_ids,
        hwf.observation_keys, ?_, hwf.observation_fk, hwf.relation_ids, hwf.relation_keys,
        hwf.relation_seq, hwf.relation_fk, hwf.journal_ids, hwf.journal_seq⟩
      intro o ho
      have := hwf.observation_seq o ho
      show o.id ≤ db.seq_observations + 1
      omega
    · next hnew =>
      split
      · next hfk =>
        refine ⟨hwf.entity_ids, hwf.entity_names, hwf.entity_seq, ?_, ?_, ?_, ?_,
          hwf.relation_ids, hwf.relation_keys, hwf.relation_seq, hwf.relation_fk,
          hwf.journal_ids, hwf.journal_seq⟩
        · refine nodup_map_append_singleton _ _ _ hwf.observation_ids (fun a ha => ?_)
          have := hwf.observation_seq a ha
          show a.id ≠ db.seq_observations + 1
          omega
        · refine nodup_map_append_singleton _ _ _ hwf.observation_keys (fun a ha hk => ?_)
          apply hnew
          rw [List.any_eq_true]
          simp only [Prod.mk.injEq] at hk
          exact ⟨a, ha, by simpa using hk⟩
        · intro o ho
          rcases List.mem_append.1 ho with ho | ho
          · have := hwf.observation_seq o ho
            show o.id ≤ db.seq_observations + 1
            omega
          · rw [List.mem_singleton.1 ho]
        · intro o ho
          rcases List.mem_append.1 ho with ho | ho
          · exact hwf.observation_fk o ho
          · rw [List.mem_singleton.1 ho]
            obtain ⟨x, hx, hxe⟩ := List.any_eq_true.1 hfk
            exact ⟨x, hx, by simpa using hxe⟩
      · exact hwf

theorem RetractObservation_WF {db : DB} (hwf : db.WF) (n c : String) :
    (RetractObservation db n c).2.WF := by
  unfold RetractObservation
  split
  · exact hwf
  · next e _ =>
    have key : DB.WF
        { db with observations := db.observations.filter
                    (fun o => !decide (o.entity_id = e.id ∧ o.content = c)),
                  observations_fts := observations_fts_delete
                    (db.observations.filter
                      (fun o => decide (o.entity_id = e.id ∧ o.content = c)))
                    db.observations_fts } :=
      ⟨hwf.entity_ids, hwf.entity_names, hwf.entity_seq,
        nodup_map_filter _ _ _ hwf.observation_ids, nodup_map_filter _ _ _ hwf.observation_keys,
        fun o ho => hwf.observation_seq o (List.mem_of_mem_filter ho),
        fun o ho => hwf.observation_fk o (List.mem_of_mem_filter ho),
        hwf.relation_ids, hwf.relation_keys, hwf.relation_seq, hwf.relation_fk,
        hwf.journal_ids, hwf.journal_seq⟩
    simp only
    split <;> exact key

theorem UpsertRelation_WF {db : DB} (hwf : db.WF) (now f t : Nat) (rel : String) :
    (UpsertRelation db now f t rel).2.WF := by
  unfold UpsertRelation
  split
  · refine ⟨hwf.entity_ids, hwf.entity_names, hwf.entity_seq, hwf.observation_ids,
      hwf.observation_keys, hwf.observation_seq, hwf.observation_fk, hwf.relation_ids,
      hwf.relation_keys, ?_, hwf.relation_fk, hwf.journal_ids, hwf.journal_seq⟩
    intro r hr
    have := hwf.relation_seq r hr
    show r.id ≤ db.seq_relations + 1
    omega
  · next hnew =>
    split
    · next hfk =>
      rw [Bool.and_eq_true, List.any_eq_true, List.any_eq_true] at hfk
      refine ⟨hwf.entity_ids, hwf.entity_names, hwf.entity_seq, hwf.observation_ids,
        hwf.observation_keys, hwf.observation_seq, hwf.observation_fk, ?_, ?_, ?_, ?_,
        hwf.journal_ids, hwf.journal_seq⟩
      · refine nodup_map_append_singleton _ _ _ hwf.relation_ids (fun a ha => ?_)
        have := hwf.relation_seq a ha
        show a.id ≠ db.seq_relations + 1
        omega
      · refine nodup_map_append_singleton _ _ _ hwf.relation_keys (fun a ha hk => ?_)
        apply hnew
        rw [List.any_eq_true]
        simp only [Prod.mk.injEq] at hk
        exact ⟨a, ha, by simpa using hk⟩
      · intro r hr
        rcases List.mem_append.1 hr with hr | hr
        · have := hwf.relation_seq r hr
          show r.id ≤ db.seq_relations + 1
          omega
        · rw [List.mem_singleton.1 hr]
      · intro r hr
        rcases List.mem_append.1 hr with hr | hr
        · exact hwf.relation_fk r hr
        · rw [List.mem_singleton.1 hr]
          obtain ⟨⟨x, hx, hxe⟩, ⟨y, hy, hye⟩⟩ := hfk
          exact ⟨⟨x, hx, by simpa using hxe⟩, ⟨y, hy, by simpa using hye⟩⟩
    · exact hwf

theorem ensureEntity_WF {db : DB} (hwf : db.WF) (now : Nat) (n : String) :
    (ensureEntity db now n).2.WF := by
  have key : DB.WF (match db.entities.find? (fun e => decide (e.name = n)) with
      | some _ => { db with seq_entities := db.seq_entities + 1 }
      | none =>
        { db with entities := db.entities ++
                    [EntityRow.mk (db.seq_entities + 1) n "concept" [] now now none 0 none],
                  entities_fts := db.entities_fts ++
                    [(EntityRow.mk (db.seq_entities + 1) n "concept" [] now now none 0 none).doc],
                  seq_entities := db.seq_entities + 1 }) := by
    split
    · exact hwf.bump_entities
    · next hnone =>
      rw [List.find?_eq_none] at hnone
      exact hwf.insert_entity _ rfl (fun e he => by simpa using hnone e he) _
  unfold ensureEntity
  simp only
  split <;> exact key

theorem UpsertRelationByName_WF {db : DB} (hwf : db.WF) (t1 t2 t3 : Nat) (f t rel : String) :
    (UpsertRelationByName db t1 t2 t3 f t rel).2.WF := by
  unfold UpsertRelationByName
  have h1 := ensureEntity_WF hwf t1 f
  split
  · next err db1 heq => rw [heq] at h1; exact h1
  · next fromID db1 heq =>
    rw [heq] at h1
    have h2 := ensureEntity_WF h1 t2 t
    split
    · next err db2 heq2 => rw [heq2] at h2; exact h2
    · next toID db2 heq2 =>
      rw [heq2] at h2
      exact UpsertRelation_WF h2 t3 fromID toID rel

theorem AppendJournal_WF {db : DB} (hwf : db.WF) (now : Nat) (c : String) (tags : List String) :
    (AppendJournal db now c tags).2.WF := by
  unfold AppendJournal
  split
  · exact hwf
  · have key : DB.WF
        { db with journal := db.journal ++ [JournalRow.mk (db.seq_journal + 1) c tags now],
                  journal_fts := db.journal_fts ++
                    [(JournalRow.mk (db.seq_journal + 1) c tags now).doc],
                  seq_journal := db.seq_journal + 1 } := by
      refine ⟨hwf.entity_ids, hwf.entity_names, hwf.entity_seq, hwf.observation_ids,
        hwf.observation_keys, hwf.observation_seq, hwf.observation_fk, hwf.relation_ids,
        hwf.relation_keys, hwf.relation_seq, hwf.relation_fk, ?_, ?_⟩
      · refine nodup_map_append_singleton _ _ _ hwf.journal_ids (fun a ha => ?_)
        have := hwf.journal_seq a ha
        show a.id ≠ db.seq_journal + 1
        omega
      · intro j hj
        rcases List.mem_append.1 hj with hj | hj
        · have := hwf.journal_seq j hj
          show j.id ≤ db.seq_journal + 1
          omega
        · rw [List.mem_singleton.1 hj]
    simp only
    split <;> exact key

/-- Every call keeps the schema constraints. -/
theorem Op.apply_WF {db : DB} (hwf : db.WF) (op : Op) : (op.apply db).WF := by
  cases op with
  | upsertEntity now name entityType tags => exact UpsertEntity_WF hwf now name entityType tags
  | getEntity now name => exact GetEntity_WF hwf now name
  | softDeleteEntity now name => exact SoftDeleteEntity_WF hwf now name
  | hardDeleteEntity name => exact HardDeleteEntity_WF hwf name
  | addObservation now entityID content => exact AddObservation_WF hwf now entityID content
  | retractObservation entityName content => exact RetractObservation_WF hwf entityName content
  | upsertRelation now fromID toID relation =>
    exact UpsertRelation_WF hwf now fromID toID relation
  | upsertRelationByName t1 t2 t3 fromName toName relation =>
    exact UpsertRelationByName_WF hwf t1 t2 t3 fromName toName relation
  | appendJournal now content tags => exact AppendJournal_WF hwf now content tags

theorem run_WF {db : DB} (hwf : db.WF) (ops : List Op) : (run db ops).WF := by
  induction ops generalizing db with
  | nil => exact hwf
  | cons op ops ih => exact ih (Op.apply_WF hwf op)

/-- Every store reached from the empty store satisfies the schema constraints. -/
theorem Reachable.WF {db : DB} (h : Reachable db) : db.WF := by
  obtain ⟨ops, rfl⟩ := h
  exact run_WF DB.empty_WF ops

/-- The result of `UpsertEntity` on valid arguments: the id found by name after the
upsert statement. -/
theorem UpsertEntity_valid (db : DB) (now : Nat) (n t : String) (ts : List String)
    (hn0 : 0 < n.utf8ByteSize) (hn1 : n.utf8ByteSize ≤ 1024) (ht : t.utf8ByteSize ≤ 256) :
    UpsertEntity db now n t ts =
      (match (upsertEntityRow db now n t ts).entities.find? (fun e => decide (e.name = n)) with
        | some e => .ok e.id
        | none => .error "get entity id: sql: no rows in result set",
       upsertEntityRow db now n t ts) := by
  unfold UpsertEntity
  rw [if_neg (by omega), if_neg (by omega), if_neg (by omega)]
  cases h : (upsertEntityRow db now n t ts).entities.find? (fun e => decide (e.name = n)) <;>
    simp [h]

/-- A lookup after an upsert whose statement the engine accepts: after `UpsertEntity(n, t,
ts)` on valid arguments, `GetEntity(n2)` for every `n2` equal to `n` up to ASCII letter
case returns a present entity whose name equals `n` up to ASCII letter case; when no live
row of the store had a name that equals `n` up to case without being `n`, its Name is
exactly `n`, its EntityType is `t`, its Tags are `ts`, and its ID is the id the upsert
returned. -/
theorem GetEntity_after_UpsertEntity_accepted (db : DB) (hwf : db.WF) (now now2 : Nat) (n t : String)
    (ts : List String) (n2 : String)
    (hn0 : 0 < n.utf8ByteSize) (hn1 : n.utf8ByteSize ≤ 1024) (ht : t.utf8ByteSize ≤ 256)
    (hcase : sqlLower n2 = sqlLower n) :
    ∃ id, (UpsertEntity db now n t ts).1 = .ok id ∧
      ∃ e, (GetEntity (UpsertEntity db now n t ts).2 now2 n2).1 = .ok (some e) ∧
        sqlLower e.Name = sqlLower n ∧
        ((∀ r ∈ db.entities, r.live = true → sqlLower r.name = sqlLower n → r.name = n) →
          e.Name = n ∧ e.EntityType = t ∧ e.Tags = ts ∧ e.ID = id) := by
  obtain ⟨e0, hfind, he0n, he0t, he0ts, he0d, -, -⟩ := find?_upsertEntityRow hwf now n t ts
  rw [UpsertEntity_valid db now n t ts hn0 hn1 ht, hfind]
  refine ⟨e0.id, rfl, ?_⟩
  have he0mem := List.mem_of_find?_eq_some hfind
  simp only
  cases hget : (upsertEntityRow db now n t ts).entities.find?
      (fun e => e.nameMatches n2 && e.live) with
  | none =>
    rw [List.find?_eq_none] at hget
    have := hget e0 he0mem
    simp [EntityRow.nameMatches, EntityRow.live, he0n, he0d, hcase] at this
  | some r =>
    have hrmem := List.mem_of_find?_eq_some hget
    have hrp := List.find?_some hget
    simp only [EntityRow.nameMatches, EntityRow.live, Bool.and_eq_true,
      decide_eq_true_eq, Option.isNone_iff_eq_none] at hrp
    unfold GetEntity
    simp only [hget]
    refine ⟨_, rfl, ?_, ?_⟩
    · simpa [scanEntity, hcase] using hrp.1
    · intro huniq
      rcases mem_upsertEntityRow hwf now n t ts r hrmem with ⟨hrdb, hrn⟩ | ⟨h1, h2, h3, -, -⟩
      · exact absurd (huniq r hrdb (by simp [EntityRow.live, hrp.2])
          (hrp.1.trans hcase)) hrn
      · have hre : r = e0 :=
          (upsertEntityRow_WF hwf now n t ts).entity_eq_of_name hrmem he0mem
            (h1.trans he0n.symm)
        subst hre
        exact ⟨h1, h2, h3, rfl⟩

/-- C1, counterexample: with a live entity `Redis` in the store, `UpsertEntity("redis",
"cache", ["x"])` succeeds, and `GetEntity("redis")` then returns the entity named
`Redis`, of type `system`, without tags. -/
theorem GetEntity_after_UpsertEntity_case_variant :
    Store.UpsertEntity asciiTokens
        (Store.run asciiTokens Store.empty [Op.upsertEntity 1 "Redis" "system" []])
        2 "redis" "cache" ["x"] =
      (.ok 2, Store.run asciiTokens Store.empty
        [Op.upsertEntity 1 "Redis" "system" [], Op.upsertEntity 2 "redis" "cache" ["x"]]) ∧
      (GetEntity (Store.run asciiTokens Store.empty
          [Op.upsertEntity 1 "Redis" "system" [], Op.upsertEntity 2 "redis" "cache" ["x"]]).db
          3 "redis").1 =
        .ok (some { ID := 1, Name := "Redis", EntityType := "system", Tags := [],
                    CreatedAt := 1, UpdatedAt := 1, DeletedAt := none, AccessCount := 1,
                    LastAccessed := some 3, Observations := [] }) ∧
      "Redis" ≠ "redis" ∧ "system" ≠ "cache" ∧ ([] : List String) ≠ ["x"] := by
  refine ⟨rfl, rfl, by decide, by decide, by decide⟩

/-- The upsert statement writes to `entities` and its index only. -/
theorem upsertEntityRow_observations (db : DB) (now : Nat) (n t : String) (ts : List String) :
    (upsertEntityRow db now n t ts).observations = db.observations ∧
      (upsertEntityRow db now n t ts).relations = db.relations ∧
      (upsertEntityRow db now n t ts).journal = db.journal ∧
      (upsertEntityRow db now n t ts).observations_fts = db.observations_fts := by
  unfold upsertEntityRow
  split <;> exact ⟨rfl, rfl, rfl, rfl⟩

/-- `UpsertEntity` on the name of an existing row: it returns the id of that row and
leaves the row with the new type, tags and update time, undeleted. -/
theorem UpsertEntity_of_mem {db : DB} (hwf : db.WF) (now : Nat) {r : EntityRow}
    (hr : r ∈ db.entities) (t : String) (ts : List String)
    (hn0 : 0 < r.name.utf8ByteSize) (hn1 : r.name.utf8ByteSize ≤ 1024)
    (ht : t.utf8ByteSize ≤ 256) :
    (UpsertEntity db now r.name t ts).1 = .ok r.id ∧
      (UpsertEntity db now r.name t ts).2 = upsertEntityRow db now r.name t ts ∧
      ({ r with entity_type := t, tags := ts, updated_at := now, deleted_at := none } : EntityRow) ∈
        (upsertEntityRow db now r.name t ts).entities := by
  obtain ⟨e0, hfind, -, -, -, -, -, hold⟩ := find?_upsertEntityRow hwf now r.name t ts
  rw [UpsertEntity_valid db now r.name t ts hn0 hn1 ht, hfind]
  have he0 := hold r hr rfl
  refine ⟨by rw [he0], rfl, ?_⟩
  rw [← he0]
  exact List.mem_of_find?_eq_some hfind

/-- An upsert of an existing name whose statement the engine accepts: for every store in
which an entity row `r` exists, live or soft-deleted, whose name is valid (non-empty, at
most 1024 bytes), and every valid type `t` and tags `ts`, the effect of
`UpsertEntity(r.name, t, ts)` is to return the id of `r`; afterwards the
row of that id is `r` with type `t`, tags `ts`, the new update time and no deletion
timestamp; the observations table and the observation list of the entity are unchanged;
and a further upsert of the same name returns the same id again. -/
theorem UpsertEntity_existing_row_accepted (db : DB) (hwf : db.WF) (now : Nat) (r : EntityRow)
    (hr : r ∈ db.entities) (t : String) (ts : List String)
    (hn0 : 0 < r.name.utf8ByteSize) (hn1 : r.name.utf8ByteSize ≤ 1024)
    (ht : t.utf8ByteSize ≤ 256) :
    (UpsertEntity db now r.name t ts).1 = .ok r.id ∧
      (∀ e ∈ (UpsertEntity db now r.name t ts).2.entities, e.id = r.id →
        e = { r with entity_type := t, tags := ts, updated_at := now, deleted_at := none }) ∧
      (∃ e ∈ (UpsertEntity db now r.name t ts).2.entities, e.id = r.id) ∧
      (UpsertEntity db now r.name t ts).2.observations = db.observations ∧
      ListObservationsByEntityID (UpsertEntity db now r.name t ts).2 r.id =
        ListObservationsByEntityID db r.id ∧
      ∀ (now2 : Nat) (t2 : String) (ts2 : List String), t2.utf8ByteSize ≤ 256 →
        (UpsertEntity (UpsertEntity db now r.name t ts).2 now2 r.name t2 ts2).1 = .ok r.id := by
  obtain ⟨h1, h2, h3⟩ := UpsertEntity_of_mem hwf now hr t ts hn0 hn1 ht
  have hwf1 := upsertEntityRow_WF hwf now r.name t ts
  have hobs := (upsertEntityRow_observations db now r.name t ts).1
  rw [h2]
  refine ⟨h1, ?_, ⟨_, h3, rfl⟩, hobs, ?_, ?_⟩
  · intro e he hid
    exact hwf1.entity_eq_of_id he h3 hid
  · unfold ListObservationsByEntityID
    rw [hobs]
  · intro now2 t2 ts2 ht2
    exact (UpsertEntity_of_mem hwf1 now2 h3 t2 ts2 hn0 hn1 ht2).1

/-- C2, counterexample: `UpsertRelationByName("", "x", "r")` on the empty store creates
an entity row with the empty name (id 1); on that store `UpsertEntity("", "concept", [])`
returns an error instead of the id of the row.  And on the store reached by upserting
`Redis` and `Kafka`, soft-deleting `Redis` and hard-deleting it, where the totals of the
entity index are one document short, `UpsertEntity("Kafka", "system", [])` returns the
error of the engine instead of the id of the live row `Kafka`. -/
theorem UpsertEntity_existing_row_invalid_name :
    (EntityRow.mk 1 "" "concept" [] 1 1 none 0 none) ∈
        (Store.run asciiTokens Store.empty
          [Op.upsertRelationByName 1 1 1 "" "x" "r"]).db.entities ∧
      "concept".utf8ByteSize ≤ 256 ∧
      Store.UpsertEntity asciiTokens (Store.run asciiTokens Store.empty
          [Op.upsertRelationByName 1 1 1 "" "x" "r"]) 2 "" "concept" [] =
        (.error "entity name cannot be empty", Store.run asciiTokens Store.empty
          [Op.upsertRelationByName 1 1 1 "" "x" "r"]) ∧
      (EntityRow.mk 2 "Kafka" "system" [] 2 2 none 0 none) ∈
        (Store.run asciiTokens Store.empty
          [Op.upsertEntity 1 "Redis" "system" [], Op.upsertEntity 2 "Kafka" "system" [],
            Op.softDeleteEntity 3 "Redis", Op.hardDeleteEntity "Redis"]).db.entities ∧
      Store.UpsertEntity asciiTokens (Store.run asciiTokens Store.empty
          [Op.upsertEntity 1 "Redis" "system" [], Op.upsertEntity 2 "Kafka" "system" [],
            Op.softDeleteEntity 3 "Redis", Op.hardDeleteEntity "Redis"])
          5 "Kafka" "system" [] =
        (.error "upsert entity: database disk image is malformed (267)",
          (Store.run asciiTokens Store.empty
            [Op.upsertEntity 1 "Redis" "system" [], Op.upsertEntity 2 "Kafka" "system" [],
              Op.softDeleteEntity 3 "Redis", Op.hardDeleteEntity "Redis"])) := by
  refine ⟨by decide, by decide, rfl, by decide, rfl⟩

/-! ## The order of observation rows -/

theorem codesLe_total : ∀ a b : List Nat, codesLe a b = true ∨ codesLe b a = true
  | [], _ => Or.inl rfl
  | _ :: _, [] => Or.inr rfl
  | a :: as, b :: bs => by
    rcases codesLe_total as bs with h | h <;>
      rcases Nat.lt_trichotomy a b with hab | hab | hab <;>
      simp [codesLe, h, hab, Nat.lt_asymm, Nat.ne_of_gt, Nat.ne_of_lt]

theorem codesLe_trans : ∀ a b c : List Nat,
    codesLe a b = true → codesLe b c = true → codesLe a c = true
  | [], _, _, _, _ => by simp [codesLe]
  | _ :: _, [], _, h, _ => by simp [codesLe] at h
  | _ :: _, _ :: _, [], _, h => by simp [codesLe] at h
  | a :: as, b :: bs, c :: cs, h1, h2 => by
    simp only [codesLe, Bool.or_eq_true, Bool.and_eq_true, decide_eq_true_eq] at h1 h2 ⊢
    rcases h1 with h1 | ⟨rfl, h1⟩
    · rcases h2 with h2 | ⟨rfl, _⟩
      · left; omega
      · left; exact h1
    · rcases h2 with h2 | ⟨rfl, h2⟩
      · left; exact h2
      · right; exact ⟨rfl, codesLe_trans as bs cs h1 h2⟩

theorem obsOrder_total (a b : ObservationRow) : obsOrder a b = true ∨ obsOrder b a = true := by
  unfold obsOrder textLe
  rcases Nat.lt_trichotomy a.created_at b.created_at with h | h | h
  · left; simp [h]
  · rcases codesLe_total (a.content.data.map Char.toNat) (b.content.data.map Char.toNat)
      with h2 | h2
    · left; simp [h, h2]
    · right; simp [h, h2]
  · right; simp [h]

theorem obsOrder_trans (a b c : ObservationRow) (h1 : obsOrder a b = true)
    (h2 : obsOrder b c = true) : obsOrder a c = true := by
  unfold obsOrder textLe at *
  simp only [Bool.or_eq_true, Bool.and_eq_true, decide_eq_true_eq] at h1 h2 ⊢
  rcases h1 with h1 | ⟨h1, h1c⟩
  · rcases h2 with h2 | ⟨h2, _⟩
    · left; omega
    · left; omega
  · rcases h2 with h2 | ⟨h2, h2c⟩
    · left; omega
    · right; exact ⟨h1.trans h2, codesLe_trans _ _ _ h1c h2c⟩

theorem obsOrder_created_at {a b : ObservationRow} (h : obsOrder a b = true) :
    a.created_at ≤ b.created_at := by
  unfold obsOrder at h
  simp only [Bool.or_eq_true, Bool.and_eq_true, decide_eq_true_eq] at h
  rcases h with h | ⟨h, _⟩ <;> omega

theorem obsOrder_of_lt {a b : ObservationRow} (h : a.created_at < b.created_at) :
    obsOrder a b = true ∧ obsOrder b a = false := by
  unfold obsOrder
  constructor
  · simp [h]
  · have h1 : ¬ b.created_at < a.created_at := by omega
    have h2 : ¬ b.created_at = a.created_at := by omega
    simp [h1, h2]

/-! ## ListObservationsByEntityID -/

theorem mem_ListObservationsByEntityID {db : DB} {e : Nat} {c : String} :
    c ∈ ListObservationsByEntityID db e ↔
      ∃ o ∈ db.observations, o.entity_id = e ∧ o.content = c := by
  unfold ListObservationsByEntityID
  simp only [List.mem_map, mem_orderBy, List.mem_filter, decide_eq_true_eq]
  constructor
  · rintro ⟨o, ⟨ho, hoe⟩, rfl⟩
    exact ⟨o, ho, hoe, rfl⟩
  · rintro ⟨o, ho, hoe, rfl⟩
    exact ⟨o, ⟨ho, hoe⟩, rfl⟩

/-- UNIQUE(entity_id, content): an entity lists no content twice. -/
theorem ListObservationsByEntityID_nodup {db : DB} (hwf : db.WF) (e : Nat) :
    (ListObservationsByEntityID db e).Nodup := by
  unfold ListObservationsByEntityID
  refine ((orderBy_perm obsOrder _).map _).nodup_iff.2 ?_
  have hk := nodup_map_filter (fun o : ObservationRow => (o.entity_id, o.content))
    (fun o => decide (o.entity_id = e)) db.observations hwf.observation_keys
  refine List.Nodup.map_on ?_ (List.Nodup.of_map _ hk)
  intro x hx y hy hxy
  have hxe : x.entity_id = e := by simpa using (List.mem_filter.1 hx).2
  have hye : y.entity_id = e := by simpa using (List.mem_filter.1 hy).2
  exact List.inj_on_of_nodup_map hk hx hy (by simp [hxe, hye, hxy])

/-- The listing is ordered by creation timestamp. -/
theorem ListObservationsByEntityID_sorted (db : DB) (e : Nat) :
    ∃ rows : List ObservationRow,
      rows.Perm (db.observations.filter (fun o => decide (o.entity_id = e))) ∧
      rows.Pairwise (fun a b => a.created_at ≤ b.created_at) ∧
      ListObservationsByEntityID db e = rows.map (fun o => o.content) :=
  ⟨_, orderBy_perm obsOrder _,
    (orderBy_sorted obsOrder obsOrder_total obsOrder_trans _).imp obsOrder_created_at, rfl⟩

/-! ## AddObservation -/

/-- Re-adding a content the entity already has succeeds and writes no row. -/
theorem AddObservation_present (db : DB) (now e : Nat) (c : String)
    (hsize : c.utf8ByteSize ≤ 10240) (hp : c ∈ ListObservationsByEntityID db e) :
    (AddObservation db now e c).1 = .ok () ∧
      (AddObservation db now e c).2 = { db with seq_observations := db.seq_observations + 1 } := by
  obtain ⟨o, ho, hoe, hoc⟩ := mem_ListObservationsByEntityID.1 hp
  have hany : db.observations.any (fun o => decide (o.entity_id = e ∧ o.content = c)) = true :=
    List.any_eq_true.2 ⟨o, ho, by simp [hoe, hoc]⟩
  unfold AddObservation
  rw [if_neg (by omega), if_pos hany]
  exact ⟨rfl, rfl⟩

/-- Adding a content the entity does not have yet appends one row. -/
theorem AddObservation_new (db : DB) (now e : Nat) (c : String)
    (hsize : c.utf8ByteSize ≤ 10240) (he : ∃ r ∈ db.entities, r.id = e)
    (hp : c ∉ ListObservationsByEntityID db e) :
    (AddObservation db now e c).1 = .ok () ∧
      (AddObservation db now e c).2 =
        { db with observations := db.observations ++
                    [ObservationRow.mk (db.seq_observations + 1) e c now],
                  observations_fts := db.observations_fts ++
                    [(ObservationRow.mk (db.seq_observations + 1) e c now).doc],
                  seq_observations := db.seq_observations + 1 } := by
  have hany : ¬ db.observations.any (fun o => decide (o.entity_id = e ∧ o.content = c)) = true := by
    intro h
    obtain ⟨o, ho, hoc⟩ := List.any_eq_true.1 h
    simp only [decide_eq_true_eq] at hoc
    exact hp (mem_ListObservationsByEntityID.2 ⟨o, ho, hoc.1, hoc.2⟩)
  have hfk : db.entities.any (fun r => decide (r.id = e)) = true := by
    obtain ⟨r, hr, hre⟩ := he
    exact List.any_eq_true.2 ⟨r, hr, by simp [hre]⟩
  unfold AddObservation
  rw [if_neg (by omega), if_neg hany, if_pos hfk]
  exact ⟨rfl, rfl⟩

/-- The listing after one `AddObservation` with a clock reading later than the stored
rows of the entity: a new content comes last, a present one changes nothing. -/
theorem ListObservationsByEntityID_AddObservation (db : DB) (now e : Nat) (c : String)
    (hsize : c.utf8ByteSize ≤ 10240) (he : ∃ r ∈ db.entities, r.id = e)
    (hlate : ∀ o ∈ db.observations, o.entity_id = e → o.created_at < now) :
    ListObservationsByEntityID (AddObservation db now e c).2 e =
      if c ∈ ListObservationsByEntityID db e then ListObservationsByEntityID db e
      else ListObservationsByEntityID db e ++ [c] := by
  by_cases hp : c ∈ ListObservationsByEntityID db e
  · rw [if_pos hp, (AddObservation_present db now e c hsize hp).2]
    rfl
  · rw [if_neg hp, (AddObservation_new db now e c hsize he hp).2]
    unfold ListObservationsByEntityID
    simp only [List.filter_append, List.filter_cons, List.filter_nil, decide_True, if_true]
    rw [orderBy_append_last, List.map_append]
    · rfl
    · intro y hy
      have hy2 := List.mem_filter.1 hy
      exact obsOrder_of_lt (hlate y hy2.1 (by simpa using hy2.2))

/-- One valid `AddObservation` on an existing entity: it succeeds, leaves the entity
rows alone, and the entity then lists the old contents and the added one. -/
theorem AddObservation_step (db : DB) (now e : Nat) (c : String)
    (hsize : c.utf8ByteSize ≤ 10240) (he : ∃ r ∈ db.entities, r.id = e) :
    (AddObservation db now e c).1 = .ok () ∧
      (AddObservation db now e c).2.entities = db.entities ∧
      (∀ o ∈ (AddObservation db now e c).2.observations,
        o ∈ db.observations ∨ o = ObservationRow.mk (db.seq_observations + 1) e c now) ∧
      ∀ c2, c2 ∈ ListObservationsByEntityID (AddObservation db now e c).2 e ↔
        c2 ∈ ListObservationsByEntityID db e ∨ c2 = c := by
  by_cases hp : c ∈ ListObservationsByEntityID db e
  · obtain ⟨h1, h2⟩ := AddObservation_present db now e c hsize hp
    rw [h2]
    refine ⟨h1, rfl, fun o ho => Or.inl ho, fun c2 => ?_⟩
    constructor
    · exact fun h => Or.inl h
    · rintro (h | rfl)
      · exact h
      · exact hp
  · obtain ⟨h1, h2⟩ := AddObservation_new db now e c hsize he hp
    rw [h2]
    refine ⟨h1, rfl, fun o ho => ?_, fun c2 => ?_⟩
    · rcases List.mem_append.1 ho with ho | ho
      · exact Or.inl ho
      · exact Or.inr (List.mem_singleton.1 ho)
    · simp only [mem_ListObservationsByEntityID, List.mem_append, List.mem_singleton]
      constructor
      · rintro ⟨o, ho | rfl, hoe, hoc⟩
        · exact Or.inl ⟨o, ho, hoe, hoc⟩
        · exact Or.inr hoc.symm
      · rintro (⟨o, ho, hoe, hoc⟩ | rfl)
        · exact ⟨o, Or.inl ho, hoe, hoc⟩
        · exact ⟨_, Or.inr rfl, rfl, rfl⟩

/-- A sequence of valid `AddObservation` calls on an existing entity. -/
theorem addObservations_spec (e : Nat) (calls : List (Nat × String)) :
    ∀ db : DB, db.WF → (∃ r ∈ db.entities, r.id = e) →
      (∀ c ∈ calls, c.2.utf8ByteSize ≤ 10240) →
      (addObservations db e calls).2.WF ∧
        (∀ x ∈ (addObservations db e calls).1, x = .ok ()) ∧
        (∀ c, c ∈ ListObservationsByEntityID (addObservations db e calls).2 e ↔
          c ∈ ListObservationsByEntityID db e ∨ c ∈ calls.map Prod.snd) ∧
        ((calls.map Prod.fst).Pairwise (fun a b => a < b) →
          (∀ o ∈ db.observations, o.entity_id = e → ∀ c ∈ calls, o.created_at < c.1) →
          ListObservationsByEntityID (addObservations db e calls).2 e =
            appendNew (ListObservationsByEntityID db e) (calls.map Prod.snd)) := by
  induction calls with
  | nil =>
    intro db hwf _ _
    exact ⟨hwf, by simp [addObservations], by simp [addObservations],
      fun _ _ => by simp [addObservations, appendNew]⟩
  | cons call calls ih =>
    intro db hwf he hsize
    have hs1 := hsize call (List.mem_cons_self _ _)
    obtain ⟨hok, hent, hrows, hmem⟩ := AddObservation_step db call.1 e call.2 hs1 he
    obtain ⟨ih1, ih2, ih3, ih4⟩ := ih (AddObservation db call.1 e call.2).2
      (AddObservation_WF hwf _ _ _) (by rw [hent]; exact he)
      (fun c hc => hsize c (List.mem_cons_of_mem _ hc))
    refine ⟨ih1, ?_, ?_, ?_⟩
    · intro x hx
      simp only [addObservations, List.mem_cons] at hx
      rcases hx with rfl | hx
      · exact hok
      · exact ih2 x hx
    · intro c
      simp only [addObservations, List.map_cons, List.mem_cons]
      rw [ih3 c, hmem c]
      tauto
    · intro hpw hlate
      rw [List.map_cons, List.pairwise_cons] at hpw
      simp only [addObservations, List.map_cons, appendNew]
      rw [ih4 hpw.2, ListObservationsByEntityID_AddObservation db call.1 e call.2 hs1 he]
      · intro o ho hoe
        exact hlate o ho hoe call (List.mem_cons_self _ _)
      · intro o ho hoe c hc
        rcases hrows o ho with ho | rfl
        · exact hlate o ho hoe c (List.mem_cons_of_mem _ hc)
        · exact hpw.1 c.1 (List.mem_map_of_mem Prod.fst hc)

/-- C3 (as amended): for every entity and every sequence of `AddObservation` calls on
it with contents of at most 10240 bytes (repeats allowed), every call succeeds; the
listing then holds each distinct content exactly once (the contents listed before and
the contents of the calls), ordered by creation timestamp; when the calls read strictly
increasing clock values, later than the timestamps already stored for the entity, that
order is the order of first insertion; and re-adding a content that is present changes
neither the listing nor its length. -/
theorem AddObservation_sequence (db : DB) (hwf : db.WF) (e : Nat)
    (he : ∃ r ∈ db.entities, r.id = e) (calls : List (Nat × String))
    (hsize : ∀ c ∈ calls, c.2.utf8ByteSize ≤ 10240) :
    (∀ x ∈ (addObservations db e calls).1, x = .ok ()) ∧
      (ListObservationsByEntityID (addObservations db e calls).2 e).Nodup ∧
      (∀ c, c ∈ ListObservationsByEntityID (addObservations db e calls).2 e ↔
        c ∈ ListObservationsByEntityID db e ∨ c ∈ calls.map Prod.snd) ∧
      (∃ rows : List ObservationRow,
        rows.Perm ((addObservations db e calls).2.observations.filter
          (fun o => decide (o.entity_id = e))) ∧
        rows.Pairwise (fun a b => a.created_at ≤ b.created_at) ∧
        ListObservationsByEntityID (addObservations db e calls).2 e =
          rows.map (fun o => o.content)) ∧
      ((calls.map Prod.fst).Pairwise (fun a b => a < b) →
        (∀ o ∈ db.observations, o.entity_id = e → ∀ c ∈ calls, o.created_at < c.1) →
        ListObservationsByEntityID (addObservations db e calls).2 e =
          appendNew (ListObservationsByEntityID db e) (calls.map Prod.snd)) ∧
      ∀ (now : Nat) (c : String), c.utf8ByteSize ≤ 10240 →
        c ∈ ListObservationsByEntityID db e →
        (AddObservation db now e c).1 = .ok () ∧
          ListObservationsByEntityID (AddObservation db now e c).2 e =
            ListObservationsByEntityID db e := by
  obtain ⟨h1, h2, h3, h4⟩ := addObservations_spec e calls db hwf he hsize
  refine ⟨h2, ListObservationsByEntityID_nodup h1 e, h3,
    ListObservationsByEntityID_sorted _ e, h4, fun now c hc hp => ?_⟩
  obtain ⟨hok, hdb⟩ := AddObservation_present db now e c hc hp
  exact ⟨hok, by rw [hdb]; rfl⟩

/-- Witness of C3: the three calls of `TestObservation_AddAndList`, one millisecond
apart. -/
theorem AddObservation_sequence_witness :
    (UpsertEntity DB.empty 1 "Redis" "system" []).2.WF ∧
      (∃ r ∈ (UpsertEntity DB.empty 1 "Redis" "system" []).2.entities, r.id = 1) ∧
      (∀ c ∈ [(2, "Runs on port 6379"), (3, "Used for session store"),
          (4, "Runs on port 6379")], c.2.utf8ByteSize ≤ 10240) ∧
      ListObservationsByEntityID
          (addObservations (UpsertEntity DB.empty 1 "Redis" "system" []).2 1
            [(2, "Runs on port 6379"), (3, "Used for session store"),
              (4, "Runs on port 6379")]).2 1 =
        ["Runs on port 6379", "Used for session store"] :=
  ⟨by decide, by decide, by decide,
    ((AddObservation_sequence (UpsertEntity DB.empty 1 "Redis" "system" []).2 (by decide) 1
      (by decide)
      [(2, "Runs on port 6379"), (3, "Used for session store"), (4, "Runs on port 6379")]
      (by decide)).2.2.2.2.1 (by decide) (by decide)).trans (by decide)⟩

theorem utf8ByteSize_replicate_a (n : Nat) :
    (String.mk (List.replicate n 'a')).utf8ByteSize = n := by
  have h : ∀ (k : Nat), String.utf8ByteSize.go (List.replicate k 'a') = k := by
    intro k
    induction k with
    | zero => rfl
    | succ k ih =>
      rw [List.replicate_succ, String.utf8ByteSize.go, ih]
      rfl
  exact h n

/-- C3, counterexample: on the entity `Redis` (id 1), `AddObservation` of a content of
10241 bytes fails; and `AddObservation` of `b` and then of `a` within the same millisecond
leaves the listing `[a, b]`, which is not the order of insertion. -/
theorem AddObservation_sequence_counterexample :
    (∃ r ∈ (UpsertEntity DB.empty 1 "Redis" "system" []).2.entities, r.id = 1) ∧
      (AddObservation (UpsertEntity DB.empty 1 "Redis" "system" []).2 5 1
        (String.mk (List.replicate 10241 'a'))).1 =
          .error "observation content exceeds 10KB limit" ∧
      (addObservations (UpsertEntity DB.empty 1 "Redis" "system" []).2 1
        [(5, "b"), (5, "a")]).1 = [.ok (), .ok ()] ∧
      ListObservationsByEntityID
          (addObservations (UpsertEntity DB.empty 1 "Redis" "system" []).2 1
            [(5, "b"), (5, "a")]).2 1 = ["a", "b"] ∧
      appendNew [] ["b", "a"] = ["b", "a"] := by
  refine ⟨by decide, ?_, rfl, by decide, by decide⟩
  unfold AddObservation
  rw [if_pos (by rw [utf8ByteSize_replicate_a]; decide)]

/-! ## The effect of a call on the entity rows -/

theorem ensureEntity_entities (db : DB) (now : Nat) (n : String) :
    (ensureEntity db now n).2.seq_entities = db.seq_entities + 1 ∧
      (ensureEntity db now n).2.observations = db.observations ∧
      (ensureEntity db now n).2.relations = db.relations ∧
      (∀ r ∈ db.entities, r ∈ (ensureEntity db now n).2.entities) ∧
      ∀ r ∈ (ensureEntity db now n).2.entities,
        r ∈ db.entities ∨
          (r = EntityRow.mk (db.seq_entities + 1) n "concept" [] now now none 0 none ∧
            ∀ e ∈ db.entities, e.name ≠ n) := by
  unfold ensureEntity
  cases hf : db.entities.find? (fun e => decide (e.name = n)) with
  | some old =>
    simp only
    split <;> exact ⟨rfl, rfl, rfl, fun r hr => hr, fun r hr => Or.inl hr⟩
  | none =>
    rw [List.find?_eq_none] at hf
    have key : ∀ r ∈ db.entities ++
        [EntityRow.mk (db.seq_entities + 1) n "concept" [] now now none 0 none],
        r ∈ db.entities ∨
          (r = EntityRow.mk (db.seq_entities + 1) n "concept" [] now now none 0 none ∧
            ∀ e ∈ db.entities, e.name ≠ n) := by
      intro r hr
      rcases List.mem_append.1 hr with hr | hr
      · exact Or.inl hr
      · exact Or.inr ⟨List.mem_singleton.1 hr, fun e he => by simpa using hf e he⟩
    simp only
    split <;> exact ⟨rfl, rfl, rfl, fun r hr => List.mem_append_left _ hr, key⟩

theorem UpsertRelation_entities (db : DB) (now f t : Nat) (rel : String) :
    (UpsertRelation db now f t rel).2.entities = db.entities ∧
      (UpsertRelation db now f t rel).2.seq_entities = db.seq_entities ∧
      (UpsertRelation db now f t rel).2.observations = db.observations := by
  unfold UpsertRelation
  split
  · exact ⟨rfl, rfl, rfl⟩
  · split <;> exact ⟨rfl, rfl, rfl⟩

theorem AddObservation_entities (db : DB) (now e : Nat) (c : String) :
    (AddObservation db now e c).2.entities = db.entities ∧
      (AddObservation db now e c).2.seq_entities = db.seq_entities := by
  unfold AddObservation
  split
  · exact ⟨rfl, rfl⟩
  · split
    · exact ⟨rfl, rfl⟩
    · split <;> exact ⟨rfl, rfl⟩

theorem RetractObservation_entities (db : DB) (n c : String) :
    (RetractObservation db n c).2.entities = db.entities ∧
      (RetractObservation db n c).2.seq_entities = db.seq_entities := by
  unfold RetractObservation
  split
  · exact ⟨rfl, rfl⟩
  · simp only
    split <;> exact ⟨rfl, rfl⟩

theorem AppendJournal_entities (db : DB) (now : Nat) (c : String) (tags : List String) :
    (AppendJournal db now c tags).2.entities = db.entities ∧
      (AppendJournal db now c tags).2.seq_entities = db.seq_entities := by
  unfold AppendJournal
  split
  · exact ⟨rfl, rfl⟩
  · simp only
    split <;> exact ⟨rfl, rfl⟩

theorem UpsertRelationByName_entities (db : DB) (t1 t2 t3 : Nat) (f t rel : String) :
    db.seq_entities ≤ (UpsertRelationByName db t1 t2 t3 f t rel).2.seq_entities ∧
      ∀ r ∈ (UpsertRelationByName db t1 t2 t3 f t rel).2.entities,
        r ∈ db.entities ∨
          (db.seq_entities < r.id ∧ (r.name = f ∨ r.name = t) ∧ r.entity_type = "concept" ∧
            r.tags = [] ∧ r.deleted_at = none) := by
  obtain ⟨hs1, -, -, -, hm1⟩ := ensureEntity_entities db t1 f
  unfold UpsertRelationByName
  split
  · next err db1 heq =>
    rw [heq] at hs1 hm1
    simp only at hs1 hm1
    refine ⟨by show db.seq_entities ≤ db1.seq_entities; omega, fun r hr => ?_⟩
    rcases hm1 r hr with h | ⟨rfl, -⟩
    · exact Or.inl h
    · exact Or.inr ⟨by simp, Or.inl rfl, rfl, rfl, rfl⟩
  · next fromID db1 heq =>
    rw [heq] at hs1 hm1
    simp only at hs1 hm1
    obtain ⟨hs2, -, -, -, hm2⟩ := ensureEntity_entities db1 t2 t
    have key : ∀ r ∈ (ensureEntity db1 t2 t).2.entities,
        r ∈ db.entities ∨
          (db.seq_entities < r.id ∧ (r.name = f ∨ r.name = t) ∧ r.entity_type = "concept" ∧
            r.tags = [] ∧ r.deleted_at = none) := by
      intro r hr
      rcases hm2 r hr with h | ⟨rfl, -⟩
      · rcases hm1 r h with h | ⟨rfl, -⟩
        · exact Or.inl h
        · exact Or.inr ⟨by simp, Or.inl rfl, rfl, rfl, rfl⟩
      · exact Or.inr ⟨by simp; omega, Or.inr rfl, rfl, rfl, rfl⟩
    split
    · next err db2 heq2 =>
      rw [heq2] at hs2 key
      simp only at hs2 key
      exact ⟨by show db.seq_entities ≤ db2.seq_entities; omega, key⟩
    · next toID db2 heq2 =>
      rw [heq2] at hs2 key
      simp only at hs2 key
      obtain ⟨he, hs, -⟩ := UpsertRelation_entities db2 t3 fromID toID rel
      rw [he, hs]
      exact ⟨by omega, key⟩

/-- What one call does to the entity rows: a row of the new state is either inserted by
the call (with a rowid beyond the old counter and a name the call inserts), or it is a
row of the old state with the same id and name, which is live only if it was live before
or the call restores its name. -/
theorem Op.apply_entities (db : DB) (op : Op) :
    db.seq_entities ≤ (op.apply db).seq_entities ∧
      ∀ r ∈ (op.apply db).entities,
        (db.seq_entities < r.id ∧ r.name ∈ op.inserts ∧ r.live = true) ∨
          ∃ r0 ∈ db.entities, r0.id = r.id ∧ r0.name = r.name ∧
            (r.live = true → r0.live = true ∨ r.name ∈ op.restores) := by
  have same : ∀ db2 : DB, db2.entities = db.entities → db2.seq_entities = db.seq_entities →
      db.seq_entities ≤ db2.seq_entities ∧
        ∀ r ∈ db2.entities,
          (db.seq_entities < r.id ∧ r.name ∈ op.inserts ∧ r.live = true) ∨
            ∃ r0 ∈ db.entities, r0.id = r.id ∧ r0.name = r.name ∧
              (r.live = true → r0.live = true ∨ r.name ∈ op.restores) := by
    intro db2 h1 h2
    rw [h1, h2]
    exact ⟨Nat.le_refl _, fun r hr => Or.inr ⟨r, hr, rfl, rfl, fun h => Or.inl h⟩⟩
  cases op with
  | upsertEntity now n t ts =>
    show db.seq_entities ≤ (UpsertEntity db now n t ts).2.seq_entities ∧
      ∀ r ∈ (UpsertEntity db now n t ts).2.entities, _
    have key : db.seq_entities ≤ (upsertEntityRow db now n t ts).seq_entities ∧
        ∀ r ∈ (upsertEntityRow db now n t ts).entities,
          (db.seq_entities < r.id ∧ r.name ∈ [n] ∧ r.live = true) ∨
            ∃ r0 ∈ db.entities, r0.id = r.id ∧ r0.name = r.name ∧
              (r.live = true → r0.live = true ∨ r.name ∈ [n]) := by
      unfold upsertEntityRow
      split
      · refine ⟨Nat.le_succ _, fun r hr => ?_⟩
        rcases List.mem_append.1 hr with hr | hr
        · exact Or.inr ⟨r, hr, rfl, rfl, fun h => Or.inl h⟩
        · rw [List.mem_singleton.1 hr]
          exact Or.inl ⟨Nat.lt_succ_self _, List.mem_singleton.2 rfl, rfl⟩
      · next old hsome =>
        have hold := List.mem_of_find?_eq_some hsome
        have hname : old.name = n := by simpa using List.find?_some hsome
        refine ⟨Nat.le_succ _, fun r hr => ?_⟩
        obtain ⟨e, he, rfl⟩ := List.mem_map.1 hr
        by_cases hid : e.id = old.id
        · simp only [hid, if_true]
          exact Or.inr ⟨old, hold, rfl, rfl, fun _ => Or.inr (by simp [hname])⟩
        · simp only [hid, if_false]
          exact Or.inr ⟨e, he, rfl, rfl, fun h => Or.inl h⟩
    unfold UpsertEntity
    split
    · exact same db rfl rfl
    · split
      · exact same db rfl rfl
      · split
        · exact same db rfl rfl
        · simp only
          split <;> exact key
  | getEntity now n =>
    show db.seq_entities ≤ (GetEntity db now n).2.seq_entities ∧
      ∀ r ∈ (GetEntity db now n).2.entities, _
    unfold GetEntity
    split
    · exact same db rfl rfl
    · next x _ =>
      refine ⟨Nat.le_refl _, fun r hr => ?_⟩
      obtain ⟨e, he, rfl⟩ := List.mem_map.1 hr
      refine Or.inr ⟨e, he, ?_, ?_, fun h => Or.inl ?_⟩
      · split <;> rfl
      · split <;> rfl
      · revert h
        split
        · exact id
        · exact id
  | softDeleteEntity now n =>
    show db.seq_entities ≤ (SoftDeleteEntity db now n).2.seq_entities ∧
      ∀ r ∈ (SoftDeleteEntity db now n).2.entities, _
    have key : ∀ r ∈ db.entities.map (fun e =>
        if e.nameMatches n && e.live then { e with deleted_at := some now } else e),
        (db.seq_entities < r.id ∧ r.name ∈ ([] : List String) ∧ r.live = true) ∨
          ∃ r0 ∈ db.entities, r0.id = r.id ∧ r0.name = r.name ∧
            (r.live = true → r0.live = true ∨ r.name ∈ ([] : List String)) := by
      intro r hr
      obtain ⟨e, he, rfl⟩ := List.mem_map.1 hr
      refine Or.inr ⟨e, he, ?_, ?_, fun h => Or.inl ?_⟩
      · split <;> rfl
      · split <;> rfl
      · revert h
        split
        · intro h; simp [EntityRow.live] at h
        · exact id
    unfold SoftDeleteEntity
    simp only
    split <;> exact ⟨Nat.le_refl _, key⟩
  | hardDeleteEntity n =>
    show db.seq_entities ≤ (HardDeleteEntity db n).2.seq_entities ∧
      ∀ r ∈ (HardDeleteEntity db n).2.entities, _
    unfold HardDeleteEntity
    simp only
    split <;> exact ⟨Nat.le_refl _, fun r hr =>
      Or.inr ⟨r, List.mem_of_mem_filter hr, rfl, rfl, fun h => Or.inl h⟩⟩
  | addObservation now e c =>
    exact same _ (AddObservation_entities db now e c).1 (AddObservation_entities db now e c).2
  | retractObservation n c =>
    exact same _ (RetractObservation_entities db n c).1 (RetractObservation_entities db n c).2
  | upsertRelation now f t rel =>
    exact same _ (UpsertRelation_entities db now f t rel).1
      (UpsertRelation_entities db now f t rel).2.1
  | upsertRelationByName t1 t2 t3 f t rel =>
    obtain ⟨h1, h2⟩ := UpsertRelationByName_entities db t1 t2 t3 f t rel
    refine ⟨h1, fun r hr => ?_⟩
    rcases h2 r hr with h | ⟨hlt, hn, -, -, hd⟩
    · exact Or.inr ⟨r, h, rfl, rfl, fun hl => Or.inl hl⟩
    · refine Or.inl ⟨hlt, ?_, by simp [EntityRow.live, hd]⟩
      simp only [Op.inserts, List.mem_cons, List.mem_singleton]
      rcases hn with hn | hn
      · exact Or.inl hn
      · exact Or.inr (Or.inl hn)
  | appendJournal now c tags =>
    exact same _ (AppendJournal_entities db now c tags).1 (AppendJournal_entities db now c tags).2

/-! ## Soft-deleted rows along a sequence of calls -/

theorem Op.restores_subset_inserts (op : Op) : ∀ n ∈ op.restores, n ∈ op.inserts := by
  cases op <;> simp [Op.restores, Op.inserts]

/-- Rows whose id is in `ids` stay soft-deleted as long as no call restores one of their
names. -/
theorem run_stay_deleted (ids : List Nat) (names : List String) (ops : List Op) :
    ∀ db : DB, (∀ i ∈ ids, i ≤ db.seq_entities) →
      (∀ e ∈ db.entities, e.id ∈ ids → e.live = false ∧ e.name ∈ names) →
      (∀ op ∈ ops, ∀ n ∈ op.restores, n ∉ names) →
      ∀ e ∈ (run db ops).entities, e.id ∈ ids → e.live = false ∧ e.name ∈ names := by
  induction ops with
  | nil => intro db _ h _ e he hid; exact h e he hid
  | cons op ops ih =>
    intro db hseq hdead hnot
    obtain ⟨hmono, hrows⟩ := Op.apply_entities db op
    refine ih (op.apply db) (fun i hi => Nat.le_trans (hseq i hi) hmono) ?_
      (fun o ho => hnot o (List.mem_cons_of_mem _ ho))
    intro r hr hrid
    rcases hrows r hr with ⟨hlt, -, -⟩ | ⟨r0, hr0, hid0, hname0, hlive⟩
    · have := hseq r.id hrid
      omega
    · obtain ⟨hd0, hn0⟩ := hdead r0 hr0 (by rw [hid0]; exact hrid)
      refine ⟨?_, by rw [← hname0]; exact hn0⟩
      cases hl : r.live with
      | false => rfl
      | true =>
        rcases hlive hl with h | h
        · rw [hd0] at h; exact absurd h (by simp)
        · exact absurd (hname0 ▸ hn0) (hnot op (List.mem_cons_self _ _) r.name h)

/-- No live row matches `name` as long as no call inserts or restores a name that
equals `name` up to case. -/
theorem run_no_live_match (name : String) (ops : List Op) :
    ∀ db : DB, (∀ e ∈ db.entities, e.nameMatches name = true → e.live = false) →
      (∀ op ∈ ops, ∀ n ∈ op.inserts, sqlLower n ≠ sqlLower name) →
      ∀ e ∈ (run db ops).entities, e.nameMatches name = true → e.live = false := by
  induction ops with
  | nil => intro db h _ e he hm; exact h e he hm
  | cons op ops ih =>
    intro db hdead hnot
    obtain ⟨-, hrows⟩ := Op.apply_entities db op
    refine ih (op.apply db) ?_ (fun o ho => hnot o (List.mem_cons_of_mem _ ho))
    intro r hr hm
    have hm2 : sqlLower r.name = sqlLower name := by simpa [EntityRow.nameMatches] using hm
    rcases hrows r hr with ⟨-, hins, -⟩ | ⟨r0, hr0, -, hname0, hlive⟩
    · exact absurd hm2 (hnot op (List.mem_cons_self _ _) r.name hins)
    · cases hl : r.live with
      | false => rfl
      | true =>
        rcases hlive hl with h | h
        · have := hdead r0 hr0 (by simpa [EntityRow.nameMatches, hname0] using hm2)
          rw [this] at h; exact absurd h (by simp)
        · exact absurd hm2 (hnot op (List.mem_cons_self _ _) r.name
            (Op.restores_subset_inserts op r.name h))

/-- After `SoftDeleteEntity(name)` every row that matched `name` and was live is
soft-deleted, and no live row matches `name`. -/
theorem SoftDeleteEntity_stamped {db : DB} (hwf : db.WF) (now : Nat) (name : String) :
    (∀ e ∈ (SoftDeleteEntity db now name).2.entities,
        e.id ∈ (liveMatches db name).map (fun e => e.id) →
        e.live = false ∧ e.name ∈ (liveMatches db name).map (fun e => e.name)) ∧
      (∀ e ∈ (SoftDeleteEntity db now name).2.entities,
        e.nameMatches name = true → e.live = false) ∧
      (SoftDeleteEntity db now name).2.seq_entities = db.seq_entities := by
  have key : (∀ e ∈ db.entities.map (fun e =>
        if e.nameMatches name && e.live then { e with deleted_at := some now } else e),
        e.id ∈ (liveMatches db name).map (fun e => e.id) →
        e.live = false ∧ e.name ∈ (liveMatches db name).map (fun e => e.name)) ∧
      (∀ e ∈ db.entities.map (fun e =>
        if e.nameMatches name && e.live then { e with deleted_at := some now } else e),
        e.nameMatches name = true → e.live = false) := by
    constructor
    · intro r hr hid
      obtain ⟨e, he, rfl⟩ := List.mem_map.1 hr
      obtain ⟨d, hd, hde⟩ := List.mem_map.1 hid
      have hd2 := List.mem_filter.1 hd
      have hed : d = e := by
        apply hwf.entity_eq_of_id hd2.1 he
        rw [hde]
        split <;> rfl
      subst hed
      rw [if_pos hd2.2]
      exact ⟨rfl, List.mem_map.2 ⟨d, hd, rfl⟩⟩
    · intro r hr hm
      obtain ⟨e, he, rfl⟩ := List.mem_map.1 hr
      by_cases hc : (e.nameMatches name && e.live) = true
      · rw [if_pos hc]; rfl
      · rw [if_neg hc] at hm ⊢
        simpa [hm] using hc
  unfold SoftDeleteEntity
  simp only
  split <;> exact ⟨key.1, key.2, rfl⟩

/-! ## Search and GetStats see live rows only -/

theorem mem_scanSearchRows {κ : Type} {db : DB} {rows : List (EntityRow × κ)}
    {x : SearchResult κ} (h : x ∈ scanSearchRows db rows) :
    ∃ r ∈ rows, x.entity =
        { scanEntity r.1 with Observations := ListObservationsByEntityID db r.1.id } ∧
      x.Score = r.2 := by
  unfold scanSearchRows at h
  obtain ⟨r, hr, rfl⟩ := List.mem_map.1 h
  exact ⟨r, hr, rfl, rfl⟩

theorem mem_scanScores {κ : Type} {l : List (EntityRow × Option κ)}
    {rows : List (EntityRow × κ)} (h : scanScores l = some rows) :
    ∀ x ∈ rows, (x.1, some x.2) ∈ l := by
  induction l generalizing rows with
  | nil =>
    simp only [scanScores, Option.some.injEq] at h
    subst h
    simp
  | cons a l ih =>
    obtain ⟨e, s⟩ := a
    cases s with
    | none => simp [scanScores] at h
    | some s =>
      simp only [scanScores, Option.map_eq_some'] at h
      obtain ⟨l2, hl2, rfl⟩ := h
      intro x hx
      rcases List.mem_cons.1 hx with rfl | hx
      · exact List.mem_cons_self _ _
      · exact List.mem_cons_of_mem _ (ih hl2 x hx)

/-- Every result of `Search`, on the list-all path and on the ranked path, is a live
row of the store that passes the type and tag filters. -/
theorem Search_sound {κ : Type} (eng : Engine κ) (db : DB) (now : Nat) (q ty : String)
    (tags : List String) (sort : String) (limit : Int) (rs : List (SearchResult κ))
    (h : Search eng db now q ty tags sort limit = .ok rs) :
    ∀ x ∈ rs, ∃ r ∈ db.entities, r.live = true ∧ typeFilter ty r = true ∧
      tagFilter tags r = true ∧
      x.entity = { scanEntity r with Observations := ListObservationsByEntityID db r.id } := by
  intro x hx
  unfold Search at h
  simp only at h
  split at h
  · injection h with h
    subst h
    unfold listAll at hx
    obtain ⟨r, hr, hxe, -⟩ := mem_scanSearchRows hx
    obtain ⟨e, he, rfl⟩ := List.mem_map.1 hr
    have he2 := List.mem_filter.1 (mem_orderBy.1 (List.mem_of_mem_take he))
    simp only [Bool.and_eq_true] at he2
    exact ⟨e, he2.1, he2.2.1.1, he2.2.1.2, he2.2.2, hxe⟩
  · split at h
    · exact absurd h (by simp)
    · split at h
      · exact absurd h (by simp)
      · next scanned hscan =>
        injection h with h
        subst h
        obtain ⟨r, hr, hxe, -⟩ := mem_scanSearchRows hx
        obtain ⟨e, he, hre⟩ :=
          List.mem_map.1 (mem_orderBy.1 (List.mem_of_mem_take (mem_scanScores hscan r hr)))
        have he2 := List.mem_filter.1 he
        simp only [Bool.and_eq_true] at he2
        have h1 : r.1 = e := (congrArg Prod.fst hre).symm
        rw [h1] at hxe
        exact ⟨e, he2.1, he2.2.1.1.1, he2.2.1.2, he2.2.2, hxe⟩

/-- C4 (as amended): after `SoftDeleteEntity(name)`, along every sequence of calls that
does not upsert the exact name of a row it stamped, the stamped rows stay soft-deleted,
they appear in no result of `Search` (list-all or ranked), and `GetStats` counts neither
them nor their observations; and as long as no call upserts, or names as a relation
endpoint, an entity whose name equals `name` up to ASCII case, `GetEntity(name)` reports
absent without error. -/
theorem SoftDeleteEntity_hides (db : DB) (hwf : db.WF) (now : Nat) (name : String)
    (ops : List Op) (db2 : DB) (ids : List Nat)
    (hdb2 : db2 = run (SoftDeleteEntity db now name).2 ops)
    (hids : ids = (liveMatches db name).map (fun e => e.id))
    (hnot : ∀ op ∈ ops, ∀ n ∈ op.restores, n ∉ (liveMatches db name).map (fun e => e.name)) :
    (∀ e ∈ db2.entities, e.id ∈ ids → e.live = false) ∧
      (∀ (κ : Type) (eng : Engine κ) (now2 : Nat) (q ty : String) (tags : List String)
          (sort : String) (limit : Int) (rs : List (SearchResult κ)),
        Search eng db2 now2 q ty tags sort limit = .ok rs → ∀ x ∈ rs, x.entity.ID ∉ ids) ∧
      (GetStats db2).EntityCount =
        (db2.entities.filter (fun e => e.live && !ids.contains e.id)).length ∧
      (GetStats db2).ObservationCount =
        (db2.observations.flatMap (fun o => db2.entities.filter
          (fun e => decide (o.entity_id = e.id) && e.live && !ids.contains e.id))).length ∧
      ((∀ op ∈ ops, ∀ n ∈ op.inserts, sqlLower n ≠ sqlLower name) →
        ∀ now2, (GetEntity db2 now2 name).1 = .ok none) := by
  obtain ⟨hst1, hst2, hseq⟩ := SoftDeleteEntity_stamped hwf now name
  have hdead : ∀ e ∈ db2.entities, e.id ∈ ids → e.live = false := by
    intro e he hid
    rw [hdb2] at he
    rw [hids] at hid
    refine (run_stay_deleted _ _ ops _ ?_ hst1 hnot e he hid).1
    intro i hi
    obtain ⟨d, hd, rfl⟩ := List.mem_map.1 hi
    rw [hseq]
    exact hwf.entity_seq d (List.mem_filter.1 hd).1
  have hfilter : ∀ e ∈ db2.entities, e.live = (e.live && !ids.contains e.id) := by
    intro e he
    by_cases hid : e.id ∈ ids
    · simp [hdead e he hid]
    · simp [hid]
  refine ⟨hdead, ?_, ?_, ?_, ?_⟩
  · intro κ eng now2 q ty tags sort limit rs hs x hx hid
    obtain ⟨r, hr, hlive, -, -, hxe⟩ := Search_sound eng db2 now2 q ty tags sort limit rs hs x hx
    have hrid : r.id ∈ ids := by simpa [hxe, scanEntity] using hid
    rw [hdead r hr hrid] at hlive
    exact absurd hlive (by simp)
  · unfold GetStats
    simp only
    rw [List.filter_congr hfilter]
  · unfold GetStats
    simp only
    congr 2
    funext o
    refine List.filter_congr (fun e he => ?_)
    rw [Bool.and_assoc, ← hfilter e he]
  · intro hins now2
    have hnone : db2.entities.find? (fun e => e.nameMatches name && e.live) = none := by
      rw [List.find?_eq_none]
      intro e he
      rw [hdb2] at he
      by_cases hm : e.nameMatches name = true
      · simp [run_no_live_match name ops _ hst2 hins e he hm]
      · simp [hm]
    unfold GetEntity
    rw [hnone]

/-- Witness of C4: `Redis` with one observation is soft-deleted; a later observation on
it, a lookup and an upsert of another entity leave it hidden. -/
theorem SoftDeleteEntity_hides_witness :
    (AddObservation (UpsertEntity DB.empty 1 "Redis" "system" []).2 2 1 "Port 6379").2.WF ∧
      (∀ op ∈ [Op.addObservation 4 1 "In-memory", Op.getEntity 5 "redis",
          Op.upsertEntity 6 "PG" "system" []], ∀ n ∈ op.restores,
        n ∉ (liveMatches
          (AddObservation (UpsertEntity DB.empty 1 "Redis" "system" []).2 2 1 "Port 6379").2
          "redis").map (fun e => e.name)) ∧
      (GetStats (run (SoftDeleteEntity
          (AddObservation (UpsertEntity DB.empty 1 "Redis" "system" []).2 2 1 "Port 6379").2
          3 "redis").2
        [Op.addObservation 4 1 "In-memory", Op.getEntity 5 "redis",
          Op.upsertEntity 6 "PG" "system" []])).EntityCount = 1 :=
  ⟨by decide, by decide,
    ((SoftDeleteEntity_hides
      (AddObservation (UpsertEntity DB.empty 1 "Redis" "system" []).2 2 1 "Port 6379").2
      (by decide) 3 "redis"
      [Op.addObservation 4 1 "In-memory", Op.getEntity 5 "redis",
        Op.upsertEntity 6 "PG" "system" []] _ _ rfl rfl (by decide)).2.2.1).trans
      (by decide)⟩

/-- C4, counterexample: `Redis` is soft-deleted and never upserted again; after
`UpsertRelationByName("redis", "Gateway", "used-by")` has auto-created the entity `redis`,
`GetEntity("Redis")` reports that entity instead of absent. -/
theorem SoftDeleteEntity_hides_counterexample :
    (SoftDeleteEntity (UpsertEntity DB.empty 1 "Redis" "system" []).2 2 "Redis").1 = .ok () ∧
      (Op.upsertRelationByName 3 3 3 "redis" "Gateway" "used-by").restores = [] ∧
      (GetEntity
          (run (SoftDeleteEntity (UpsertEntity DB.empty 1 "Redis" "system" []).2 2 "Redis").2
            [Op.upsertRelationByName 3 3 3 "redis" "Gateway" "used-by"]) 4 "Redis").1 =
        .ok (some { ID := 2, Name := "redis", EntityType := "concept", Tags := [],
                    CreatedAt := 3, UpdatedAt := 3, DeletedAt := none, AccessCount := 1,
                    LastAccessed := some 4, Observations := [] }) := by
  refine ⟨rfl, rfl, rfl⟩

/-! ## HardDeleteEntity -/

/-- `HardDeleteEntity(name)` when the engine accepts its DELETE (see `Store.apply` for
the refusal): it returns an error if and only if no entity row, live or soft-deleted,
matches `name`, and then the store is unchanged; after a success every matching row is
gone, `GetEntity(name)` reports absent, and no observation row and no relation row
references the id of a removed row. -/
theorem HardDeleteEntity_cascade (db : DB) (now : Nat) (name : String) :
    ((∃ msg, (HardDeleteEntity db name).1 = .error msg) ↔
        ∀ e ∈ db.entities, e.nameMatches name = false) ∧
      ((∀ e ∈ db.entities, e.nameMatches name = false) → (HardDeleteEntity db name).2 = db) ∧
      ((HardDeleteEntity db name).1 = .ok () ↔ ∃ e ∈ db.entities, e.nameMatches name = true) ∧
      (GetEntity (HardDeleteEntity db name).2 now name).1 = .ok none ∧
      ∀ d ∈ db.entities, d.nameMatches name = true →
        d ∉ (HardDeleteEntity db name).2.entities ∧
        (∀ o ∈ (HardDeleteEntity db name).2.observations, o.entity_id ≠ d.id) ∧
        (∀ r ∈ (HardDeleteEntity db name).2.relations, r.from_id ≠ d.id ∧ r.to_id ≠ d.id) := by
  have hnil : (∀ e ∈ db.entities, e.nameMatches name = false) ↔
      db.entities.filter (fun e => e.nameMatches name) = [] := by
    rw [List.filter_eq_nil_iff]
    constructor
    · intro h e he; simp [h e he]
    · intro h e he; simpa using h e he
  have hlen : (db.entities.filter (fun e => e.nameMatches name)).length = 0 ↔
      ∀ e ∈ db.entities, e.nameMatches name = false := by
    rw [List.length_eq_zero, hnil]
  have hex : (¬ ∀ e ∈ db.entities, e.nameMatches name = false) ↔
      ∃ e ∈ db.entities, e.nameMatches name = true := by
    simp
  refine ⟨?_, ?_, ?_, ?_, ?_⟩
  · unfold HardDeleteEntity
    simp only
    split
    · next h => exact ⟨fun _ => hlen.1 h, fun _ => ⟨_, rfl⟩⟩
    · next h =>
      constructor
      · rintro ⟨msg, hmsg⟩; exact absurd hmsg (by simp)
      · intro h2; exact absurd (hlen.2 h2) h
  · intro h
    have h0 := hnil.1 h
    have hall : db.entities.filter (fun e => !e.nameMatches name) = db.entities :=
      List.filter_eq_self.2 (fun e he => by simp [h e he])
    unfold HardDeleteEntity
    simp only [h0, hall, List.any_nil, Bool.not_false, Bool.and_self, List.filter_true,
      entities_fts_delete, observations_fts_delete, List.foldl_nil, List.length_nil, if_true,
      List.filter_false]
  · unfold HardDeleteEntity
    simp only
    split
    · next h =>
      constructor
      · intro h2; exact absurd h2 (by simp)
      · intro h2; exact absurd (hlen.1 h) (hex.2 h2)
    · next h => exact ⟨fun _ => hex.1 (fun h2 => h (hlen.2 h2)), fun _ => rfl⟩
  · have hnone : (HardDeleteEntity db name).2.entities.find?
        (fun e => e.nameMatches name && e.live) = none := by
      rw [List.find?_eq_none]
      intro e he
      have he2 : e ∈ db.entities.filter (fun e => !e.nameMatches name) := by
        unfold HardDeleteEntity at he
        simp only at he
        split at he <;> exact he
      have := (List.mem_filter.1 he2).2
      simp only [Bool.not_eq_true'] at this
      simp [this]
    unfold GetEntity
    rw [hnone]
  · intro d hd hm
    have hgone : (db.entities.filter (fun e => e.nameMatches name)).any
        (fun e => decide (e.id = d.id)) = true :=
      List.any_eq_true.2 ⟨d, List.mem_filter.2 ⟨hd, hm⟩, by simp⟩
    have key : d ∉ db.entities.filter (fun e => !e.nameMatches name) ∧
        (∀ o ∈ db.observations.filter (fun o =>
            !(db.entities.filter (fun e => e.nameMatches name)).any
              (fun e => decide (e.id = o.entity_id))), o.entity_id ≠ d.id) ∧
        (∀ r ∈ db.relations.filter (fun r =>
            !(db.entities.filter (fun e => e.nameMatches name)).any
                (fun e => decide (e.id = r.from_id)) &&
              !(db.entities.filter (fun e => e.nameMatches name)).any
                (fun e => decide (e.id = r.to_id))), r.from_id ≠ d.id ∧ r.to_id ≠ d.id) := by
      refine ⟨?_, ?_, ?_⟩
      · intro h
        have := (List.mem_filter.1 h).2
        simp [hm] at this
      · intro o ho heq
        have := (List.mem_filter.1 ho).2
        rw [heq, hgone] at this
        exact absurd this (by simp)
      · intro r hr
        have := (List.mem_filter.1 hr).2
        simp only [Bool.and_eq_true, Bool.not_eq_true'] at this
        constructor
        · intro heq
          rw [heq, hgone] at this
          exact absurd this.1 (by simp)
        · intro heq
          rw [heq, hgone] at this
          exact absurd this.2 (by simp)
    unfold HardDeleteEntity
    simp only
    split <;> exact key

/-! ## SoftDeleteEntity -/

theorem forall₂_map_right {α : Type} (f : α → α) (l : List α) :
    List.Forall₂ (fun a b => b = f a) l (l.map f) := by
  induction l with
  | nil => exact List.Forall₂.nil
  | cons a l ih => exact List.Forall₂.cons rfl ih

theorem length_le_one_of_nodup_map {α β : Type} (f : α → β) (l : List α)
    (hnd : (l.map f).Nodup) (hsame : ∀ a ∈ l, ∀ b ∈ l, f a = f b) : l.length ≤ 1 := by
  match l, hnd, hsame with
  | [], _, _ => simp
  | [_], _, _ => simp
  | a :: b :: t, hnd, hsame =>
    have hab := hsame a (List.mem_cons_self _ _) b
      (List.mem_cons_of_mem _ (List.mem_cons_self _ _))
    simp only [List.map_cons, List.nodup_cons, List.mem_cons] at hnd
    exact absurd (Or.inl hab) hnd.1

/-- A soft delete whose statement the engine accepts: `SoftDeleteEntity(name)` stamps the
deletion timestamp on every live row whose name equals `name` up to ASCII case, and leaves every other entity row and
the other tables unchanged; it returns an error, changing nothing, if and only if no
live row matches `name`; when the live rows that match carry one name (no live
case variants), the stamped row is unique. -/
theorem SoftDeleteEntity_effect_accepted (db : DB) (now : Nat) (name : String) :
    List.Forall₂
        (fun e e2 =>
          if e.nameMatches name = true ∧ e.live = true then
            e2 = { e with deleted_at := some now }
          else e2 = e)
        db.entities (SoftDeleteEntity db now name).2.entities ∧
      (SoftDeleteEntity db now name).2.observations = db.observations ∧
      (SoftDeleteEntity db now name).2.relations = db.relations ∧
      (SoftDeleteEntity db now name).2.journal = db.journal ∧
      ((∃ msg, (SoftDeleteEntity db now name).1 = .error msg) ↔ liveMatches db name = []) ∧
      ((SoftDeleteEntity db now name).1 = .ok () ↔ liveMatches db name ≠ []) ∧
      (liveMatches db name = [] → (SoftDeleteEntity db now name).2 = db) ∧
      (db.WF → (∀ a ∈ liveMatches db name, ∀ b ∈ liveMatches db name, a.name = b.name) →
        (liveMatches db name).length ≤ 1) := by
  have hrows : List.Forall₂
      (fun e e2 =>
        if e.nameMatches name = true ∧ e.live = true then
          e2 = { e with deleted_at := some now }
        else e2 = e)
      db.entities (db.entities.map (fun e =>
        if e.nameMatches name && e.live then { e with deleted_at := some now } else e)) := by
    refine (forall₂_map_right _ db.entities).imp ?_
    intro e e2 h
    by_cases hc : e.nameMatches name = true ∧ e.live = true
    · rw [if_pos hc]
      rw [h, if_pos (by simp [hc.1, hc.2])]
    · rw [if_neg hc]
      rw [h, if_neg (by simpa using hc)]
  refine ⟨?_, ?_, ?_, ?_, ?_, ?_, ?_, ?_⟩
  · unfold SoftDeleteEntity
    simp only
    split <;> exact hrows
  · unfold SoftDeleteEntity
    simp only
    split <;> rfl
  · unfold SoftDeleteEntity
    simp only
    split <;> rfl
  · unfold SoftDeleteEntity
    simp only
    split <;> rfl
  · unfold SoftDeleteEntity liveMatches
    simp only
    split
    · next h => exact ⟨fun _ => List.length_eq_zero.1 h, fun _ => ⟨_, rfl⟩⟩
    · next h =>
      constructor
      · rintro ⟨msg, hmsg⟩; exact absurd hmsg (by simp)
      · intro h2; exact absurd (List.length_eq_zero.2 h2) h
  · unfold SoftDeleteEntity liveMatches
    simp only
    split
    · next h =>
      constructor
      · intro h2; exact absurd h2 (by simp)
      · intro h2; exact absurd (List.length_eq_zero.1 h) h2
    · next h => exact ⟨fun _ h2 => h (List.length_eq_zero.2 h2), fun _ => rfl⟩
  · intro h
    unfold liveMatches at h
    have hid : db.entities.map (fun e =>
        if e.nameMatches name && e.live then { e with deleted_at := some now } else e) =
        db.entities := by
      rw [List.filter_eq_nil_iff] at h
      conv_rhs => rw [← List.map_id db.entities]
      exact List.map_congr_left (fun e he => by rw [if_neg (h e he)]; rfl)
    unfold SoftDeleteEntity
    simp only [h, hid, List.foldl_nil, List.length_nil, if_true]
  · intro hwf hsame
    exact length_le_one_of_nodup_map (fun e => e.name) _
      (nodup_map_filter _ _ _ hwf.entity_names) hsame

/-- C6, counterexample: in the store reached by upserting `Redis` and then `redis`,
both rows are live, and `SoftDeleteEntity("redis")` stamps the two of them.  And on the
store reached by upserting `Redis` and `Kafka`, soft-deleting `Redis` and hard-deleting it,
where the totals of the entity index are one document short, `SoftDeleteEntity("Kafka")`
returns the error of the engine although the live row `Kafka` matches. -/
theorem SoftDeleteEntity_effect_counterexample :
    (Store.run asciiTokens Store.empty [Op.upsertEntity 1 "Redis" "system" [],
        Op.upsertEntity 2 "redis" "cache" []]).db.entities.map
          (fun e => (e.name, e.deleted_at)) = [("Redis", none), ("redis", none)] ∧
      (Store.SoftDeleteEntity asciiTokens (Store.run asciiTokens Store.empty
        [Op.upsertEntity 1 "Redis" "system" [], Op.upsertEntity 2 "redis" "cache" []])
          3 "redis").1 = .ok () ∧
      (Store.SoftDeleteEntity asciiTokens (Store.run asciiTokens Store.empty
        [Op.upsertEntity 1 "Redis" "system" [], Op.upsertEntity 2 "redis" "cache" []])
          3 "redis").2.db.entities.map
          (fun e => (e.name, e.deleted_at)) = [("Redis", some 3), ("redis", some 3)] ∧
      liveMatches (Store.run asciiTokens Store.empty
          [Op.upsertEntity 1 "Redis" "system" [], Op.upsertEntity 2 "Kafka" "system" [],
            Op.softDeleteEntity 3 "Redis", Op.hardDeleteEntity "Redis"]).db "Kafka" =
        [EntityRow.mk 2 "Kafka" "system" [] 2 2 none 0 none] ∧
      Store.SoftDeleteEntity asciiTokens (Store.run asciiTokens Store.empty
          [Op.upsertEntity 1 "Redis" "system" [], Op.upsertEntity 2 "Kafka" "system" [],
            Op.softDeleteEntity 3 "Redis", Op.hardDeleteEntity "Redis"])
          5 "Kafka" =
        (.error "database disk image is malformed (267)",
          (Store.run asciiTokens Store.empty
            [Op.upsertEntity 1 "Redis" "system" [], Op.upsertEntity 2 "Kafka" "system" [],
              Op.softDeleteEntity 3 "Redis", Op.hardDeleteEntity "Redis"])) := by
  refine ⟨by decide, rfl, by decide, by decide, rfl⟩

/-! ## RetractObservation -/

/-- The listing of an entity after the rows of content `c` of that entity are deleted. -/
theorem ListObservationsByEntityID_delete (db db1 : DB) (e : Nat) (c : String)
    (h : db1.observations =
      db.observations.filter (fun o => !decide (o.entity_id = e ∧ o.content = c))) :
    ListObservationsByEntityID db1 e =
      (ListObservationsByEntityID db e).filter (fun x => !decide (x = c)) := by
  unfold ListObservationsByEntityID
  have h1 : (db.observations.filter
        (fun o => !decide (o.entity_id = e ∧ o.content = c))).filter
        (fun o => decide (o.entity_id = e)) =
      (db.observations.filter (fun o => decide (o.entity_id = e))).filter
        (fun o => !decide (o.content = c)) := by
    rw [List.filter_filter, List.filter_filter]
    refine List.filter_congr (fun o _ => ?_)
    by_cases h1 : o.entity_id = e <;> by_cases h2 : o.content = c <;> simp [h1, h2]
  rw [h, h1, ← orderBy_filter obsOrder obsOrder_total obsOrder_trans, List.filter_map]
  rfl

/-- C7 (as amended): `RetractObservation(name, c)` resolves `name` to the first live row
whose name equals it up to ASCII case.  When that entity has an observation with exactly
the content `c`, the call returns its previous ordered observation list with `c` removed
and the relative order of the others kept, and that is its list afterwards; when no live
entity matches `name`, or `c` is not among the observations of the entity `name` resolves
to, the call returns an error and leaves the store unchanged. -/
theorem RetractObservation_effect (db : DB) (name c : String) :
    (∀ e, db.entities.find? (fun e => e.nameMatches name && e.live) = some e →
        c ∈ ListObservationsByEntityID db e.id →
        (RetractObservation db name c).1 =
            .ok ((ListObservationsByEntityID db e.id).filter (fun x => !decide (x = c))) ∧
          ListObservationsByEntityID (RetractObservation db name c).2 e.id =
            (ListObservationsByEntityID db e.id).filter (fun x => !decide (x = c)) ∧
          (RetractObservation db name c).2.entities = db.entities) ∧
      (db.entities.find? (fun e => e.nameMatches name && e.live) = none →
        (∃ msg, (RetractObservation db name c).1 = .error msg) ∧
          (RetractObservation db name c).2 = db) ∧
      (∀ e, db.entities.find? (fun e => e.nameMatches name && e.live) = some e →
        c ∉ ListObservationsByEntityID db e.id →
        (∃ msg, (RetractObservation db name c).1 = .error msg) ∧
          (RetractObservation db name c).2 = db) := by
  refine ⟨?_, ?_, ?_⟩
  · intro e hfind hc
    obtain ⟨o, ho, hoe, hoc⟩ := mem_ListObservationsByEntityID.1 hc
    have hlen : ¬ (db.observations.filter
        (fun o => decide (o.entity_id = e.id ∧ o.content = c))).length = 0 := by
      intro h0
      have := List.length_eq_zero.1 h0
      rw [List.filter_eq_nil_iff] at this
      exact this o ho (by simp [hoe, hoc])
    unfold RetractObservation
    simp only [hfind, if_neg hlen]
    exact ⟨by rw [ListObservationsByEntityID_delete db _ e.id c rfl],
      ListObservationsByEntityID_delete db _ e.id c rfl, trivial⟩
  · intro hfind
    unfold RetractObservation
    simp only [hfind]
    exact ⟨⟨_, rfl⟩, trivial⟩
  · intro e hfind hc
    have hnone : ∀ o ∈ db.observations, ¬ (o.entity_id = e.id ∧ o.content = c) :=
      fun o ho h => hc (mem_ListObservationsByEntityID.2 ⟨o, ho, h.1, h.2⟩)
    have h0 : db.observations.filter
        (fun o => decide (o.entity_id = e.id ∧ o.content = c)) = [] := by
      rw [List.filter_eq_nil_iff]
      intro o ho
      simpa using hnone o ho
    have hall : db.observations.filter
        (fun o => !decide (o.entity_id = e.id ∧ o.content = c)) = db.observations :=
      List.filter_eq_self.2 (fun o ho => by
        have := hnone o ho
        simp only [Bool.not_eq_true', decide_eq_false_iff_not]
        exact this)
    unfold RetractObservation
    simp only [hfind, h0, hall, List.length_nil, if_true, observations_fts_delete,
      List.foldl_nil]
    exact ⟨⟨_, rfl⟩, trivial⟩

/-- C7, counterexample: with the live entities `Redis` (id 1, no observation) and `redis`
(id 2, observation `Port 6379`), `RetractObservation("redis", "Port 6379")` resolves the
name to `Redis` and returns an error, although the live entity `redis` has that
observation. -/
theorem RetractObservation_effect_counterexample :
    (run DB.empty [Op.upsertEntity 1 "Redis" "system" [], Op.upsertEntity 2 "redis" "cache" [],
        Op.addObservation 3 2 "Port 6379"]).entities.map (fun e => (e.id, e.name, e.live)) =
          [(1, "Redis", true), (2, "redis", true)] ∧
      ListObservationsByEntityID
        (run DB.empty [Op.upsertEntity 1 "Redis" "system" [],
          Op.upsertEntity 2 "redis" "cache" [], Op.addObservation 3 2 "Port 6379"]) 2 =
          ["Port 6379"] ∧
      (RetractObservation
        (run DB.empty [Op.upsertEntity 1 "Redis" "system" [],
          Op.upsertEntity 2 "redis" "cache" [], Op.addObservation 3 2 "Port 6379"])
        "redis" "Port 6379").1 = .error "observation not found in entity \"redis\"" := by
  refine ⟨by decide, by decide, rfl⟩

/-! ## ensureEntity and UpsertRelation -/

/-- `ensureEntity` on a name that has a row: nothing is written, the id of that row is
returned. -/
theorem ensureEntity_of_find {db : DB} {n : String} {e : EntityRow} (now : Nat)
    (h : db.entities.find? (fun e => decide (e.name = n)) = some e) :
    ensureEntity db now n = (.ok e.id, { db with seq_entities := db.seq_entities + 1 }) := by
  unfold ensureEntity
  simp only [h]

/-- `ensureEntity` always succeeds; it appends at most one row, a live `concept` without
tags and only when the name has no row, and returns the id of the row of that name. -/
theorem ensureEntity_spec (db : DB) (now : Nat) (n : String) :
    ∃ (e : EntityRow) (added : List EntityRow),
      ensureEntity db now n =
        (.ok e.id, { db with entities := db.entities ++ added,
                             entities_fts := db.entities_fts ++ added.map EntityRow.doc,
                             seq_entities := db.seq_entities + 1 }) ∧
      (db.entities ++ added).find? (fun e => decide (e.name = n)) = some e ∧
      ((added = [] ∧ ∃ r ∈ db.entities, r.name = n) ∨
        (added = [EntityRow.mk (db.seq_entities + 1) n "concept" [] now now none 0 none] ∧
          ∀ r ∈ db.entities, r.name ≠ n)) := by
  cases hf : db.entities.find? (fun e => decide (e.name = n)) with
  | some old =>
    refine ⟨old, [], ?_, by simpa using hf, Or.inl ⟨rfl, old, List.mem_of_find?_eq_some hf, ?_⟩⟩
    · rw [ensureEntity_of_find now hf]
      simp
    · simpa using List.find?_some hf
  | none =>
    refine ⟨EntityRow.mk (db.seq_entities + 1) n "concept" [] now now none 0 none,
      [EntityRow.mk (db.seq_entities + 1) n "concept" [] now now none 0 none], ?_, ?_,
      Or.inr ⟨rfl, ?_⟩⟩
    · unfold ensureEntity
      simp only [hf, List.find?_append, Option.none_or, List.map_cons, List.map_nil]
      simp
    · simp [List.find?_append, hf]
    · rw [List.find?_eq_none] at hf
      intro r hr
      simpa using hf r hr

/-- `UpsertRelation` on ids that have entity rows succeeds, writes to `relations` only,
and leaves exactly one more row when the triple is new. -/
theorem UpsertRelation_spec (db : DB) (now f t : Nat) (rel : String)
    (hf : ∃ e ∈ db.entities, e.id = f) (ht : ∃ e ∈ db.entities, e.id = t) :
    ∃ added : List RelationRow,
      UpsertRelation db now f t rel =
        (.ok (), { db with relations := db.relations ++ added,
                           seq_relations := db.seq_relations + 1 }) ∧
      ((added = [] ∧ ∃ r ∈ db.relations, r.from_id = f ∧ r.to_id = t ∧ r.relation = rel) ∨
        (added = [RelationRow.mk (db.seq_relations + 1) f t rel now] ∧
          ∀ r ∈ db.relations, ¬ (r.from_id = f ∧ r.to_id = t ∧ r.relation = rel))) := by
  by_cases hany : db.relations.any
      (fun r => decide (r.from_id = f ∧ r.to_id = t ∧ r.relation = rel)) = true
  · refine ⟨[], ?_, Or.inl ⟨rfl, ?_⟩⟩
    · unfold UpsertRelation
      rw [if_pos hany]
      simp
    · obtain ⟨r, hr, hk⟩ := List.any_eq_true.1 hany
      exact ⟨r, hr, by simpa using hk⟩
  · refine ⟨[RelationRow.mk (db.seq_relations + 1) f t rel now], ?_, Or.inr ⟨rfl, ?_⟩⟩
    · have hfk : (db.entities.any (fun e => decide (e.id = f)) &&
          db.entities.any (fun e => decide (e.id = t))) = true := by
        obtain ⟨a, ha, haf⟩ := hf
        obtain ⟨b, hb, hbt⟩ := ht
        rw [Bool.and_eq_true]
        exact ⟨List.any_eq_true.2 ⟨a, ha, by simp [haf]⟩,
          List.any_eq_true.2 ⟨b, hb, by simp [hbt]⟩⟩
      unfold UpsertRelation
      rw [if_neg hany, if_pos hfk]
    · intro r hr hk
      exact hany (List.any_eq_true.2 ⟨r, hr, by simpa using hk⟩)

/-- `UpsertRelationByName` always succeeds: it appends the endpoint rows that are missing
and at most one relation row. -/
theorem UpsertRelationByName_spec (db : DB) (t1 t2 t3 : Nat) (f t rel : String) :
    ∃ (fe te : EntityRow) (added : List EntityRow) (edge : List RelationRow),
      UpsertRelationByName db t1 t2 t3 f t rel =
        (.ok (), { db with entities := db.entities ++ added,
                           entities_fts := db.entities_fts ++ added.map EntityRow.doc,
                           relations := db.relations ++ edge,
                           seq_entities := db.seq_entities + 2,
                           seq_relations := db.seq_relations + 1 }) ∧
      (db.entities ++ added).find? (fun e => decide (e.name = f)) = some fe ∧
      (db.entities ++ added).find? (fun e => decide (e.name = t)) = some te ∧
      (∀ r ∈ added, r.entity_type = "concept" ∧ r.tags = [] ∧ r.deleted_at = none ∧
        r.access_count = 0 ∧ r.last_accessed = none ∧ db.seq_entities < r.id ∧
        (r.name = f ∨ r.name = t) ∧ ∀ e ∈ db.entities, e.name ≠ r.name) ∧
      ((edge = [] ∧ ∃ r ∈ db.relations,
          r.from_id = fe.id ∧ r.to_id = te.id ∧ r.relation = rel) ∨
        (edge = [RelationRow.mk (db.seq_relations + 1) fe.id te.id rel t3] ∧
          ∀ r ∈ db.relations, ¬ (r.from_id = fe.id ∧ r.to_id = te.id ∧ r.relation = rel))) := by
  obtain ⟨fe, a1, h1, hfind1, hadd1⟩ := ensureEntity_spec db t1 f
  obtain ⟨te, a2, h2, hfind2, hadd2⟩ := ensureEntity_spec
    { db with entities := db.entities ++ a1,
              entities_fts := db.entities_fts ++ a1.map EntityRow.doc,
              seq_entities := db.seq_entities + 1 } t2 t
  simp only at h2 hfind2 hadd2
  have hfe : fe ∈ db.entities ++ a1 := List.mem_of_find?_eq_some hfind1
  have hte : te ∈ (db.entities ++ a1) ++ a2 := List.mem_of_find?_eq_some hfind2
  obtain ⟨edge, h3, hedge⟩ := UpsertRelation_spec
    { db with entities := (db.entities ++ a1) ++ a2,
              entities_fts := (db.entities_fts ++ a1.map EntityRow.doc) ++ a2.map EntityRow.doc,
              seq_entities := db.seq_entities + 1 + 1 } t3 fe.id te.id rel
    ⟨fe, List.mem_append_left _ hfe, rfl⟩ ⟨te, hte, rfl⟩
  simp only at h3 hedge
  refine ⟨fe, te, a1 ++ a2, edge, ?_, ?_, ?_, ?_, hedge⟩
  · unfold UpsertRelationByName
    rw [h1]
    simp only
    rw [h2]
    simp only
    rw [h3]
    simp [List.append_assoc]
  · rw [← List.append_assoc, List.find?_append, hfind1]
    rfl
  · rw [← List.append_assoc]
    exact hfind2
  · intro r hr
    rcases List.mem_append.1 hr with hr | hr
    · rcases hadd1 with ⟨rfl, -⟩ | ⟨rfl, hnew⟩
      · exact absurd hr (by simp)
      · rw [List.mem_singleton.1 hr]
        exact ⟨rfl, rfl, rfl, rfl, rfl, Nat.lt_succ_self _, Or.inl rfl, hnew⟩
    · rcases hadd2 with ⟨rfl, -⟩ | ⟨rfl, hnew⟩
      · exact absurd hr (by simp)
      · rw [List.mem_singleton.1 hr]
        refine ⟨rfl, rfl, rfl, rfl, rfl, ?_, Or.inr rfl, ?_⟩
        · show db.seq_entities < db.seq_entities + 1 + 1
          omega
        · intro e he
          exact hnew e (List.mem_append_left _ he)

/-- C9: `UpsertRelationByName(from, to, type)` leaves every entity row that existed
unchanged, in all its columns, and appends rows only for endpoint names that had no row:
each appended row is a live entity of type `concept` with no tags, and afterwards both
endpoint names have a row. -/
theorem UpsertRelationByName_endpoints (db : DB) (t1 t2 t3 : Nat) (f t rel : String) :
    ∃ added : List EntityRow,
      (UpsertRelationByName db t1 t2 t3 f t rel).2.entities = db.entities ++ added ∧
      (∀ r ∈ added, r.entity_type = "concept" ∧ r.tags = [] ∧ r.live = true ∧
        (r.name = f ∨ r.name = t) ∧ ∀ e ∈ db.entities, e.name ≠ r.name) ∧
      ((∀ e ∈ db.entities, e.name ≠ f) → ∃ r ∈ added, r.name = f) ∧
      ((∀ e ∈ db.entities, e.name ≠ t) → ∃ r ∈ added, r.name = t) ∧
      (∃ r ∈ (UpsertRelationByName db t1 t2 t3 f t rel).2.entities, r.name = f) ∧
      (∃ r ∈ (UpsertRelationByName db t1 t2 t3 f t rel).2.entities, r.name = t) := by
  obtain ⟨fe, te, added, edge, heq, hfe, hte, hadd, -⟩ :=
    UpsertRelationByName_spec db t1 t2 t3 f t rel
  have hfe1 := List.mem_of_find?_eq_some hfe
  have hte1 := List.mem_of_find?_eq_some hte
  have hfn : fe.name = f := by simpa using List.find?_some hfe
  have htn : te.name = t := by simpa using List.find?_some hte
  refine ⟨added, by rw [heq], ?_, ?_, ?_, ?_, ?_⟩
  · intro r hr
    obtain ⟨h1, h2, h3, -, -, -, h4, h5⟩ := hadd r hr
    exact ⟨h1, h2, by simp [EntityRow.live, h3], h4, h5⟩
  · intro hno
    rcases List.mem_append.1 hfe1 with h | h
    · exact absurd hfn (hno fe h)
    · exact ⟨fe, h, hfn⟩
  · intro hno
    rcases List.mem_append.1 hte1 with h | h
    · exact absurd htn (hno te h)
    · exact ⟨te, h, htn⟩
  · rw [heq]; exact ⟨fe, hfe1, hfn⟩
  · rw [heq]; exact ⟨te, hte1, htn⟩

/-! ## The join of relations with their endpoints -/

theorem mem_joinRelations {db : DB} {r : RelationRow} {fe te : EntityRow} :
    (r, fe, te) ∈ joinRelations db ↔
      r ∈ db.relations ∧ fe ∈ db.entities ∧ te ∈ db.entities ∧ r.from_id = fe.id ∧
        r.to_id = te.id := by
  unfold joinRelations
  simp only [List.mem_flatMap, List.mem_filter, List.mem_map, decide_eq_true_eq,
    Prod.mk.injEq]
  constructor
  · rintro ⟨r2, hr2, fe2, ⟨hfe2, hf⟩, te2, ⟨hte2, ht⟩, rfl, rfl, rfl⟩
    exact ⟨hr2, hfe2, hte2, hf, ht⟩
  · rintro ⟨hr, hfe, hte, hf, ht⟩
    exact ⟨r, hr, fe, ⟨hfe, hf⟩, te, ⟨hte, ht⟩, rfl, rfl, rfl⟩

theorem eq_nil_or_singleton_of_length_le_one {α : Type} (l : List α) (h : l.length ≤ 1) :
    l = [] ∨ ∃ a, l = [a] := by
  match l, h with
  | [], _ => exact Or.inl rfl
  | [a], _ => exact Or.inr ⟨a, rfl⟩
  | _ :: _ :: _, h => simp at h

/-- PRIMARY KEY: at most one entity row has a given id. -/
theorem DB.WF.filter_id_length {db : DB} (hwf : db.WF) (i : Nat) :
    (db.entities.filter (fun e => decide (i = e.id))).length ≤ 1 := by
  refine length_le_one_of_nodup_map (fun e => e.id) _
    (nodup_map_filter _ _ _ hwf.entity_ids) ?_
  intro a ha b hb
  have h1 : i = a.id := by simpa using (List.mem_filter.1 ha).2
  have h2 : i = b.id := by simpa using (List.mem_filter.1 hb).2
  exact h1.symm.trans h2

/-- Each relation row joins with at most one pair of endpoint rows. -/
theorem joinRelations_sublist {db : DB} (hwf : db.WF) :
    ((joinRelations db).map (fun x => x.1)).Sublist db.relations := by
  unfold joinRelations
  generalize db.relations = rels
  induction rels with
  | nil => simp
  | cons r rels ih =>
    rw [List.flatMap_cons, List.map_append]
    have h1 : (((db.entities.filter (fun fe => decide (r.from_id = fe.id))).flatMap (fun fe =>
        (db.entities.filter (fun te => decide (r.to_id = te.id))).map
          (fun te => (r, fe, te)))).map (fun x => x.1)).Sublist [r] := by
      rcases eq_nil_or_singleton_of_length_le_one _ (hwf.filter_id_length r.from_id)
        with h | ⟨a, h⟩ <;>
      rcases eq_nil_or_singleton_of_length_le_one _ (hwf.filter_id_length r.to_id)
        with h2 | ⟨b, h2⟩ <;> simp [h, h2]
    exact h1.append ih

/-! ## ListRelationsByEntity -/

theorem mem_ListRelationsByEntity {db : DB} {name : String} {x : Relation} :
    x ∈ ListRelationsByEntity db name ↔
      ∃ r ∈ db.relations, ∃ fe ∈ db.entities, ∃ te ∈ db.entities,
        r.from_id = fe.id ∧ r.to_id = te.id ∧
        (fe.nameMatches name = true ∨ te.nameMatches name = true) ∧
        fe.live = true ∧ te.live = true ∧
        x = { ID := r.id, FromID := r.from_id, FromName := fe.name, ToID := r.to_id,
              ToName := te.name, Relation := r.relation, CreatedAt := r.created_at } := by
  unfold ListRelationsByEntity
  simp only [List.mem_map, mem_orderBy, List.mem_filter, Bool.and_eq_true, Bool.or_eq_true]
  constructor
  · rintro ⟨⟨r, fe, te⟩, ⟨hj, ⟨hm, hl1⟩, hl2⟩, rfl⟩
    obtain ⟨hr, hfe, hte, hf, ht⟩ := mem_joinRelations.1 hj
    exact ⟨r, hr, fe, hfe, te, hte, hf, ht, hm, hl1, hl2, rfl⟩
  · rintro ⟨r, hr, fe, hfe, te, hte, hf, ht, hm, hl1, hl2, rfl⟩
    exact ⟨(r, fe, te), ⟨mem_joinRelations.2 ⟨hr, hfe, hte, hf, ht⟩, ⟨hm, hl1⟩, hl2⟩, rfl⟩

/-- The edges come out in ascending order of creation time. -/
theorem ListRelationsByEntity_sorted (db : DB) (name : String) :
    (ListRelationsByEntity db name).Pairwise (fun a b => a.CreatedAt ≤ b.CreatedAt) := by
  unfold ListRelationsByEntity
  rw [List.pairwise_map]
  refine (orderBy_sorted _ (fun a b => ?_) (fun a b c h1 h2 => ?_) _).imp (fun h => ?_)
  · rcases Nat.le_total a.1.created_at b.1.created_at with h | h
    · exact Or.inl (by simpa using h)
    · exact Or.inr (by simpa using h)
  · simp only [decide_eq_true_eq] at h1 h2 ⊢
    omega
  · simpa using h

/-- Each relation row is listed at most once. -/
theorem ListRelationsByEntity_nodup {db : DB} (hwf : db.WF) (name : String) :
    ((ListRelationsByEntity db name).map (fun x => x.ID)).Nodup := by
  unfold ListRelationsByEntity
  rw [List.map_map]
  have hj : ((joinRelations db).map (fun x => x.1.id)).Nodup := by
    have := (joinRelations_sublist hwf).map (fun r : RelationRow => r.id)
    rw [List.map_map] at this
    exact hwf.relation_ids.sublist this
  refine ((orderBy_perm _ _).map _).nodup_iff.2 ?_
  exact hj.sublist ((List.filter_sublist _).map _)

theorem ListRelationsByEntity_congr {a b : DB} (h1 : a.entities = b.entities)
    (h2 : a.relations = b.relations) (name : String) :
    ListRelationsByEntity a name = ListRelationsByEntity b name := by
  unfold ListRelationsByEntity joinRelations
  rw [h1, h2]

/-- UNIQUE(from_id, to_id, relation) and UNIQUE(name): an edge between two named
entities is listed at most once. -/
theorem ListRelationsByEntity_edge_once {db : DB} (hwf : db.WF) (name f t rel : String) :
    ((ListRelationsByEntity db name).filter
      (fun x => decide (x.FromName = f ∧ x.ToName = t ∧ x.Relation = rel))).length ≤ 1 := by
  refine length_le_one_of_nodup_map (fun x => x.ID) _
    (nodup_map_filter _ _ _ (ListRelationsByEntity_nodup hwf name)) ?_
  intro a ha b hb
  obtain ⟨ha1, ha2⟩ := List.mem_filter.1 ha
  obtain ⟨hb1, hb2⟩ := List.mem_filter.1 hb
  simp only [decide_eq_true_eq] at ha2 hb2
  obtain ⟨r, hr, fe, hfe, te, hte, hf, ht, -, -, -, rfl⟩ := mem_ListRelationsByEntity.1 ha1
  obtain ⟨r2, hr2, fe2, hfe2, te2, hte2, hf2, ht2, -, -, -, rfl⟩ :=
    mem_ListRelationsByEntity.1 hb1
  simp only at ha2 hb2 ⊢
  have e1 : fe = fe2 := hwf.entity_eq_of_name hfe hfe2 (ha2.1.trans hb2.1.symm)
  have e2 : te = te2 := hwf.entity_eq_of_name hte hte2 (ha2.2.1.trans hb2.2.1.symm)
  have hk : (r.from_id, r.to_id, r.relation) = (r2.from_id, r2.to_id, r2.relation) := by
    rw [hf, ht, hf2, ht2, e1, e2, ha2.2.2, hb2.2.2]
  rw [List.inj_on_of_nodup_map hwf.relation_keys hr hr2 hk]

/-- Two calls of `UpsertRelationByName` with one triple.  For every store and every triple
the call succeeds, a second call with the same triple succeeds too and leaves every table
and index exactly as the first call left them (of the whole database state only the
rowid counters of `entities` and `relations` advance, by the rowids the ignored inserts
drew), so that `ListRelationsByEntity` returns the same list; in that list the edge
occurs at most once, and it occurs when both endpoints are live and one of them matches
the name asked for. -/
theorem UpsertRelationByName_twice (db : DB) (t1 t2 t3 u1 u2 u3 : Nat)
    (f t rel : String) :
    (UpsertRelationByName db t1 t2 t3 f t rel).1 = .ok () ∧
      (UpsertRelationByName (UpsertRelationByName db t1 t2 t3 f t rel).2 u1 u2 u3 f t rel).1 =
        .ok () ∧
      (UpsertRelationByName (UpsertRelationByName db t1 t2 t3 f t rel).2 u1 u2 u3 f t
          rel).2.contents = (UpsertRelationByName db t1 t2 t3 f t rel).2.contents ∧
      (UpsertRelationByName (UpsertRelationByName db t1 t2 t3 f t rel).2 u1 u2 u3 f t rel).2 =
        { (UpsertRelationByName db t1 t2 t3 f t rel).2 with
          seq_entities := (UpsertRelationByName db t1 t2 t3 f t rel).2.seq_entities + 2,
          seq_relations := (UpsertRelationByName db t1 t2 t3 f t rel).2.seq_relations + 1 } ∧
      (∀ n, ListRelationsByEntity
          (UpsertRelationByName (UpsertRelationByName db t1 t2 t3 f t rel).2 u1 u2 u3 f t
            rel).2 n =
        ListRelationsByEntity (UpsertRelationByName db t1 t2 t3 f t rel).2 n) ∧
      (db.WF → ∀ n, ((ListRelationsByEntity
          (UpsertRelationByName (UpsertRelationByName db t1 t2 t3 f t rel).2 u1 u2 u3 f t
            rel).2 n).filter
          (fun x => decide (x.FromName = f ∧ x.ToName = t ∧ x.Relation = rel))).length ≤ 1) ∧
      (∀ n, ∀ fe ∈ (UpsertRelationByName db t1 t2 t3 f t rel).2.entities,
        ∀ te ∈ (UpsertRelationByName db t1 t2 t3 f t rel).2.entities,
        fe.name = f → te.name = t → fe.live = true → te.live = true →
        (fe.nameMatches n = true ∨ te.nameMatches n = true) → db.WF →
        ∃ x ∈ ListRelationsByEntity
            (UpsertRelationByName (UpsertRelationByName db t1 t2 t3 f t rel).2 u1 u2 u3 f t
              rel).2 n,
          x.FromName = f ∧ x.ToName = t ∧ x.Relation = rel) := by
  obtain ⟨fe, te, added, edge, heq, hfe, hte, -, hedge⟩ :=
    UpsertRelationByName_spec db t1 t2 t3 f t rel
  have hfe1 := List.mem_of_find?_eq_some hfe
  have hte1 := List.mem_of_find?_eq_some hte
  have hfn : fe.name = f := by simpa using List.find?_some hfe
  have htn : te.name = t := by simpa using List.find?_some hte
  have hrow : ∃ r ∈ db.relations ++ edge,
      r.from_id = fe.id ∧ r.to_id = te.id ∧ r.relation = rel := by
    rcases hedge with ⟨-, r, hr, hk⟩ | ⟨rfl, -⟩
    · exact ⟨r, List.mem_append_left _ hr, hk⟩
    · exact ⟨_, List.mem_append_right _ (List.mem_singleton.2 rfl), rfl, rfl, rfl⟩
  obtain ⟨fe2, te2, added2, edge2, heq2, hfe2, hte2, hadd2, hedge2⟩ :=
    UpsertRelationByName_spec (UpsertRelationByName db t1 t2 t3 f t rel).2 u1 u2 u3 f t rel
  rw [heq] at heq2 hfe2 hte2 hadd2 hedge2
  simp only at heq2 hfe2 hte2 hadd2 hedge2
  have hnil : added2 = [] := by
    rw [List.eq_nil_iff_forall_not_mem]
    intro r hr
    obtain ⟨-, -, -, -, -, -, hname, hnew⟩ := hadd2 r hr
    rcases hname with h | h
    · exact hnew fe hfe1 (hfn.trans h.symm)
    · exact hnew te hte1 (htn.trans h.symm)
  subst hnil
  rw [List.append_nil] at hfe2 hte2
  have hfe3 : fe = fe2 := by rw [hfe] at hfe2; exact Option.some.inj hfe2
  have hte3 : te = te2 := by rw [hte] at hte2; exact Option.some.inj hte2
  subst hfe3 hte3
  have hnil2 : edge2 = [] := by
    rcases hedge2 with ⟨h, -⟩ | ⟨-, hnone⟩
    · exact h
    · obtain ⟨r, hr, hk⟩ := hrow
      exact absurd hk (hnone r hr)
  subst hnil2
  have hcont : (UpsertRelationByName (UpsertRelationByName db t1 t2 t3 f t rel).2 u1 u2 u3 f t
      rel).2.contents = (UpsertRelationByName db t1 t2 t3 f t rel).2.contents := by
    rw [heq]
    simp only
    rw [heq2]
    simp [DB.contents]
  have hlist : ∀ n, ListRelationsByEntity
      (UpsertRelationByName (UpsertRelationByName db t1 t2 t3 f t rel).2 u1 u2 u3 f t rel).2 n =
      ListRelationsByEntity (UpsertRelationByName db t1 t2 t3 f t rel).2 n :=
    fun n => ListRelationsByEntity_congr (congrArg Contents.entities hcont)
      (congrArg Contents.relations hcont) n
  refine ⟨by rw [heq], ?_, hcont, ?_, hlist, ?_, ?_⟩
  · rw [heq]
    simp only
    rw [heq2]
  · rw [heq]
    simp only
    rw [heq2]
    simp
  · intro hwf n
    exact ListRelationsByEntity_edge_once
      (UpsertRelationByName_WF (UpsertRelationByName_WF hwf t1 t2 t3 f t rel) u1 u2 u3 f t rel)
      n f t rel
  · intro n a ha b hb han hbn hal hbl hm hwf
    rw [hlist n]
    have hwf1 := UpsertRelationByName_WF hwf t1 t2 t3 f t rel
    rw [heq] at ha hb hwf1 ⊢
    simp only at ha hb hwf1 ⊢
    have ea : fe = a := hwf1.entity_eq_of_name hfe1 ha (hfn.trans han.symm)
    have eb : te = b := hwf1.entity_eq_of_name hte1 hb (htn.trans hbn.symm)
    subst ea eb
    obtain ⟨r, hr, hk1, hk2, hk3⟩ := hrow
    exact ⟨_, mem_ListRelationsByEntity.2
      ⟨r, hr, fe, ha, te, hb, hk1, hk2, hm, hal, hbl, rfl⟩, han, hbn, hk3⟩

/-- The listing of `TestRelation_UpsertAndList`: after the two calls on the empty store
`ListRelationsByEntity("Redis")` holds the one edge. -/
theorem UpsertRelationByName_twice_test :
    ListRelationsByEntity
        (UpsertRelationByName (UpsertRelationByName DB.empty 1 1 1 "Redis" "Gateway" "used-by").2
          2 2 2 "Redis" "Gateway" "used-by").2 "Redis" =
      [{ ID := 1, FromID := 1, FromName := "Redis", ToID := 2, ToName := "Gateway",
         Relation := "used-by", CreatedAt := 1 }] := by
  decide

/-! ## Hiding and restoring the endpoints of an edge -/

/-- The upsert statement leaves the rows of other names as they are. -/
theorem upsertEntityRow_other {db : DB} (hwf : db.WF) (now : Nat) (n ty : String)
    (tags : List String) {e : EntityRow} (he : e ∈ db.entities) (hen : e.name ≠ n) :
    e ∈ (upsertEntityRow db now n ty tags).entities := by
  unfold upsertEntityRow
  split
  · exact List.mem_append_left _ he
  · next old hsome =>
    have hold := List.mem_of_find?_eq_some hsome
    have hname : old.name = n := by simpa using List.find?_some hsome
    refine List.mem_map.2 ⟨e, he, ?_⟩
    have hid : ¬ e.id = old.id := fun h => hen (by rw [hwf.entity_eq_of_id he hold h, hname])
    rw [if_neg hid]

/-- A valid `UpsertEntity` keeps every entity row, up to the columns it rewrites: the row
of the upserted name is live afterwards, a live row stays live, and `relations` is
untouched. -/
theorem UpsertEntity_rows {db : DB} (hwf : db.WF) (now : Nat) (n ty : String)
    (tags : List String) (hn0 : 0 < n.utf8ByteSize) (hn1 : n.utf8ByteSize ≤ 1024)
    (ht : ty.utf8ByteSize ≤ 256) :
    (UpsertEntity db now n ty tags).2.relations = db.relations ∧
      ∀ e ∈ db.entities, ∃ e2 ∈ (UpsertEntity db now n ty tags).2.entities,
        e2.id = e.id ∧ e2.name = e.name ∧ (e.live = true → e2.live = true) ∧
        (e.name = n → e2.live = true) := by
  rw [UpsertEntity_valid db now n ty tags hn0 hn1 ht]
  refine ⟨(upsertEntityRow_observations db now n ty tags).2.1, fun e he => ?_⟩
  by_cases hen : e.name = n
  · subst hen
    refine ⟨_, (UpsertEntity_of_mem hwf now he ty tags hn0 hn1 ht).2.2, rfl, rfl,
      fun _ => rfl, fun _ => rfl⟩
  · exact ⟨e, upsertEntityRow_other hwf now n ty tags he hen, rfl, rfl, id,
      fun h => absurd h hen⟩

/-- `SoftDeleteEntity` keeps every entity row, with its id and name, and leaves
`relations` untouched. -/
theorem SoftDeleteEntity_rows (db : DB) (now : Nat) (n : String) :
    (SoftDeleteEntity db now n).2.relations = db.relations ∧
      (∀ e ∈ db.entities, ∃ e2 ∈ (SoftDeleteEntity db now n).2.entities,
        e2.id = e.id ∧ e2.name = e.name) ∧
      ∀ e2 ∈ (SoftDeleteEntity db now n).2.entities, ∃ e ∈ db.entities,
        e2.id = e.id ∧ e2.name = e.name := by
  have key : (∀ e ∈ db.entities, ∃ e2 ∈ db.entities.map (fun e =>
        if e.nameMatches n && e.live then { e with deleted_at := some now } else e),
        e2.id = e.id ∧ e2.name = e.name) ∧
      ∀ e2 ∈ db.entities.map (fun e =>
        if e.nameMatches n && e.live then { e with deleted_at := some now } else e),
        ∃ e ∈ db.entities, e2.id = e.id ∧ e2.name = e.name := by
    constructor
    · intro e he
      refine ⟨_, List.mem_map_of_mem _ he, ?_, ?_⟩ <;> split <;> rfl
    · intro e2 he2
      obtain ⟨e, he, rfl⟩ := List.mem_map.1 he2
      refine ⟨e, he, ?_, ?_⟩ <;> split <;> rfl
  unfold SoftDeleteEntity
  simp only
  split <;> exact ⟨rfl, key.1, key.2⟩

/-- C10: `ListRelationsByEntity(name)` returns exactly the relation rows that have an
endpoint whose name equals `name` up to ASCII case and whose two endpoints are both live,
each once, in ascending order of edge creation time.  Soft-deleting an endpoint leaves
the relation rows in place and hides the edge from every listing; once both endpoints
have been upserted again the edge is listed as before. -/
theorem ListRelationsByEntity_spec (db : DB) (hwf : db.WF) (name : String) :
    (∀ x, x ∈ ListRelationsByEntity db name ↔
        ∃ r ∈ db.relations, ∃ fe ∈ db.entities, ∃ te ∈ db.entities,
          r.from_id = fe.id ∧ r.to_id = te.id ∧
          (fe.nameMatches name = true ∨ te.nameMatches name = true) ∧
          fe.live = true ∧ te.live = true ∧
          x = { ID := r.id, FromID := r.from_id, FromName := fe.name, ToID := r.to_id,
                ToName := te.name, Relation := r.relation, CreatedAt := r.created_at }) ∧
      (ListRelationsByEntity db name).Pairwise (fun a b => a.CreatedAt ≤ b.CreatedAt) ∧
      ((ListRelationsByEntity db name).map (fun x => x.ID)).Nodup ∧
      (∀ x ∈ ListRelationsByEntity db name, ∀ (now : Nat) (n2 : String),
        (sqlLower x.FromName = sqlLower n2 ∨ sqlLower x.ToName = sqlLower n2) →
        (SoftDeleteEntity db now n2).2.relations = db.relations ∧
          ∀ m, ∀ y ∈ ListRelationsByEntity (SoftDeleteEntity db now n2).2 m, y.ID ≠ x.ID) ∧
      (∀ x ∈ ListRelationsByEntity db name,
        ∀ (now now2 now3 : Nat) (n2 ty1 ty2 : String) (tg1 tg2 : List String),
        0 < x.FromName.utf8ByteSize → x.FromName.utf8ByteSize ≤ 1024 →
        0 < x.ToName.utf8ByteSize → x.ToName.utf8ByteSize ≤ 1024 →
        ty1.utf8ByteSize ≤ 256 → ty2.utf8ByteSize ≤ 256 →
        x ∈ ListRelationsByEntity
          (UpsertEntity (UpsertEntity (SoftDeleteEntity db now n2).2 now2 x.FromName ty1 tg1).2
            now3 x.ToName ty2 tg2).2 name) := by
  refine ⟨fun x => mem_ListRelationsByEntity, ListRelationsByEntity_sorted db name,
    ListRelationsByEntity_nodup hwf name, ?_, ?_⟩
  · intro x hx now n2 hm
    obtain ⟨r, hr, fe, hfe, te, hte, hf, ht, -, -, -, rfl⟩ := mem_ListRelationsByEntity.1 hx
    obtain ⟨hrel, -, hback⟩ := SoftDeleteEntity_rows db now n2
    obtain ⟨-, hdead, -⟩ := SoftDeleteEntity_stamped hwf now n2
    refine ⟨hrel, fun m y hy hid => ?_⟩
    obtain ⟨r2, hr2, fe2, hfe2, te2, hte2, hf2, ht2, -, hl1, hl2, rfl⟩ :=
      mem_ListRelationsByEntity.1 hy
    rw [hrel] at hr2
    simp only at hid hm
    have hrr : r2 = r := List.inj_on_of_nodup_map hwf.relation_ids hr2 hr hid
    subst hrr
    obtain ⟨a, ha, ha1, ha2⟩ := hback fe2 hfe2
    obtain ⟨b, hb, hb1, hb2⟩ := hback te2 hte2
    have hafe : a = fe := hwf.entity_eq_of_id ha hfe (by rw [← ha1, ← hf2, hf])
    have hbte : b = te := hwf.entity_eq_of_id hb hte (by rw [← hb1, ← ht2, ht])
    rcases hm with hm | hm
    · have := hdead fe2 hfe2 (by simp [EntityRow.nameMatches, ha2, hafe, hm])
      rw [this] at hl1
      exact absurd hl1 (by simp)
    · have := hdead te2 hte2 (by simp [EntityRow.nameMatches, hb2, hbte, hm])
      rw [this] at hl2
      exact absurd hl2 (by simp)
  · intro x hx now now2 now3 n2 ty1 ty2 tg1 tg2 hf0 hf1 ht0 ht1 hty1 hty2
    obtain ⟨r, hr, fe, hfe, te, hte, hf, ht, hmatch, -, -, rfl⟩ :=
      mem_ListRelationsByEntity.1 hx
    simp only at hf0 hf1 ht0 ht1 ⊢
    obtain ⟨hrel1, hfwd1, -⟩ := SoftDeleteEntity_rows db now n2
    have hwf1 := SoftDeleteEntity_WF hwf now n2
    obtain ⟨hrel2, hfwd2⟩ := UpsertEntity_rows hwf1 now2 fe.name ty1 tg1 hf0 hf1 hty1
    have hwf2 := UpsertEntity_WF hwf1 now2 fe.name ty1 tg1
    obtain ⟨hrel3, hfwd3⟩ := UpsertEntity_rows hwf2 now3 te.name ty2 tg2 ht0 ht1 hty2
    obtain ⟨fe1, hfe1, hfe1i, hfe1n⟩ := hfwd1 fe hfe
    obtain ⟨te1, hte1, hte1i, hte1n⟩ := hfwd1 te hte
    obtain ⟨fe2, hfe2, hfe2i, hfe2n, -, hfe2l⟩ := hfwd2 fe1 hfe1
    obtain ⟨te2, hte2, hte2i, hte2n, -, -⟩ := hfwd2 te1 hte1
    obtain ⟨fe3, hfe3, hfe3i, hfe3n, hfe3l, -⟩ := hfwd3 fe2 hfe2
    obtain ⟨te3, hte3, hte3i, hte3n, -, hte3l⟩ := hfwd3 te2 hte2
    have hfi : fe3.id = fe.id := by rw [hfe3i, hfe2i, hfe1i]
    have hti : te3.id = te.id := by rw [hte3i, hte2i, hte1i]
    have hfn : fe3.name = fe.name := by rw [hfe3n, hfe2n, hfe1n]
    have htn : te3.name = te.name := by rw [hte3n, hte2n, hte1n]
    refine mem_ListRelationsByEntity.2 ⟨r, by rw [hrel3, hrel2, hrel1]; exact hr, fe3, hfe3,
      te3, hte3, by rw [hfi]; exact hf, by rw [hti]; exact ht, ?_,
      hfe3l (hfe2l hfe1n), hte3l (by rw [hte2n, hte1n]), by rw [hfn, htn]⟩
    simpa [EntityRow.nameMatches, hfn, htn] using hmatch

/-- Witness of C10: the edge `Redis -[used-by]-> Gateway` is listed, hidden by the
soft-delete of `Gateway`, and listed again after both endpoints are upserted. -/
theorem ListRelationsByEntity_spec_witness :
    (UpsertRelationByName DB.empty 1 1 1 "Redis" "Gateway" "used-by").2.WF ∧
      ListRelationsByEntity (UpsertRelationByName DB.empty 1 1 1 "Redis" "Gateway" "used-by").2
          "redis" =
        [{ ID := 1, FromID := 1, FromName := "Redis", ToID := 2, ToName := "Gateway",
           Relation := "used-by", CreatedAt := 1 }] ∧
      ListRelationsByEntity
          (SoftDeleteEntity (UpsertRelationByName DB.empty 1 1 1 "Redis" "Gateway" "used-by").2
            2 "gateway").2 "redis" = [] ∧
      ((ListRelationsByEntity
          (UpsertRelationByName DB.empty 1 1 1 "Redis" "Gateway" "used-by").2 "redis").map
        (fun x => x.ID)).Nodup :=
  ⟨by decide, by decide, by decide,
    (ListRelationsByEntity_spec
      (UpsertRelationByName DB.empty 1 1 1 "Redis" "Gateway" "used-by").2 (by decide)
      "redis").2.2.1⟩

theorem doubleQuotes_eq_flatMap (cs : List Char) :
    doubleQuotes cs = cs.flatMap (fun c => if c = '"' then ['"', '"'] else [c]) := by
  induction cs with
  | nil => rfl
  | cons c cs ih =>
    unfold doubleQuotes
    by_cases h : c = '"'
    · simp [h, ih, List.flatMap_cons]
    · simp [h, ih, List.flatMap_cons]

/-- C19 (as amended): for every query `q` that is not empty after trimming,
`ftsEscape(q)` is a double quote, then the trimmed `q` with each double quote in it
written twice, then a double quote; for a `q` that is empty after trimming it is the
empty string. -/
theorem ftsEscape_spec (q : String) :
    (trimSpace q = "" → ftsEscape q = "") ∧
    (trimSpace q ≠ "" → ftsEscape q =
      String.mk (['"'] ++
        (trimSpace q).data.flatMap (fun c => if c = '"' then ['"', '"'] else [c]) ++ ['"'])) := by
  constructor
  · intro h
    unfold ftsEscape
    simp only [h, if_true]
  · intro h
    unfold ftsEscape
    simp only [h, if_false, doubleQuotes_eq_flatMap]
    rfl

theorem ftsEscape_spec_witness :
    trimSpace " say \"hi\" " ≠ "" ∧ ftsEscape " say \"hi\" " = "\"say \"\"hi\"\"\"" :=
  ⟨by decide, ((ftsEscape_spec " say \"hi\" ").2 (by decide)).trans (by decide)⟩

/-- C19, counterexample: for the empty query and for a query of spaces `ftsEscape`
returns the empty string, not the two double quotes the formula gives. -/
theorem ftsEscape_spec_counterexample :
    ftsEscape "" = "" ∧ ftsEscape "  " = "" ∧
      ftsEscape "  " ≠ String.mk (['"'] ++
        (trimSpace "  ").data.flatMap (fun c => if c = '"' then ['"', '"'] else [c]) ++ ['"']) := by
  decide

/-- C20, failing input: `ParseSince("5xd")` does not return an error: `Sscanf` reads the
`5` and leaves the `x` unread, and the result is that of `5d`, five days before `now`. -/
theorem ParseSince_trailing_characters (localMidnight : Nat → Nat → Nat → Int) (now : Int) :
    ParseSince localMidnight now "5xd" = .ok ((now + -432000000000000) / 1000000) ∧
      ParseSince localMidnight now "5xd" = ParseSince localMidnight now "5d" ∧
      ParseSince localMidnight now "12 monkeys h" = ParseSince localMidnight now "12h" :=
  ⟨rfl, rfl, rfl⟩

/-- The cases of `TestParseSince` and the default: the accepted forms at a clock reading
of a whole number of milliseconds. -/
theorem ParseSince_tests (localMidnight : Nat → Nat → Nat → Int) (ms : Int) :
    ParseSince localMidnight (ms * 1000000) "" = .ok (ms - 24 * 3600000) ∧
      ParseSince localMidnight (ms * 1000000) "24h" = .ok (ms - 24 * 3600000) ∧
      ParseSince localMidnight (ms * 1000000) "7d" = .ok (ms - 7 * 86400000) ∧
      ParseSince localMidnight (ms * 1000000) "2026-02-17" = .ok (localMidnight 2026 2 17) ∧
      ParseSince localMidnight (ms * 1000000) "bogus" =
        .error "cannot parse since \"bogus\": use formats like '2h', '24h', '7d', or '2026-02-17'" := by
  have h : ∀ k : Int, (ms * 1000000 + -(k * 1000000)) / 1000000 = ms - k := by
    intro k
    have : ms * 1000000 + -(k * 1000000) = (ms - k) * 1000000 := by ring
    rw [this, Int.mul_ediv_cancel _ (by decide)]
  refine ⟨?_, ?_, ?_, rfl, rfl⟩
  · exact (show ParseSince localMidnight (ms * 1000000) "" =
      .ok ((ms * 1000000 + -((24 * 3600000) * 1000000)) / 1000000) from rfl).trans
        (congrArg Except.ok (h _))
  · exact (show ParseSince localMidnight (ms * 1000000) "24h" =
      .ok ((ms * 1000000 + -((24 * 3600000) * 1000000)) / 1000000) from rfl).trans
        (congrArg Except.ok (h _))
  · exact (show ParseSince localMidnight (ms * 1000000) "7d" =
      .ok ((ms * 1000000 + -((7 * 86400000) * 1000000)) / 1000000) from rfl).trans
        (congrArg Except.ok (h _))

/-- The products of `time.Duration` wrap around: `200000d` is a window that starts in
the future. -/
theorem ParseSince_overflow (localMidnight : Nat → Nat → Nat → Int) :
    ParseSince localMidnight 0 "200000d" = .ok 1166744073709 := rfl

/-- C11, failing input: the entity `X` is stored with the tags `["a", "a"]`; `Search`
with the tag filter `["a", "b"]` returns it on the list-all path, although `b` is not
among its tags: the filter compares the number of stored tags that occur in the filter
(two) with the length of the filter (two). -/
theorem Search_tags_duplicate_stored {κ : Type} (eng : Engine κ) :
    ∃ rs, Search eng (UpsertEntity DB.empty 1 "X" "t" ["a", "a"]).2 2 "" "" ["a", "b"] "" 10
        = .ok rs ∧
      rs.map (fun x => (x.entity.Name, x.entity.Tags, x.entity.DeletedAt)) =
        [("X", ["a", "a"], none)] :=
  ⟨_, rfl, rfl⟩

/-- C12, failing input: the live entity `X` has the tags `["a", "b"]`, which include
every tag of the filter `["a", "a"]`; `Search` with an empty query and that filter
returns the empty list (one stored tag occurs in the filter, the filter has length
two), while with the filter `["a"]` it returns `X`. -/
theorem Search_tags_duplicate_requested {κ : Type} (eng : Engine κ) :
    Search eng (UpsertEntity DB.empty 1 "X" "t" ["a", "b"]).2 2 "" "" ["a", "a"] "" 10
        = .ok [] ∧
      ∃ rs, Search eng (UpsertEntity DB.empty 1 "X" "t" ["a", "b"]).2 2 "" "" ["a"] "" 10
          = .ok rs ∧ rs.map (fun x => x.entity.Name) = ["X"] :=
  ⟨rfl, _, rfl, rfl⟩

theorem tagFilter_iff {tags : List String} {e : EntityRow} (hs : e.tags.Nodup) :
    (tagFilter tags e = true → ∀ t ∈ tags, t ∈ e.tags) ∧
      (tags.Nodup → (∀ t ∈ tags, t ∈ e.tags) → tagFilter tags e = true) := by
  have hF : (e.tags.filter (fun v => tags.contains v)).Subperm tags :=
    List.subperm_of_subset (hs.filter _) (fun v hv => by
      simpa using (List.mem_filter.1 hv).2)
  constructor
  · intro h t ht
    unfold tagFilter at h
    simp only [Bool.or_eq_true, decide_eq_true_eq] at h
    rcases h with h | h
    · rw [List.length_eq_zero.1 h] at ht
      exact absurd ht (List.not_mem_nil _)
    · have hp := hF.perm_of_length_le (Nat.le_of_eq h.symm)
      exact (List.mem_filter.1 (hp.mem_iff.2 ht)).1
  · intro hnd hall
    unfold tagFilter
    simp only [Bool.or_eq_true, decide_eq_true_eq]
    right
    have h2 : tags.Subperm (e.tags.filter (fun v => tags.contains v)) :=
      List.subperm_of_subset hnd (fun t ht => List.mem_filter.2 ⟨hall t ht, by simpa using ht⟩)
    exact Nat.le_antisymm hF.length_le h2.length_le

/-- Where the tag filter is exact: every result of `Search`, on either path, is a live
row, and when its stored tag list has no repeated tag it holds every tag of the
filter. -/
theorem Search_tags_nodup {κ : Type} (eng : Engine κ) (db : DB) (now : Nat) (q ty : String)
    (tags : List String) (sort : String) (limit : Int) (rs : List (SearchResult κ))
    (h : Search eng db now q ty tags sort limit = .ok rs) :
    ∀ x ∈ rs, x.entity.DeletedAt = none ∧
      (x.entity.Tags.Nodup → ∀ t ∈ tags, t ∈ x.entity.Tags) := by
  intro x hx
  obtain ⟨r, -, hlive, -, htag, hxe⟩ := Search_sound eng db now q ty tags sort limit rs h x hx
  rw [hxe]
  refine ⟨?_, fun hnd => (tagFilter_iff hnd).1 htag⟩
  show r.deleted_at = none
  simpa [EntityRow.live] using hlive

theorem scanScores_eq {κ : Type} {l : List (EntityRow × Option κ)}
    {rows : List (EntityRow × κ)} (h : scanScores l = some rows) :
    l = rows.map (fun x => (x.1, some x.2)) := by
  induction l generalizing rows with
  | nil =>
    simp only [scanScores, Option.some.injEq] at h
    subst h
    rfl
  | cons a l ih =>
    obtain ⟨e, s⟩ := a
    cases s with
    | none => simp [scanScores] at h
    | some s =>
      simp only [scanScores, Option.map_eq_some'] at h
      obtain ⟨l2, hl2, rfl⟩ := h
      rw [ih hl2]
      rfl

/-- The ranked path of `Search`: the results are the scanned rows of a list of rows of
the store with their scores, in the order of `ORDER BY importance_rank DESC`. -/
theorem Search_ranked {κ : Type} (eng : Engine κ) (db : DB) (now : Nat) (q ty : String)
    (tags : List String) (sort : String) (limit : Int) (rs : List (SearchResult κ))
    (hq : q ≠ "") (h : Search eng db now q ty tags sort limit = .ok rs) :
    ∃ scanned : List (EntityRow × κ), rs = scanSearchRows db scanned ∧
      (∀ x ∈ scanned, x.1 ∈ db.entities ∧
        eng.rank now x.1.updated_at x.1.access_count = some x.2) ∧
      ((∀ a b, eng.rankLe a b = true ∨ eng.rankLe b a = true) →
        (∀ a b c, eng.rankLe a b = true → eng.rankLe b c = true → eng.rankLe a c = true) →
        scanned.Pairwise (fun a b => eng.rankLe (some b.2) (some a.2) = true)) := by
  unfold Search at h
  simp only [hq, if_false] at h
  split at h
  · exact absurd h (by simp)
  · split at h
    · exact absurd h (by simp)
    · next scanned hscan =>
      injection h with h
      subst h
      have heq := scanScores_eq hscan
      refine ⟨scanned, rfl, fun x hx => ?_, fun htot htr => ?_⟩
      · have hx2 : (x.1, some x.2) ∈ scanned.map (fun x => (x.1, some x.2)) :=
          List.mem_map.2 ⟨x, hx, rfl⟩
        rw [← heq] at hx2
        obtain ⟨e, he, hre⟩ := List.mem_map.1 (mem_orderBy.1 (List.mem_of_mem_take hx2))
        have h1 : e = x.1 := congrArg Prod.fst hre
        have h2 : eng.rank now e.updated_at e.access_count = some x.2 := congrArg Prod.snd hre
        rw [h1] at h2
        exact ⟨h1 ▸ (List.mem_filter.1 he).1, h2⟩
      · have hs : (List.map (fun (x : EntityRow × κ) => (x.1, some x.2)) scanned).Pairwise
            (fun a b => eng.rankLe b.2 a.2 = true) := by
          rw [← heq]
          exact (orderBy_sorted (fun (a b : EntityRow × Option κ) => eng.rankLe b.2 a.2)
            (fun a b => htot b.2 a.2)
            (fun a b c hab hbc => htr c.2 b.2 a.2 hbc hab) _).sublist (List.take_sublist _ _)
        exact List.pairwise_map.1 hs

theorem realLe_total (a b : Option ℝ) : realLe a b = true ∨ realLe b a = true := by
  cases a <;> cases b <;> simp [realLe]
  exact le_total _ _

theorem realLe_trans (a b c : Option ℝ) (hab : realLe a b = true) (hbc : realLe b c = true) :
    realLe a c = true := by
  cases a <;> cases b <;> cases c <;> simp_all [realLe]
  exact le_trans hab hbc

theorem importance_rank_some {now u a : Nat} {s : ℝ} (h : importance_rank now u a = some s) :
    s = 0.6 / Real.logb 10 (((now : ℝ) - (u : ℝ)) / 3600000 + 2) +
      0.4 * Real.logb 10 ((a : ℝ) + 1) := by
  unfold importance_rank sqlLOG at h
  split_ifs at h
  all_goals simp_all

theorem importance_rank_of_lt {now u : Nat} (a : Nat) (h : u < now + 3600000) :
    0 < Real.logb 10 (((now : ℝ) - (u : ℝ)) / 3600000 + 2) ∧
    importance_rank now u a =
      some (0.6 / Real.logb 10 (((now : ℝ) - (u : ℝ)) / 3600000 + 2) +
        0.4 * Real.logb 10 ((a : ℝ) + 1)) := by
  have hu : ((u : ℝ)) < (now : ℝ) + 3600000 := by exact_mod_cast h
  have h1 : (1 : ℝ) < ((now : ℝ) - (u : ℝ)) / 3600000 + 2 := by
    have : (-1 : ℝ) < ((now : ℝ) - (u : ℝ)) / 3600000 := by
      rw [lt_div_iff₀ (by norm_num)]
      linarith
    linarith
  have hpos : 0 < Real.logb 10 (((now : ℝ) - (u : ℝ)) / 3600000 + 2) :=
    Real.logb_pos (by norm_num) h1
  have ha : (0 : ℝ) < (a : ℝ) + 1 := by positivity
  refine ⟨hpos, ?_⟩
  unfold importance_rank sqlLOG
  rw [if_pos (by linarith), if_pos ha]
  simp only [ne_of_gt hpos, if_false]

/-- C13: for a non-empty query, with the score in exact real arithmetic, `Search` does
not look at the sort argument and returns its results in non-increasing order of score;
and the score is monotone for rows whose update time is less than an hour ahead of the
clock reading of the search (every row written by a clock that does not run backwards):
with equal access counts the more recently updated row has the strictly larger score,
with equal update times the row of larger access count has the strictly larger score. -/
theorem Search_ranked_order (fts : String → Option (List String → Bool)) (db : DB) (now : Nat)
    (q ty : String) (tags : List String) (sort sort2 : String) (limit : Int) (hq : q ≠ "") :
    Search (sqlEngine fts) db now q ty tags sort limit =
        Search (sqlEngine fts) db now q ty tags sort2 limit ∧
      (∀ rs, Search (sqlEngine fts) db now q ty tags sort limit = .ok rs →
        rs.Pairwise (fun a b => b.Score ≤ a.Score)) ∧
      (∀ u1 u2 a : Nat, u1 < u2 → u2 < now + 3600000 →
        ∃ s1 s2, importance_rank now u1 a = some s1 ∧ importance_rank now u2 a = some s2 ∧
          s1 < s2) ∧
      (∀ u a1 a2 : Nat, a1 < a2 → u < now + 3600000 →
        ∃ s1 s2, importance_rank now u a1 = some s1 ∧ importance_rank now u a2 = some s2 ∧
          s1 < s2) := by
  refine ⟨?_, fun rs h => ?_, fun u1 u2 a h12 h2 => ?_, fun u a1 a2 h12 hu => ?_⟩
  · unfold Search
    simp only [hq, if_false]
  · obtain ⟨scanned, rfl, -, hs⟩ :=
      Search_ranked (sqlEngine fts) db now q ty tags sort limit rs hq h
    have hs2 := hs realLe_total realLe_trans
    unfold scanSearchRows
    rw [List.pairwise_map]
    refine hs2.imp (fun {a b} hab => ?_)
    simpa [sqlEngine, realLe] using hab
  · obtain ⟨p1, e1⟩ := importance_rank_of_lt a (Nat.lt_trans h12 h2)
    obtain ⟨p2, e2⟩ := importance_rank_of_lt a h2
    refine ⟨_, _, e1, e2, ?_⟩
    have hlt : Real.logb 10 (((now : ℝ) - (u2 : ℝ)) / 3600000 + 2) <
        Real.logb 10 (((now : ℝ) - (u1 : ℝ)) / 3600000 + 2) := by
      have hu : (u1 : ℝ) < (u2 : ℝ) := by exact_mod_cast h12
      have hu2 : (u2 : ℝ) < (now : ℝ) + 3600000 := by exact_mod_cast h2
      have hpos : (0 : ℝ) < ((now : ℝ) - (u2 : ℝ)) / 3600000 + 2 := by
        have : (-1 : ℝ) < ((now : ℝ) - (u2 : ℝ)) / 3600000 := by
          rw [lt_div_iff₀ (by norm_num)]
          linarith
        linarith
      refine Real.logb_lt_logb (by norm_num) hpos ?_
      have : ((now : ℝ) - (u2 : ℝ)) / 3600000 < ((now : ℝ) - (u1 : ℝ)) / 3600000 :=
        div_lt_div_of_pos_right (by linarith) (by norm_num)
      linarith
    have := div_lt_div_of_pos_left (show (0 : ℝ) < 0.6 by norm_num) p2 hlt
    linarith
  · obtain ⟨-, e1⟩ := importance_rank_of_lt a1 hu
    obtain ⟨-, e2⟩ := importance_rank_of_lt a2 hu
    refine ⟨_, _, e1, e2, ?_⟩
    have ha : (a1 : ℝ) < (a2 : ℝ) := by exact_mod_cast h12
    have hlt : Real.logb 10 ((a1 : ℝ) + 1) < Real.logb 10 ((a2 : ℝ) + 1) :=
      Real.logb_lt_logb (by norm_num) (by positivity) (by linarith)
    linarith

/-- Witness of C13: `Alpha` was last updated two hours before the search and `Beta` one
hour before it, neither was accessed, and both match the query.  `Search` returns `Beta`
before `Alpha`, whatever the sort argument (the sort `name` would put `Alpha` first), and
the score of `Beta` is strictly the larger. -/
theorem Search_ranked_order_witness :
    "redis" ≠ "" ∧
    (∃ x y, Search (sqlEngine (fun _ => some (fun _ => true)))
        (run DB.empty [Op.upsertEntity 0 "Alpha" "system" [],
          Op.upsertEntity 3600000 "Beta" "system" []]) 7200000 "redis" "" [] "name" 10 =
          .ok [x, y] ∧
        x.entity.Name = "Beta" ∧ y.entity.Name = "Alpha" ∧ y.Score < x.Score ∧
        [x, y].Pairwise (fun a b => b.Score ≤ a.Score)) ∧
    Search (sqlEngine (fun _ => some (fun _ => true)))
        (run DB.empty [Op.upsertEntity 0 "Alpha" "system" [],
          Op.upsertEntity 3600000 "Beta" "system" []]) 7200000 "redis" "" [] "name" 10 =
      Search (sqlEngine (fun _ => some (fun _ => true)))
        (run DB.empty [Op.upsertEntity 0 "Alpha" "system" [],
          Op.upsertEntity 3600000 "Beta" "system" []]) 7200000 "redis" "" [] "recent" 10 ∧
    (∃ s1 s2, importance_rank 7200000 0 0 = some s1 ∧
      importance_rank 7200000 3600000 0 = some s2 ∧ s1 < s2) ∧
    ∃ s1 s2, importance_rank 7200000 0 0 = some s1 ∧
      importance_rank 7200000 0 3 = some s2 ∧ s1 < s2 := by
  have hT := Search_ranked_order (fun _ => some (fun _ => true))
    (run DB.empty [Op.upsertEntity 0 "Alpha" "system" [],
      Op.upsertEntity 3600000 "Beta" "system" []]) 7200000 "redis" "" [] "name" "recent" 10
    (by decide)
  obtain ⟨sA, sB, hA, hB, hlt⟩ := hT.2.2.1 0 3600000 0 (by decide) (by decide)
  have hdb : run DB.empty [Op.upsertEntity 0 "Alpha" "system" [],
      Op.upsertEntity 3600000 "Beta" "system" []] =
      DB.mk [EntityRow.mk 1 "Alpha" "system" [] 0 0 none 0 none,
          EntityRow.mk 2 "Beta" "system" [] 3600000 3600000 none 0 none] [] [] []
        [EntityDoc.mk 1 "Alpha" "system", EntityDoc.mk 2 "Beta" "system"] [] [] 2 0 0 0 := by
    decide
  have hrows : ∀ hit : List String → Bool, hit = (fun _ => true) →
      ([EntityRow.mk 1 "Alpha" "system" [] 0 0 none 0 none,
          EntityRow.mk 2 "Beta" "system" [] 3600000 3600000 none 0 none].filter (fun e =>
        e.live && ([EntityDoc.mk 1 "Alpha" "system", EntityDoc.mk 2 "Beta" "system"].any
            (fun d => decide (d.rowid = e.id) && hit [d.name, d.entity_type]) ||
          ([] : List ObservationRow).any (fun o => decide (o.entity_id = e.id) &&
            ([] : List TextDoc).any (fun d => decide (d.rowid = o.id) && hit [d.content]))) &&
          typeFilter "" e && tagFilter [] e)) =
        [EntityRow.mk 1 "Alpha" "system" [] 0 0 none 0 none,
          EntityRow.mk 2 "Beta" "system" [] 3600000 3600000 none 0 none] := by
    intro hit hh
    subst hh
    decide
  have hle : ¬ (realLe (some sB) (some sA) = true) := by
    simp only [realLe, decide_eq_true_eq, not_le]
    exact hlt
  have hS : Search (sqlEngine (fun _ => some (fun _ => true)))
      (run DB.empty [Op.upsertEntity 0 "Alpha" "system" [],
        Op.upsertEntity 3600000 "Beta" "system" []]) 7200000 "redis" "" [] "name" 10 =
      .ok [SearchResult.mk
          { scanEntity (EntityRow.mk 2 "Beta" "system" [] 3600000 3600000 none 0 none) with
            Observations := [] } sB,
        SearchResult.mk
          { scanEntity (EntityRow.mk 1 "Alpha" "system" [] 0 0 none 0 none) with
            Observations := [] } sA] := by
    rw [hdb]
    unfold Search
    simp only [show ¬ ((10 : Int) ≤ 0) by decide, show ¬ ("redis" = "") by decide, if_false,
      sqlEngine, hrows _ rfl, List.map_cons, List.map_nil, hA, hB, orderBy,
      List.insertionSort, List.orderedInsert, hle]
    rfl
  refine ⟨by decide, ⟨_, _, hS, rfl, rfl, hlt, hT.2.1 _ hS⟩, hT.1,
    ⟨sA, sB, hA, hB, hlt⟩, hT.2.2.2 0 0 3 (by decide) (by decide)⟩

/-- C14 (as amended): for a non-empty query the score of each result is, in exact real
arithmetic, `0.6 / log10(age_hours + 2) + 0.4 * log10(access_count + 1)`, where `log10`
is the base-10 logarithm (SQLite `LOG`), `age_hours` is `now - updated_at` in
milliseconds divided by 3,600,000, and `updated_at` and `access_count` are those of the
entity as returned. -/
theorem Search_score (fts : String → Option (List String → Bool)) (db : DB) (now : Nat)
    (q ty : String) (tags : List String) (sort : String) (limit : Int)
    (rs : List (SearchResult ℝ)) (hq : q ≠ "")
    (h : Search (sqlEngine fts) db now q ty tags sort limit = .ok rs) :
    ∀ x ∈ rs, x.Score =
      0.6 / Real.logb 10 (((now : ℝ) - (x.entity.UpdatedAt : ℝ)) / 3600000 + 2) +
        0.4 * Real.logb 10 ((x.entity.AccessCount : ℝ) + 1) := by
  intro x hx
  obtain ⟨scanned, rfl, hrank, -⟩ :=
    Search_ranked (sqlEngine fts) db now q ty tags sort limit rs hq h
  obtain ⟨r, hr, hxe, hsc⟩ := mem_scanSearchRows hx
  rw [hxe, hsc]
  exact importance_rank_some (hrank r hr).2

/-- C14, counterexample: for a row updated eight hours before the search and never
accessed, the score is `0.6 / log10(10) + 0.4 * log10(1) = 0.6`; with the natural
logarithm the formula gives `0.6 / ln(10)`, a different number. -/
theorem Search_score_counterexample :
    importance_rank 28800000 0 0 = some 0.6 ∧
      (0.6 / Real.log (((28800000 : ℝ) - 0) / 3600000 + 2) + 0.4 * Real.log (0 + 1) : ℝ)
        ≠ 0.6 := by
  have h10 : (((28800000 : ℕ) : ℝ) - ((0 : ℕ) : ℝ)) / 3600000 + 2 = 10 := by norm_num
  constructor
  · have h := (@importance_rank_of_lt 28800000 0 0 (by decide)).2
    rw [h, h10]
    have h1 : Real.logb 10 10 = 1 := Real.logb_self_eq_one (by norm_num)
    have h2 : Real.logb 10 (((0 : ℕ) : ℝ) + 1) = 0 := by simp
    rw [h1, h2]
    norm_num
  · have h10b : ((28800000 : ℝ) - 0) / 3600000 + 2 = 10 := by norm_num
    rw [h10b]
    have hlog : (1 : ℝ) < Real.log 10 := by
      rw [Real.lt_log_iff_exp_lt (by norm_num)]
      exact lt_trans Real.exp_one_lt_d9 (by norm_num)
    have hpos : (0 : ℝ) < Real.log 10 := by linarith
    intro heq
    have h0 : Real.log ((0 : ℝ) + 1) = 0 := by simp
    rw [h0] at heq
    have : (0.6 : ℝ) = 0.6 * Real.log 10 := by
      field_simp at heq
      linarith
    nlinarith

theorem listOrder_total (sort : String) (a b : EntityRow) :
    listOrder sort a b = true ∨ listOrder sort b a = true := by
  unfold listOrder
  split
  · simp only [decide_eq_true_eq]
    exact Nat.le_total _ _
  · split
    · exact codesLe_total _ _
    · simp only [decide_eq_true_eq]
      exact Nat.le_total _ _

theorem listOrder_trans (sort : String) (a b c : EntityRow)
    (hab : listOrder sort a b = true) (hbc : listOrder sort b c = true) :
    listOrder sort a c = true := by
  unfold listOrder at *
  split
  · next h =>
    simp only [h, if_true, decide_eq_true_eq] at hab hbc ⊢
    exact Nat.le_trans hbc hab
  · next h =>
    simp only [h, if_false] at hab hbc
    split
    · next h2 =>
      simp only [h2, if_true] at hab hbc
      exact codesLe_trans _ _ _ hab hbc
    · next h2 =>
      simp only [h2, if_false, decide_eq_true_eq] at hab hbc ⊢
      exact Nat.le_trans hbc hab

/-- The list-all path where the tag filter is exact.  When neither the filter nor any
stored tag list repeats a tag, `Search` with an empty query returns exactly the live rows
of the given type (any type when the type filter is empty) whose tags include every tag
of the filter, in the order of the sort key, cut to `limit` rows (10 when `limit ≤ 0`);
on the empty store it returns the empty list. -/
theorem Search_list_all {κ : Type} (eng : Engine κ) (db : DB) (now : Nat) (ty : String)
    (tags : List String) (sort : String) (limit : Int) :
    (tags.Nodup → (∀ e ∈ db.entities, e.tags.Nodup) →
      ∃ rows : List EntityRow,
        rows.Perm (db.entities.filter (fun e =>
          e.live && (decide (ty = "") || decide (e.entity_type = ty)) &&
            decide (∀ t ∈ tags, t ∈ e.tags))) ∧
        rows.Pairwise (fun a b => listOrder sort a b = true) ∧
        Search eng db now "" ty tags sort limit =
          .ok (scanSearchRows db
            ((rows.take (if limit ≤ 0 then 10 else limit).toNat).map (fun e => (e, eng.zero))))) ∧
      Search eng DB.empty now "" ty tags sort limit = .ok [] := by
  constructor
  · intro htags hstored
    have hf : db.entities.filter (fun e => e.live && typeFilter ty e && tagFilter tags e) =
        db.entities.filter (fun e =>
          e.live && (decide (ty = "") || decide (e.entity_type = ty)) &&
            decide (∀ t ∈ tags, t ∈ e.tags)) := by
      apply List.filter_congr
      intro e he
      have h1 : tagFilter tags e = decide (∀ t ∈ tags, t ∈ e.tags) := by
        rw [Bool.eq_iff_iff, decide_eq_true_eq]
        exact ⟨(tagFilter_iff (hstored e he)).1, (tagFilter_iff (hstored e he)).2 htags⟩
      rw [h1]
      rfl
    refine ⟨orderBy (listOrder sort) (db.entities.filter (fun e =>
        e.live && (decide (ty = "") || decide (e.entity_type = ty)) &&
          decide (∀ t ∈ tags, t ∈ e.tags))), orderBy_perm _ _,
      orderBy_sorted _ (listOrder_total sort) (listOrder_trans sort) _, ?_⟩
    unfold Search listAll
    simp only [if_true, hf]
  · simp [Search, listAll, scanSearchRows, orderBy, DB.empty]

theorem UpsertEntity_ok (db : DB) (now : Nat) (n t : String) (ts : List String)
    (hn0 : 0 < n.utf8ByteSize) (hn1 : n.utf8ByteSize ≤ 1024) (ht : t.utf8ByteSize ≤ 256) :
    ∃ i, (UpsertEntity db now n t ts).1 = .ok i := by
  have hsome : ((upsertEntityRow db now n t ts).entities.find?
      (fun e => decide (e.name = n))).isSome = true := by
    rw [List.find?_isSome]
    unfold upsertEntityRow
    split
    · exact ⟨_, List.mem_append_right _ (List.mem_singleton.2 rfl), by simp⟩
    · next old hsome =>
      have hold := List.mem_of_find?_eq_some hsome
      have hname : old.name = n := by simpa using List.find?_some hsome
      refine ⟨_, List.mem_map.2 ⟨old, hold, rfl⟩, ?_⟩
      simp [hname]
  rw [UpsertEntity_valid db now n t ts hn0 hn1 ht]
  obtain ⟨e, he⟩ := Option.isSome_iff_exists.1 hsome
  exact ⟨e.id, by simp only [he]⟩

/-- The size bounds on calls whose statements the engine accepts.  `UpsertEntity` returns
an error when the name has no byte or more than 1024 bytes or the type more than 256
bytes, and succeeds otherwise;
`AddObservation` on an existing entity succeeds when the content has at most 10240 bytes
and returns an error when it has more; a rejected call leaves the store as it was. -/
theorem size_bounds_accepted (db : DB) (now : Nat) (name ty : String) (tags : List String) (id : Nat)
    (content : String) :
    (name.utf8ByteSize = 0 →
      UpsertEntity db now name ty tags = (.error "entity name cannot be empty", db)) ∧
    (1024 < name.utf8ByteSize →
      UpsertEntity db now name ty tags = (.error "entity name exceeds 1KB limit", db)) ∧
    (0 < name.utf8ByteSize → name.utf8ByteSize ≤ 1024 → 256 < ty.utf8ByteSize →
      UpsertEntity db now name ty tags = (.error "entity type exceeds 256-byte limit", db)) ∧
    (0 < name.utf8ByteSize → name.utf8ByteSize ≤ 1024 → ty.utf8ByteSize ≤ 256 →
      ∃ i, (UpsertEntity db now name ty tags).1 = .ok i) ∧
    (10240 < content.utf8ByteSize →
      AddObservation db now id content =
        (.error "observation content exceeds 10KB limit", db)) ∧
    (content.utf8ByteSize ≤ 10240 → (∃ e ∈ db.entities, e.id = id) →
      (AddObservation db now id content).1 = .ok ()) := by
  refine ⟨fun h => ?_, fun h => ?_, fun h0 h1 h2 => ?_, UpsertEntity_ok db now name ty tags,
    fun h => ?_, fun h he => ?_⟩
  · unfold UpsertEntity
    rw [if_pos h]
  · unfold UpsertEntity
    rw [if_neg (by omega), if_pos h]
  · unfold UpsertEntity
    rw [if_neg (by omega), if_neg (by omega), if_pos h2]
  · unfold AddObservation
    rw [if_pos (by omega)]
  · unfold AddObservation
    rw [if_neg (by omega)]
    split
    · rfl
    · have hex : db.entities.any (fun e => decide (e.id = id)) = true := by
        obtain ⟨e, he1, he2⟩ := he
        exact List.any_eq_true.2 ⟨e, he1, by simp [he2]⟩
      rw [if_pos hex]

/-- The size bounds at their edges, on a new store: a name of 1024 bytes is accepted and
one of 1025 bytes rejected, a content of 10240 bytes is accepted and one of 10241 bytes
rejected. -/
theorem size_bounds_accepted_edges :
    (∃ i, (UpsertEntity DB.empty 0 (String.mk (List.replicate 1024 'a')) "t" []).1 = .ok i) ∧
    UpsertEntity DB.empty 0 (String.mk (List.replicate 1025 'a')) "t" [] =
      (.error "entity name exceeds 1KB limit", DB.empty) ∧
    (AddObservation (UpsertEntity DB.empty 0 "X" "t" []).2 1 1
      (String.mk (List.replicate 10240 'a'))).1 = .ok () ∧
    AddObservation (UpsertEntity DB.empty 0 "X" "t" []).2 1 1
        (String.mk (List.replicate 10241 'a')) =
      (.error "observation content exceeds 10KB limit", (UpsertEntity DB.empty 0 "X" "t" []).2) :=
  ⟨(size_bounds_accepted DB.empty 0 _ "t" [] 0 "").2.2.2.1
      (by rw [utf8ByteSize_replicate_a]; decide) (by rw [utf8ByteSize_replicate_a])
      (by decide),
    (size_bounds_accepted DB.empty 0 _ "t" [] 0 "").2.1 (by rw [utf8ByteSize_replicate_a]; decide),
    (size_bounds_accepted _ 1 "" "" [] 1 _).2.2.2.2.2 (by rw [utf8ByteSize_replicate_a])
      ⟨_, List.mem_singleton.2 rfl, rfl⟩,
    (size_bounds_accepted _ 1 "" "" [] 1 _).2.2.2.2.1 (by rw [utf8ByteSize_replicate_a]; decide)⟩

theorem AppendJournal_step {db : DB} (hwf : db.WF) (now : Nat) (content : String)
    (tags : List String) (hc : content.utf8ByteSize ≤ 10240) :
    AppendJournal db now content tags =
      (.ok { ID := db.seq_journal + 1, Content := content, Tags := tags, CreatedAt := now },
        { db with journal := db.journal ++ [JournalRow.mk (db.seq_journal + 1) content tags now],
                  journal_fts := db.journal_fts ++
                    [(JournalRow.mk (db.seq_journal + 1) content tags now).doc],
                  seq_journal := db.seq_journal + 1 }) ∧
      ∀ j ∈ db.journal, j.id ≠ db.seq_journal + 1 := by
  have hfresh : ∀ j ∈ db.journal, j.id ≠ db.seq_journal + 1 := fun j hj => by
    have := hwf.journal_seq j hj
    omega
  refine ⟨?_, hfresh⟩
  unfold AppendJournal
  rw [if_neg (by omega)]
  have hfind : (db.journal ++ [JournalRow.mk (db.seq_journal + 1) content tags now]).find?
      (fun j => decide (j.id = db.seq_journal + 1)) =
        some (JournalRow.mk (db.seq_journal + 1) content tags now) := by
    rw [List.find?_append, List.find?_eq_none.2 (fun j hj => by simpa using hfresh j hj)]
    simp
  simp only [hfind]

theorem run_appendJournal (content : String) (tags : List String)
    (hc : content.utf8ByteSize ≤ 10240) :
    ∀ (ts : List Nat) (db : DB), db.WF →
      ∃ rows : List JournalRow,
        (run db (ts.map (fun t => Op.appendJournal t content tags))).journal =
          db.journal ++ rows ∧
        rows.map (fun r => r.created_at) = ts ∧
        ∀ r ∈ rows, r.content = content ∧ r.tags = tags ∧ db.seq_journal < r.id
  | [], db, _ => ⟨[], by simp [run], rfl, by simp⟩
  | t :: ts, db, hwf => by
    have hstep := (AppendJournal_step hwf t content tags hc).1
    have hwf1 : (AppendJournal db t content tags).2.WF := AppendJournal_WF hwf t content tags
    obtain ⟨rows, h1, h2, h3⟩ := run_appendJournal content tags hc ts _ hwf1
    refine ⟨JournalRow.mk (db.seq_journal + 1) content tags t :: rows, ?_, ?_, ?_⟩
    · show (run (AppendJournal db t content tags).2 _).journal = _
      rw [h1, hstep]
      simp
    · simp [h2]
    · intro r hr
      rcases List.mem_cons.1 hr with rfl | hr
      · exact ⟨rfl, rfl, Nat.lt_succ_self _⟩
      · obtain ⟨a, b, c⟩ := h3 r hr
        rw [hstep] at c
        exact ⟨a, b, Nat.lt_of_succ_lt c⟩

theorem ListJournal_all (db : DB) (localMidnight : Nat → Nat → Nat → Int) (clock : Int)
    (limit : Int) (hl : (db.journal.length : Int) ≤ limit) :
    ∃ l, ListJournal db localMidnight clock "" limit = .ok l ∧
      l.Perm (db.journal.map scanJournalRow) ∧
      l.Pairwise (fun a b => b.CreatedAt ≤ a.CreatedAt) := by
  have htake : ((orderBy (fun (a b : JournalRow) => decide (b.created_at ≤ a.created_at))
      db.journal).take (if limit ≤ 0 then 50 else limit).toNat) =
        orderBy (fun (a b : JournalRow) => decide (b.created_at ≤ a.created_at)) db.journal := by
    apply List.take_of_length_le
    rw [(orderBy_perm _ _).length_eq]
    split <;> omega
  refine ⟨(orderBy (fun (a b : JournalRow) => decide (b.created_at ≤ a.created_at))
    db.journal).map scanJournalRow, ?_, (orderBy_perm _ _).map _, ?_⟩
  · unfold ListJournal
    simp only [if_true, List.filter_true, htake]
  · rw [List.pairwise_map]
    refine (orderBy_sorted (fun (a b : JournalRow) => decide (b.created_at ≤ a.created_at))
      (fun a b => by simpa using Nat.le_total _ _)
      (fun a b c hab hbc => by
        simp only [decide_eq_true_eq] at hab hbc ⊢
        exact Nat.le_trans hbc hab) _).imp (fun {a b} hab => ?_)
    simpa [scanJournalRow] using hab

/-- C18: `AppendJournal` never deduplicates.  A call with a content of at most 10240
bytes succeeds, adds exactly one row, whose id differs from every id in the table, and
returns that row with the given content; `N` calls with one content add `N` rows of
pairwise different ids; and on a journal that was empty before, `ListJournal` without a
time window and with a limit of at least `N` returns these `N` entries, newest first (in
non-increasing order of creation time). -/
theorem AppendJournal_never_deduplicates {db : DB} (hwf : db.WF) (content : String)
    (tags : List String) (hc : content.utf8ByteSize ≤ 10240) (ts : List Nat)
    (localMidnight : Nat → Nat → Nat → Int) (clock : Int) (limit : Int) :
    (∀ now, ∃ entry : JournalEntry,
      (AppendJournal db now content tags).1 = .ok entry ∧ entry.Content = content ∧
        entry.Tags = tags ∧ (∀ j ∈ db.journal, j.id ≠ entry.ID) ∧
        (AppendJournal db now content tags).2.journal =
          db.journal ++ [JournalRow.mk entry.ID content tags entry.CreatedAt]) ∧
    (∃ rows : List JournalRow,
      (run db (ts.map (fun t => Op.appendJournal t content tags))).journal =
        db.journal ++ rows ∧
      rows.length = ts.length ∧ (rows.map (fun r => r.id)).Nodup ∧
      ∀ r ∈ rows, r.content = content ∧ ∀ j ∈ db.journal, j.id ≠ r.id) ∧
    (db.journal = [] → (ts.length : Int) ≤ limit →
      ∃ l, ListJournal (run db (ts.map (fun t => Op.appendJournal t content tags)))
          localMidnight clock "" limit = .ok l ∧
        l.length = ts.length ∧ (∀ e ∈ l, e.Content = content) ∧ (l.map (fun e => e.ID)).Nodup ∧
        l.Pairwise (fun a b => b.CreatedAt ≤ a.CreatedAt)) := by
  obtain ⟨rows, h1, h2, h3⟩ := run_appendJournal content tags hc ts db hwf
  have hlen : rows.length = ts.length := by rw [← h2, List.length_map]
  have hwf2 := (run_WF hwf (ts.map (fun t => Op.appendJournal t content tags))).journal_ids
  rw [h1, List.map_append] at hwf2
  refine ⟨fun now => ?_, ⟨rows, h1, hlen, (List.nodup_append.1 hwf2).2.1, fun r hr =>
    ⟨(h3 r hr).1, fun j hj hjr => ?_⟩⟩, fun hempty hlim => ?_⟩
  · obtain ⟨hstep, hfresh⟩ := AppendJournal_step hwf now content tags hc
    exact ⟨_, by rw [hstep], rfl, rfl, hfresh, by rw [hstep]⟩
  · have := hwf.journal_seq j hj
    have := (h3 r hr).2.2
    omega
  · rw [hempty, List.nil_append] at h1
    obtain ⟨l, hl1, hl2, hl3⟩ := ListJournal_all
      (run db (ts.map (fun t => Op.appendJournal t content tags))) localMidnight clock limit
      (by rw [h1, hlen]; exact hlim)
    rw [h1] at hl2
    refine ⟨l, hl1, by rw [hl2.length_eq, List.length_map, hlen], fun e he => ?_, ?_, hl3⟩
    · obtain ⟨r, hr, rfl⟩ := List.mem_map.1 (hl2.mem_iff.1 he)
      exact (h3 r hr).1
    · have hp := hl2.map (fun e => e.ID)
      rw [List.map_map] at hp
      rw [hempty, List.map_nil, List.nil_append] at hwf2
      exact hp.nodup_iff.2 hwf2

theorem AppendJournal_never_deduplicates_witness :
    ∃ l, ListJournal (run DB.empty [Op.appendJournal 5 "Fixed auth bug" ["fix"],
          Op.appendJournal 5 "Fixed auth bug" ["fix"]]) (fun _ _ _ => 0) 0 "" 2 = .ok l ∧
      l.length = 2 ∧ (∀ e ∈ l, e.Content = "Fixed auth bug") ∧
      (l.map (fun e => e.ID)).Nodup ∧ l.Pairwise (fun a b => b.CreatedAt ≤ a.CreatedAt) :=
  (AppendJournal_never_deduplicates DB.empty_WF "Fixed auth bug" ["fix"] (by decide) [5, 5]
    (fun _ _ _ => 0) 0 2).2.2 rfl (by decide)

theorem nodup_map_entity_doc (l : List EntityRow) (h : (l.map (fun e => e.id)).Nodup) :
    (l.map EntityRow.doc).Nodup := by
  have h2 : l.map (fun e => e.id) = (l.map EntityRow.doc).map (fun d => d.rowid) := by
    rw [List.map_map]
    rfl
  rw [h2] at h
  exact h.of_map _

theorem nodup_map_observation_doc (l : List ObservationRow)
    (h : (l.map (fun o => o.id)).Nodup) : (l.map ObservationRow.doc).Nodup := by
  have h2 : l.map (fun o => o.id) = (l.map ObservationRow.doc).map (fun d => d.rowid) := by
    rw [List.map_map]
    rfl
  rw [h2] at h
  exact h.of_map _

theorem foldl_congr_mem {α β : Type} (g h : β → α → β) :
    ∀ (l : List α) (b : β), (∀ b, ∀ a ∈ l, g b a = h b a) → l.foldl g b = l.foldl h b
  | [], _, _ => rfl
  | a :: l, b, hgh => by
    rw [List.foldl_cons, List.foldl_cons, hgh b a (List.mem_cons_self _ _)]
    exact foldl_congr_mem g h l _ (fun b a ha => hgh b a (List.mem_cons_of_mem _ ha))

/-- Erasing from an index the documents of the rows of `E` that `p` selects: when the
index holds the documents of the rows that `q` selects, it holds afterwards those of the
rows that `q` selects and `p` does not. -/
theorem perm_erase_docs {α β : Type} [DecidableEq β] (f : α → β) (E : List α)
    (hnd : (E.map f).Nodup) (q p : α → Bool) (idx : List β)
    (h : idx.Perm ((E.filter q).map f)) :
    ((E.filter p).foldl (fun i a => i.erase (f a)) idx).Perm
      ((E.filter (fun a => q a && !p a)).map f) := by
  have hfold : (E.filter p).foldl (fun i a => i.erase (f a)) idx =
      idx.diff ((E.filter p).map f) := by
    rw [List.diff_eq_foldl, List.foldl_map]
  rw [hfold]
  refine (h.diff_right _).trans ?_
  rw [(nodup_map_filter f q E hnd).diff_eq_filter, List.filter_map, List.filter_filter]
  apply List.Perm.of_eq
  congr 1
  apply List.filter_congr
  intro a ha
  have hiff : f a ∈ (E.filter p).map f ↔ p a = true := by
    constructor
    · intro hm
      obtain ⟨b, hb, hfb⟩ := List.mem_map.1 hm
      have hb2 := List.mem_filter.1 hb
      have := List.inj_on_of_nodup_map hnd hb2.1 ha hfb
      rw [← this]
      exact hb2.2
    · intro hp
      exact List.mem_map.2 ⟨a, List.mem_filter.2 ⟨ha, hp⟩, rfl⟩
  have hd : decide (f a ∉ (E.filter p).map f) = !p a := by
    cases hp : p a
    · exact decide_eq_true (fun hm => by
        rw [hiff.1 hm] at hp
        exact Bool.noConfusion hp)
    · exact decide_eq_false (not_not.2 (hiff.2 hp))
  show (decide (f a ∉ (E.filter p).map f) && q a) = (q a && !p a)
  rw [hd, Bool.and_comm]

theorem filter_live_map {g : EntityRow → EntityRow} (E : List EntityRow) (p : EntityRow → Bool)
    (hg : ∀ e ∈ E, (g e).live = (e.live && !p e) ∧ (p e = false → g e = e)) :
    (E.map g).filter (fun e => e.live) = E.filter (fun e => e.live && !p e) := by
  induction E with
  | nil => rfl
  | cons e E ih =>
    have ih2 := ih (fun x hx => hg x (List.mem_cons_of_mem _ hx))
    obtain ⟨h1, h2⟩ := hg e (List.mem_cons_self _ _)
    rw [List.map_cons, List.filter_cons, List.filter_cons, ih2, h1]
    cases hp : p e
    · rw [h2 hp]
    · simp

theorem upsertEntityRow_fts {db : DB} (hwf : db.WF)
    (h : db.entities_fts.Perm ((db.entities.filter (fun e => e.live)).map EntityRow.doc))
    (now : Nat) (n t : String) (ts : List String) :
    (upsertEntityRow db now n t ts).entities_fts.Perm
      (((upsertEntityRow db now n t ts).entities.filter (fun e => e.live)).map
        EntityRow.doc) := by
  unfold upsertEntityRow
  split
  · simp only [List.filter_append, List.map_append]
    exact h.append_right _
  · next old hsome =>
    have hold := List.mem_of_find?_eq_some hsome
    obtain ⟨A, B, hAB⟩ := List.append_of_mem hold
    have hids := hwf.entity_ids
    rw [hAB] at hids h
    simp only [List.map_append, List.map_cons] at hids
    have hA : ∀ e ∈ A, e.id ≠ old.id := fun e he heq => by
      have := (List.nodup_append.1 hids).2.2
      exact this (List.mem_map.2 ⟨e, he, rfl⟩) (by rw [heq]; exact List.mem_cons_self _ _)
    have hB : ∀ e ∈ B, e.id ≠ old.id := fun e he heq => by
      have := (List.nodup_cons.1 (List.nodup_append.1 hids).2.1).1
      exact this (by rw [← heq]; exact List.mem_map.2 ⟨e, he, rfl⟩)
    have hmapA : ∀ new : EntityRow,
        A.map (fun e => if e.id = old.id then new else e) = A := fun new => by
      conv_rhs => rw [← List.map_id A]
      exact List.map_congr_left (fun e he => by simp [hA e he])
    have hmapB : ∀ new : EntityRow,
        B.map (fun e => if e.id = old.id then new else e) = B := fun new => by
      conv_rhs => rw [← List.map_id B]
      exact List.map_congr_left (fun e he => by simp [hB e he])
    simp only [hAB, List.map_append, List.map_cons, hmapA, hmapB, if_true,
      List.filter_append, List.filter_cons, EntityRow.live, Option.isNone_none]
    simp only [List.filter_append, List.filter_cons, List.map_append] at h
    cases hdel : old.deleted_at with
    | none =>
      simp only [hdel, EntityRow.live, Option.isNone_none, if_true, List.map_cons] at h
      simp only [entities_fts_update, entities_fts_soft_delete, entities_fts_soft_restore, hdel,
        and_self, if_true, ne_eq, not_true_eq_false, and_false, false_and, if_false,
        List.map_cons, List.map_append]
      have h1 := (h.trans List.perm_middle).erase old.doc
      rw [List.erase_cons_head] at h1
      refine (h1.append_right _).trans ?_
      exact (List.perm_append_singleton _ _).trans List.perm_middle.symm
    | some d =>
      simp only [hdel, EntityRow.live, Option.isNone_some, Bool.false_eq_true, if_false] at h
      simp only [entities_fts_update, entities_fts_soft_delete, entities_fts_soft_restore, hdel,
        and_self, if_true, ne_eq, not_true_eq_false, and_false, false_and, if_false,
        List.map_cons, List.map_append, reduceCtorEq, not_false_eq_true, and_true, true_and]
      refine (h.append_right _).trans ?_
      exact (List.perm_append_singleton _ _).trans List.perm_middle.symm

theorem upsertEntityRow_rest (db : DB) (now : Nat) (n t : String) (ts : List String) :
    (upsertEntityRow db now n t ts).observations = db.observations ∧
      (upsertEntityRow db now n t ts).observations_fts = db.observations_fts ∧
      (upsertEntityRow db now n t ts).journal = db.journal ∧
      (upsertEntityRow db now n t ts).journal_fts = db.journal_fts := by
  unfold upsertEntityRow
  split <;> exact ⟨rfl, rfl, rfl, rfl⟩

theorem filter_live_map_doc (g : EntityRow → EntityRow)
    (hg : ∀ e, (g e).live = e.live ∧ (g e).doc = e.doc) (E : List EntityRow) :
    ((E.map g).filter (fun e => e.live)).map EntityRow.doc =
      (E.filter (fun e => e.live)).map EntityRow.doc := by
  induction E with
  | nil => rfl
  | cons e E ih =>
    rw [List.map_cons, List.filter_cons, List.filter_cons, (hg e).1]
    cases e.live
    · simpa using ih
    · simp only [if_true, List.map_cons, (hg e).2, ih]

theorem UpsertEntity_ftsInStep {db : DB} (hwf : db.WF) (h : db.ftsInStep) (now : Nat)
    (n t : String) (ts : List String) : (UpsertEntity db now n t ts).2.ftsInStep := by
  have key : (upsertEntityRow db now n t ts).ftsInStep := by
    obtain ⟨h1, h2, h3, h4⟩ := upsertEntityRow_rest db now n t ts
    refine ⟨upsertEntityRow_fts hwf h.1 now n t ts, ?_, ?_⟩
    · rw [h1, h2]
      exact h.2.1
    · rw [h3, h4]
      exact h.2.2
  unfold UpsertEntity
  split
  · exact h
  · split
    · exact h
    · split
      · exact h
      · simp only
        split <;> exact key

theorem GetEntity_ftsInStep {db : DB} (h : db.ftsInStep) (now : Nat) (n : String) :
    (GetEntity db now n).2.ftsInStep := by
  unfold GetEntity
  split
  · exact h
  · next r _ =>
    refine ⟨?_, h.2.1, h.2.2⟩
    show db.entities_fts.Perm _
    rw [filter_live_map_doc _ (fun e => by split <;> exact ⟨rfl, rfl⟩)]
    exact h.1

theorem SoftDeleteEntity_ftsInStep {db : DB} (hwf : db.WF) (h : db.ftsInStep) (now : Nat)
    (n : String) : (SoftDeleteEntity db now n).2.ftsInStep := by
  have hstate : (SoftDeleteEntity db now n).2 =
      { db with entities := db.entities.map (fun e =>
                  if e.nameMatches n && e.live then { e with deleted_at := some now } else e),
                entities_fts := (db.entities.filter (fun e => e.nameMatches n && e.live)).foldl
                  (fun i old =>
                    entities_fts_soft_restore old { old with deleted_at := some now }
                      (entities_fts_soft_delete old { old with deleted_at := some now } i))
                  db.entities_fts } := by
    unfold SoftDeleteEntity
    simp only
    split <;> rfl
  rw [hstate]
  refine ⟨?_, h.2.1, h.2.2⟩
  show List.Perm (List.foldl _ db.entities_fts _) _
  rw [foldl_congr_mem _ (fun i (a : EntityRow) => i.erase a.doc) _ _ (fun b a ha => by
    have hl := (List.mem_filter.1 ha).2
    simp only [Bool.and_eq_true, EntityRow.live, Option.isNone_iff_eq_none] at hl
    simp [entities_fts_soft_restore, entities_fts_soft_delete, hl.2])]
  rw [filter_live_map db.entities (fun e => e.nameMatches n && e.live) (fun e _ => by
    constructor
    · split
      · next hp =>
        simp only [hp, Bool.not_true, Bool.and_false]
        rfl
      · next hp =>
        simp only [Bool.not_eq_true] at hp
        simp [hp]
    · intro hp
      simp [hp])]
  exact perm_erase_docs EntityRow.doc db.entities (nodup_map_entity_doc _ hwf.entity_ids)
    (fun e => e.live) (fun e => e.nameMatches n && e.live) db.entities_fts h.1

theorem HardDeleteEntity_ftsInStep {db : DB} (hwf : db.WF) (h : db.ftsInStep) (n : String) :
    (HardDeleteEntity db n).2.ftsInStep := by
  have hstate : (HardDeleteEntity db n).2 =
      { db with entities := db.entities.filter (fun e => !e.nameMatches n),
                observations := db.observations.filter (fun o =>
                  !(db.entities.filter (fun e => e.nameMatches n)).any
                    (fun e => decide (e.id = o.entity_id))),
                relations := db.relations.filter (fun r =>
                  !(db.entities.filter (fun e => e.nameMatches n)).any
                      (fun e => decide (e.id = r.from_id)) &&
                    !(db.entities.filter (fun e => e.nameMatches n)).any
                      (fun e => decide (e.id = r.to_id))),
                entities_fts := entities_fts_delete
                  (db.entities.filter (fun e => e.nameMatches n)) db.entities_fts,
                observations_fts := observations_fts_delete
                  (db.observations.filter (fun o =>
                    (db.entities.filter (fun e => e.nameMatches n)).any
                      (fun e => decide (e.id = o.entity_id)))) db.observations_fts } := by
    unfold HardDeleteEntity
    simp only
    split <;> rfl
  rw [hstate]
  refine ⟨?_, ?_, h.2.2⟩
  · show List.Perm (entities_fts_delete _ db.entities_fts) _
    rw [List.filter_filter]
    exact perm_erase_docs EntityRow.doc db.entities (nodup_map_entity_doc _ hwf.entity_ids)
      (fun e => e.live) (fun e => e.nameMatches n) db.entities_fts h.1
  · show List.Perm (observations_fts_delete _ db.observations_fts) _
    have h2 := h.2.1
    rw [← List.filter_true db.observations] at h2
    have := perm_erase_docs ObservationRow.doc db.observations
      (nodup_map_observation_doc _ hwf.observation_ids) (fun _ => true)
      (fun o => (db.entities.filter (fun e => e.nameMatches n)).any
        (fun e => decide (e.id = o.entity_id))) db.observations_fts h2
    simpa only [Bool.true_and] using this

theorem AddObservation_ftsInStep {db : DB} (h : db.ftsInStep) (now e : Nat) (c : String) :
    (AddObservation db now e c).2.ftsInStep := by
  unfold AddObservation
  split
  · exact h
  · split
    · exact h
    · split
      · refine ⟨h.1, ?_, h.2.2⟩
        show List.Perm (db.observations_fts ++ _) (List.map _ (db.observations ++ _))
        rw [List.map_append]
        exact h.2.1.append_right _
      · exact h

theorem RetractObservation_ftsInStep {db : DB} (hwf : db.WF) (h : db.ftsInStep)
    (n c : String) : (RetractObservation db n c).2.ftsInStep := by
  unfold RetractObservation
  split
  · exact h
  · next e _ =>
    have key : DB.ftsInStep
        { db with observations := db.observations.filter
                    (fun o => !decide (o.entity_id = e.id ∧ o.content = c)),
                  observations_fts := observations_fts_delete
                    (db.observations.filter
                      (fun o => decide (o.entity_id = e.id ∧ o.content = c)))
                    db.observations_fts } := by
      refine ⟨h.1, ?_, h.2.2⟩
      show List.Perm (observations_fts_delete _ db.observations_fts) _
      have h2 := h.2.1
      rw [← List.filter_true db.observations] at h2
      have := perm_erase_docs ObservationRow.doc db.observations
        (nodup_map_observation_doc _ hwf.observation_ids) (fun _ => true)
        (fun o => decide (o.entity_id = e.id ∧ o.content = c)) db.observations_fts h2
      simpa only [Bool.true_and] using this
    simp only
    split <;> exact key

theorem UpsertRelation_ftsInStep {db : DB} (h : db.ftsInStep) (now f t : Nat) (rel : String) :
    (UpsertRelation db now f t rel).2.ftsInStep := by
  unfold UpsertRelation
  split
  · exact h
  · split
    · exact h
    · exact h

theorem UpsertRelationByName_ftsInStep {db : DB} (h : db.ftsInStep) (t1 t2 t3 : Nat)
    (f t rel : String) : (UpsertRelationByName db t1 t2 t3 f t rel).2.ftsInStep := by
  obtain ⟨fe, te, added, edge, hst, -, -, hadded, -⟩ :=
    UpsertRelationByName_spec db t1 t2 t3 f t rel
  rw [hst]
  refine ⟨?_, h.2.1, h.2.2⟩
  show List.Perm (db.entities_fts ++ _) (List.map _ (List.filter _ (db.entities ++ added)))
  have hlive : added.filter (fun e => e.live) = added :=
    List.filter_eq_self.2 (fun e he => by simp [EntityRow.live, (hadded e he).2.2.1])
  rw [List.filter_append, hlive, List.map_append]
  exact h.1.append_right _

theorem AppendJournal_ftsInStep {db : DB} (h : db.ftsInStep) (now : Nat) (c : String)
    (tags : List String) : (AppendJournal db now c tags).2.ftsInStep := by
  unfold AppendJournal
  split
  · exact h
  · have key : DB.ftsInStep
        { db with journal := db.journal ++ [JournalRow.mk (db.seq_journal + 1) c tags now],
                  journal_fts := db.journal_fts ++
                    [(JournalRow.mk (db.seq_journal + 1) c tags now).doc],
                  seq_journal := db.seq_journal + 1 } := by
      refine ⟨h.1, h.2.1, ?_⟩
      show List.Perm (db.journal_fts ++ _) (List.map _ (db.journal ++ _))
      rw [List.map_append]
      exact h.2.2.append_right _
    simp only
    split <;> exact key

theorem Op.apply_ftsInStep {db : DB} (hwf : db.WF) (h : db.ftsInStep) (op : Op) :
    (op.apply db).ftsInStep := by
  cases op with
  | upsertEntity now n t ts => exact UpsertEntity_ftsInStep hwf h now n t ts
  | getEntity now n => exact GetEntity_ftsInStep h now n
  | softDeleteEntity now n => exact SoftDeleteEntity_ftsInStep hwf h now n
  | hardDeleteEntity n => exact HardDeleteEntity_ftsInStep hwf h n
  | addObservation now e c => exact AddObservation_ftsInStep h now e c
  | retractObservation n c => exact RetractObservation_ftsInStep hwf h n c
  | upsertRelation now f t rel => exact UpsertRelation_ftsInStep h now f t rel
  | upsertRelationByName t1 t2 t3 f t rel =>
    exact UpsertRelationByName_ftsInStep h t1 t2 t3 f t rel
  | appendJournal now c tags => exact AppendJournal_ftsInStep h now c tags

theorem run_ftsInStep : ∀ (ops : List Op) (db : DB), db.WF → db.ftsInStep →
    (run db ops).ftsInStep
  | [], _, _, h => h
  | op :: ops, db, hwf, h =>
    run_ftsInStep ops (op.apply db) (Op.apply_WF hwf op) (Op.apply_ftsInStep hwf h op)

/-- C17: after any sequence of calls from the empty store (entity upserts, lookups that
update the access count, soft deletes, hard deletes, also of rows that are already
soft-deleted, observation adds and retracts, relation upserts with their auto-created
endpoints, journal appends), `entities_fts` holds exactly one document per live entity
row, with the id, name and type of the row, `observations_fts` exactly one document per
observation row, and `journal_fts` exactly one document per journal row. -/
theorem fts_parity (ops : List Op) :
    (run DB.empty ops).entities_fts.Perm
        (((run DB.empty ops).entities.filter (fun e => e.live)).map EntityRow.doc) ∧
      (run DB.empty ops).observations_fts.Perm
        ((run DB.empty ops).observations.map ObservationRow.doc) ∧
      (run DB.empty ops).journal_fts.Perm ((run DB.empty ops).journal.map JournalRow.doc) :=
  run_ftsInStep ops DB.empty DB.empty_WF ⟨List.Perm.refl _, List.Perm.refl _, List.Perm.refl _⟩

/-- The hard delete of a soft-deleted entity: `Redis` is upserted, soft-deleted and then
hard-deleted while `Kafka` stays; the index is left with the document of `Kafka`. -/
theorem fts_parity_hard_delete_after_soft_delete :
    (run DB.empty [Op.upsertEntity 1 "Redis" "system" [], Op.upsertEntity 2 "Kafka" "system" [],
        Op.softDeleteEntity 3 "Redis", Op.hardDeleteEntity "Redis"]).entities_fts =
      [EntityDoc.mk 2 "Kafka" "system"] := by
  decide

theorem Op.apply_observations (db : DB) (op : Op) :
    ∀ o ∈ (op.apply db).observations, o ∈ db.observations ∨ o.content.utf8ByteSize ≤ 10240 := by
  have same : ∀ db2 : DB, db2.observations = db.observations →
      ∀ o ∈ db2.observations, o ∈ db.observations ∨ o.content.utf8ByteSize ≤ 10240 :=
    fun db2 h o ho => Or.inl (h ▸ ho)
  cases op with
  | upsertEntity now n t ts =>
    show ∀ o ∈ (UpsertEntity db now n t ts).2.observations, _
    unfold UpsertEntity
    split
    · exact same db rfl
    · split
      · exact same db rfl
      · split
        · exact same db rfl
        · simp only
          split <;> exact same _ (upsertEntityRow_rest db now n t ts).1
  | getEntity now n =>
    show ∀ o ∈ (GetEntity db now n).2.observations, _
    unfold GetEntity
    split
    · exact same db rfl
    · exact same _ rfl
  | softDeleteEntity now n =>
    show ∀ o ∈ (SoftDeleteEntity db now n).2.observations, _
    unfold SoftDeleteEntity
    simp only
    split <;> exact same _ rfl
  | hardDeleteEntity n =>
    show ∀ o ∈ (HardDeleteEntity db n).2.observations, _
    unfold HardDeleteEntity
    simp only
    split <;> exact fun o ho => Or.inl (List.mem_filter.1 ho).1
  | addObservation now e c =>
    show ∀ o ∈ (AddObservation db now e c).2.observations, _
    unfold AddObservation
    split
    · exact same db rfl
    · next hsize =>
      split
      · exact same _ rfl
      · split
        · intro o ho
          rcases List.mem_append.1 ho with ho | ho
          · exact Or.inl ho
          · rw [List.mem_singleton.1 ho]
            exact Or.inr (by
              show c.utf8ByteSize ≤ 10240
              omega)
        · exact same db rfl
  | retractObservation n c =>
    show ∀ o ∈ (RetractObservation db n c).2.observations, _
    unfold RetractObservation
    split
    · exact same db rfl
    · simp only
      split <;> exact fun o ho => Or.inl (List.mem_filter.1 ho).1
  | upsertRelation now f t rel =>
    exact same _ (UpsertRelation_entities db now f t rel).2.2
  | upsertRelationByName t1 t2 t3 f t rel =>
    show ∀ o ∈ (UpsertRelationByName db t1 t2 t3 f t rel).2.observations, _
    obtain ⟨fe, te, added, edge, hst, -⟩ := UpsertRelationByName_spec db t1 t2 t3 f t rel
    rw [hst]
    exact same _ rfl
  | appendJournal now c tags =>
    show ∀ o ∈ (AppendJournal db now c tags).2.observations, _
    unfold AppendJournal
    split
    · exact same db rfl
    · simp only
      split <;> exact same _ rfl

theorem Op.apply_names (db : DB) (op : Op) (hop : op.createsEndpoints = false) :
    ∀ e ∈ (op.apply db).entities, (∃ e0 ∈ db.entities, e0.name = e.name) ∨
      (0 < e.name.utf8ByteSize ∧ e.name.utf8ByteSize ≤ 1024) := by
  intro e he
  rcases (Op.apply_entities db op).2 e he with ⟨-, hins, -⟩ | ⟨r0, hr0, -, hname, -⟩
  · cases op with
    | upsertEntity now n t ts =>
      have hn : e.name = n := by simpa [Op.inserts] using hins
      by_cases hvalid : 0 < n.utf8ByteSize ∧ n.utf8ByteSize ≤ 1024
      · exact Or.inr (hn ▸ hvalid)
      · have hst : (UpsertEntity db now n t ts).2 = db := by
          unfold UpsertEntity
          split
          · rfl
          · split
            · rfl
            · exact absurd ⟨by omega, by omega⟩ hvalid
        have he2 : e ∈ (UpsertEntity db now n t ts).2.entities := he
        rw [hst] at he2
        exact Or.inl ⟨e, he2, rfl⟩
    | upsertRelationByName t1 t2 t3 f t rel => simp [Op.createsEndpoints] at hop
    | getEntity now n => simp [Op.inserts] at hins
    | softDeleteEntity now n => simp [Op.inserts] at hins
    | hardDeleteEntity n => simp [Op.inserts] at hins
    | addObservation now e c => simp [Op.inserts] at hins
    | retractObservation n c => simp [Op.inserts] at hins
    | upsertRelation now f t rel => simp [Op.inserts] at hins
    | appendJournal now c tags => simp [Op.inserts] at hins
  · exact Or.inl ⟨r0, hr0, hname⟩

theorem run_observation_sizes : ∀ (ops : List Op) (db : DB),
    (∀ o ∈ db.observations, o.content.utf8ByteSize ≤ 10240) →
    ∀ o ∈ (run db ops).observations, o.content.utf8ByteSize ≤ 10240
  | [], _, h => h
  | op :: ops, db, h =>
    run_observation_sizes ops (op.apply db) (fun o ho =>
      (Op.apply_observations db op o ho).elim (h o) id)

theorem run_name_sizes : ∀ (ops : List Op) (db : DB),
    (∀ op ∈ ops, op.createsEndpoints = false) →
    (∀ e ∈ db.entities, 0 < e.name.utf8ByteSize ∧ e.name.utf8ByteSize ≤ 1024) →
    ∀ e ∈ (run db ops).entities, 0 < e.name.utf8ByteSize ∧ e.name.utf8ByteSize ≤ 1024
  | [], _, _, h => h
  | op :: ops, db, hops, h =>
    run_name_sizes ops (op.apply db) (fun o ho => hops o (List.mem_cons_of_mem _ ho))
      (fun e he => (Op.apply_names db op (hops op (List.mem_cons_self _ _)) e he).elim
        (fun ⟨e0, he0, hn⟩ => hn ▸ h e0 he0) id)

/-- C16 (as amended): in every state reachable from the empty store, every observation
row has a content of at most 10240 bytes (the content may be empty); and when no call of
the sequence is `UpsertRelationByName`, every entity row has a name that is not empty and
has at most 1024 bytes. -/
theorem stored_sizes (ops : List Op) :
    (∀ o ∈ (run DB.empty ops).observations, o.content.utf8ByteSize ≤ 10240) ∧
      ((∀ op ∈ ops, op.createsEndpoints = false) →
        ∀ e ∈ (run DB.empty ops).entities,
          0 < e.name.utf8ByteSize ∧ e.name.utf8ByteSize ≤ 1024) :=
  ⟨run_observation_sizes ops DB.empty (fun o ho => absurd ho (List.not_mem_nil o)),
    fun hops => run_name_sizes ops DB.empty hops (fun e he => absurd he (List.not_mem_nil e))⟩

/-- C16, counterexample: `AddObservation` with the empty content on the entity `X`
stores an observation row whose content is empty; and `UpsertRelationByName("", "x",
"r")` stores an entity row whose name is empty. -/
theorem stored_sizes_counterexample :
    (∃ o ∈ (run DB.empty [Op.upsertEntity 1 "X" "t" [], Op.addObservation 2 1 ""]).observations,
        o.content.utf8ByteSize = 0) ∧
      ∃ e ∈ (run DB.empty [Op.upsertRelationByName 1 2 3 "" "x" "r"]).entities,
        e.name.utf8ByteSize = 0 := by
  decide

/-- C5, failing input: `Redis` is upserted and soft-deleted, then
`HardDeleteEntity("Redis")` is called.  One row matches the name, but the call fails: the
soft delete has taken the document of the row out of `entities_fts` and its totals are
zero, and the trigger `entities_fts_delete`, which has no `WHEN old.deleted_at IS NULL`,
sends a 'delete' command for that row, which the engine refuses; the call returns the
error of the engine and the row stays in the table. -/
theorem HardDeleteEntity_refused :
    ((Store.run asciiTokens Store.empty
        [Op.upsertEntity 1 "Redis" "system" [], Op.softDeleteEntity 2 "Redis"]).db.entities.filter
      (fun e => e.nameMatches "Redis")).length = 1 ∧
    (Store.run asciiTokens Store.empty
      [Op.upsertEntity 1 "Redis" "system" [], Op.softDeleteEntity 2 "Redis"]).entities_fts_rows
        = 0 ∧
    (Store.run asciiTokens Store.empty
      [Op.upsertEntity 1 "Redis" "system" [], Op.softDeleteEntity 2 "Redis"]).apply asciiTokens
        (Op.hardDeleteEntity "Redis") = none ∧
    (Store.run asciiTokens Store.empty
      [Op.upsertEntity 1 "Redis" "system" [], Op.softDeleteEntity 2 "Redis",
        Op.hardDeleteEntity "Redis"]).db.entities.map (fun e => e.name) = ["Redis"] ∧
    Store.HardDeleteEntity asciiTokens
      (Store.run asciiTokens Store.empty
        [Op.upsertEntity 1 "Redis" "system" [], Op.softDeleteEntity 2 "Redis"]) "Redis" =
      (.error corruptVtab, Store.run asciiTokens Store.empty
        [Op.upsertEntity 1 "Redis" "system" [], Op.softDeleteEntity 2 "Redis"]) := by
  refine ⟨by decide, by decide, by decide, by decide, ?_⟩
  have h : (Store.run asciiTokens Store.empty
      [Op.upsertEntity 1 "Redis" "system" [], Op.softDeleteEntity 2 "Redis"]).apply asciiTokens
        (Op.hardDeleteEntity "Redis") = none := by decide
  unfold Store.HardDeleteEntity Store.exec
  rw [h]

/-- What an accepted hard delete of a soft-deleted row leaves behind: with `Kafka` live,
the hard delete of the soft-deleted `Redis` is accepted and brings the totals to zero
while the index holds the document of `Kafka`; from then on the soft delete, the hard
delete and the upsert of `Kafka` are refused. -/
theorem Store_totals_out_of_step :
    (Store.run asciiTokens Store.empty
      [Op.upsertEntity 1 "Redis" "system" [], Op.upsertEntity 2 "Kafka" "system" [],
        Op.softDeleteEntity 3 "Redis", Op.hardDeleteEntity "Redis"]) =
      Store.mk (run DB.empty
        [Op.upsertEntity 1 "Redis" "system" [], Op.upsertEntity 2 "Kafka" "system" [],
          Op.softDeleteEntity 3 "Redis", Op.hardDeleteEntity "Redis"]) 0 0 0 ∧
    (run DB.empty
      [Op.upsertEntity 1 "Redis" "system" [], Op.upsertEntity 2 "Kafka" "system" [],
        Op.softDeleteEntity 3 "Redis", Op.hardDeleteEntity "Redis"]).entities_fts =
      [EntityDoc.mk 2 "Kafka" "system"] ∧
    ∀ op ∈ [Op.softDeleteEntity 4 "Kafka", Op.hardDeleteEntity "Kafka",
        Op.upsertEntity 4 "Kafka" "tool" []],
      (Store.run asciiTokens Store.empty
        [Op.upsertEntity 1 "Redis" "system" [], Op.upsertEntity 2 "Kafka" "system" [],
          Op.softDeleteEntity 3 "Redis", Op.hardDeleteEntity "Redis"]).apply asciiTokens op =
        none := by
  decide

/-- The column totals decide as well: with `x` live, the hard delete of the soft-deleted
`a b c d`, whose name has four tokens, is refused although the row total is one. -/
theorem Store_token_totals :
    (Store.run asciiTokens Store.empty
      [Op.upsertEntity 1 "a b c d" "t1 t2 t3" [], Op.upsertEntity 2 "x" "y" [],
        Op.softDeleteEntity 3 "a b c d"]) =
      Store.mk (run DB.empty
        [Op.upsertEntity 1 "a b c d" "t1 t2 t3" [], Op.upsertEntity 2 "x" "y" [],
          Op.softDeleteEntity 3 "a b c d"]) 1 1 1 ∧
    (Store.run asciiTokens Store.empty
      [Op.upsertEntity 1 "a b c d" "t1 t2 t3" [], Op.upsertEntity 2 "x" "y" [],
        Op.softDeleteEntity 3 "a b c d"]).apply asciiTokens (Op.hardDeleteEntity "a b c d") =
      none := by
  decide

theorem Search_score_witness :
    ∃ x, Search (sqlEngine (fun _ => some (fun _ => true)))
        (UpsertEntity DB.empty 0 "Redis" "system" []).2 28800000 "redis" "" [] "" 10 = .ok [x] ∧
      x.entity.Name = "Redis" ∧
      x.Score = 0.6 / Real.logb 10 ((((28800000 : ℕ) : ℝ) - ((0 : ℕ) : ℝ)) / 3600000 + 2) +
        0.4 * Real.logb 10 (((0 : ℕ) : ℝ) + 1) := by
  have hrank := (@importance_rank_of_lt 28800000 0 0 (by decide)).2
  have hdb : (UpsertEntity DB.empty 0 "Redis" "system" []).2 =
      DB.mk [EntityRow.mk 1 "Redis" "system" [] 0 0 none 0 none] [] [] []
        [EntityDoc.mk 1 "Redis" "system"] [] [] 1 0 0 0 := by decide
  have hrows : ∀ hit : List String → Bool, hit = (fun _ => true) →
      ([EntityRow.mk 1 "Redis" "system" [] 0 0 none 0 none].filter (fun e =>
        e.live && ([EntityDoc.mk 1 "Redis" "system"].any
            (fun d => decide (d.rowid = e.id) && hit [d.name, d.entity_type]) ||
          ([] : List ObservationRow).any (fun o => decide (o.entity_id = e.id) &&
            ([] : List TextDoc).any (fun d => decide (d.rowid = o.id) && hit [d.content]))) &&
          typeFilter "" e && tagFilter [] e)) =
        [EntityRow.mk 1 "Redis" "system" [] 0 0 none 0 none] := by
    intro hit hh
    subst hh
    decide
  have hS : Search (sqlEngine (fun _ => some (fun _ => true)))
      (UpsertEntity DB.empty 0 "Redis" "system" []).2 28800000 "redis" "" [] "" 10 =
      .ok [SearchResult.mk
        { scanEntity (EntityRow.mk 1 "Redis" "system" [] 0 0 none 0 none) with
          Observations := [] }
        (0.6 / Real.logb 10 ((((28800000 : ℕ) : ℝ) - ((0 : ℕ) : ℝ)) / 3600000 + 2) +
          0.4 * Real.logb 10 (((0 : ℕ) : ℝ) + 1))] := by
    rw [hdb]
    unfold Search
    simp only [show ¬ ((10 : Int) ≤ 0) by decide, show ¬ ("redis" = "") by decide, if_false,
      sqlEngine, hrows _ rfl, List.map_cons, List.map_nil, hrank, orderBy,
      List.insertionSort, List.orderedInsert]
    rfl
  refine ⟨_, hS, rfl, ?_⟩
  exact Search_score _ _ _ _ _ _ _ _ _ (by decide) hS _ (List.mem_singleton.2 rfl)

theorem run_append (db : DB) (a b : List Op) : run db (a ++ b) = run (run db a) b := by
  unfold run
  rw [List.foldl_append]

theorem storeObservations_run (id : Nat) : ∀ (calls : List (Nat × String)) (db : DB),
    ∃ ops : List Op, (∀ op ∈ ops, op.createsEndpoints = false) ∧
      (storeObservations db id calls).2 = run db ops
  | [], db => ⟨[], by simp, rfl⟩
  | call :: calls, db => by
    unfold storeObservations
    have hone : (AddObservation db call.1 id call.2).2 =
        run db [Op.addObservation call.1 id call.2] := rfl
    have hce : ∀ op ∈ [Op.addObservation call.1 id call.2], op.createsEndpoints = false := by
      intro op hop
      rw [List.mem_singleton.1 hop]
      rfl
    split
    · next err db1 heq =>
      have h2 : db1 = (AddObservation db call.1 id call.2).2 := by rw [heq]
      exact ⟨_, hce, by rw [h2, hone]⟩
    · next u db1 heq =>
      have h2 : db1 = (AddObservation db call.1 id call.2).2 := by rw [heq]
      obtain ⟨ops, hops, hrun⟩ := storeObservations_run id calls db1
      refine ⟨[Op.addObservation call.1 id call.2] ++ ops, ?_, ?_⟩
      · intro op hop
        rcases List.mem_append.1 hop with hop | hop
        · exact hce op hop
        · exact hops op hop
      · rw [run_append, ← hone, ← h2, hrun]

/-- `StoreEntities` writes through `UpsertEntity` and `AddObservation` only: the store it
leaves, whether it succeeds or stops at an error, is the store after a sequence of such
calls. -/
theorem StoreEntities_run : ∀ (calls : List (EntityInput × Nat × List Nat)) (db : DB),
    ∃ ops : List Op, (∀ op ∈ ops, op.createsEndpoints = false) ∧
      (StoreEntities db calls).2 = run db ops
  | [], db => ⟨[], by simp, rfl⟩
  | call :: calls, db => by
    unfold StoreEntities
    have hone : ∀ t, (UpsertEntity db call.2.1 call.1.Name t call.1.Tags).2 =
        run db [Op.upsertEntity call.2.1 call.1.Name t call.1.Tags] := fun _ => rfl
    have hce : ∀ t, ∀ op ∈ [Op.upsertEntity call.2.1 call.1.Name t call.1.Tags],
        op.createsEndpoints = false := by
      intro t op hop
      rw [List.mem_singleton.1 hop]
      rfl
    split
    · next err db1 heq =>
      have h2 : db1 = (UpsertEntity db call.2.1 call.1.Name
          (if call.1.EntityType = "" then "concept" else call.1.EntityType) call.1.Tags).2 := by
        rw [heq]
      exact ⟨_, hce _, by rw [h2, hone]⟩
    · next id db1 heq =>
      have h2 : db1 = (UpsertEntity db call.2.1 call.1.Name
          (if call.1.EntityType = "" then "concept" else call.1.EntityType) call.1.Tags).2 := by
        rw [heq]
      obtain ⟨ops1, hops1, hrun1⟩ := storeObservations_run id
        (call.1.Observations.enum.map (fun x => (call.2.2.getD x.1 0, x.2))) db1
      have hall : ∀ op ∈ [Op.upsertEntity call.2.1 call.1.Name
          (if call.1.EntityType = "" then "concept" else call.1.EntityType) call.1.Tags] ++ ops1,
          op.createsEndpoints = false := by
        intro op hop
        rcases List.mem_append.1 hop with hop | hop
        · exact hce _ op hop
        · exact hops1 op hop
      split
      · next err db2 heq2 =>
        have h3 : db2 = (storeObservations db1 id
            (call.1.Observations.enum.map (fun x => (call.2.2.getD x.1 0, x.2)))).2 := by
          rw [heq2]
        exact ⟨_, hall, by rw [run_append, ← hone, ← h2, h3, hrun1]⟩
      · next u db2 heq2 =>
        have h3 : db2 = (storeObservations db1 id
            (call.1.Observations.enum.map (fun x => (call.2.2.getD x.1 0, x.2)))).2 := by
          rw [heq2]
        obtain ⟨ops2, hops2, hrun2⟩ := StoreEntities_run calls db2
        have hfin : (StoreEntities db2 calls).2 = run db (([Op.upsertEntity call.2.1 call.1.Name
            (if call.1.EntityType = "" then "concept" else call.1.EntityType) call.1.Tags] ++
              ops1) ++ ops2) := by
          rw [run_append, run_append, ← hone, ← h2, ← hrun1, ← h3, hrun2]
        refine ⟨([Op.upsertEntity call.2.1 call.1.Name
            (if call.1.EntityType = "" then "concept" else call.1.EntityType) call.1.Tags] ++
              ops1) ++ ops2, fun op hop => ?_, ?_⟩
        · rcases List.mem_append.1 hop with hop | hop
          · exact hall op hop
          · exact hops2 op hop
        · split
          · next err db3 heq3 =>
            show db3 = _
            rw [← hfin, heq3]
          · next results db3 heq3 =>
            show db3 = _
            rw [← hfin, heq3]

/-- The first scenario of the specification: storing `Redis` with one observation and one
tag returns one entity with that observation. -/
theorem StoreEntities_example :
    (StoreEntities DB.empty
      [(EntityInput.mk "Redis" "system" ["Port 6379"] ["cache"], 1, [2])]).1 =
      .ok [{ ID := 1, Name := "Redis", EntityType := "system", Tags := ["cache"], CreatedAt := 1,
             UpdatedAt := 1, DeletedAt := none, AccessCount := 0, LastAccessed := none,
             Observations := ["Port 6379"] }] := by
  rfl

theorem mem_trimDashes {cs : List Char} {c : Char} (h : c ∈ trimDashes cs) : c ∈ cs := by
  unfold trimDashes at h
  exact (List.dropWhile_sublist _).subset (List.mem_reverse.1
    ((List.dropWhile_sublist _).subset (List.mem_reverse.1 h)))

theorem trimDashes_getLast? (cs : List Char) : (trimDashes cs).getLast? ≠ some '-' := by
  unfold trimDashes
  rw [List.getLast?_reverse]
  intro h
  have := List.head?_dropWhile_not (fun c => decide (c = '-'))
    (cs.dropWhile (fun c => decide (c = '-'))).reverse
  rw [h] at this
  simp at this

theorem trimDashes_head? (cs : List Char) : (trimDashes cs).head? ≠ some '-' := by
  unfold trimDashes
  rw [List.head?_reverse]
  intro h
  have hsplit := List.takeWhile_append_dropWhile (fun c => decide (c = '-'))
    (cs.dropWhile (fun c => decide (c = '-'))).reverse
  have hlast : ((cs.dropWhile (fun c => decide (c = '-'))).reverse).getLast? = some '-' := by
    rw [← hsplit, List.getLast?_append, h]
    rfl
  rw [List.getLast?_reverse] at hlast
  have := List.head?_dropWhile_not (fun c => decide (c = '-')) cs
  rw [hlast] at this
  simp at this

/-- The replacement of one character, without `toLower` and `isContextChar`: a capital
ASCII letter becomes the small letter 32 code points up, a character of `[a-z0-9-]` stays,
U+0130 and U+212A become `i` and `k`, and every other character becomes `-`. -/
theorem sanitize_char_eq (ch : Char) :
    (if isContextChar (toLower ch) then toLower ch else '-') =
      (if 65 ≤ ch.toNat ∧ ch.toNat ≤ 90 then Char.ofNat (ch.toNat + 32)
       else if (97 ≤ ch.toNat ∧ ch.toNat ≤ 122) ∨ (48 ≤ ch.toNat ∧ ch.toNat ≤ 57) ∨
          ch.toNat = 45 then ch
       else if ch.toNat = 0x130 then 'i' else if ch.toNat = 0x212A then 'k' else '-') := by
  by_cases hU : 65 ≤ ch.toNat ∧ ch.toNat ≤ 90
  · rw [if_pos hU]
    obtain ⟨h1, h2⟩ := hU
    have hch : ch = Char.ofNat ch.toNat := (Char.ofNat_toNat ch).symm
    generalize ch.toNat = n at h1 h2 hch
    subst hch
    interval_cases n <;> decide
  · rw [if_neg hU]
    have hl : ch.toLower = ch := by
      unfold Char.toLower
      simp only [Char.toNat] at hU
      simp only [ge_iff_le]
      split_ifs with h
      · exact absurd h (by
          intro ⟨a, b⟩
          apply hU
          constructor
          · exact a
          · exact b)
      · rfl
    unfold toLower
    by_cases hi : ch.toNat = 0x130
    · have : ¬ ((97 ≤ ch.toNat ∧ ch.toNat ≤ 122) ∨ (48 ≤ ch.toNat ∧ ch.toNat ≤ 57) ∨
          ch.toNat = 45) := by omega
      rw [if_pos hi, if_neg this, if_pos hi]
      rfl
    · by_cases hk : ch.toNat = 0x212A
      · have : ¬ ((97 ≤ ch.toNat ∧ ch.toNat ≤ 122) ∨ (48 ≤ ch.toNat ∧ ch.toNat ≤ 57) ∨
            ch.toNat = 45) := by omega
        rw [if_neg hi, if_pos hk, if_neg this, if_neg hi, if_pos hk]
        rfl
      · rw [if_neg hi, if_neg hk, hl]
        by_cases hc : (97 ≤ ch.toNat ∧ ch.toNat ≤ 122) ∨ (48 ≤ ch.toNat ∧ ch.toNat ≤ 57) ∨
            ch.toNat = 45
        · rw [if_pos hc, if_pos]
          unfold isContextChar
          simp only [Bool.or_eq_true, Bool.and_eq_true, decide_eq_true_eq]
          omega
        · rw [if_neg hc, if_neg hi, if_neg hk, if_neg]
          unfold isContextChar
          simp only [Bool.or_eq_true, Bool.and_eq_true, decide_eq_true_eq]
          omega

/-- What `trimDashes` removes: a run of `-` in front and a run of `-` behind. -/
theorem trimDashes_split (cs : List Char) :
    ∃ pre post : List Char, cs = pre ++ trimDashes cs ++ post ∧
      (∀ ch ∈ pre, ch = '-') ∧ (∀ ch ∈ post, ch = '-') := by
  refine ⟨cs.takeWhile (fun c => decide (c = '-')),
    ((cs.dropWhile (fun c => decide (c = '-'))).reverse.takeWhile
      (fun c => decide (c = '-'))).reverse, ?_, ?_, ?_⟩
  · unfold trimDashes
    rw [List.append_assoc, ← List.reverse_append, List.takeWhile_append_dropWhile,
      List.reverse_reverse, List.takeWhile_append_dropWhile]
  · intro ch hch
    simpa using List.mem_takeWhile_imp hch
  · intro ch hch
    simpa using List.mem_takeWhile_imp (List.mem_reverse.1 hch)

/-- C21: `SanitizeContext(c)` is `c` lowercased, with every character outside `[a-z0-9-]`
replaced by `-` and the leading and trailing `-` removed; the result holds only
characters of `[a-z0-9-]` and neither starts nor ends with `-`; and `dbName(c)` is
`memory.db` when `c` is empty or `default`, else `memory-`, the sanitized `c`, `.db`.
The lowercasing and the replacement are written out per character: a capital ASCII letter
gives its small letter, a character of `[a-z0-9-]` is kept, U+0130 and the Kelvin sign
U+212A give `i` and `k` (the two characters outside ASCII that `unicode.ToLower` maps to a
letter of `a-z`), every other character gives `-`; the result is that text without a run
of `-` in front and a run of `-` behind. -/
theorem SanitizeContext_spec (c : String) :
    (∃ pre post : List Char,
        c.data.map (fun ch =>
          if 65 ≤ ch.toNat ∧ ch.toNat ≤ 90 then Char.ofNat (ch.toNat + 32)
          else if (97 ≤ ch.toNat ∧ ch.toNat ≤ 122) ∨ (48 ≤ ch.toNat ∧ ch.toNat ≤ 57) ∨
            ch.toNat = 45 then ch
          else if ch.toNat = 0x130 then 'i' else if ch.toNat = 0x212A then 'k' else '-') =
          pre ++ (SanitizeContext c).data ++ post ∧
        (∀ ch ∈ pre, ch = '-') ∧ (∀ ch ∈ post, ch = '-')) ∧
      (∀ ch ∈ (SanitizeContext c).data,
        (97 ≤ ch.toNat ∧ ch.toNat ≤ 122) ∨ (48 ≤ ch.toNat ∧ ch.toNat ≤ 57) ∨ ch = '-') ∧
      (SanitizeContext c).data.head? ≠ some '-' ∧
      (SanitizeContext c).data.getLast? ≠ some '-' ∧
      dbName "" = "memory.db" ∧ dbName "default" = "memory.db" ∧
      (c ≠ "" → c ≠ "default" → dbName c = "memory-" ++ SanitizeContext c ++ ".db") ∧
      SanitizeContext "My_Context!" = "my-context" ∧
      SanitizeContext "--Ops K8s--" = "ops-k8s" ∧
      SanitizeContext "\u0130stanbul caf\u00e9 \u212A8s" = "istanbul-caf--k8s" := by
  refine ⟨?_, ?_, trimDashes_head? _, trimDashes_getLast? _, by decide, by decide, ?_,
    by decide, by decide, by decide⟩
  · have hmap : c.data.map (fun ch =>
          if 65 ≤ ch.toNat ∧ ch.toNat ≤ 90 then Char.ofNat (ch.toNat + 32)
          else if (97 ≤ ch.toNat ∧ ch.toNat ≤ 122) ∨ (48 ≤ ch.toNat ∧ ch.toNat ≤ 57) ∨
            ch.toNat = 45 then ch
          else if ch.toNat = 0x130 then 'i' else if ch.toNat = 0x212A then 'k' else '-') =
        (c.data.map toLower).map (fun ch => if isContextChar ch then ch else '-') := by
      rw [List.map_map]
      exact List.map_congr_left (fun ch _ => (sanitize_char_eq ch).symm)
    rw [hmap]
    exact trimDashes_split _
  · intro ch hch
    unfold SanitizeContext at hch
    obtain ⟨x, -, rfl⟩ := List.mem_map.1 (mem_trimDashes hch)
    split
    · next h =>
      unfold isContextChar at h
      simp only [Bool.or_eq_true, Bool.and_eq_true, decide_eq_true_eq] at h
      rcases h with (h | h) | h
      · exact Or.inl h
      · exact Or.inr (Or.inl h)
      · exact Or.inr (Or.inr (Char.ext (by
          show x.val = '-'.val
          exact UInt32.ext (by simpa [Char.toNat] using h))))
    · exact Or.inr (Or.inr rfl)
  · intro h1 h2
    unfold dbName
    rw [if_neg (by simp [h1, h2])]

/-- The cases of `TestSanitizeContext` and `TestDbName`. -/
theorem SanitizeContext_tests :
    SanitizeContext "ops" = "ops" ∧ SanitizeContext "my-context" = "my-context" ∧
      SanitizeContext "My_Context!" = "my-context" ∧ dbName "ops" = "memory-ops.db" ∧
      dbName "my-context" = "memory-my-context.db" := by
  decide

theorem dbName_named (c : String) (h : ¬ (c = "" ∨ c = "default")) :
    dbName c = "memory-" ++ SanitizeContext c ++ ".db" := by
  unfold dbName
  rw [if_neg h]

theorem memory_name_injective {s t : String}
    (h : "memory-" ++ s ++ ".db" = "memory-" ++ t ++ ".db") : s = t := by
  have h2 := congrArg String.data h
  simp only [String.data_append] at h2
  exact String.ext (List.append_cancel_left (List.append_cancel_right h2))

theorem memory_name_ne_default (s : String) : "memory-" ++ s ++ ".db" ≠ "memory.db" := by
  intro h
  have h2 := congrArg String.data h
  simp only [String.data_append] at h2
  simp at h2

/-- C30 (as amended): `dbName(c1) = dbName(c2)` exactly when both contexts are the default
one (empty or `default`), or neither is and their sanitized names are equal; so two named
contexts whose sanitized names differ never share a data file, and no named context maps
to `memory.db`. -/
theorem dbName_eq_iff (c1 c2 : String) :
    (dbName c1 = dbName c2 ↔
      ((c1 = "" ∨ c1 = "default") ∧ (c2 = "" ∨ c2 = "default")) ∨
        (¬ (c1 = "" ∨ c1 = "default") ∧ ¬ (c2 = "" ∨ c2 = "default") ∧
          SanitizeContext c1 = SanitizeContext c2)) ∧
      (¬ (c1 = "" ∨ c1 = "default") → dbName c1 ≠ "memory.db") := by
  have hdef : ∀ c : String, (c = "" ∨ c = "default") → dbName c = "memory.db" := by
    intro c h
    unfold dbName
    rw [if_pos h]
  refine ⟨?_, fun h => by rw [dbName_named c1 h]; exact memory_name_ne_default _⟩
  by_cases h1 : c1 = "" ∨ c1 = "default" <;> by_cases h2 : c2 = "" ∨ c2 = "default"
  · simp only [hdef c1 h1, hdef c2 h2, h1, h2, and_self, true_or]
  · rw [hdef c1 h1, dbName_named c2 h2]
    simp only [h1, h2, and_false, not_true_eq_false, false_and, or_self, iff_false]
    exact fun h => memory_name_ne_default _ h.symm
  · rw [hdef c2 h2, dbName_named c1 h1]
    simp only [h1, h2, false_and, not_true_eq_false, and_false, or_self, iff_false]
    exact memory_name_ne_default _
  · rw [dbName_named c1 h1, dbName_named c2 h2]
    simp only [h1, h2, false_and, not_false_eq_true, true_and, false_or]
    exact ⟨memory_name_injective, fun h => by rw [h]⟩

/-- C30, counterexample: the different context names `My_Context!` and `my-context`, and
likewise `Ops` and `ops`, have the same data file. -/
theorem dbName_collision :
    "My_Context!" ≠ "my-context" ∧ dbName "My_Context!" = dbName "my-context" ∧
      "Ops" ≠ "ops" ∧ dbName "Ops" = dbName "ops" ∧ dbName "Ops" = "memory-ops.db" := by
  decide

/-- C29 (as amended): `UpsertRelationByName(from, to, type)` succeeds on every store; both
endpoints are live afterwards and `ListRelationsByEntity(from)` lists an edge from `from`
to `to` with that type exactly when no row named `from` or `to` was soft-deleted before
the call (a soft-deleted endpoint is not restored: the edge is stored but not listed). -/
theorem UpsertRelationByName_listed (db : DB) (t1 t2 t3 : Nat) (f t rel : String) :
    (UpsertRelationByName db t1 t2 t3 f t rel).1 = .ok () ∧
      (((∀ e ∈ (UpsertRelationByName db t1 t2 t3 f t rel).2.entities,
            e.name = f ∨ e.name = t → e.live = true) ∧
          ∃ x ∈ ListRelationsByEntity (UpsertRelationByName db t1 t2 t3 f t rel).2 f,
            x.FromName = f ∧ x.ToName = t ∧ x.Relation = rel) ↔
        ∀ e ∈ db.entities, e.name = f ∨ e.name = t → e.live = true) := by
  obtain ⟨fe, te, added, edge, hst, hfe, hte, hadded, hedge⟩ :=
    UpsertRelationByName_spec db t1 t2 t3 f t rel
  rw [hst]
  refine ⟨rfl, ?_⟩
  have hfe1 := List.mem_of_find?_eq_some hfe
  have hte1 := List.mem_of_find?_eq_some hte
  have hfn : fe.name = f := by simpa using List.find?_some hfe
  have htn : te.name = t := by simpa using List.find?_some hte
  have hrow : ∃ r ∈ db.relations ++ edge,
      r.from_id = fe.id ∧ r.to_id = te.id ∧ r.relation = rel := by
    rcases hedge with ⟨-, r, hr, h⟩ | ⟨he, -⟩
    · exact ⟨r, List.mem_append_left _ hr, h⟩
    · exact ⟨_, List.mem_append_right _ (by rw [he]; exact List.mem_singleton.2 rfl),
        rfl, rfl, rfl⟩
  constructor
  · rintro ⟨hlive, -⟩ e he hn
    exact hlive e (List.mem_append_left _ he) hn
  · intro hlive
    have hall : ∀ e ∈ db.entities ++ added, e.name = f ∨ e.name = t → e.live = true := by
      intro e he hn
      rcases List.mem_append.1 he with he | he
      · exact hlive e he hn
      · simp [EntityRow.live, (hadded e he).2.2.1]
    refine ⟨hall, ?_⟩
    obtain ⟨r, hr, h1, h2, h3⟩ := hrow
    refine ⟨_, mem_ListRelationsByEntity.2 ⟨r, hr, fe, hfe1, te, hte1, h1, h2,
      Or.inl (by simp [EntityRow.nameMatches, hfn]), hall fe hfe1 (Or.inl hfn),
      hall te hte1 (Or.inr htn), rfl⟩, hfn, htn, h3⟩

theorem UpsertRelationByName_listed_witness :
    ∃ x ∈ ListRelationsByEntity
        (UpsertRelationByName DB.empty 1 2 3 "Redis" "Kafka" "uses").2 "Redis",
      x.FromName = "Redis" ∧ x.ToName = "Kafka" ∧ x.Relation = "uses" :=
  ((UpsertRelationByName_listed DB.empty 1 2 3 "Redis" "Kafka" "uses").2.2
    (fun _ he => absurd he (List.not_mem_nil _))).2

/-- C29, counterexample: `Redis` is upserted and soft-deleted; `UpsertRelationByName(
"Redis", "Kafka", "uses")` then returns success, but `Redis` is still soft-deleted and
`ListRelationsByEntity("Redis")` is empty. -/
theorem UpsertRelationByName_listed_counterexample :
    (UpsertRelationByName
        (run DB.empty [Op.upsertEntity 1 "Redis" "system" [], Op.softDeleteEntity 2 "Redis"])
        3 4 5 "Redis" "Kafka" "uses").1 = .ok () ∧
      (UpsertRelationByName
        (run DB.empty [Op.upsertEntity 1 "Redis" "system" [], Op.softDeleteEntity 2 "Redis"])
        3 4 5 "Redis" "Kafka" "uses").2.entities.map (fun e => (e.name, e.live)) =
          [("Redis", false), ("Kafka", true)] ∧
      (UpsertRelationByName
        (run DB.empty [Op.upsertEntity 1 "Redis" "system" [], Op.softDeleteEntity 2 "Redis"])
        3 4 5 "Redis" "Kafka" "uses").2.relations.length = 1 ∧
      ListRelationsByEntity (UpsertRelationByName
        (run DB.empty [Op.upsertEntity 1 "Redis" "system" [], Op.softDeleteEntity 2 "Redis"])
        3 4 5 "Redis" "Kafka" "uses").2 "Redis" = [] := by
  refine ⟨rfl, by decide, by decide, by decide⟩

theorem StoreEntities_cons_ok (db : DB) (call : EntityInput × Nat × List Nat)
    (calls : List (EntityInput × Nat × List Nat)) (id : Nat) (db1 db2 db3 : DB)
    (rs : List Entity)
    (hU : UpsertEntity db call.2.1 call.1.Name
      (if call.1.EntityType = "" then "concept" else call.1.EntityType) call.1.Tags =
        (.ok id, db1))
    (hO : storeObservations db1 id
      (call.1.Observations.enum.map (fun x => (call.2.2.getD x.1 0, x.2))) = (.ok (), db2))
    (hS : StoreEntities db2 calls = (.ok rs, db3)) :
    StoreEntities db (call :: calls) =
      (.ok ((match GetEntityByID db2 id with
              | some e => [{ e with Observations := ListObservationsByEntityID db2 id }]
              | none => []) ++ rs), db3) := by
  rw [StoreEntities, hU]
  simp only [hO, hS]

theorem dispatch_unknown {κ γ : Type} (srv : Server κ γ) (db : DB) (clock : Clock)
    (name : String) (args : Arguments) (h : name ∉ allTools.map (fun t => t.Name)) :
    dispatch srv db clock name args = (.error ("unknown tool: " ++ name), db) := by
  simp only [allTools, List.map_cons, List.map_nil, List.mem_cons, List.mem_singleton,
    List.not_mem_nil, or_false, not_or] at h
  unfold dispatch
  rw [if_neg h.1, if_neg h.2.1, if_neg h.2.2.1, if_neg h.2.2.2.1, if_neg h.2.2.2.2]

/-- C22: a failing tool is not a JSON-RPC error.  For a `tools/call` request whose
params decode (`json.Marshal` succeeding on tool results), the response carries the id
of the request, has no error member, and its result is a `ToolResult` with one content
item of type `text`; `isError` is true exactly when the handler returned an error, and
the text is then the error message, for an unknown tool name `unknown tool: ` and the
name; otherwise the text is the serialization of the result of the tool. -/
theorem handleToolCall_spec {κ γ : Type} (srv : Server κ γ) (db : DB) (clock : Clock)
    (req : Request) (p : ToolCallParams) (hp : req.Params = .ok p)
    (hm : ∀ out, ∃ text, srv.marshal out = .ok text) :
    (req.Method = "tools/call" →
      handle srv db clock req = handleToolCall srv db clock req) ∧
    (handleToolCall srv db clock req).1.Error = none ∧
    (handleToolCall srv db clock req).1.ID = req.ID ∧
    (handleToolCall srv db clock req).2 =
      (dispatch srv db clock p.Name (p.Arguments.getD Arguments.empty)).2 ∧
    (∃ text isError,
      (handleToolCall srv db clock req).1.Result =
        some (.toolResult { Content := [{ Kind := "text", Text := text }],
                            IsError := isError }) ∧
      (isError = true ↔ ∃ err,
        (dispatch srv db clock p.Name (p.Arguments.getD Arguments.empty)).1 = .error err) ∧
      (∀ err, (dispatch srv db clock p.Name (p.Arguments.getD Arguments.empty)).1 = .error err →
        text = err) ∧
      (∀ out, (dispatch srv db clock p.Name (p.Arguments.getD Arguments.empty)).1 = .ok out →
        srv.marshal out = .ok text)) ∧
    (p.Name ∉ allTools.map (fun t => t.Name) →
      (dispatch srv db clock p.Name (p.Arguments.getD Arguments.empty)).1 =
        .error ("unknown tool: " ++ p.Name)) := by
  have hA : req.Method = "tools/call" →
      handle srv db clock req = handleToolCall srv db clock req := by
    intro h
    unfold handle
    rw [h]
    rfl
  refine ⟨hA, ?_⟩
  have key : (handleToolCall srv db clock req).1.Error = none ∧
      (handleToolCall srv db clock req).1.ID = req.ID ∧
      (handleToolCall srv db clock req).2 =
        (dispatch srv db clock p.Name (p.Arguments.getD Arguments.empty)).2 ∧
      (∃ text isError,
        (handleToolCall srv db clock req).1.Result =
          some (.toolResult { Content := [{ Kind := "text", Text := text }],
                              IsError := isError }) ∧
        (isError = true ↔ ∃ err,
          (dispatch srv db clock p.Name (p.Arguments.getD Arguments.empty)).1 = .error err) ∧
        (∀ err,
          (dispatch srv db clock p.Name (p.Arguments.getD Arguments.empty)).1 = .error err →
            text = err) ∧
        (∀ out,
          (dispatch srv db clock p.Name (p.Arguments.getD Arguments.empty)).1 = .ok out →
            srv.marshal out = .ok text)) := by
    unfold handleToolCall
    simp only [hp]
    cases hd : dispatch srv db clock p.Name (p.Arguments.getD Arguments.empty) with
    | mk res db1 =>
      cases res with
      | error err =>
        refine ⟨by simp [successResponse], by simp [successResponse], by simp,
          ⟨err, true, by simp [successResponse], by simp, by simp, by simp⟩⟩
      | ok out =>
        obtain ⟨text, ht⟩ := hm out
        refine ⟨by simp [successResponse, ht], by simp [successResponse, ht], by simp [ht],
          ⟨text, false, by simp [successResponse, ht], by simp, by simp, ?_⟩⟩
        intro o ho
        injection ho with ho
        rw [← ho]
        exact ht
  exact ⟨key.1, key.2.1, key.2.2.1, key.2.2.2,
    fun h => by rw [dispatch_unknown srv db clock _ _ h]⟩

theorem handleToolCall_spec_witness :
    (handleToolCall
      (@Server.mk Nat Unit ⟨fun _ => none, fun _ _ _ => none, fun _ _ => true, 0⟩
        (fun _ _ _ => 0) "memory.db" (fun _ _ _ => .ok ()) (fun _ => .ok "{}"))
      DB.empty ⟨fun _ => 0, [], 0⟩
      ⟨"2.0", some "1", "tools/call", .ok ⟨"memory_launch", none⟩⟩).1.Error = none ∧
    (dispatch
      (@Server.mk Nat Unit ⟨fun _ => none, fun _ _ _ => none, fun _ _ => true, 0⟩
        (fun _ _ _ => 0) "memory.db" (fun _ _ _ => .ok ()) (fun _ => .ok "{}"))
      DB.empty ⟨fun _ => 0, [], 0⟩ "memory_launch" Arguments.empty).1 =
        .error ("unknown tool: " ++ "memory_launch") :=
  ⟨(handleToolCall_spec
    (@Server.mk Nat Unit ⟨fun _ => none, fun _ _ _ => none, fun _ _ => true, 0⟩
      (fun _ _ _ => 0) "memory.db" (fun _ _ _ => .ok ()) (fun _ => .ok "{}"))
    DB.empty ⟨fun _ => 0, [], 0⟩
    ⟨"2.0", some "1", "tools/call", .ok ⟨"memory_launch", none⟩⟩ ⟨"memory_launch", none⟩ rfl
    (fun _ => ⟨"{}", rfl⟩)).2.1,
   (handleToolCall_spec
    (@Server.mk Nat Unit ⟨fun _ => none, fun _ _ _ => none, fun _ _ => true, 0⟩
      (fun _ _ _ => 0) "memory.db" (fun _ _ _ => .ok ()) (fun _ => .ok "{}"))
    DB.empty ⟨fun _ => 0, [], 0⟩
    ⟨"2.0", some "1", "tools/call", .ok ⟨"memory_launch", none⟩⟩ ⟨"memory_launch", none⟩ rfl
    (fun _ => ⟨"{}", rfl⟩)).2.2.2.2.2 (by decide)⟩

/-- C23: `handle` returns a JSON-RPC error with code -32601 exactly when the method is
none of `initialize`, `notifications/initialized`, `tools/list` and `tools/call`, and the
error response then carries the id of the request; for `notifications/initialized` it
returns the empty response, for which `ServeStdio` writes no reply, and leaves the store
as it is. -/
theorem handle_method {κ γ : Type} (srv : Server κ γ) (db : DB) (clock : Clock)
    (req : Request) :
    ((∃ e, (handle srv db clock req).1.Error = some e ∧ e.Code = -32601) ↔
      req.Method ∉ ["initialize", "notifications/initialized", "tools/list", "tools/call"]) ∧
    (req.Method ∉ ["initialize", "notifications/initialized", "tools/list", "tools/call"] →
      handle srv db clock req = (errorResponse req.ID (-32601) "method not found", db)) ∧
    (req.Method = "notifications/initialized" →
      handle srv db clock req = ({ JSONRPC := "", ID := none, Result := none, Error := none }, db) ∧
      reply (handle srv db clock req).1 = none) := by
  have hnot : req.Method ∉ ["initialize", "notifications/initialized", "tools/list",
      "tools/call"] →
      handle srv db clock req = (errorResponse req.ID (-32601) "method not found", db) := by
    intro h
    simp only [List.mem_cons, List.mem_singleton, List.not_mem_nil, or_false, not_or] at h
    unfold handle
    rw [if_neg h.1, if_neg h.2.1, if_neg h.2.2.1, if_neg h.2.2.2]
  have hcall : ∀ e, (handleToolCall srv db clock req).1.Error = some e → e.Code ≠ -32601 := by
    intro e he
    unfold handleToolCall at he
    split at he
    · simp only [errorResponse, Option.some.injEq] at he
      rw [← he]
      show (-32602 : Int) ≠ -32601
      decide
    · split at he
      · simp [successResponse] at he
      · split at he
        · simp only [errorResponse, Option.some.injEq] at he
          rw [← he]
          show (-32603 : Int) ≠ -32601
          decide
        · simp [successResponse] at he
  refine ⟨⟨?_, fun h => ?_⟩, hnot, fun h => ?_⟩
  · rintro ⟨e, he, hc⟩ hmem
    unfold handle at he
    simp only [List.mem_cons, List.mem_singleton, List.not_mem_nil, or_false] at hmem
    split at he
    · simp [handleInitialize, successResponse] at he
    · split at he
      · simp at he
      · split at he
        · simp [handleToolsList, successResponse] at he
        · split at he
          · exact hcall e he hc
          · rename_i h1 h2 h3 h4
            rcases hmem with h | h | h | h
            · exact h1 h
            · exact h2 h
            · exact h3 h
            · exact h4 h
  · rw [hnot h]
    exact ⟨_, rfl, rfl⟩
  · have hh : handle srv db clock req =
        ({ JSONRPC := "", ID := none, Result := none, Error := none }, db) := by
      unfold handle
      rw [h]
      rfl
    rw [hh]
    exact ⟨rfl, rfl⟩

/-- C24: for a `tools/list` request the result is the tool list, in every state of the
store; the list has five entries, named `memory_context`, `memory_store`,
`memory_search`, `memory_forget` and `memory_link`; `dispatch` routes each of these
names to its handler and answers every other name with `unknown tool`. -/
theorem handleToolsList_spec {κ γ : Type} (srv : Server κ γ) (db : DB) (clock : Clock)
    (req : Request) :
    (req.Method = "tools/list" →
      handle srv db clock req = (successResponse req.ID (.tools allTools), db)) ∧
    allTools.length = 5 ∧
    allTools.map (fun t => t.Name) =
      ["memory_context", "memory_store", "memory_search", "memory_forget", "memory_link"] ∧
    (∀ name args, name ∉ allTools.map (fun t => t.Name) →
      dispatch srv db clock name args = (.error ("unknown tool: " ++ name), db)) ∧
    (∀ args, dispatch srv db clock "memory_context" args =
        (match srv.handleMemoryContext db clock args.context with
          | .error err => .error err
          | .ok value => .ok (.context value), db) ∧
      dispatch srv db clock "memory_store" args = handleMemoryStore db clock args ∧
      dispatch srv db clock "memory_search" args = handleMemorySearch srv db clock args ∧
      dispatch srv db clock "memory_forget" args = handleMemoryForget db clock args ∧
      dispatch srv db clock "memory_link" args = handleMemoryLink db clock args) := by
  refine ⟨fun h => ?_, rfl, rfl, dispatch_unknown srv db clock, fun args =>
    ⟨rfl, rfl, rfl, rfl, rfl⟩⟩
  unfold handle
  rw [h]
  rfl

theorem AddObservation_frame (db : DB) (now e : Nat) (c : String) :
    (AddObservation db now e c).2.entities = db.entities ∧
      (AddObservation db now e c).2.relations = db.relations ∧
      (AddObservation db now e c).2.journal = db.journal := by
  unfold AddObservation
  split_ifs <;> exact ⟨rfl, rfl, rfl⟩

theorem AddObservation_keys (db : DB) (now e : Nat) (c : String)
    (hsize : c.utf8ByteSize ≤ 10240) (he : ∃ r ∈ db.entities, r.id = e) (i : Nat) (c2 : String) :
    (∃ o ∈ (AddObservation db now e c).2.observations, o.entity_id = i ∧ o.content = c2) ↔
      ((∃ o ∈ db.observations, o.entity_id = i ∧ o.content = c2) ∨ (i = e ∧ c2 = c)) := by
  have h1 : ¬ c.utf8ByteSize > 10 * 1024 := by omega
  have h3 : db.entities.any (fun r => decide (r.id = e)) = true := by
    obtain ⟨r, hr, hre⟩ := he
    exact List.any_eq_true.2 ⟨r, hr, by simpa using hre⟩
  unfold AddObservation
  rw [if_neg h1]
  by_cases h2 : db.observations.any (fun o => decide (o.entity_id = e ∧ o.content = c)) = true
  · rw [if_pos h2]
    constructor
    · exact fun h => Or.inl h
    · rintro (h | ⟨rfl, rfl⟩)
      · exact h
      · obtain ⟨o, ho, hoc⟩ := List.any_eq_true.1 h2
        exact ⟨o, ho, by simpa using hoc⟩
  · rw [if_neg h2, if_pos h3]
    constructor
    · rintro ⟨o, ho, hoi, hoc⟩
      rcases List.mem_append.1 ho with h | h
      · exact Or.inl ⟨o, h, hoi, hoc⟩
      · rw [List.mem_singleton] at h
        subst h
        exact Or.inr ⟨hoi.symm, hoc.symm⟩
    · rintro (⟨o, ho, hoi, hoc⟩ | ⟨rfl, rfl⟩)
      · exact ⟨o, List.mem_append_left _ ho, hoi, hoc⟩
      · exact ⟨_, List.mem_append_right _ (List.mem_singleton.2 rfl), rfl, rfl⟩

theorem storeObservations_ok (id : Nat) : ∀ (calls : List (Nat × String)) (db : DB),
    (∃ r ∈ db.entities, r.id = id) → (∀ x ∈ calls, x.2.utf8ByteSize ≤ 10240) →
    ∃ db2, storeObservations db id calls = (.ok (), db2) ∧ db2.entities = db.entities ∧
      db2.relations = db.relations ∧ db2.journal = db.journal ∧
      ∀ (i : Nat) (c : String),
        (∃ o ∈ db2.observations, o.entity_id = i ∧ o.content = c) ↔
          ((∃ o ∈ db.observations, o.entity_id = i ∧ o.content = c) ∨
            (i = id ∧ ∃ x ∈ calls, x.2 = c))
  | [], db, _, _ => ⟨db, rfl, rfl, rfl, rfl, fun i c => by simp⟩
  | call :: calls, db, he, hs => by
    have hA := AddObservation_step db call.1 id call.2 (hs call (List.mem_cons_self _ _)) he
    have hF := AddObservation_frame db call.1 id call.2
    have hK := AddObservation_keys db call.1 id call.2 (hs call (List.mem_cons_self _ _)) he
    cases hcall : AddObservation db call.1 id call.2 with
    | mk res db1 =>
      rw [hcall] at hA hF hK
      simp only at hA hF hK
      have he1 : ∃ r ∈ db1.entities, r.id = id := by rw [hF.1]; exact he
      obtain ⟨db2, h1, h2, h3, h4, h5⟩ := storeObservations_ok id calls db1 he1
        (fun x hx => hs x (List.mem_cons_of_mem _ hx))
      refine ⟨db2, ?_, by rw [h2, hF.1], by rw [h3, hF.2.1], by rw [h4, hF.2.2], ?_⟩
      · unfold storeObservations
        rw [hcall, hA.1]
        exact h1
      · intro i c
        rw [h5 i c, hK i c]
        constructor
        · rintro ((h | ⟨rfl, rfl⟩) | ⟨rfl, x, hx, hxc⟩)
          · exact Or.inl h
          · exact Or.inr ⟨rfl, call, List.mem_cons_self _ _, rfl⟩
          · exact Or.inr ⟨rfl, x, List.mem_cons_of_mem _ hx, hxc⟩
        · rintro (h | ⟨rfl, x, hx, hxc⟩)
          · exact Or.inl (Or.inl h)
          · rcases List.mem_cons.1 hx with rfl | hx
            · exact Or.inl (Or.inr ⟨rfl, hxc.symm⟩)
            · exact Or.inr ⟨rfl, x, hx, hxc⟩

theorem storeObservations_WF {db : DB} (hwf : db.WF) (id : Nat) (calls : List (Nat × String)) :
    (storeObservations db id calls).2.WF := by
  obtain ⟨ops, -, h⟩ := storeObservations_run id calls db
  rw [h]
  exact run_WF hwf ops

theorem enum_map_snd_mem (obs : List String) (readings : List Nat) (c : String) :
    (∃ x ∈ obs.enum.map (fun x => (readings.getD x.1 0, x.2)), x.2 = c) ↔ c ∈ obs := by
  constructor
  · rintro ⟨x, hx, rfl⟩
    obtain ⟨y, hy, rfl⟩ := List.mem_map.1 hx
    show y.2 ∈ obs
    exact List.snd_mem_of_mem_enum hy
  · intro hc
    obtain ⟨k, hk, rfl⟩ := List.getElem_of_mem hc
    exact ⟨(readings.getD k 0, obs[k]), List.mem_map.2 ⟨(k, obs[k]),
      List.mk_mem_enum_iff_getElem?.2 (List.getElem?_eq_getElem hk), rfl⟩, rfl⟩

theorem storeEntity_ok {db : DB} (hwf : db.WF) (now : Nat) (n ty : String)
    (tags obs : List String) (readings : List Nat)
    (hn0 : 0 < n.utf8ByteSize) (hn1 : n.utf8ByteSize ≤ 1024) (ht : ty.utf8ByteSize ≤ 256)
    (ho : ∀ c ∈ obs, c.utf8ByteSize ≤ 10240) :
    ∃ row db1 db2,
      UpsertEntity db now n ty tags = (.ok row.id, db1) ∧
      storeObservations db1 row.id (obs.enum.map (fun x => (readings.getD x.1 0, x.2))) =
        (.ok (), db2) ∧
      db2.WF ∧ row ∈ db2.entities ∧ row.name = n ∧ row.entity_type = ty ∧ row.tags = tags ∧
      row.deleted_at = none ∧
      (∀ r ∈ db.entities, r.name = n → r.id = row.id) ∧
      (∀ r : EntityRow, r.name ≠ n → (r ∈ db2.entities ↔ r ∈ db.entities)) ∧
      db2.relations = db.relations ∧ db2.journal = db.journal ∧
      ∀ (i : Nat) (c : String),
        (∃ o ∈ db2.observations, o.entity_id = i ∧ o.content = c) ↔
          ((∃ o ∈ db.observations, o.entity_id = i ∧ o.content = c) ∨
            (i = row.id ∧ c ∈ obs)) := by
  obtain ⟨e, hfind, hname, hty, htags, hdel, -, hold⟩ := find?_upsertEntityRow hwf now n ty tags
  have hU := UpsertEntity_valid db now n ty tags hn0 hn1 ht
  rw [hfind] at hU
  have hmem : e ∈ (upsertEntityRow db now n ty tags).entities := List.mem_of_find?_eq_some hfind
  have hwf1 := upsertEntityRow_WF hwf now n ty tags
  obtain ⟨db2, h1, h2, h3, h4, h5⟩ := storeObservations_ok e.id
    (obs.enum.map (fun x => (readings.getD x.1 0, x.2))) (upsertEntityRow db now n ty tags)
    ⟨e, hmem, rfl⟩ (by
      intro x hx
      exact ho x.2 ((enum_map_snd_mem obs readings x.2).1 ⟨x, hx, rfl⟩))
  have hwf2 : db2.WF := by
    have := storeObservations_WF hwf1 e.id (obs.enum.map (fun x => (readings.getD x.1 0, x.2)))
    rw [h1] at this
    exact this
  have hrest := upsertEntityRow_observations db now n ty tags
  refine ⟨e, _, db2, hU, h1, hwf2, by rw [h2]; exact hmem, hname, hty, htags, hdel, ?_, ?_,
    by rw [h3, hrest.2.1], by rw [h4, hrest.2.2.1], ?_⟩
  · intro r hr hrn
    rw [hold r hr hrn]
  · intro r hrn
    rw [h2]
    constructor
    · intro hr
      rcases mem_upsertEntityRow hwf now n ty tags r hr with h | h
      · exact h.1
      · exact absurd h.1 hrn
    · intro hr
      exact upsertEntityRow_other hwf now n ty tags hr hrn
  · intro i c
    rw [h5 i c, hrest.1, enum_map_snd_mem]

theorem GetEntityByID_of_mem {db : DB} (hwf : db.WF) {row : EntityRow}
    (hrow : row ∈ db.entities) (hlive : row.deleted_at = none) :
    GetEntityByID db row.id = some (scanEntity row) := by
  unfold GetEntityByID
  cases hf : db.entities.find? (fun e => decide (e.id = row.id) && e.live) with
  | none =>
    have := List.find?_eq_none.1 hf row hrow
    simp [EntityRow.live, hlive] at this
  | some x =>
    have hx := List.find?_some hf
    have hmem := List.mem_of_find?_eq_some hf
    simp only [Bool.and_eq_true, decide_eq_true_eq] at hx
    rw [hwf.entity_eq_of_id hmem hrow hx.1]
    rfl

theorem StoreEntities_ok : ∀ (calls : List (EntityInput × Nat × List Nat)) (db : DB),
    db.WF →
    (∀ call ∈ calls, 0 < call.1.Name.utf8ByteSize ∧ call.1.Name.utf8ByteSize ≤ 1024 ∧
      call.1.EntityType.utf8ByteSize ≤ 256 ∧
      ∀ c ∈ call.1.Observations, c.utf8ByteSize ≤ 10240) →
    ∃ rs db2, StoreEntities db calls = (.ok rs, db2) ∧ db2.WF ∧
      db2.relations = db.relations ∧ db2.journal = db.journal ∧
      List.Forall₂ (fun (call : EntityInput × Nat × List Nat) (r : Entity) =>
        r.Name = call.1.Name ∧
        r.EntityType = (if call.1.EntityType = "" then "concept" else call.1.EntityType) ∧
        r.Tags = call.1.Tags ∧ r.DeletedAt = none ∧
        ∀ c ∈ call.1.Observations, c ∈ r.Observations) calls rs ∧
      (∀ call ∈ calls, ∃ row ∈ db2.entities, row.name = call.1.Name ∧ row.deleted_at = none ∧
        ∀ c ∈ call.1.Observations, c ∈ ListObservationsByEntityID db2 row.id) ∧
      (∀ r ∈ db.entities, ∃ r2 ∈ db2.entities, r2.id = r.id ∧ r2.name = r.name ∧
        (r.deleted_at = none → r2.deleted_at = none)) ∧
      ∀ (i : Nat) (c : String), (∃ o ∈ db.observations, o.entity_id = i ∧ o.content = c) →
        ∃ o ∈ db2.observations, o.entity_id = i ∧ o.content = c
  | [], db, hwf, _ =>
    ⟨[], db, rfl, hwf, rfl, rfl, List.Forall₂.nil, by simp,
      fun r hr => ⟨r, hr, rfl, rfl, id⟩, fun _ _ h => h⟩
  | call :: calls, db, hwf, hv => by
    obtain ⟨hn0, hn1, ht, ho⟩ := hv call (List.mem_cons_self _ _)
    have hty : (if call.1.EntityType = "" then "concept" else call.1.EntityType).utf8ByteSize
        ≤ 256 := by
      split_ifs
      · decide
      · exact ht
    obtain ⟨row, db1, db2, hU, hO, hwf2, hrow, hname, htype, htags, hdel, hsame, hother, hrel,
      hjour, hobs⟩ := storeEntity_ok hwf call.2.1 call.1.Name _ call.1.Tags call.1.Observations
        call.2.2 hn0 hn1 hty ho
    obtain ⟨rs, db3, hS, hwf3, hrel3, hjour3, hall, hstored, hpers, hopers⟩ :=
      StoreEntities_ok calls db2 hwf2 (fun c hc => hv c (List.mem_cons_of_mem _ hc))
    have hlist : ∀ c ∈ call.1.Observations, c ∈ ListObservationsByEntityID db2 row.id :=
      fun c hc => mem_ListObservationsByEntityID.2 ((hobs row.id c).2 (Or.inr ⟨rfl, hc⟩))
    refine ⟨_, db3, StoreEntities_cons_ok db call calls row.id db1 db2 db3 rs hU hO hS, hwf3,
      by rw [hrel3, hrel], by rw [hjour3, hjour], ?_, ?_, ?_, ?_⟩
    · rw [GetEntityByID_of_mem hwf2 hrow hdel]
      exact List.Forall₂.cons ⟨hname, htype, htags, hdel, hlist⟩ hall
    · intro c hc
      rcases List.mem_cons.1 hc with rfl | hc
      · obtain ⟨r2, hr2, hid, hn, hl⟩ := hpers row hrow
        refine ⟨r2, hr2, by rw [hn, hname], hl hdel, fun x hx => ?_⟩
        rw [hid]
        exact mem_ListObservationsByEntityID.2
          (hopers row.id x (mem_ListObservationsByEntityID.1 (hlist x hx)))
      · exact hstored c hc
    · intro r hr
      by_cases hrn : r.name = call.1.Name
      · obtain ⟨r2, hr2, hid, hn, hl⟩ := hpers row hrow
        exact ⟨r2, hr2, by rw [hid, hsame r hr hrn], by rw [hn, hname, hrn], fun _ => hl hdel⟩
      · exact hpers r ((hother r hrn).2 hr)
    · intro i c h
      exact hopers i c ((hobs i c).2 (Or.inl h))

theorem stamp_map_fst (inputs : List EntityInput) (readings : List (Nat × List Nat)) :
    (stamp inputs readings).map Prod.fst = inputs := by
  unfold stamp
  rw [List.map_map]
  exact List.enum_map_snd inputs

/-- The two modes of `memory_store` when the engine accepts the statements of the call,
on a store that satisfies the schema constraints and with params that decode.  A non-empty journal of at most 10240 bytes
appends one journal row with a new id and returns stored = journal with that id;
entities, observations and relations are untouched, whatever `entities` holds.  With an
empty journal and a non-empty list of entities whose names have 1 to 1024 bytes, types at
most 256 bytes and observations at most 10240 bytes each, the call returns stored =
entities with count the number of inputs and one entity per input (its name, its type or
`concept`, its tags, live, holding its observations), and afterwards the store has a live
row of each input's name that holds the input's observations; journal and relations are
untouched.  With both empty the call returns an error and the store is unchanged. -/
theorem handleMemoryStore_spec_accepted {κ γ : Type} {db : DB} (hwf : db.WF) (clock : Clock)
    (args : Arguments) (p : StoreParams) (hp : args.store = .ok p) :
    (p.Journal ≠ "" → p.Journal.utf8ByteSize ≤ 10240 →
      ∃ db2, @handleMemoryStore κ γ db clock args =
          (.ok (.storedJournal (db.seq_journal + 1)), db2) ∧
        db2.journal = db.journal ++
          [JournalRow.mk (db.seq_journal + 1) p.Journal p.Tags (clock.ms 0)] ∧
        (∀ j ∈ db.journal, j.id ≠ db.seq_journal + 1) ∧
        db2.entities = db.entities ∧ db2.observations = db.observations ∧
        db2.relations = db.relations) ∧
    (p.Journal = "" → p.Entities ≠ [] →
      (∀ inp ∈ p.Entities, 0 < inp.Name.utf8ByteSize ∧ inp.Name.utf8ByteSize ≤ 1024 ∧
        inp.EntityType.utf8ByteSize ≤ 256 ∧ ∀ c ∈ inp.Observations, c.utf8ByteSize ≤ 10240) →
      ∃ rs db2, @handleMemoryStore κ γ db clock args =
          (.ok (.storedEntities p.Entities.length rs), db2) ∧
        List.Forall₂ (fun (inp : EntityInput) (r : Entity) =>
          r.Name = inp.Name ∧
          r.EntityType = (if inp.EntityType = "" then "concept" else inp.EntityType) ∧
          r.Tags = inp.Tags ∧ r.DeletedAt = none ∧
          ∀ c ∈ inp.Observations, c ∈ r.Observations) p.Entities rs ∧
        (∀ inp ∈ p.Entities, ∃ row ∈ db2.entities, row.name = inp.Name ∧
          row.deleted_at = none ∧
          ∀ c ∈ inp.Observations, c ∈ ListObservationsByEntityID db2 row.id) ∧
        db2.journal = db.journal ∧ db2.relations = db.relations) ∧
    (p.Journal = "" → p.Entities = [] →
      @handleMemoryStore κ γ db clock args = (.error "entities or journal is required", db)) := by
  refine ⟨fun hj hsize => ?_, fun hj hne hv => ?_, fun hj he => ?_⟩
  · obtain ⟨hA, hfresh⟩ := AppendJournal_step hwf (clock.ms 0) p.Journal p.Tags hsize
    have hH : @handleMemoryStore κ γ db clock args =
        (.ok (.storedJournal (db.seq_journal + 1)),
          { db with journal := db.journal ++
                      [JournalRow.mk (db.seq_journal + 1) p.Journal p.Tags (clock.ms 0)],
                    journal_fts := db.journal_fts ++
                      [(JournalRow.mk (db.seq_journal + 1) p.Journal p.Tags (clock.ms 0)).doc],
                    seq_journal := db.seq_journal + 1 }) := by
      unfold handleMemoryStore
      simp only [hp]
      rw [if_pos hj, hA]
    exact ⟨_, hH, rfl, hfresh, rfl, rfl, rfl⟩
  · have hmem : ∀ call ∈ stamp p.Entities clock.batch, call.1 ∈ p.Entities := by
      intro call hc
      have : call.1 ∈ (stamp p.Entities clock.batch).map Prod.fst := List.mem_map_of_mem _ hc
      rwa [stamp_map_fst] at this
    obtain ⟨rs, db2, hS, -, hrel, hjour, hall, hstored, -, -⟩ :=
      StoreEntities_ok (stamp p.Entities clock.batch) db hwf (fun call hc => hv _ (hmem call hc))
    have hall2 : List.Forall₂ (fun (inp : EntityInput) (r : Entity) =>
        r.Name = inp.Name ∧
        r.EntityType = (if inp.EntityType = "" then "concept" else inp.EntityType) ∧
        r.Tags = inp.Tags ∧ r.DeletedAt = none ∧
        ∀ c ∈ inp.Observations, c ∈ r.Observations)
        ((stamp p.Entities clock.batch).map Prod.fst) rs := List.forall₂_map_left_iff.2 hall
    rw [stamp_map_fst] at hall2
    have hlen : rs.length = p.Entities.length := hall2.length_eq.symm
    refine ⟨rs, db2, ?_, hall2, ?_, hjour, hrel⟩
    · unfold handleMemoryStore
      simp only [hp]
      rw [if_neg (not_not.2 hj), if_neg (by
        intro h
        exact hne (List.length_eq_zero.1 h)), hS]
      simp only [hlen]
    · intro inp hinp
      have : inp ∈ (stamp p.Entities clock.batch).map Prod.fst := by
        rw [stamp_map_fst]
        exact hinp
      obtain ⟨call, hc, rfl⟩ := List.mem_map.1 this
      exact hstored call hc
  · unfold handleMemoryStore
    simp only [hp]
    rw [if_neg (not_not.2 hj), if_pos (by rw [he]; rfl)]

/-- C25, counterexample: with an empty journal and the one input of empty name the call
returns an error instead of stored = entities; with a journal text of 10241 bytes it
returns an error and appends no journal row; with `Redis` followed by an input of
empty name it returns an error although `Redis` was stored; and on the store reached by
upserting `Redis` and `Kafka`, soft-deleting `Redis` and hard-deleting it, where the totals
of the entity index are one document short, the one input `Kafka` makes the call return
the error of the engine. -/
theorem handleMemoryStore_spec_counterexample :
    (@Store.handleMemoryStore Nat Unit asciiTokens Store.empty
      (Clock.mk (fun _ => 5) [(1, [])] 0)
      { Arguments.empty with
        store := .ok (StoreParams.mk [EntityInput.mk "" "" [] []] "" [] "") }).1 =
        .error "upsert \"\": entity name cannot be empty" ∧
    @Store.handleMemoryStore Nat Unit asciiTokens Store.empty (Clock.mk (fun _ => 5) [] 0)
      { Arguments.empty with
        store := .ok (StoreParams.mk [] (String.mk (List.replicate 10241 'a')) [] "") } =
        (.error "journal content exceeds 10KB limit", Store.empty) ∧
    ((@Store.handleMemoryStore Nat Unit asciiTokens Store.empty
      (Clock.mk (fun _ => 5) [(1, [2]), (3, [])] 0)
      { Arguments.empty with
        store := .ok (StoreParams.mk [EntityInput.mk "Redis" "system" ["Port 6379"] [],
          EntityInput.mk "" "system" [] []] "" [] "") }).1 =
        .error "upsert \"\": entity name cannot be empty" ∧
      (@Store.handleMemoryStore Nat Unit asciiTokens Store.empty
        (Clock.mk (fun _ => 5) [(1, [2]), (3, [])] 0)
        { Arguments.empty with
          store := .ok (StoreParams.mk [EntityInput.mk "Redis" "system" ["Port 6379"] [],
            EntityInput.mk "" "system" [] []] "" [] "") }).2.db.entities.map
              (fun e => e.name) = ["Redis"]) ∧
    @Store.handleMemoryStore Nat Unit asciiTokens
      (Store.run asciiTokens Store.empty
      [Op.upsertEntity 1 "Redis" "system" [], Op.upsertEntity 2 "Kafka" "system" [],
        Op.softDeleteEntity 3 "Redis", Op.hardDeleteEntity "Redis"])
      (Clock.mk (fun _ => 5) [(5, [])] 0)
      { Arguments.empty with
        store := .ok (StoreParams.mk [EntityInput.mk "Kafka" "system" [] []] "" [] "") } =
        (.error "upsert \"Kafka\": upsert entity: database disk image is malformed (267)",
          (Store.run asciiTokens Store.empty
            [Op.upsertEntity 1 "Redis" "system" [], Op.upsertEntity 2 "Kafka" "system" [],
              Op.softDeleteEntity 3 "Redis", Op.hardDeleteEntity "Redis"])) := by
  refine ⟨rfl, ?_, ⟨rfl, by decide⟩, rfl⟩
  have hne : String.mk (List.replicate 10241 'a') ≠ "" := by
    intro h
    have := congrArg String.utf8ByteSize h
    rw [utf8ByteSize_replicate_a] at this
    exact absurd this (by decide)
  have key : ∀ s : String, s ≠ "" → s.utf8ByteSize > 10 * 1024 →
      @Store.handleMemoryStore Nat Unit asciiTokens Store.empty (Clock.mk (fun _ => 5) [] 0)
        { Arguments.empty with store := .ok (StoreParams.mk [] s [] "") } =
        (.error "journal content exceeds 10KB limit", Store.empty) := by
    intro s h1 h2
    have hA : AppendJournal DB.empty 5 s [] =
        (.error "journal content exceeds 10KB limit", DB.empty) := by
      unfold AppendJournal
      rw [if_pos h2]
    have hB : Op.apply DB.empty (.appendJournal 5 s []) = DB.empty := by
      show (AppendJournal DB.empty 5 s []).2 = DB.empty
      rw [hA]
    have hAp : Store.apply asciiTokens Store.empty (.appendJournal 5 s []) =
        some Store.empty := by
      unfold Store.apply
      simp only [Op.ftsDeleted, Op.ftsInserted, Store.empty, hB]
      rfl
    have hC : Store.AppendJournal asciiTokens Store.empty 5 s [] =
        (.error "journal content exceeds 10KB limit", Store.empty) := by
      unfold Store.AppendJournal Store.exec
      rw [hAp]
      show ((AppendJournal DB.empty 5 s []).1, Store.empty) = _
      rw [hA]
    unfold Store.handleMemoryStore
    simp only
    rw [if_pos h1]
    show (match Store.AppendJournal asciiTokens Store.empty 5 s [] with
      | (.error err, s1) => _ | (.ok entry, s1) => _) = _
    rw [hC]
  exact key _ hne (by rw [utf8ByteSize_replicate_a]; decide)

theorem Imports.nil {db : DB} (hwf : db.WF) (hlive : ∀ e ∈ db.entities, e.deleted_at = none) :
    Imports db [] db where
  wf := hwf
  live := hlive
  stable := fun r hr => ⟨r, hr, rfl, rfl⟩
  pres := fun _ hr _ => hr
  names := fun r2 hr2 => Or.inl ⟨r2, hr2, rfl⟩
  has := fun _ h => absurd h (List.not_mem_nil _)
  ent := fun _ _ h => absurd h (List.not_mem_nil _)
  obs := fun i c => by simp
  rel := fun a b l => by simp
  ends := fun _ h => absurd h (List.not_mem_nil _)

theorem Imports.append {db db1 db2 : DB} {l1 l2 : List exportEntry} (h1 : Imports db l1 db1)
    (h2 : Imports db1 l2 db2) : Imports db (l1 ++ l2) db2 where
  wf := h2.wf
  live := h2.live
  stable := by
    intro r hr
    obtain ⟨r1, hr1, hid1, hn1⟩ := h1.stable r hr
    obtain ⟨r2, hr2, hid2, hn2⟩ := h2.stable r1 hr1
    exact ⟨r2, hr2, hid2.trans hid1, hn2.trans hn1⟩
  pres := by
    intro r hr hno
    have hr1 := h1.pres r hr (fun rec hrec => hno rec (List.mem_append_left _ hrec))
    exact h2.pres r hr1 (fun rec hrec => hno rec (List.mem_append_right _ hrec))
  names := by
    intro r2 hr2
    rcases h2.names r2 hr2 with ⟨r1, hr1, hn⟩ | ⟨rec, hrec, h⟩
    · rcases h1.names r1 hr1 with ⟨r, hr, hn0⟩ | ⟨rec, hrec, h⟩
      · exact Or.inl ⟨r, hr, hn0.trans hn⟩
      · exact Or.inr ⟨rec, List.mem_append_left _ hrec, by rw [← hn]; exact h⟩
    · exact Or.inr ⟨rec, List.mem_append_right _ hrec, h⟩
  has := by
    intro rec hrec hk
    rcases List.mem_append.1 hrec with h | h
    · obtain ⟨row, hrow, hn⟩ := h1.has rec h hk
      obtain ⟨r2, hr2, -, hn2⟩ := h2.stable row hrow
      exact ⟨r2, hr2, hn2.trans hn⟩
    · exact h2.has rec h hk
  ent := by
    intro hnd rec hrec hk
    rw [List.filter_append, List.map_append, List.nodup_append] at hnd
    obtain ⟨hnd1, hnd2, hdis⟩ := hnd
    rcases List.mem_append.1 hrec with h | h
    · obtain ⟨row, hrow, hn, hty⟩ := h1.ent hnd1 rec h hk
      refine ⟨row, h2.pres row hrow ?_, hn, hty⟩
      intro rec2 hrec2 hk2 heq
      refine hdis (List.mem_map.2 ⟨rec, List.mem_filter.2 ⟨h, by simpa using hk⟩, rfl⟩) ?_
      exact List.mem_map.2 ⟨rec2, List.mem_filter.2 ⟨hrec2, by simpa using hk2⟩,
        heq.trans hn⟩
    · exact h2.ent hnd2 rec h hk
  obs := by
    intro i c
    rw [h2.obs i c, h1.obs i c]
    constructor
    · rintro ((h | ⟨rec, hrec, hk, hc, row, hrow, hn, hid⟩) | ⟨rec, hrec, h⟩)
      · exact Or.inl h
      · obtain ⟨r2, hr2, hid2, hn2⟩ := h2.stable row hrow
        exact Or.inr ⟨rec, List.mem_append_left _ hrec, hk, hc, r2, hr2, hn2.trans hn,
          hid2.trans hid⟩
      · exact Or.inr ⟨rec, List.mem_append_right _ hrec, h⟩
    · rintro (h | ⟨rec, hrec, hk, hc, row, hrow, hn, hid⟩)
      · exact Or.inl (Or.inl h)
      · rcases List.mem_append.1 hrec with h | h
        · obtain ⟨row1, hrow1, hn1⟩ := h1.has rec h hk
          obtain ⟨r2, hr2, hid2, hn2⟩ := h2.stable row1 hrow1
          have : r2 = row := h2.wf.entity_eq_of_name hr2 hrow
            ((hn2.trans hn1).trans hn.symm)
          exact Or.inl (Or.inr ⟨rec, h, hk, hc, row1, hrow1, hn1,
            by rw [← hid2, this]; exact hid⟩)
        · exact Or.inr ⟨rec, h, hk, hc, row, hrow, hn, hid⟩
  rel := by
    intro a b l
    rw [h2.rel a b l, h1.rel a b l]
    constructor
    · rintro ((h | ⟨rec, hrec, hk, hl, fe, hfe, te, hte, hfn, htn, hfi, hti⟩) | ⟨rec, hrec, h⟩)
      · exact Or.inl h
      · obtain ⟨f2, hf2, hfid, hfn2⟩ := h2.stable fe hfe
        obtain ⟨t2, ht2, htid, htn2⟩ := h2.stable te hte
        exact Or.inr ⟨rec, List.mem_append_left _ hrec, hk, hl, f2, hf2, t2, ht2,
          hfn2.trans hfn, htn2.trans htn, hfid.trans hfi, htid.trans hti⟩
      · exact Or.inr ⟨rec, List.mem_append_right _ hrec, h⟩
    · rintro (h | ⟨rec, hrec, hk, hl, fe, hfe, te, hte, hfn, htn, hfi, hti⟩)
      · exact Or.inl (Or.inl h)
      · rcases List.mem_append.1 hrec with h | h
        · obtain ⟨⟨f1, hf1, hfn1⟩, t1, ht1, htn1⟩ := h1.ends rec h hk
          obtain ⟨f2, hf2, hfid, hfn2⟩ := h2.stable f1 hf1
          obtain ⟨t2, ht2, htid, htn2⟩ := h2.stable t1 ht1
          have e1 : f2 = fe := h2.wf.entity_eq_of_name hf2 hfe ((hfn2.trans hfn1).trans hfn.symm)
          have e2 : t2 = te := h2.wf.entity_eq_of_name ht2 hte ((htn2.trans htn1).trans htn.symm)
          exact Or.inl (Or.inr ⟨rec, h, hk, hl, f1, hf1, t1, ht1, hfn1, htn1,
            by rw [← hfid, e1]; exact hfi, by rw [← htid, e2]; exact hti⟩)
        · exact Or.inr ⟨rec, h, hk, hl, fe, hfe, te, hte, hfn, htn, hfi, hti⟩
  ends := by
    intro rec hrec hk
    rcases List.mem_append.1 hrec with h | h
    · obtain ⟨⟨f1, hf1, hfn1⟩, t1, ht1, htn1⟩ := h1.ends rec h hk
      obtain ⟨f2, hf2, -, hfn2⟩ := h2.stable f1 hf1
      obtain ⟨t2, ht2, -, htn2⟩ := h2.stable t1 ht1
      exact ⟨⟨f2, hf2, hfn2.trans hfn1⟩, t2, ht2, htn2.trans htn1⟩
    · exact h2.ends rec h hk

theorem importRecord_entity {db : DB} (hwf : db.WF)
    (hlive : ∀ e ∈ db.entities, e.deleted_at = none) (rec : exportEntry)
    (readings : Nat × List Nat) (hk : rec.Kind = "entity") (hn0 : 0 < rec.Name.utf8ByteSize)
    (hn1 : rec.Name.utf8ByteSize ≤ 1024) (ht : rec.EntityType.utf8ByteSize ≤ 256)
    (ho : ∀ c ∈ rec.Observations, c.utf8ByteSize ≤ 10240) :
    (importRecord db rec readings).1 = .entity ∧
      Imports db [rec] (importRecord db rec readings).2 := by
  have hty1 : (if rec.EntityType = "" then "concept" else rec.EntityType).utf8ByteSize
      ≤ 256 := by
    split_ifs
    · decide
    · exact ht
  have hty2 : (if (if rec.EntityType = "" then "concept" else rec.EntityType) = "" then "concept"
      else (if rec.EntityType = "" then "concept" else rec.EntityType)) =
      (if rec.EntityType = "" then "concept" else rec.EntityType) := by
    by_cases h : rec.EntityType = ""
    · rw [if_pos h]
      decide
    · rw [if_neg h, if_neg h]
  have hne : rec.Name ≠ "" := by
    intro h
    rw [h] at hn0
    exact absurd hn0 (by decide)
  obtain ⟨row, db1, db2, hU, hO, hwf2, hrow, hname, htype, htags, hdel, hsame, hother, hrel,
    -, hobs⟩ := storeEntity_ok hwf readings.1 rec.Name
      (if rec.EntityType = "" then "concept" else rec.EntityType) rec.Tags rec.Observations
      readings.2 hn0 hn1 hty1 ho
  have hSE := StoreEntities_cons_ok db
    ({ Name := rec.Name,
       EntityType := if rec.EntityType = "" then "concept" else rec.EntityType,
       Observations := rec.Observations, Tags := rec.Tags }, readings.1, readings.2) []
    row.id db1 db2 db2 []
    (by
      show UpsertEntity db readings.1 rec.Name
        (if (if rec.EntityType = "" then "concept" else rec.EntityType) = "" then "concept"
          else (if rec.EntityType = "" then "concept" else rec.EntityType)) rec.Tags = _
      rw [hty2]
      exact hU) hO rfl
  have hdb : importRecord db rec readings = (.entity, db2) := by
    unfold importRecord
    rw [if_pos hk, if_neg hne, hSE]
  rw [hdb]
  refine ⟨rfl, ?_⟩
  have huniq : ∀ r ∈ db2.entities, r.name = rec.Name → r = row :=
    fun r hr hn => hwf2.entity_eq_of_name hr hrow (hn.trans hname.symm)
  exact {
    wf := hwf2
    live := by
      intro e he
      by_cases hen : e.name = rec.Name
      · rw [huniq e he hen]
        exact hdel
      · exact hlive e ((hother e hen).1 he)
    stable := by
      intro r hr
      by_cases hrn : r.name = rec.Name
      · exact ⟨row, hrow, (hsame r hr hrn).symm, hname.trans hrn.symm⟩
      · exact ⟨r, (hother r hrn).2 hr, rfl, rfl⟩
    pres := by
      intro r hr hno
      have hrn : r.name ≠ rec.Name := fun h => hno rec (List.mem_singleton.2 rfl) hk h.symm
      exact (hother r hrn).2 hr
    names := by
      intro r2 hr2
      by_cases hrn : r2.name = rec.Name
      · exact Or.inr ⟨rec, List.mem_singleton.2 rfl, Or.inl ⟨hk, hrn.symm⟩⟩
      · exact Or.inl ⟨r2, (hother r2 hrn).1 hr2, rfl⟩
    has := by
      intro rec2 h2 _
      rw [List.mem_singleton.1 h2]
      exact ⟨row, hrow, hname⟩
    ent := by
      intro _ rec2 h2 _
      rw [List.mem_singleton.1 h2]
      exact ⟨row, hrow, hname, htype, htags⟩
    obs := by
      intro i c
      rw [hobs i c]
      constructor
      · rintro (h | ⟨rfl, hc⟩)
        · exact Or.inl h
        · exact Or.inr ⟨rec, List.mem_singleton.2 rfl, hk, hc, row, hrow, hname, rfl⟩
      · rintro (h | ⟨rec2, h2, -, hc, r, hr, hn, hid⟩)
        · exact Or.inl h
        · rw [List.mem_singleton.1 h2] at hc hn
          rw [huniq r hr hn] at hid
          exact Or.inr ⟨hid.symm, hc⟩
    rel := by
      intro a b l
      rw [hrel]
      constructor
      · exact fun h => Or.inl h
      · rintro (h | ⟨rec2, h2, hk2, -⟩)
        · exact h
        · rw [List.mem_singleton.1 h2, hk] at hk2
          exact absurd hk2 (by decide)
    ends := by
      intro rec2 h2 hk2
      rw [List.mem_singleton.1 h2, hk] at hk2
      exact absurd hk2 (by decide) }

theorem importRecord_relation {db : DB} (hwf : db.WF)
    (hlive : ∀ e ∈ db.entities, e.deleted_at = none) (rec : exportEntry)
    (readings : Nat × List Nat) (hk : rec.Kind = "relation") (hf : rec.From ≠ "")
    (ht : rec.To ≠ "") (hr : rec.RelationType ≠ "") :
    (importRecord db rec readings).1 = .relation ∧
      Imports db [rec] (importRecord db rec readings).2 := by
  have hk1 : rec.Kind ≠ "entity" := by
    rw [hk]
    decide
  have hwf2 := UpsertRelationByName_WF hwf readings.1 (readings.2.getD 0 0)
    (readings.2.getD 1 0) rec.From rec.To rec.RelationType
  obtain ⟨fe, te, added, edge, hst, hfe, hte, hadded, hedge⟩ :=
    UpsertRelationByName_spec db readings.1 (readings.2.getD 0 0) (readings.2.getD 1 0)
      rec.From rec.To rec.RelationType
  have hdb : importRecord db rec readings = (.relation,
      { db with entities := db.entities ++ added,
                entities_fts := db.entities_fts ++ added.map EntityRow.doc,
                relations := db.relations ++ edge,
                seq_entities := db.seq_entities + 2,
                seq_relations := db.seq_relations + 1 }) := by
    unfold importRecord
    rw [if_neg hk1, if_pos hk, if_neg (by simp [hf, ht, hr]), hst]
  rw [hst] at hwf2
  rw [hdb]
  refine ⟨rfl, ?_⟩
  have hfe1 : fe ∈ db.entities ++ added := List.mem_of_find?_eq_some hfe
  have hte1 : te ∈ db.entities ++ added := List.mem_of_find?_eq_some hte
  have hfn : fe.name = rec.From := by simpa using List.find?_some hfe
  have htn : te.name = rec.To := by simpa using List.find?_some hte
  have hrow : ∃ r ∈ db.relations ++ edge,
      r.from_id = fe.id ∧ r.to_id = te.id ∧ r.relation = rec.RelationType := by
    rcases hedge with ⟨-, r, hr, h⟩ | ⟨he, -⟩
    · exact ⟨r, List.mem_append_left _ hr, h⟩
    · exact ⟨_, List.mem_append_right _ (by rw [he]; exact List.mem_singleton.2 rfl),
        rfl, rfl, rfl⟩
  exact {
    wf := hwf2
    live := by
      intro e he
      rcases List.mem_append.1 he with h | h
      · exact hlive e h
      · exact (hadded e h).2.2.1
    stable := fun r hr => ⟨r, List.mem_append_left _ hr, rfl, rfl⟩
    pres := fun r hr _ => List.mem_append_left _ hr
    names := by
      intro r2 hr2
      rcases List.mem_append.1 hr2 with h | h
      · exact Or.inl ⟨r2, h, rfl⟩
      · refine Or.inr ⟨rec, List.mem_singleton.2 rfl, Or.inr ⟨hk, ?_⟩⟩
        rcases (hadded r2 h).2.2.2.2.2.2.1 with h | h
        · exact Or.inl h.symm
        · exact Or.inr h.symm
    has := by
      intro rec2 h2 hk2
      rw [List.mem_singleton.1 h2] at hk2
      exact absurd hk2 hk1
    ent := by
      intro _ rec2 h2 hk2
      rw [List.mem_singleton.1 h2] at hk2
      exact absurd hk2 hk1
    obs := by
      intro i c
      constructor
      · exact fun h => Or.inl h
      · rintro (h | ⟨rec2, h2, hk2, -⟩)
        · exact h
        · rw [List.mem_singleton.1 h2] at hk2
          exact absurd hk2 hk1
    rel := by
      intro a b l
      constructor
      · rintro ⟨r, hr, h1, h2, h3⟩
        rcases List.mem_append.1 hr with h | h
        · exact Or.inl ⟨r, h, h1, h2, h3⟩
        · rcases hedge with ⟨he, -⟩ | ⟨he, -⟩
          · rw [he] at h
            exact absurd h (List.not_mem_nil _)
          · rw [he, List.mem_singleton] at h
            subst h
            exact Or.inr ⟨rec, List.mem_singleton.2 rfl, hk, h3, fe, hfe1, te, hte1, hfn, htn,
              h1, h2⟩
      · rintro (⟨r, hr, h⟩ | ⟨rec2, h2, -, hl, f2, hf2, t2, ht2, hfn2, htn2, hfi, hti⟩)
        · exact ⟨r, List.mem_append_left _ hr, h⟩
        · rw [List.mem_singleton.1 h2] at hl hfn2 htn2
          have e1 : f2 = fe := hwf2.entity_eq_of_name hf2 hfe1 (hfn2.trans hfn.symm)
          have e2 : t2 = te := hwf2.entity_eq_of_name ht2 hte1 (htn2.trans htn.symm)
          obtain ⟨r, hr, h1, h2, h3⟩ := hrow
          exact ⟨r, hr, by rw [h1, ← e1, hfi], by rw [h2, ← e2, hti], by rw [h3, hl]⟩
    ends := by
      intro rec2 h2 _
      rw [List.mem_singleton.1 h2]
      exact ⟨⟨fe, hfe1, hfn⟩, te, hte1, htn⟩ }

theorem importRecord_other {db : DB} (hwf : db.WF)
    (hlive : ∀ e ∈ db.entities, e.deleted_at = none) (rec : exportEntry)
    (readings : Nat × List Nat) (hk1 : rec.Kind ≠ "entity") (hk2 : rec.Kind ≠ "relation") :
    (importRecord db rec readings).1 = .skipped ∧
      Imports db [rec] (importRecord db rec readings).2 := by
  have hdb : importRecord db rec readings = (.skipped, db) := by
    unfold importRecord
    rw [if_neg hk1, if_neg hk2]
  rw [hdb]
  refine ⟨rfl, ?_⟩
  exact {
    wf := hwf
    live := hlive
    stable := fun r hr => ⟨r, hr, rfl, rfl⟩
    pres := fun _ hr _ => hr
    names := fun r2 hr2 => Or.inl ⟨r2, hr2, rfl⟩
    has := by
      intro rec2 h2 hk
      rw [List.mem_singleton.1 h2] at hk
      exact absurd hk hk1
    ent := by
      intro _ rec2 h2 hk
      rw [List.mem_singleton.1 h2] at hk
      exact absurd hk hk1
    obs := by
      intro i c
      constructor
      · exact fun h => Or.inl h
      · rintro (h | ⟨rec2, h2, hk, -⟩)
        · exact h
        · rw [List.mem_singleton.1 h2] at hk
          exact absurd hk hk1
    rel := by
      intro a b l
      constructor
      · exact fun h => Or.inl h
      · rintro (h | ⟨rec2, h2, hk, -⟩)
        · exact h
        · rw [List.mem_singleton.1 h2] at hk
          exact absurd hk hk2
    ends := by
      intro rec2 h2 hk
      rw [List.mem_singleton.1 h2] at hk
      exact absurd hk hk2 }

theorem importRecords_spec : ∀ (records : List (exportEntry × Nat × List Nat)) (db : DB),
    db.WF → (∀ e ∈ db.entities, e.deleted_at = none) → (∀ x ∈ records, x.1.Good) →
    Imports db (records.map Prod.fst) (importRecords db records).2 ∧
      ∀ o ∈ (importRecords db records).1, o = .skipped →
        ∃ x ∈ records, x.1.Kind ≠ "entity" ∧ x.1.Kind ≠ "relation"
  | [], db, hwf, hlive, _ => ⟨Imports.nil hwf hlive, fun _ h => absurd h (List.not_mem_nil _)⟩
  | x :: rest, db, hwf, hlive, hgood => by
    have hstep : ((importRecord db x.1 x.2).1 = .skipped →
        x.1.Kind ≠ "entity" ∧ x.1.Kind ≠ "relation") ∧
        Imports db [x.1] (importRecord db x.1 x.2).2 := by
      obtain ⟨hg1, hg2⟩ := hgood x (List.mem_cons_self _ _)
      by_cases hk1 : x.1.Kind = "entity"
      · obtain ⟨hn0, hn1, ht, ho⟩ := hg1 hk1
        have := importRecord_entity hwf hlive x.1 x.2 hk1 hn0 hn1 ht ho
        exact ⟨fun h => by rw [this.1] at h; exact absurd h (by decide), this.2⟩
      · by_cases hk2 : x.1.Kind = "relation"
        · obtain ⟨hf, ht, hr⟩ := hg2 hk2
          have := importRecord_relation hwf hlive x.1 x.2 hk2 hf ht hr
          exact ⟨fun h => by rw [this.1] at h; exact absurd h (by decide), this.2⟩
        · exact ⟨fun _ => ⟨hk1, hk2⟩, (importRecord_other hwf hlive x.1 x.2 hk1 hk2).2⟩
    obtain ⟨hrest, hskip⟩ := importRecords_spec rest (importRecord db x.1 x.2).2 hstep.2.wf
      hstep.2.live (fun y hy => hgood y (List.mem_cons_of_mem _ hy))
    refine ⟨hstep.2.append hrest, ?_⟩
    intro o ho hos
    rcases List.mem_cons.1 ho with h | h
    · exact ⟨x, List.mem_cons_self _ _, hstep.1 (by rw [← h]; exact hos)⟩
    · obtain ⟨y, hy, hyk⟩ := hskip o h hos
      exact ⟨y, List.mem_cons_of_mem _ hy, hyk⟩

theorem exportCmd_eq {κ : Type} (eng : Engine κ) (db : DB) (now : Nat)
    (hcount : (db.entities.filter (fun e => e.live)).length ≤ 1000) :
    exportCmd eng db now = .ok
      (exportRows db (orderBy (listOrder "name") (db.entities.filter (fun e => e.live)))) := by
  have hf : (fun e : EntityRow => e.live && typeFilter "" e && tagFilter [] e) =
      (fun e => e.live) := by
    funext e
    simp [typeFilter, tagFilter]
  have hS : Search eng db now "" "" [] "name" 1000 = .ok (listAll eng db "" [] "name" 1000) := by
    unfold Search
    simp
  have htake : (orderBy (listOrder "name") (db.entities.filter (fun e => e.live))).take
      (1000 : Int).toNat = orderBy (listOrder "name") (db.entities.filter (fun e => e.live)) := by
    apply List.take_of_length_le
    rw [(orderBy_perm _ _).length_eq]
    exact hcount
  unfold exportCmd
  rw [hS]
  show Except.ok (exportJSON db (listAll eng db "" [] "name" 1000)) = _
  unfold listAll scanSearchRows exportJSON
  rw [hf, htake, List.map_map, List.flatMap_map]
  rfl

theorem mem_exportRows {db : DB} {rows : List EntityRow} {rec : exportEntry} :
    rec ∈ exportRows db rows ↔ ∃ e ∈ rows, rec = entityEntry db e ∨
      ∃ x ∈ ListRelationsByEntity db e.name, x.FromName = e.name ∧ rec = relationEntry x := by
  unfold exportRows
  rw [List.mem_flatMap]
  constructor
  · rintro ⟨e, he, h⟩
    refine ⟨e, he, ?_⟩
    rcases List.mem_cons.1 h with h | h
    · exact Or.inl h
    · obtain ⟨x, hx, rfl⟩ := List.mem_map.1 h
      rw [List.mem_filter] at hx
      exact Or.inr ⟨x, hx.1, by simpa using hx.2, rfl⟩
  · rintro ⟨e, he, h | ⟨x, hx, hxn, rfl⟩⟩
    · exact ⟨e, he, List.mem_cons.2 (Or.inl h)⟩
    · exact ⟨e, he, List.mem_cons_of_mem _ (List.mem_map.2
        ⟨x, List.mem_filter.2 ⟨hx, by simpa using hxn⟩, rfl⟩)⟩

theorem exportRows_entity_names (db : DB) (rows : List EntityRow) :
    ((exportRows db rows).filter (fun rec => decide (rec.Kind = "entity"))).map
      (fun rec => rec.Name) = rows.map (fun e => e.name) := by
  induction rows with
  | nil => rfl
  | cons e rows ih =>
    have hnil : (((ListRelationsByEntity db e.name).filter
        (fun rel => decide (rel.FromName = e.name))).map relationEntry).filter
        (fun rec => decide (rec.Kind = "entity")) = [] := by
      rw [List.filter_eq_nil_iff]
      intro rec hrec
      obtain ⟨x, -, rfl⟩ := List.mem_map.1 hrec
      simp [relationEntry]
    have hcons : exportRows db (e :: rows) = (entityEntry db e ::
        ((ListRelationsByEntity db e.name).filter
          (fun rel => decide (rel.FromName = e.name))).map relationEntry) ++
        exportRows db rows := by
      unfold exportRows
      rw [List.flatMap_cons]
    rw [hcons, List.filter_append, List.map_append, ih, List.filter_cons_of_pos (by
      simp [entityEntry]), hnil]
    rfl

theorem stampRecords_map_fst (records : List exportEntry) (readings : List (Nat × List Nat)) :
    (stampRecords records readings).map Prod.fst = records := by
  unfold stampRecords
  rw [List.map_map]
  exact List.enum_map_snd records

theorem decodeRecords_spec (entries : List exportEntry) :
    (∀ rec ∈ decodeRecords entries,
      rec ∈ entries ∨ (rec.Kind ≠ "entity" ∧ rec.Kind ≠ "relation")) ∧
    (∀ rec ∈ entries, rec ∈ decodeRecords entries) ∧
    (decodeRecords entries).filter (fun rec => decide (rec.Kind = "entity")) =
      entries.filter (fun rec => decide (rec.Kind = "entity")) := by
  cases entries with
  | nil =>
    refine ⟨?_, fun _ h => absurd h (List.not_mem_nil _), by decide⟩
    intro rec hrec
    have : rec.Kind = "" := by
      simp only [decodeRecords, List.isEmpty_nil, if_true, List.mem_singleton] at hrec
      rw [hrec]
    rw [this]
    exact Or.inr (by decide)
  | cons a l =>
    have : decodeRecords (a :: l) = a :: l := rfl
    rw [this]
    exact ⟨fun rec h => Or.inl h, fun rec h => h, rfl⟩

theorem ne_empty_of_size {s : String} (h : 0 < s.utf8ByteSize) : s ≠ "" := by
  intro hs
  rw [hs] at h
  exact absurd h (by decide)

theorem exportRows_good {db : DB} {rows : List EntityRow}
    (hrows : ∀ e ∈ rows, e ∈ db.entities ∧ e.live = true)
    (hent : ∀ e ∈ db.entities, e.live = true →
      0 < e.name.utf8ByteSize ∧ e.name.utf8ByteSize ≤ 1024 ∧ e.entity_type ≠ "" ∧
        e.entity_type.utf8ByteSize ≤ 256)
    (hobs : ∀ o ∈ db.observations, ∀ e ∈ db.entities, o.entity_id = e.id → e.live = true →
      o.content.utf8ByteSize ≤ 10240)
    (hrel : ∀ r ∈ db.relations, ∀ fe ∈ db.entities, ∀ te ∈ db.entities, r.from_id = fe.id →
      r.to_id = te.id → fe.live = true → te.live = true → r.relation ≠ "") :
    ∀ rec ∈ exportRows db rows, rec.Good := by
  intro rec hrec
  obtain ⟨e, he, h | ⟨x, hx, -, h⟩⟩ := mem_exportRows.1 hrec
  · obtain ⟨hmem, hlive⟩ := hrows e he
    obtain ⟨h0, h1, -, h3⟩ := hent e hmem hlive
    rw [h]
    refine ⟨fun _ => ⟨h0, h1, h3, ?_⟩, fun hk => ?_⟩
    · intro c hc
      obtain ⟨o, ho, hoe, hoc⟩ := mem_ListObservationsByEntityID.1 hc
      rw [← hoc]
      exact hobs o ho e hmem hoe hlive
    · exact absurd hk (by simp [entityEntry])
  · obtain ⟨r, hr, fe, hfe, te, hte, h1, h2, -, hfl, htl, hxe⟩ :=
      mem_ListRelationsByEntity.1 hx
    rw [h, hxe]
    refine ⟨fun hk => absurd hk (by simp [relationEntry]), fun _ => ⟨?_, ?_, ?_⟩⟩
    · exact ne_empty_of_size (hent fe hfe hfl).1
    · exact ne_empty_of_size (hent te hte htl).1
    · exact hrel r hr fe hfe te hte h1 h2 hfl htl

theorem round_trip_of_sizes {κ : Type} (eng : Engine κ) {db : DB} (hwf : db.WF) (now : Nat)
    (readings : List (Nat × List Nat))
    (hcount : (db.entities.filter (fun e => e.live)).length ≤ 1000)
    (hent : ∀ e ∈ db.entities, e.live = true →
      0 < e.name.utf8ByteSize ∧ e.name.utf8ByteSize ≤ 1024 ∧ e.entity_type ≠ "" ∧
        e.entity_type.utf8ByteSize ≤ 256)
    (hobs : ∀ o ∈ db.observations, ∀ e ∈ db.entities, o.entity_id = e.id → e.live = true →
      o.content.utf8ByteSize ≤ 10240)
    (hrel : ∀ r ∈ db.relations, ∀ fe ∈ db.entities, ∀ te ∈ db.entities, r.from_id = fe.id →
      r.to_id = te.id → fe.live = true → te.live = true → r.relation ≠ "") :
    ∃ entries db2, exportCmd eng db now = .ok entries ∧
      (importCmd DB.empty (stampRecords (decodeRecords entries) readings)).2 = db2 ∧
      (∀ e ∈ db.entities, e.live = true → ∃ e2 ∈ db2.entities, e2.live = true ∧
        e2.name = e.name ∧ e2.entity_type = e.entity_type ∧ e2.tags = e.tags ∧
        (ListObservationsByEntityID db2 e2.id).Perm (ListObservationsByEntityID db e.id)) ∧
      (∀ e2 ∈ db2.entities, e2.live = true ∧
        ∃ e ∈ db.entities, e.live = true ∧ e.name = e2.name) ∧
      ∀ (f t l : String),
        (∃ x ∈ ListRelationsByEntity db2 f, x.FromName = f ∧ x.ToName = t ∧ x.Relation = l) ↔
          ∃ x ∈ ListRelationsByEntity db f, x.FromName = f ∧ x.ToName = t ∧ x.Relation = l := by
  have hL : ∀ e, e ∈ orderBy (listOrder "name") (db.entities.filter (fun e => e.live)) ↔
      e ∈ db.entities ∧ e.live = true := by
    intro e
    rw [mem_orderBy, List.mem_filter]
  obtain ⟨hd1, hd2, hd3⟩ := decodeRecords_spec
    (exportRows db (orderBy (listOrder "name") (db.entities.filter (fun e => e.live))))
  have hgood := exportRows_good (fun e he => (hL e).1 he) hent hobs hrel
  obtain ⟨hI, -⟩ := importRecords_spec (stampRecords (decodeRecords
    (exportRows db (orderBy (listOrder "name") (db.entities.filter (fun e => e.live)))))
    readings) DB.empty DB.empty_WF (fun e he => absurd he (List.not_mem_nil _)) (by
      intro x hx
      have hx1 : x.1 ∈ (stampRecords (decodeRecords (exportRows db (orderBy (listOrder "name")
          (db.entities.filter (fun e => e.live))))) readings).map Prod.fst :=
        List.mem_map_of_mem _ hx
      rw [stampRecords_map_fst] at hx1
      rcases hd1 x.1 hx1 with h | h
      · exact hgood x.1 h
      · exact ⟨fun hk => absurd hk h.1, fun hk => absurd hk h.2⟩)
  rw [stampRecords_map_fst] at hI
  have hnd : (((decodeRecords (exportRows db (orderBy (listOrder "name")
      (db.entities.filter (fun e => e.live))))).filter
      (fun rec => decide (rec.Kind = "entity"))).map (fun rec => rec.Name)).Nodup := by
    rw [hd3, exportRows_entity_names]
    rw [((orderBy_perm (listOrder "name") (db.entities.filter (fun e => e.live))).map
      (fun e => e.name)).nodup_iff]
    exact List.Nodup.sublist ((List.filter_sublist _).map _) hwf.entity_names
  -- an entity record of the decoded file is the entry of a live row
  have hrecE : ∀ rec ∈ decodeRecords (exportRows db (orderBy (listOrder "name")
      (db.entities.filter (fun e => e.live)))), rec.Kind = "entity" →
      ∃ e ∈ db.entities, e.live = true ∧ rec = entityEntry db e := by
    intro rec hrec hk
    rcases hd1 rec hrec with h | h
    · obtain ⟨e, he, h | ⟨x, -, -, h⟩⟩ := mem_exportRows.1 h
      · exact ⟨e, ((hL e).1 he).1, ((hL e).1 he).2, h⟩
      · rw [h] at hk
        exact absurd hk (by simp [relationEntry])
    · exact absurd hk h.1
  have hrecR : ∀ rec ∈ decodeRecords (exportRows db (orderBy (listOrder "name")
      (db.entities.filter (fun e => e.live)))), rec.Kind = "relation" →
      ∃ x ∈ ListRelationsByEntity db rec.From, x.FromName = rec.From ∧ x.ToName = rec.To ∧
        x.Relation = rec.RelationType := by
    intro rec hrec hk
    rcases hd1 rec hrec with h | h
    · obtain ⟨e, he, h | ⟨x, hx, hxn, h⟩⟩ := mem_exportRows.1 h
      · rw [h] at hk
        exact absurd hk (by simp [entityEntry])
      · rw [h]
        refine ⟨x, ?_, rfl, rfl, rfl⟩
        show x ∈ ListRelationsByEntity db x.FromName
        rw [hxn]
        exact hx
    · exact absurd hk h.2
  have hliveB : ∀ e : EntityRow, e.deleted_at = none → e.live = true := by
    intro e h
    simp [EntityRow.live, h]
  refine ⟨_, _, exportCmd_eq eng db now hcount, rfl, ?_, ?_, ?_⟩
  · intro e he hlive
    have hmem : entityEntry db e ∈ decodeRecords (exportRows db (orderBy (listOrder "name")
        (db.entities.filter (fun e => e.live)))) :=
      hd2 _ (mem_exportRows.2 ⟨e, (hL e).2 ⟨he, hlive⟩, Or.inl rfl⟩)
    obtain ⟨row, hrow, hname, htype, htags⟩ := hI.ent hnd _ hmem rfl
    refine ⟨row, hrow, hliveB row (hI.live row hrow), hname, ?_, htags, ?_⟩
    · rw [htype]
      exact if_neg (hent e he hlive).2.2.1
    · refine (List.perm_ext_iff_of_nodup (ListObservationsByEntityID_nodup hI.wf row.id)
        (ListObservationsByEntityID_nodup hwf e.id)).2 (fun c => ?_)
      rw [mem_ListObservationsByEntityID, hI.obs row.id c]
      constructor
      · rintro (⟨o, ho, -⟩ | ⟨rec, hrec, hk, hc, row2, hrow2, hn2, hid2⟩)
        · exact absurd ho (List.not_mem_nil _)
        · obtain ⟨e2, he2, -, rfl⟩ := hrecE rec hrec hk
          have h1 : row2 = row := hI.wf.entity_eq_of_id hrow2 hrow hid2
          rw [h1] at hn2
          have h2 : e2 = e := hwf.entity_eq_of_name he2 he (hn2.symm.trans hname)
          rw [h2] at hc
          exact hc
      · intro hc
        exact Or.inr ⟨_, hmem, rfl, hc, row, hrow, hname, rfl⟩
  · intro e2 he2
    refine ⟨hliveB e2 (hI.live e2 he2), ?_⟩
    rcases hI.names e2 he2 with ⟨r, hr, -⟩ | ⟨rec, hrec, ⟨hk, hn⟩ | ⟨hk, hn⟩⟩
    · exact absurd hr (List.not_mem_nil _)
    · obtain ⟨e, he, hlive, rfl⟩ := hrecE rec hrec hk
      exact ⟨e, he, hlive, hn⟩
    · obtain ⟨x, hx, hxf, hxt, -⟩ := hrecR rec hrec hk
      obtain ⟨r, -, fe, hfe, te, hte, -, -, -, hfl, htl, hxe⟩ := mem_ListRelationsByEntity.1 hx
      rw [hxe] at hxf hxt
      rcases hn with hn | hn
      · exact ⟨fe, hfe, hfl, hxf.trans hn⟩
      · exact ⟨te, hte, htl, hxt.trans hn⟩
  · intro f t l
    constructor
    · rintro ⟨x, hx, hxf, hxt, hxl⟩
      obtain ⟨r, hr, fe, hfe, te, hte, h1, h2, -, -, -, hxe⟩ := mem_ListRelationsByEntity.1 hx
      rw [hxe] at hxf hxt hxl
      rcases (hI.rel fe.id te.id l).1 ⟨r, hr, h1, h2, hxl⟩ with
        ⟨r0, hr0, -⟩ | ⟨rec, hrec, hk, hl, f2, hf2, t2, ht2, hfn, htn, hfi, hti⟩
      · exact absurd hr0 (List.not_mem_nil _)
      · have e1 : f2 = fe := hI.wf.entity_eq_of_id hf2 hfe hfi
        have e2 : t2 = te := hI.wf.entity_eq_of_id ht2 hte hti
        rw [e1] at hfn
        rw [e2] at htn
        obtain ⟨x2, hx2, hx2f, hx2t, hx2l⟩ := hrecR rec hrec hk
        have hf : rec.From = f := hfn.symm.trans hxf
        rw [hf] at hx2 hx2f
        exact ⟨x2, hx2, hx2f, hx2t.trans (htn.symm.trans hxt), hx2l.trans hl⟩
    · rintro ⟨x, hx, hxf, hxt, hxl⟩
      obtain ⟨r, -, fe, hfe, te, -, -, -, -, hfl, -, hxe⟩ := mem_ListRelationsByEntity.1 hx
      have hfn : fe.name = f := by
        rw [hxe] at hxf
        exact hxf
      have hmem : relationEntry x ∈ decodeRecords (exportRows db (orderBy (listOrder "name")
          (db.entities.filter (fun e => e.live)))) := by
        refine hd2 _ (mem_exportRows.2 ⟨fe, (hL fe).2 ⟨hfe, hfl⟩, Or.inr ⟨x, ?_, ?_, rfl⟩⟩)
        · rw [hfn]
          exact hx
        · rw [hfn]
          exact hxf
      obtain ⟨⟨f2, hf2, hf2n⟩, t2, ht2, ht2n⟩ := hI.ends _ hmem rfl
      obtain ⟨r2, hr2, h1, h2, h3⟩ := (hI.rel f2.id t2.id l).2
        (Or.inr ⟨_, hmem, rfl, hxl, f2, hf2, t2, ht2, hf2n, ht2n, rfl, rfl⟩)
      have hf2f : f2.name = f := hf2n.trans hxf
      refine ⟨_, mem_ListRelationsByEntity.2 ⟨r2, hr2, f2, hf2, t2, ht2, h1, h2,
        Or.inl (by simp [EntityRow.nameMatches, hf2f]), hliveB f2 (hI.live f2 hf2),
        hliveB t2 (hI.live t2 ht2), rfl⟩, hf2f, ht2n.trans hxt, h3⟩

theorem Op.apply_types {db : DB} (hwf : db.WF) (op : Op) :
    ∀ e ∈ (op.apply db).entities, (∃ e0 ∈ db.entities, e0.entity_type = e.entity_type) ∨
      e.entity_type.utf8ByteSize ≤ 256 := by
  have same : ∀ db2 : DB, db2.entities = db.entities → ∀ e ∈ db2.entities,
      (∃ e0 ∈ db.entities, e0.entity_type = e.entity_type) ∨
        e.entity_type.utf8ByteSize ≤ 256 := by
    intro db2 h e he
    rw [h] at he
    exact Or.inl ⟨e, he, rfl⟩
  cases op with
  | upsertEntity now n t ts =>
    show ∀ e ∈ (UpsertEntity db now n t ts).2.entities, _
    by_cases hvalid : 0 < n.utf8ByteSize ∧ n.utf8ByteSize ≤ 1024 ∧ t.utf8ByteSize ≤ 256
    · rw [UpsertEntity_valid db now n t ts hvalid.1 hvalid.2.1 hvalid.2.2]
      intro e he
      rcases mem_upsertEntityRow hwf now n t ts e he with h | h
      · exact Or.inl ⟨e, h.1, rfl⟩
      · exact Or.inr (by rw [h.2.1]; exact hvalid.2.2)
    · have hst : (UpsertEntity db now n t ts).2 = db := by
        unfold UpsertEntity
        split
        · rfl
        · split
          · rfl
          · split
            · rfl
            · exact absurd ⟨by omega, by omega, by omega⟩ hvalid
      exact same _ (by rw [hst])
  | getEntity now n =>
    show ∀ e ∈ (GetEntity db now n).2.entities, _
    unfold GetEntity
    split
    · exact same _ rfl
    · intro e he
      obtain ⟨a, ha, rfl⟩ := List.mem_map.1 he
      refine Or.inl ⟨a, ha, ?_⟩
      split_ifs <;> rfl
  | softDeleteEntity now n =>
    show ∀ e ∈ (SoftDeleteEntity db now n).2.entities, _
    have hent : (SoftDeleteEntity db now n).2.entities = db.entities.map (fun e =>
        if e.nameMatches n && e.live then { e with deleted_at := some now } else e) := by
      unfold SoftDeleteEntity
      simp only
      split_ifs <;> rfl
    rw [hent]
    intro e he
    obtain ⟨a, ha, rfl⟩ := List.mem_map.1 he
    refine Or.inl ⟨a, ha, ?_⟩
    split_ifs <;> rfl
  | hardDeleteEntity n =>
    show ∀ e ∈ (HardDeleteEntity db n).2.entities, _
    have hent : (HardDeleteEntity db n).2.entities =
        db.entities.filter (fun e => !e.nameMatches n) := by
      unfold HardDeleteEntity
      simp only
      split_ifs <;> rfl
    rw [hent]
    intro e he
    exact Or.inl ⟨e, (List.mem_filter.1 he).1, rfl⟩
  | addObservation now e c => exact same _ (AddObservation_entities db now e c).1
  | retractObservation n c => exact same _ (RetractObservation_entities db n c).1
  | upsertRelation now f t rel => exact same _ (UpsertRelation_entities db now f t rel).1
  | upsertRelationByName t1 t2 t3 f t rel =>
    intro e he
    rcases (UpsertRelationByName_entities db t1 t2 t3 f t rel).2 e he with h | h
    · exact Or.inl ⟨e, h, rfl⟩
    · exact Or.inr (by rw [h.2.2.1]; decide)
  | appendJournal now c tags => exact same _ (AppendJournal_entities db now c tags).1

theorem run_type_sizes : ∀ (ops : List Op) (db : DB), db.WF →
    (∀ e ∈ db.entities, e.entity_type.utf8ByteSize ≤ 256) →
    ∀ e ∈ (run db ops).entities, e.entity_type.utf8ByteSize ≤ 256
  | [], _, _, h => h
  | op :: ops, db, hwf, h =>
    run_type_sizes ops (op.apply db) (Op.apply_WF hwf op) (fun e he =>
      (Op.apply_types hwf op e he).elim (fun ⟨e0, he0, ht⟩ => ht ▸ h e0 he0) id)

/-- C26 (amended): for every store reachable from the empty store that has at most 1000
live entities, in which every live entity has a name of 1 to 1024 bytes and a type that
is not empty, and every relation between two live entities has a type that is not empty:
the export succeeds, and the import of the exported array into the empty store leaves a
store with the same live entities (for each live entity of the original one of the same
name, type and tag list whose observations are those of the original up to order, and no
other entity) and the same relation triples between live entities. -/
theorem export_import_round_trip {κ : Type} (eng : Engine κ) {db : DB} (hreach : Reachable db)
    (now : Nat) (readings : List (Nat × List Nat))
    (hcount : (GetStats db).EntityCount ≤ 1000)
    (hent : ∀ e ∈ db.entities, e.live = true →
      0 < e.name.utf8ByteSize ∧ e.name.utf8ByteSize ≤ 1024 ∧ e.entity_type ≠ "")
    (hrel : ∀ r ∈ db.relations, ∀ fe ∈ db.entities, ∀ te ∈ db.entities, r.from_id = fe.id →
      r.to_id = te.id → fe.live = true → te.live = true → r.relation ≠ "") :
    ∃ entries db2, exportCmd eng db now = .ok entries ∧
      (importCmd DB.empty (stampRecords (decodeRecords entries) readings)).2 = db2 ∧
      (∀ e ∈ db.entities, e.live = true → ∃ e2 ∈ db2.entities, e2.live = true ∧
        e2.name = e.name ∧ e2.entity_type = e.entity_type ∧ e2.tags = e.tags ∧
        (ListObservationsByEntityID db2 e2.id).Perm (ListObservationsByEntityID db e.id)) ∧
      (∀ e2 ∈ db2.entities, e2.live = true ∧
        ∃ e ∈ db.entities, e.live = true ∧ e.name = e2.name) ∧
      ∀ (f t l : String),
        (∃ x ∈ ListRelationsByEntity db2 f, x.FromName = f ∧ x.ToName = t ∧ x.Relation = l) ↔
          ∃ x ∈ ListRelationsByEntity db f, x.FromName = f ∧ x.ToName = t ∧ x.Relation = l := by
  obtain ⟨ops, rfl⟩ := hreach
  exact round_trip_of_sizes eng (run_WF DB.empty_WF ops) now readings hcount
    (fun e he hl => ⟨(hent e he hl).1, (hent e he hl).2.1, (hent e he hl).2.2,
      run_type_sizes ops DB.empty DB.empty_WF (fun _ h => absurd h (List.not_mem_nil _)) e he⟩)
    (fun o ho _ _ _ _ => run_observation_sizes ops DB.empty
      (fun _ h => absurd h (List.not_mem_nil _)) o ho)
    hrel

/-- C26, witness: the store with the entity `Redis` (type `system`, tag `db`, observation
`Port 6379`) and the relation `Redis uses Kafka`. -/
theorem export_import_round_trip_witness :
    Reachable (run DB.empty [Op.upsertEntity 1 "Redis" "system" ["db"],
      Op.addObservation 2 1 "Port 6379", Op.upsertRelationByName 3 4 5 "Redis" "Kafka" "uses"]) ∧
    ∃ entries db2,
      exportCmd (Engine.mk (fun _ => none) (fun _ _ _ => none) (fun _ _ => true) 0)
        (run DB.empty [Op.upsertEntity 1 "Redis" "system" ["db"],
          Op.addObservation 2 1 "Port 6379",
          Op.upsertRelationByName 3 4 5 "Redis" "Kafka" "uses"]) 9 = .ok entries ∧
      (importCmd DB.empty (stampRecords (decodeRecords entries) [(10, [11])])).2 = db2 ∧
      (∀ e ∈ (run DB.empty [Op.upsertEntity 1 "Redis" "system" ["db"],
          Op.addObservation 2 1 "Port 6379",
          Op.upsertRelationByName 3 4 5 "Redis" "Kafka" "uses"]).entities, e.live = true →
        ∃ e2 ∈ db2.entities, e2.live = true ∧
        e2.name = e.name ∧ e2.entity_type = e.entity_type ∧ e2.tags = e.tags ∧
        (ListObservationsByEntityID db2 e2.id).Perm
          (ListObservationsByEntityID (run DB.empty [Op.upsertEntity 1 "Redis" "system" ["db"],
            Op.addObservation 2 1 "Port 6379",
            Op.upsertRelationByName 3 4 5 "Redis" "Kafka" "uses"]) e.id)) ∧
      (∀ e2 ∈ db2.entities, e2.live = true ∧
        ∃ e ∈ (run DB.empty [Op.upsertEntity 1 "Redis" "system" ["db"],
          Op.addObservation 2 1 "Port 6379",
          Op.upsertRelationByName 3 4 5 "Redis" "Kafka" "uses"]).entities,
          e.live = true ∧ e.name = e2.name) ∧
      ∀ (f t l : String),
        (∃ x ∈ ListRelationsByEntity db2 f, x.FromName = f ∧ x.ToName = t ∧ x.Relation = l) ↔
          ∃ x ∈ ListRelationsByEntity (run DB.empty [Op.upsertEntity 1 "Redis" "system" ["db"],
            Op.addObservation 2 1 "Port 6379",
            Op.upsertRelationByName 3 4 5 "Redis" "Kafka" "uses"]) f,
            x.FromName = f ∧ x.ToName = t ∧ x.Relation = l :=
  ⟨⟨_, rfl⟩, export_import_round_trip _ ⟨_, rfl⟩ 9 [(10, [11])] (by decide) (by decide)
    (by decide)⟩

/-- The export holds at most 1000 entities: on every store `exportCmd` succeeds, and the
number of entity entries it writes is the number of live entities, cut to 1000. -/
theorem exportCmd_cap {κ : Type} (eng : Engine κ) (db : DB) (now : Nat) :
    ∃ entries, exportCmd eng db now = .ok entries ∧
      (entries.filter (fun rec => decide (rec.Kind = "entity"))).length =
        min 1000 (GetStats db).EntityCount := by
  have hf : (fun e : EntityRow => e.live && typeFilter "" e && tagFilter [] e) =
      (fun e => e.live) := by
    funext e
    simp [typeFilter, tagFilter]
  have hS : Search eng db now "" "" [] "name" 1000 = .ok (listAll eng db "" [] "name" 1000) := by
    unfold Search
    simp
  have hE : exportCmd eng db now = .ok (exportRows db
      ((orderBy (listOrder "name") (db.entities.filter (fun e => e.live))).take 1000)) := by
    unfold exportCmd
    rw [hS]
    show Except.ok (exportJSON db (listAll eng db "" [] "name" 1000)) = _
    unfold listAll scanSearchRows exportJSON
    rw [hf, List.map_map, List.flatMap_map]
    rfl
  refine ⟨_, hE, ?_⟩
  have h := congrArg List.length (exportRows_entity_names db
    ((orderBy (listOrder "name") (db.entities.filter (fun e => e.live))).take 1000))
  rw [List.length_map, List.length_map, List.length_take, (orderBy_perm _ _).length_eq] at h
  exact h

theorem run_upserts_fresh : ∀ (names : List String) (db : DB), names.Nodup →
    (∀ n ∈ names, 0 < n.utf8ByteSize ∧ n.utf8ByteSize ≤ 1024) →
    (∀ n ∈ names, ∀ e ∈ db.entities, e.name ≠ n) →
    (run db (names.map (fun n => Op.upsertEntity 0 n "t" []))).relations = db.relations ∧
      (run db (names.map (fun n => Op.upsertEntity 0 n "t" []))).observations =
        db.observations ∧
      (GetStats (run db (names.map (fun n => Op.upsertEntity 0 n "t" [])))).EntityCount =
        (GetStats db).EntityCount + names.length ∧
      ∀ e ∈ (run db (names.map (fun n => Op.upsertEntity 0 n "t" []))).entities,
        e ∈ db.entities ∨ (e.name ∈ names ∧ e.entity_type = "t")
  | [], db, _, _, _ => ⟨rfl, rfl, rfl, fun e he => Or.inl he⟩
  | n :: names, db, hnd, hsz, hfresh => by
    obtain ⟨hn0, hn1⟩ := hsz n (List.mem_cons_self _ _)
    have hnone : db.entities.find? (fun e => decide (e.name = n)) = none := by
      rw [List.find?_eq_none]
      intro e he
      simpa using hfresh n (List.mem_cons_self _ _) e he
    have hU : (UpsertEntity db 0 n "t" []).2 =
        { db with entities := db.entities ++ [EntityRow.mk (db.seq_entities + 1) n "t" [] 0 0
                    none 0 none],
                  entities_fts := db.entities_fts ++
                    [(EntityRow.mk (db.seq_entities + 1) n "t" [] 0 0 none 0 none).doc],
                  seq_entities := db.seq_entities + 1 } := by
      rw [UpsertEntity_valid db 0 n "t" [] hn0 hn1 (by decide)]
      show upsertEntityRow db 0 n "t" [] = _
      unfold upsertEntityRow
      rw [hnone]
    obtain ⟨h1, h2, h3, h4⟩ := run_upserts_fresh names (UpsertEntity db 0 n "t" []).2
      (List.nodup_cons.1 hnd).2 (fun m hm => hsz m (List.mem_cons_of_mem _ hm)) (by
        intro m hm e he
        rw [hU] at he
        rcases List.mem_append.1 he with h | h
        · exact hfresh m (List.mem_cons_of_mem _ hm) e h
        · rw [List.mem_singleton.1 h]
          intro heq
          exact (List.nodup_cons.1 hnd).1 (by rw [← show m = n from heq.symm]; exact hm))
    have hrun : run db ((n :: names).map (fun n => Op.upsertEntity 0 n "t" [])) =
        run (UpsertEntity db 0 n "t" []).2 (names.map (fun n => Op.upsertEntity 0 n "t" [])) :=
      rfl
    rw [hrun]
    refine ⟨by rw [h1, hU], by rw [h2, hU], ?_, ?_⟩
    · rw [h3, hU]
      simp only [GetStats, List.filter_append, List.length_append, List.length_cons]
      simp [EntityRow.live]
      omega
    · intro e he
      rcases h4 e he with h | h
      · rw [hU] at h
        rcases List.mem_append.1 h with h | h
        · exact Or.inl h
        · rw [List.mem_singleton.1 h]
          exact Or.inr ⟨List.mem_cons_self _ _, rfl⟩
      · exact Or.inr ⟨List.mem_cons_of_mem _ h.1, h.2⟩

theorem import_cap {κ : Type} (eng : Engine κ) {db : DB} (now : Nat)
    (readings : List (Nat × List Nat))
    (hent : ∀ e ∈ db.entities, e.live = true →
      0 < e.name.utf8ByteSize ∧ e.name.utf8ByteSize ≤ 1024 ∧ e.entity_type ≠ "" ∧
        e.entity_type.utf8ByteSize ≤ 256)
    (hobs : db.observations = []) (hrel : db.relations = []) :
    ∃ entries, exportCmd eng db now = .ok entries ∧
      (importCmd DB.empty (stampRecords (decodeRecords entries) readings)).2.entities.length
        ≤ 1000 := by
  obtain ⟨entries, hE, hlen⟩ := exportCmd_cap eng db now
  refine ⟨entries, hE, ?_⟩
  have hf : (fun e : EntityRow => e.live && typeFilter "" e && tagFilter [] e) =
      (fun e => e.live) := by
    funext e
    simp [typeFilter, tagFilter]
  have hS : Search eng db now "" "" [] "name" 1000 = .ok (listAll eng db "" [] "name" 1000) := by
    unfold Search
    simp
  have hE2 : exportCmd eng db now = .ok (exportRows db
      ((orderBy (listOrder "name") (db.entities.filter (fun e => e.live))).take 1000)) := by
    unfold exportCmd
    rw [hS]
    show Except.ok (exportJSON db (listAll eng db "" [] "name" 1000)) = _
    unfold listAll scanSearchRows exportJSON
    rw [hf, List.map_map, List.flatMap_map]
    rfl
  have hentries : entries = exportRows db
      ((orderBy (listOrder "name") (db.entities.filter (fun e => e.live))).take 1000) := by
    rw [hE] at hE2
    exact Except.ok.inj hE2
  have hnoLR : ∀ name, ListRelationsByEntity db name = [] := by
    intro name
    rw [List.eq_nil_iff_forall_not_mem]
    intro x hx
    obtain ⟨r, hr, -⟩ := mem_ListRelationsByEntity.1 hx
    rw [hrel] at hr
    exact absurd hr (List.not_mem_nil _)
  have hgood : ∀ rec ∈ entries, rec.Good := by
    rw [hentries]
    refine exportRows_good (fun e he => ?_) hent (fun o ho => ?_) (fun r hr => ?_)
    · have := List.mem_of_mem_take he
      rw [mem_orderBy, List.mem_filter] at this
      exact this
    · rw [hobs] at ho
      exact absurd ho (List.not_mem_nil _)
    · rw [hrel] at hr
      exact absurd hr (List.not_mem_nil _)
  obtain ⟨hd1, -, hd3⟩ := decodeRecords_spec entries
  obtain ⟨hI, -⟩ := importRecords_spec (stampRecords (decodeRecords entries) readings)
    DB.empty DB.empty_WF (fun e he => absurd he (List.not_mem_nil _)) (by
      intro x hx
      have hx1 : x.1 ∈ (stampRecords (decodeRecords entries) readings).map Prod.fst :=
        List.mem_map_of_mem _ hx
      rw [stampRecords_map_fst] at hx1
      rcases hd1 x.1 hx1 with h | h
      · exact hgood x.1 h
      · exact ⟨fun hk => absurd hk h.1, fun hk => absurd hk h.2⟩)
  rw [stampRecords_map_fst] at hI
  have hsub : (importRecords DB.empty (stampRecords (decodeRecords entries)
      readings)).2.entities.map (fun e => e.name) ⊆
      (entries.filter (fun rec => decide (rec.Kind = "entity"))).map (fun rec => rec.Name) := by
    intro nm hnm
    obtain ⟨e2, he2, rfl⟩ := List.mem_map.1 hnm
    rcases hI.names e2 he2 with ⟨r, hr, -⟩ | ⟨rec, hrec, ⟨hk, hn⟩ | ⟨hk, -⟩⟩
    · exact absurd hr (List.not_mem_nil _)
    · refine List.mem_map.2 ⟨rec, ?_, hn⟩
      rw [← hd3]
      exact List.mem_filter.2 ⟨hrec, by simpa using hk⟩
    · rcases hd1 rec hrec with h | h
      · rw [hentries] at h
        obtain ⟨e, -, h | ⟨x, hx, -⟩⟩ := mem_exportRows.1 h
        · rw [h] at hk
          exact absurd hk (by simp [entityEntry])
        · rw [hnoLR] at hx
          exact absurd hx (List.not_mem_nil _)
      · exact absurd hk h.2
  have hle := ((hI.wf.entity_names).subperm hsub).length_le
  rw [List.length_map, List.length_map, hlen] at hle
  exact le_trans hle (min_le_left _ _)

/-- A store with 1001 live entities, named `a`, `aa`, and so on, and nothing else: the
export succeeds, and the store the import of it leaves has at most 1000 entities. -/
theorem export_cap_example :
    (GetStats (run DB.empty (((List.range 1001).map
        (fun i => String.mk (List.replicate (i + 1) 'a'))).map
        (fun n => Op.upsertEntity 0 n "t" [])))).EntityCount = 1001 ∧
      ∃ entries,
        exportCmd (Engine.mk (fun _ => none) (fun _ _ _ => none) (fun _ _ => true) 0)
          (run DB.empty (((List.range 1001).map
            (fun i => String.mk (List.replicate (i + 1) 'a'))).map
            (fun n => Op.upsertEntity 0 n "t" []))) 9 = .ok entries ∧
        (importCmd DB.empty (stampRecords (decodeRecords entries) [])).2.entities.length
          ≤ 1000 := by
  have hnd : ((List.range 1001).map (fun i => String.mk (List.replicate (i + 1) 'a'))).Nodup := by
    refine (List.nodup_range 1001).map ?_
    intro i j h
    have := congrArg String.utf8ByteSize h
    rw [utf8ByteSize_replicate_a, utf8ByteSize_replicate_a] at this
    omega
  have hsz : ∀ n ∈ (List.range 1001).map (fun i => String.mk (List.replicate (i + 1) 'a')),
      0 < n.utf8ByteSize ∧ n.utf8ByteSize ≤ 1024 := by
    intro n hn
    obtain ⟨i, hi, rfl⟩ := List.mem_map.1 hn
    rw [utf8ByteSize_replicate_a]
    have := List.mem_range.1 hi
    omega
  obtain ⟨h1, h2, h3, h4⟩ := run_upserts_fresh _ DB.empty hnd hsz
    (fun _ _ e he => absurd he (List.not_mem_nil _))
  refine ⟨?_, import_cap _ 9 [] (fun e he _ => ?_) h2 h1⟩
  · rw [h3, List.length_map, List.length_range]
    rfl
  · rcases h4 e he with h | h
    · exact absurd h (List.not_mem_nil _)
    · obtain ⟨hs0, hs1⟩ := hsz e.name h.1
      refine ⟨hs0, hs1, ?_, ?_⟩ <;> rw [h.2] <;> decide

set_option maxRecDepth 100000 in
/-- C26, counterexample: five stores that the round trip does not preserve.  An entity
upserted with the empty type comes back with the type `concept`; a relation with the
empty type, between live entities, is exported and then skipped by the import; the
entity of empty name that `UpsertRelationByName` creates is exported and then skipped,
with its relation; and the entity with a name of 1025 bytes that `UpsertRelationByName`
creates, holding the observation `seen`, is refused by the import and comes back, through
its relation, without the observation.  And a store with 1001 live entities comes back
with at most 1000. -/
theorem export_import_round_trip_counterexample :
    ((run DB.empty [Op.upsertEntity 1 "x" "" []]).entities.map
        (fun e => (e.name, e.entity_type, e.live)) = [("x", "", true)] ∧
      exportCmd (Engine.mk (fun _ => none) (fun _ _ _ => none) (fun _ _ => true) 0)
        (run DB.empty [Op.upsertEntity 1 "x" "" []]) 9 =
          .ok [exportEntry.mk "entity" "x" "" [] [] "" "" ""] ∧
      (importCmd DB.empty (stampRecords (decodeRecords
        [exportEntry.mk "entity" "x" "" [] [] "" "" ""]) [])).2.entities.map
        (fun e => (e.name, e.entity_type, e.live)) = [("x", "concept", true)]) ∧
    ((ListRelationsByEntity (run DB.empty [Op.upsertRelationByName 1 2 3 "a" "b" ""]) "a").map
        (fun x => (x.FromName, x.ToName, x.Relation)) = [("a", "b", "")] ∧
      exportCmd (Engine.mk (fun _ => none) (fun _ _ _ => none) (fun _ _ => true) 0)
        (run DB.empty [Op.upsertRelationByName 1 2 3 "a" "b" ""]) 9 =
          .ok [exportEntry.mk "entity" "a" "concept" [] [] "" "" "",
            exportEntry.mk "relation" "" "" [] [] "a" "b" "",
            exportEntry.mk "entity" "b" "concept" [] [] "" "" ""] ∧
      (importCmd DB.empty (stampRecords (decodeRecords
        [exportEntry.mk "entity" "a" "concept" [] [] "" "" "",
          exportEntry.mk "relation" "" "" [] [] "a" "b" "",
          exportEntry.mk "entity" "b" "concept" [] [] "" "" ""]) [])).2.relations = []) ∧
    ((run DB.empty [Op.upsertRelationByName 1 2 3 "" "b" "uses"]).entities.map
        (fun e => (e.name, e.live)) = [("", true), ("b", true)] ∧
      exportCmd (Engine.mk (fun _ => none) (fun _ _ _ => none) (fun _ _ => true) 0)
        (run DB.empty [Op.upsertRelationByName 1 2 3 "" "b" "uses"]) 9 =
          .ok [exportEntry.mk "entity" "" "concept" [] [] "" "" "",
            exportEntry.mk "relation" "" "" [] [] "" "b" "uses",
            exportEntry.mk "entity" "b" "concept" [] [] "" "" ""] ∧
      (importCmd DB.empty (stampRecords (decodeRecords
        [exportEntry.mk "entity" "" "concept" [] [] "" "" "",
          exportEntry.mk "relation" "" "" [] [] "" "b" "uses",
          exportEntry.mk "entity" "b" "concept" [] [] "" "" ""]) [])).2.entities.map
        (fun e => (e.name, e.live)) = [("b", true)]) ∧
    (ListObservationsByEntityID (run DB.empty [Op.upsertRelationByName 1 2 3
        (String.mk (List.replicate 1025 'a')) "b" "uses", Op.addObservation 4 1 "seen"]) 1 =
        ["seen"] ∧
      exportCmd (Engine.mk (fun _ => none) (fun _ _ _ => none) (fun _ _ => true) 0)
        (run DB.empty [Op.upsertRelationByName 1 2 3
          (String.mk (List.replicate 1025 'a')) "b" "uses", Op.addObservation 4 1 "seen"]) 9 =
          .ok [exportEntry.mk "entity" (String.mk (List.replicate 1025 'a')) "concept" ["seen"]
              [] "" "" "",
            exportEntry.mk "relation" "" "" [] [] (String.mk (List.replicate 1025 'a')) "b"
              "uses",
            exportEntry.mk "entity" "b" "concept" [] [] "" "" ""] ∧
      importCmd DB.empty (stampRecords (decodeRecords
        [exportEntry.mk "entity" (String.mk (List.replicate 1025 'a')) "concept" ["seen"]
            [] "" "" "",
          exportEntry.mk "relation" "" "" [] [] (String.mk (List.replicate 1025 'a')) "b"
            "uses",
          exportEntry.mk "entity" "b" "concept" [] [] "" "" ""]) []) =
        ((1, 1, 1), run DB.empty [Op.upsertRelationByName 0 0 0
          (String.mk (List.replicate 1025 'a')) "b" "uses",
          Op.upsertEntity 0 "b" "concept" []]) ∧
      (run DB.empty [Op.upsertRelationByName 0 0 0
        (String.mk (List.replicate 1025 'a')) "b" "uses",
        Op.upsertEntity 0 "b" "concept" []]).observations = []) ∧
    ((GetStats (run DB.empty (((List.range 1001).map
        (fun i => String.mk (List.replicate (i + 1) 'a'))).map
        (fun n => Op.upsertEntity 0 n "t" [])))).EntityCount = 1001 ∧
      ∃ entries,
        exportCmd (Engine.mk (fun _ => none) (fun _ _ _ => none) (fun _ _ => true) 0)
          (run DB.empty (((List.range 1001).map
            (fun i => String.mk (List.replicate (i + 1) 'a'))).map
            (fun n => Op.upsertEntity 0 n "t" []))) 9 = .ok entries ∧
        (importCmd DB.empty (stampRecords (decodeRecords entries) [])).2.entities.length
          ≤ 1000) := by
  refine ⟨⟨by decide, ?_, by decide⟩, ⟨by decide, ?_, by decide⟩, ⟨by decide, ?_, by decide⟩,
    ⟨by decide, ?_, by decide, by decide⟩, export_cap_example⟩
  · rw [exportCmd_eq _ _ _ (by decide)]
    exact congrArg Except.ok (by decide)
  · rw [exportCmd_eq _ _ _ (by decide)]
    exact congrArg Except.ok (by decide)
  · rw [exportCmd_eq _ _ _ (by decide)]
    exact congrArg Except.ok (by decide)
  · rw [exportCmd_eq _ _ _ (by decide)]
    exact congrArg Except.ok (by decide)

theorem perm_foldl_erase {β : Type} [DecidableEq β] : ∀ (D idx : List β), D.Nodup →
    (∀ d ∈ D, d ∈ idx) → idx.Perm (D ++ D.foldl (fun i d => i.erase d) idx)
  | [], idx, _, _ => List.Perm.refl idx
  | d :: D, idx, hnd, hsub => by
    have hd : d ∈ idx := hsub d (List.mem_cons_self _ _)
    have hnd2 := List.nodup_cons.1 hnd
    have hsub2 : ∀ x ∈ D, x ∈ idx.erase d := by
      intro x hx
      have hne : x ≠ d := fun h => hnd2.1 (h ▸ hx)
      exact (List.mem_erase_of_ne hne).2 (hsub x (List.mem_cons_of_mem _ hx))
    have ih := perm_foldl_erase D (idx.erase d) hnd2.2 hsub2
    rw [List.foldl_cons, List.cons_append]
    exact (List.perm_cons_erase hd).trans (ih.cons d)

theorem filter_name_eq {db : DB} (hwf : db.WF) {old : EntityRow} (hold : old ∈ db.entities)
    (p : EntityRow → Bool) :
    db.entities.filter (fun e => decide (e.name = old.name) && p e) =
      if p old = true then [old] else [] := by
  obtain ⟨A, B, hAB⟩ := List.append_of_mem hold
  have hnames := hwf.entity_names
  rw [hAB] at hnames ⊢
  simp only [List.map_append, List.map_cons] at hnames
  have hA : ∀ e ∈ A, e.name ≠ old.name := fun e he heq => by
    have := (List.nodup_append.1 hnames).2.2
    exact this (List.mem_map.2 ⟨e, he, rfl⟩) (by rw [heq]; exact List.mem_cons_self _ _)
  have hB : ∀ e ∈ B, e.name ≠ old.name := fun e he heq => by
    have := (List.nodup_cons.1 (List.nodup_append.1 hnames).2.1).1
    exact this (by rw [← heq]; exact List.mem_map.2 ⟨e, he, rfl⟩)
  have hfA : A.filter (fun e => decide (e.name = old.name) && p e) = [] := by
    rw [List.filter_eq_nil_iff]
    intro e he
    simp [hA e he]
  have hfB : B.filter (fun e => decide (e.name = old.name) && p e) = [] := by
    rw [List.filter_eq_nil_iff]
    intro e he
    simp [hB e he]
  rw [List.filter_append, List.filter_cons, hfA, hfB]
  by_cases hp : p old = true <;> simp [hp]

theorem live_doc_mem {db : DB} (h : db.ftsInStep) {e : EntityRow} (he : e ∈ db.entities)
    (hl : e.live = true) : e.doc ∈ db.entities_fts :=
  h.1.symm.subset (List.mem_map.2 ⟨e, List.mem_filter.2 ⟨he, hl⟩, rfl⟩)

/-- How a call changes the entity index: the documents of its 'delete' commands leave
it, the documents of its insert commands come in. -/
theorem Op.indexStep {db : DB} (hwf : db.WF) (h : db.ftsInStep) (op : Op)
    (hop : op.clean db) :
    ∃ rest, db.entities_fts.Perm (op.ftsDeleted db ++ rest) ∧
      (op.apply db).entities_fts.Perm (rest ++ op.ftsInserted db) := by
  have same : ∀ db2 : DB, db2.entities_fts = db.entities_fts →
      ∃ rest, db.entities_fts.Perm ([] ++ rest) ∧ db2.entities_fts.Perm (rest ++ []) := by
    intro db2 h2
    exact ⟨db.entities_fts, List.Perm.refl _, by rw [h2, List.append_nil]⟩
  have erased : ∀ (p : EntityRow → Bool), (∀ e ∈ db.entities, p e = true → e.live = true) →
      db.entities_fts.Perm ((db.entities.filter p).map EntityRow.doc ++
        (db.entities.filter p).foldl (fun i a => i.erase a.doc) db.entities_fts) := by
    intro p hp
    have := perm_foldl_erase ((db.entities.filter p).map EntityRow.doc) db.entities_fts
      ((nodup_map_entity_doc _ hwf.entity_ids).sublist ((List.filter_sublist _).map _))
      (by
        intro d hd
        obtain ⟨e, he, rfl⟩ := List.mem_map.1 hd
        have he2 := List.mem_filter.1 he
        exact live_doc_mem h he2.1 (hp e he2.1 he2.2))
    rw [List.foldl_map] at this
    exact this
  cases op with
  | upsertEntity now n t ts =>
    show ∃ rest, _ ∧ (UpsertEntity db now n t ts).2.entities_fts.Perm _
    by_cases hvalid : 0 < n.utf8ByteSize ∧ n.utf8ByteSize ≤ 1024 ∧ t.utf8ByteSize ≤ 256
    · have hsz : ¬ (n.utf8ByteSize = 0 ∨ n.utf8ByteSize > 1024 ∨ t.utf8ByteSize > 256) := by
        omega
      rw [UpsertEntity_valid db now n t ts hvalid.1 hvalid.2.1 hvalid.2.2]
      simp only [Op.ftsDeleted, Op.ftsInserted, if_neg hsz]
      unfold upsertEntityRow
      cases hfind : db.entities.find? (fun e => decide (e.name = n)) with
      | none =>
        have hD : db.entities.filter (fun e => decide (e.name = n) && e.live) = [] := by
          rw [List.filter_eq_nil_iff]
          intro e he
          have := List.find?_eq_none.1 hfind e he
          simp only [decide_eq_true_eq] at this
          simp [this]
        rw [hD]
        exact ⟨db.entities_fts, List.Perm.refl _, List.Perm.refl _⟩
      | some old =>
        have hold := List.mem_of_find?_eq_some hfind
        have hname : old.name = n := by simpa using List.find?_some hfind
        subst hname
        rw [filter_name_eq hwf hold (fun e => e.live)]
        cases hdel : old.deleted_at with
        | none =>
          have hl : old.live = true := by simp [EntityRow.live, hdel]
          rw [if_pos hl]
          refine ⟨db.entities_fts.erase old.doc, ?_, ?_⟩
          · exact List.perm_cons_erase (live_doc_mem h hold hl)
          · simp only [entities_fts_update, entities_fts_soft_delete,
              entities_fts_soft_restore, hdel, and_self, if_true, ne_eq, not_true_eq_false,
              and_false, false_and, if_false]
            exact List.Perm.refl _
        | some d =>
          have hl : ¬ old.live = true := by simp [EntityRow.live, hdel]
          rw [if_neg hl]
          refine ⟨db.entities_fts, List.Perm.refl _, ?_⟩
          simp only [entities_fts_update, entities_fts_soft_delete, entities_fts_soft_restore,
            hdel, and_self, if_true, ne_eq, not_true_eq_false, and_false, false_and, if_false,
            reduceCtorEq, not_false_eq_true, and_true, true_and]
          exact List.Perm.refl _
    · have hsz : n.utf8ByteSize = 0 ∨ n.utf8ByteSize > 1024 ∨ t.utf8ByteSize > 256 := by
        omega
      have hst : (UpsertEntity db now n t ts).2 = db := by
        unfold UpsertEntity
        split
        · rfl
        · split
          · rfl
          · split
            · rfl
            · exact absurd ⟨by omega, by omega, by omega⟩ hvalid
      simp only [Op.ftsDeleted, Op.ftsInserted, if_pos hsz]
      exact same _ (by rw [hst])
  | getEntity now n =>
    refine same _ ?_
    show (GetEntity db now n).2.entities_fts = _
    unfold GetEntity
    split <;> rfl
  | softDeleteEntity now n =>
    have hidx : (SoftDeleteEntity db now n).2.entities_fts =
        (db.entities.filter (fun e => e.nameMatches n && e.live)).foldl
          (fun i a => i.erase a.doc) db.entities_fts := by
      have hstate : (SoftDeleteEntity db now n).2.entities_fts =
          (db.entities.filter (fun e => e.nameMatches n && e.live)).foldl
            (fun i old =>
              entities_fts_soft_restore old { old with deleted_at := some now }
                (entities_fts_soft_delete old { old with deleted_at := some now } i))
            db.entities_fts := by
        unfold SoftDeleteEntity
        simp only
        split <;> rfl
      rw [hstate]
      exact foldl_congr_mem _ (fun (i : List EntityDoc) (a : EntityRow) => i.erase a.doc) _ _
        (fun b a ha => by
        have hl := (List.mem_filter.1 ha).2
        simp only [Bool.and_eq_true, EntityRow.live, Option.isNone_iff_eq_none] at hl
        simp [entities_fts_soft_restore, entities_fts_soft_delete, hl.2])
    refine ⟨_, erased (fun e => e.nameMatches n && e.live) (fun e _ hp => by
      simp only [Bool.and_eq_true] at hp
      exact hp.2), ?_⟩
    show (SoftDeleteEntity db now n).2.entities_fts.Perm _
    rw [hidx]
    simp only [Op.ftsInserted, List.append_nil]
    exact List.Perm.refl _
  | hardDeleteEntity n =>
    have hidx : (HardDeleteEntity db n).2.entities_fts =
        (db.entities.filter (fun e => e.nameMatches n)).foldl
          (fun i a => i.erase a.doc) db.entities_fts := by
      unfold HardDeleteEntity
      simp only
      split <;> rfl
    refine ⟨_, erased (fun e => e.nameMatches n) (fun e he hp => hop e he hp), ?_⟩
    show (HardDeleteEntity db n).2.entities_fts.Perm _
    rw [hidx]
    simp only [Op.ftsInserted, List.append_nil]
    exact List.Perm.refl _
  | addObservation now e c =>
    refine same _ ?_
    show (AddObservation db now e c).2.entities_fts = _
    unfold AddObservation
    split_ifs <;> rfl
  | retractObservation n c =>
    refine same _ ?_
    show (RetractObservation db n c).2.entities_fts = _
    unfold RetractObservation
    split
    · rfl
    · simp only
      split_ifs <;> rfl
  | upsertRelation now f t rel =>
    refine same _ ?_
    show (UpsertRelation db now f t rel).2.entities_fts = _
    unfold UpsertRelation
    split_ifs <;> rfl
  | upsertRelationByName t1 t2 t3 f t rel =>
    obtain ⟨fe, te, added, edge, hst, -⟩ := UpsertRelationByName_spec db t1 t2 t3 f t rel
    refine ⟨db.entities_fts, List.Perm.refl _, ?_⟩
    show (UpsertRelationByName db t1 t2 t3 f t rel).2.entities_fts.Perm _
    simp only [Op.ftsInserted]
    rw [hst]
    simp only [List.drop_left]
    exact List.Perm.refl _
  | appendJournal now c tags =>
    refine same _ ?_
    show (AppendJournal db now c tags).2.entities_fts = _
    unfold AppendJournal
    split
    · rfl
    · simp only
      split <;> rfl

theorem Store.apply_inStep {tokens : String → Nat} {s : Store} (h : s.InStep tokens) (op : Op)
    (hop : op.clean s.db) :
    ∃ s1, s.apply tokens op = some s1 ∧ s1.db = op.apply s.db ∧ s1.InStep tokens := by
  obtain ⟨hwf, hfts, hr, hn, ht⟩ := h
  obtain ⟨rest, h1, h2⟩ := Op.indexStep hwf hfts op hop
  have hsum : ∀ f : EntityDoc → Nat, (s.db.entities_fts.map f).sum =
      ((op.ftsDeleted s.db).map f).sum + (rest.map f).sum := fun f => by
    rw [(h1.map f).sum_eq, List.map_append, List.sum_append]
  have hsum2 : ∀ f : EntityDoc → Nat, ((op.apply s.db).entities_fts.map f).sum =
      (rest.map f).sum + ((op.ftsInserted s.db).map f).sum := fun f => by
    rw [(h2.map f).sum_eq, List.map_append, List.sum_append]
  have hlen : s.db.entities_fts.length = (op.ftsDeleted s.db).length + rest.length := by
    rw [h1.length_eq, List.length_append]
  have hlen2 : (op.apply s.db).entities_fts.length =
      rest.length + (op.ftsInserted s.db).length := by
    rw [h2.length_eq, List.length_append]
  have hacc : (op.ftsDeleted s.db).length ≤ s.entities_fts_rows ∧
      ((op.ftsDeleted s.db).map (fun d => tokens d.name)).sum ≤ s.entities_fts_name_tokens ∧
      ((op.ftsDeleted s.db).map (fun d => tokens d.entity_type)).sum ≤
        s.entities_fts_type_tokens := by
    rw [hr, hn, ht, hsum (fun d => tokens d.name), hsum (fun d => tokens d.entity_type), hlen]
    omega
  unfold Store.apply
  rw [if_pos hacc]
  refine ⟨_, rfl, rfl, Op.apply_WF hwf op, Op.apply_ftsInStep hwf hfts op, ?_, ?_, ?_⟩
  · show s.entities_fts_rows - _ + _ = _
    rw [hr, hlen, hlen2]
    omega
  · show s.entities_fts_name_tokens - _ + _ = _
    rw [hn, hsum (fun d => tokens d.name), hsum2 (fun d => tokens d.name)]
    omega
  · show s.entities_fts_type_tokens - _ + _ = _
    rw [ht, hsum (fun d => tokens d.entity_type), hsum2 (fun d => tokens d.entity_type)]
    omega

theorem Store.empty_inStep (tokens : String → Nat) : Store.empty.InStep tokens :=
  ⟨DB.empty_WF, ⟨List.Perm.refl _, List.Perm.refl _, List.Perm.refl _⟩, rfl, rfl, rfl⟩

/-- Along a sequence of calls in which no hard delete hits a soft-deleted row, every
call is accepted, the store is the one the plain functions give, and the totals stay in
step. -/
theorem Store.run_inStep (tokens : String → Nat) : ∀ (ops : List Op) (s : Store),
    s.InStep tokens → (∀ pre op post, ops = pre ++ op :: post → op.clean (Aimemo.run s.db pre)) →
    (Store.run tokens s ops).InStep tokens ∧ (Store.run tokens s ops).db = Aimemo.run s.db ops
  | [], s, h, _ => ⟨h, rfl⟩
  | op :: ops, s, h, hclean => by
    obtain ⟨s1, h1, h2, h3⟩ := Store.apply_inStep h op (hclean [] op ops rfl)
    have ih := Store.run_inStep tokens ops s1 h3 (by
      intro pre o post hops
      have := hclean (op :: pre) o post (by rw [hops]; rfl)
      rw [h2]
      exact this)
    have hrun : Store.run tokens s (op :: ops) = Store.run tokens s1 ops := by
      show Store.run tokens ((s.apply tokens op).getD s) ops = _
      rw [h1]
      rfl
    rw [hrun]
    refine ⟨ih.1, ?_⟩
    rw [ih.2, h2]
    rfl

theorem Store.exec_cases {α : Type} (tokens : String → Nat) (s : Store) (op : Op)
    (refused : String) (result : Except String α) :
    (s.apply tokens op = none ∧ s.exec tokens op refused result = (.error refused, s)) ∨
      ∃ s1, s.apply tokens op = some s1 ∧ s1.db = op.apply s.db ∧
        s.exec tokens op refused result = (result, s1) := by
  unfold Store.exec
  cases h : s.apply tokens op with
  | none => exact Or.inl ⟨rfl, rfl⟩
  | some s1 =>
    refine Or.inr ⟨s1, rfl, ?_, rfl⟩
    unfold Store.apply at h
    split at h
    · rw [← Option.some.inj h]
    · exact absurd h (by simp)

theorem Store.exec_inStep {α : Type} {tokens : String → Nat} {s : Store}
    (h : s.InStep tokens) (op : Op) (hop : op.clean s.db) (refused : String)
    (result : Except String α) :
    ∃ s1, s.exec tokens op refused result = (result, s1) ∧ s1.db = op.apply s.db ∧
      s1.InStep tokens := by
  obtain ⟨s1, h1, h2, h3⟩ := Store.apply_inStep h op hop
  refine ⟨s1, ?_, h2, h3⟩
  unfold Store.exec
  rw [h1]

theorem UpsertEntity_ok_valid (db : DB) (now : Nat) (n t : String) (ts : List String)
    (id : Nat) (h : (UpsertEntity db now n t ts).1 = .ok id) :
    0 < n.utf8ByteSize ∧ n.utf8ByteSize ≤ 1024 ∧ t.utf8ByteSize ≤ 256 := by
  unfold UpsertEntity at h
  split at h
  · exact absurd h (by simp)
  · split at h
    · exact absurd h (by simp)
    · split at h
      · exact absurd h (by simp)
      · omega

theorem storeUpsertEntity_ok {tokens : String → Nat} {s s1 : Store} {now id : Nat}
    {n t : String} {ts : List String}
    (h : Store.UpsertEntity tokens s now n t ts = (.ok id, s1)) :
    (UpsertEntity s.db now n t ts).1 = .ok id ∧ s1.db = (UpsertEntity s.db now n t ts).2 ∧
      s.apply tokens (.upsertEntity now n t ts) = some s1 := by
  unfold Store.UpsertEntity at h
  rcases Store.exec_cases tokens s (.upsertEntity now n t ts) ("upsert entity: " ++ corruptVtab)
    (UpsertEntity s.db now n t ts).1 with ⟨-, h2⟩ | ⟨s2, h1, h2, h3⟩
  · rw [h2] at h
    exact absurd (congrArg Prod.fst h) (by simp)
  · rw [h3] at h
    have h4 := congrArg Prod.snd h
    simp only at h4
    rw [← h4]
    exact ⟨congrArg Prod.fst h, h2, h1⟩

/-- C1 (as amended): after `UpsertEntity(n, t, ts)` succeeds, `GetEntity(n2)` for every
`n2` equal to `n` up to ASCII letter case returns a present entity whose name equals `n`
up to ASCII letter case (the first live row that matches); when no live row of the store
had a name that equals `n` up to case without being `n`, its Name is exactly `n`, its
EntityType is `t`, its Tags are `ts`, and its ID is the id the upsert returned. -/
theorem GetEntity_after_UpsertEntity (tokens : String → Nat) (s : Store) (hwf : s.db.WF)
    (now now2 : Nat) (n t : String) (ts : List String) (n2 : String)
    (hcase : sqlLower n2 = sqlLower n) (id : Nat) (s1 : Store)
    (hok : Store.UpsertEntity tokens s now n t ts = (.ok id, s1)) :
    ∃ e, (GetEntity s1.db now2 n2).1 = .ok (some e) ∧
      sqlLower e.Name = sqlLower n ∧
      ((∀ r ∈ s.db.entities, r.live = true → sqlLower r.name = sqlLower n → r.name = n) →
        e.Name = n ∧ e.EntityType = t ∧ e.Tags = ts ∧ e.ID = id) := by
  obtain ⟨h1, h2, -⟩ := storeUpsertEntity_ok hok
  obtain ⟨hn0, hn1, ht⟩ := UpsertEntity_ok_valid s.db now n t ts id h1
  obtain ⟨id2, hid, e, he, hname, hrest⟩ :=
    GetEntity_after_UpsertEntity_accepted s.db hwf now now2 n t ts n2 hn0 hn1 ht hcase
  rw [h1] at hid
  rw [h2]
  have hid2 : id = id2 := by
    injection hid
  rw [hid2]
  exact ⟨e, he, hname, hrest⟩

/-- Witness of C1 on the store of `TestEntity_CaseInsensitiveGet`. -/
theorem GetEntity_after_UpsertEntity_witness :
    Store.empty.db.WF ∧ sqlLower "openclaw" = sqlLower "OpenClaw" ∧
      Store.UpsertEntity asciiTokens Store.empty 1 "OpenClaw" "system" [] =
        (.ok 1, Store.run asciiTokens Store.empty [Op.upsertEntity 1 "OpenClaw" "system" []]) ∧
      ∃ e, (GetEntity (Store.run asciiTokens Store.empty
            [Op.upsertEntity 1 "OpenClaw" "system" []]).db 2 "openclaw").1 = .ok (some e) ∧
        sqlLower e.Name = sqlLower "OpenClaw" ∧
        ((∀ r ∈ Store.empty.db.entities, r.live = true →
            sqlLower r.name = sqlLower "OpenClaw" → r.name = "OpenClaw") →
          e.Name = "OpenClaw" ∧ e.EntityType = "system" ∧ e.Tags = [] ∧ e.ID = 1) :=
  ⟨DB.empty_WF, by decide, rfl,
    GetEntity_after_UpsertEntity asciiTokens Store.empty DB.empty_WF 1 2 "OpenClaw" "system" []
      "openclaw" (by decide) 1 _ rfl⟩

theorem find?_name_eq {db : DB} (hwf : db.WF) {r : EntityRow} (hr : r ∈ db.entities) :
    db.entities.find? (fun e => decide (e.name = r.name)) = some r := by
  cases hf : db.entities.find? (fun e => decide (e.name = r.name)) with
  | none =>
    have := List.find?_eq_none.1 hf r hr
    simp at this
  | some x =>
    have hx : x.name = r.name := by simpa using List.find?_some hf
    rw [hwf.entity_eq_of_name (List.mem_of_find?_eq_some hf) hr hx]

theorem ftsDeleted_upsert_existing {db : DB} (hwf : db.WF) {r : EntityRow}
    (hr : r ∈ db.entities) (now : Nat) (t : String) (ts : List String)
    (hn0 : 0 < r.name.utf8ByteSize) (hn1 : r.name.utf8ByteSize ≤ 1024)
    (ht : t.utf8ByteSize ≤ 256) :
    Op.ftsDeleted db (.upsertEntity now r.name t ts) = (if r.live = true then [r.doc] else []) ∧
      Op.ftsInserted db (.upsertEntity now r.name t ts) = [EntityDoc.mk r.id r.name t] := by
  have hsz : ¬ (r.name.utf8ByteSize = 0 ∨ r.name.utf8ByteSize > 1024 ∨ t.utf8ByteSize > 256) := by
    omega
  constructor
  · simp only [Op.ftsDeleted, if_neg hsz]
    rw [filter_name_eq hwf hr (fun e => e.live)]
    split_ifs <;> rfl
  · simp only [Op.ftsInserted, if_neg hsz]
    rw [find?_name_eq hwf hr]

/-- C2 (as amended): for every store in which an entity row `r` exists, live or
soft-deleted, whose name is valid (non-empty, at most 1024 bytes), and every valid type
`t` and tags `ts`.  When `UpsertEntity(r.name, t, ts)` succeeds, it returns the id of `r`;
afterwards the row of that id is `r` with type `t`, tags `ts`, the new update time and no
deletion timestamp; the observations table and the observation list of the entity are
unchanged; and a further upsert of the same name succeeds and returns the same id.  The
call succeeds when `r` is soft-deleted and whenever the totals of the entity index are in
step; a call that fails leaves the store as it was. -/
theorem UpsertEntity_existing_row (tokens : String → Nat) (s : Store) (hwf : s.db.WF)
    (now : Nat) (r : EntityRow) (hr : r ∈ s.db.entities) (t : String) (ts : List String)
    (hn0 : 0 < r.name.utf8ByteSize) (hn1 : r.name.utf8ByteSize ≤ 1024)
    (ht : t.utf8ByteSize ≤ 256) :
    (∀ id s1, Store.UpsertEntity tokens s now r.name t ts = (.ok id, s1) →
      id = r.id ∧
      (∀ e ∈ s1.db.entities, e.id = r.id →
        e = { r with entity_type := t, tags := ts, updated_at := now, deleted_at := none }) ∧
      (∃ e ∈ s1.db.entities, e.id = r.id) ∧
      s1.db.observations = s.db.observations ∧
      ListObservationsByEntityID s1.db r.id = ListObservationsByEntityID s.db r.id ∧
      ∀ (now2 : Nat) (t2 : String) (ts2 : List String), t2.utf8ByteSize ≤ 256 →
        ∃ s2, Store.UpsertEntity tokens s1 now2 r.name t2 ts2 = (.ok r.id, s2)) ∧
    ((r.live = false ∨ s.InStep tokens) →
      ∃ s1, Store.UpsertEntity tokens s now r.name t ts = (.ok r.id, s1)) ∧
    (∀ msg s1, Store.UpsertEntity tokens s now r.name t ts = (.error msg, s1) → s1 = s) := by
  obtain ⟨hA1, hA2, hA3, hA4, hA5, -⟩ :=
    UpsertEntity_existing_row_accepted s.db hwf now r hr t ts hn0 hn1 ht
  obtain ⟨hD, hI⟩ := ftsDeleted_upsert_existing hwf hr now t ts hn0 hn1 ht
  refine ⟨?_, ?_, ?_⟩
  · intro id s1 hok
    obtain ⟨h1, h2, h3⟩ := storeUpsertEntity_ok hok
    rw [hA1] at h1
    have hid : id = r.id := by
      injection h1 with h1
      exact h1.symm
    rw [h2]
    refine ⟨hid, hA2, hA3, hA4, hA5, ?_⟩
    intro now2 t2 ts2 ht2
    obtain ⟨e, he, heid⟩ := hA3
    have hrow := hA2 e he heid
    have hwf1 : (UpsertEntity s.db now r.name t ts).2.WF := UpsertEntity_WF hwf now r.name t ts
    have hename : e.name = r.name := by rw [hrow]
    have heid2 : e.id = r.id := heid
    have helive : e.live = true := by rw [hrow]; rfl
    have hedoc : e.doc = EntityDoc.mk r.id r.name t := by rw [hrow]; rfl
    rw [← h2] at he hwf1
    obtain ⟨hD2, -⟩ := ftsDeleted_upsert_existing hwf1 he now2 t2 ts2 (by rw [hename]; exact hn0)
      (by rw [hename]; exact hn1) ht2
    rw [hename, if_pos helive, hedoc] at hD2
    have hB := (UpsertEntity_existing_row_accepted s1.db hwf1 now2 e he t2 ts2
      (by rw [hename]; exact hn0) (by rw [hename]; exact hn1) ht2).1
    rw [hename, heid2] at hB
    -- the totals of `s1` hold the document the first upsert inserted
    unfold Store.apply at h3
    rw [hI] at h3
    split at h3
    · have hs1 := Option.some.inj h3
      have hacc : s1.apply tokens (.upsertEntity now2 r.name t2 ts2) ≠ none := by
        unfold Store.apply
        rw [hD2, ← hs1]
        simp only [List.length_singleton, List.map_cons, List.map_nil, List.sum_cons,
          List.sum_nil, Nat.add_zero]
        rw [if_pos ⟨by omega, by omega, by omega⟩]
        simp
      unfold Store.UpsertEntity
      rcases Store.exec_cases tokens s1 (.upsertEntity now2 r.name t2 ts2)
        ("upsert entity: " ++ corruptVtab) (UpsertEntity s1.db now2 r.name t2 ts2).1 with
        ⟨h4, -⟩ | ⟨s2, -, -, h5⟩
      · exact absurd h4 hacc
      · exact ⟨s2, by rw [h5, hB]⟩
    · exact absurd h3 (by simp)
  · intro hcase
    have hacc : ∃ s1, s.apply tokens (.upsertEntity now r.name t ts) = some s1 := by
      rcases hcase with hl | hin
      · unfold Store.apply
        rw [hD, hl]
        simp
      · obtain ⟨s1, h1, -⟩ := Store.apply_inStep hin (.upsertEntity now r.name t ts) trivial
        exact ⟨s1, h1⟩
    obtain ⟨s1, h1⟩ := hacc
    refine ⟨s1, ?_⟩
    unfold Store.UpsertEntity Store.exec
    rw [h1, hA1]
  · intro msg s1 herr
    unfold Store.UpsertEntity at herr
    rcases Store.exec_cases tokens s (.upsertEntity now r.name t ts)
      ("upsert entity: " ++ corruptVtab) (UpsertEntity s.db now r.name t ts).1 with
      ⟨-, h2⟩ | ⟨s2, -, -, h3⟩
    · rw [h2] at herr
      exact (congrArg Prod.snd herr).symm
    · rw [h3, hA1] at herr
      exact absurd (congrArg Prod.fst herr) (by simp)

/-- Witness of C2: the second upsert of `TestEntity_UpsertDedup`. -/
theorem UpsertEntity_existing_row_witness :
    (Store.run asciiTokens Store.empty [Op.upsertEntity 1 "Redis" "system" ["cache"]]).db.WF ∧
      (EntityRow.mk 1 "Redis" "system" ["cache"] 1 1 none 0 none) ∈
        (Store.run asciiTokens Store.empty
          [Op.upsertEntity 1 "Redis" "system" ["cache"]]).db.entities ∧
      (Store.run asciiTokens Store.empty
        [Op.upsertEntity 1 "Redis" "system" ["cache"]]).InStep asciiTokens ∧
      ∃ s1, Store.UpsertEntity asciiTokens
          (Store.run asciiTokens Store.empty [Op.upsertEntity 1 "Redis" "system" ["cache"]])
          2 "Redis" "system" ["cache", "infra"] = (.ok 1, s1) :=
  ⟨by decide, by decide,
    (Store.run_inStep asciiTokens [Op.upsertEntity 1 "Redis" "system" ["cache"]] Store.empty
      (Store.empty_inStep asciiTokens) (by
        intro pre op post h
        rcases pre with _ | ⟨a, pre⟩
        · injection h with h1 h2
          rw [← h1]
          trivial
        · injection h with h1 h2
          exact absurd h2 (by simp))).1,
    (UpsertEntity_existing_row asciiTokens
      (Store.run asciiTokens Store.empty [Op.upsertEntity 1 "Redis" "system" ["cache"]])
      (by decide) 2 (EntityRow.mk 1 "Redis" "system" ["cache"] 1 1 none 0 none) (by decide)
      "system" ["cache", "infra"] (by decide) (by decide) (by decide)).2.1
      (Or.inr ((Store.run_inStep asciiTokens [Op.upsertEntity 1 "Redis" "system" ["cache"]]
        Store.empty (Store.empty_inStep asciiTokens) (by
          intro pre op post h
          rcases pre with _ | ⟨a, pre⟩
          · injection h with h1 h2
            rw [← h1]
            trivial
          · injection h with h1 h2
            exact absurd h2 (by simp))).1))⟩

theorem Store.run_inStep_of_clean (tokens : String → Nat) (ops : List Op)
    (hops : ∀ op ∈ ops, ∀ db, op.clean db) :
    (Store.run tokens Store.empty ops).InStep tokens ∧
      (Store.run tokens Store.empty ops).db = Aimemo.run DB.empty ops :=
  Store.run_inStep tokens ops Store.empty (Store.empty_inStep tokens) (by
    intro pre op post h
    exact hops op (by rw [h]; exact List.mem_append_right _ (List.mem_cons_self _ _)) _)

/-- C6 (as amended): `SoftDeleteEntity(name)` returns an error, changing nothing, when no
live row matches `name`; any call that returns an error changes nothing; a call that
succeeds has stamped the deletion timestamp on every live row whose name equals `name` up
to ASCII case, of which there is at least one, and has left every other entity row and the
other tables unchanged; on a store whose index totals are in step the call succeeds
whenever a live row matches, so that it returns an error if and only if none does; and
when the live rows that match carry one name (no live case variants), the stamped row is
unique. -/
theorem SoftDeleteEntity_effect (tokens : String → Nat) (s : Store) (now : Nat)
    (name : String) :
    (liveMatches s.db name = [] →
      Store.SoftDeleteEntity tokens s now name =
        (.error ("entity " ++ goQuote name ++ " not found"), s)) ∧
    (∀ msg s1, Store.SoftDeleteEntity tokens s now name = (.error msg, s1) → s1 = s) ∧
    (∀ s1, Store.SoftDeleteEntity tokens s now name = (.ok (), s1) →
      liveMatches s.db name ≠ [] ∧
      List.Forall₂
        (fun e e2 =>
          if e.nameMatches name = true ∧ e.live = true then
            e2 = { e with deleted_at := some now }
          else e2 = e)
        s.db.entities s1.db.entities ∧
      s1.db.observations = s.db.observations ∧ s1.db.relations = s.db.relations ∧
      s1.db.journal = s.db.journal) ∧
    (s.InStep tokens → liveMatches s.db name ≠ [] →
      ∃ s1, Store.SoftDeleteEntity tokens s now name = (.ok (), s1)) ∧
    (s.InStep tokens →
      ((∃ msg s1, Store.SoftDeleteEntity tokens s now name = (.error msg, s1)) ↔
        liveMatches s.db name = [])) ∧
    (s.db.WF → (∀ a ∈ liveMatches s.db name, ∀ b ∈ liveMatches s.db name, a.name = b.name) →
      (liveMatches s.db name).length ≤ 1) := by
  obtain ⟨hF, hO, hR, hJ, hErr, hOk, hSame, hUniq⟩ :=
    SoftDeleteEntity_effect_accepted s.db now name
  have hmsg : liveMatches s.db name = [] →
      (SoftDeleteEntity s.db now name).1 = .error ("entity " ++ goQuote name ++ " not found") := by
    intro h
    unfold liveMatches at h
    unfold SoftDeleteEntity
    simp only [h, List.length_nil, if_true]
  have hcases := Store.exec_cases tokens s (.softDeleteEntity now name) corruptVtab
    (SoftDeleteEntity s.db now name).1
  have h4 : s.InStep tokens → liveMatches s.db name ≠ [] →
      ∃ s1, Store.SoftDeleteEntity tokens s now name = (.ok (), s1) := by
    intro hin hne
    obtain ⟨s1, h1, -, -⟩ := Store.exec_inStep hin (.softDeleteEntity now name) trivial
      corruptVtab (SoftDeleteEntity s.db now name).1
    exact ⟨s1, by unfold Store.SoftDeleteEntity; rw [h1, hOk.2 hne]⟩
  have h1 : liveMatches s.db name = [] →
      Store.SoftDeleteEntity tokens s now name =
        (.error ("entity " ++ goQuote name ++ " not found"), s) := by
    intro h
    have hD : Op.ftsDeleted s.db (.softDeleteEntity now name) = [] := by
      show (s.db.entities.filter _).map _ = []
      unfold liveMatches at h
      rw [h]
      rfl
    unfold Store.SoftDeleteEntity Store.exec Store.apply
    rw [hD, hmsg h]
    simp only [List.length_nil, List.map_nil, List.sum_nil, Nat.zero_le, and_self, if_true,
      Op.ftsInserted, Nat.sub_zero, Nat.add_zero]
    show (_, Store.mk (SoftDeleteEntity s.db now name).2 _ _ _) = _
    rw [hSame h]
  refine ⟨h1, ?_, ?_, h4, ?_, hUniq⟩
  · intro msg s1 herr
    unfold Store.SoftDeleteEntity at herr
    rcases hcases with ⟨-, h2⟩ | ⟨s2, -, -, h3⟩
    · rw [h2] at herr
      exact (congrArg Prod.snd herr).symm
    · by_cases hl : liveMatches s.db name = []
      · have := h1 hl
        unfold Store.SoftDeleteEntity at this
        rw [this] at herr
        exact (congrArg Prod.snd herr).symm
      · rw [h3, hOk.2 hl] at herr
        exact absurd (congrArg Prod.fst herr) (by simp)
  · intro s1 hok
    unfold Store.SoftDeleteEntity at hok
    rcases hcases with ⟨-, h2⟩ | ⟨s2, -, hdb, h3⟩
    · rw [h2] at hok
      exact absurd (congrArg Prod.fst hok) (by simp)
    · rw [h3] at hok
      have hres := congrArg Prod.fst hok
      have hst : s2 = s1 := congrArg Prod.snd hok
      simp only at hres
      rw [← hst, hdb]
      exact ⟨hOk.1 hres, hF, hO, hR, hJ⟩
  · intro hin
    constructor
    · rintro ⟨msg, s1, herr⟩
      by_contra hne
      obtain ⟨s2, hok⟩ := h4 hin hne
      rw [hok] at herr
      exact absurd (congrArg Prod.fst herr) (by simp)
    · intro h
      exact ⟨_, _, h1 h⟩

theorem storeObservations_refine (tokens : String → Nat) (id : Nat) :
    ∀ (calls : List (Nat × String)) (s : Store), s.InStep tokens →
    ∃ s2, Store.storeObservations tokens s id calls = ((storeObservations s.db id calls).1, s2) ∧
      s2.db = (storeObservations s.db id calls).2 ∧ s2.InStep tokens
  | [], s, h => ⟨s, rfl, rfl, h⟩
  | call :: calls, s, h => by
    obtain ⟨s1, h1, h2, h3⟩ := Store.exec_inStep h (.addObservation call.1 id call.2) trivial
      corruptVtab (AddObservation s.db call.1 id call.2).1
    have hA : Store.AddObservation tokens s call.1 id call.2 =
        ((AddObservation s.db call.1 id call.2).1, s1) := h1
    have hdb : s1.db = (AddObservation s.db call.1 id call.2).2 := h2
    unfold Store.storeObservations storeObservations
    rw [hA]
    cases hp : AddObservation s.db call.1 id call.2 with
    | mk res db1 =>
      rw [hp] at hdb
      cases res with
      | error e => exact ⟨s1, rfl, hdb, h3⟩
      | ok u =>
        obtain ⟨s2, h4, h5, h6⟩ := storeObservations_refine tokens id calls s1 h3
        rw [hdb] at h4 h5
        exact ⟨s2, h4, h5, h6⟩

theorem StoreEntities_refine (tokens : String → Nat) :
    ∀ (calls : List (EntityInput × Nat × List Nat)) (s : Store), s.InStep tokens →
    ∃ s2, Store.StoreEntities tokens s calls = ((StoreEntities s.db calls).1, s2) ∧
      s2.db = (StoreEntities s.db calls).2 ∧ s2.InStep tokens
  | [], s, h => ⟨s, rfl, rfl, h⟩
  | call :: calls, s, h => by
    obtain ⟨s1, h1, h2, h3⟩ := Store.exec_inStep h
      (.upsertEntity call.2.1 call.1.Name
        (if call.1.EntityType = "" then "concept" else call.1.EntityType) call.1.Tags) trivial
      ("upsert entity: " ++ corruptVtab)
      (UpsertEntity s.db call.2.1 call.1.Name
        (if call.1.EntityType = "" then "concept" else call.1.EntityType) call.1.Tags).1
    have hU : Store.UpsertEntity tokens s call.2.1 call.1.Name
        (if call.1.EntityType = "" then "concept" else call.1.EntityType) call.1.Tags =
        ((UpsertEntity s.db call.2.1 call.1.Name
          (if call.1.EntityType = "" then "concept" else call.1.EntityType) call.1.Tags).1,
          s1) := h1
    have hdb : s1.db = (UpsertEntity s.db call.2.1 call.1.Name
        (if call.1.EntityType = "" then "concept" else call.1.EntityType) call.1.Tags).2 := h2
    unfold Store.StoreEntities StoreEntities
    rw [hU]
    cases hp : UpsertEntity s.db call.2.1 call.1.Name
        (if call.1.EntityType = "" then "concept" else call.1.EntityType) call.1.Tags with
    | mk res db1 =>
      rw [hp] at hdb
      cases res with
      | error e => exact ⟨s1, rfl, hdb, h3⟩
      | ok id =>
        obtain ⟨s2, h4, h5, h6⟩ := storeObservations_refine tokens id
          (call.1.Observations.enum.map (fun x => (call.2.2.getD x.1 0, x.2))) s1 h3
        rw [hdb] at h4 h5
        simp only [h4]
        cases hq : storeObservations db1 id
            (call.1.Observations.enum.map (fun x => (call.2.2.getD x.1 0, x.2))) with
        | mk res2 db2 =>
          rw [hq] at h5
          cases res2 with
          | error e => exact ⟨s2, rfl, h5, h6⟩
          | ok u =>
            obtain ⟨s3, h7, h8, h9⟩ := StoreEntities_refine tokens calls s2 h6
            rw [h5] at h7 h8
            simp only [h7, h5]
            cases hr : StoreEntities db2 calls with
            | mk res3 db3 =>
              rw [hr] at h8
              cases res3 with
              | error e => exact ⟨s3, rfl, h8, h9⟩
              | ok rs => exact ⟨s3, rfl, h8, h9⟩

theorem Store.exec_no_delete {α : Type} (tokens : String → Nat) (s : Store) (op : Op)
    (refused : String) (result : Except String α) (hD : op.ftsDeleted s.db = []) :
    ∃ s1, s.exec tokens op refused result = (result, s1) ∧ s1.db = op.apply s.db := by
  unfold Store.exec Store.apply
  rw [hD]
  simp

theorem handleMemoryStore_refine {κ γ : Type} (tokens : String → Nat) (s : Store)
    (clock : Clock) (args : Arguments)
    (h : s.InStep tokens ∨ ∀ p, args.store = .ok p → p.Journal ≠ "" ∨ p.Entities.length = 0) :
    ∃ s2, @Store.handleMemoryStore κ γ tokens s clock args =
        ((@handleMemoryStore κ γ s.db clock args).1, s2) ∧
      s2.db = (@handleMemoryStore κ γ s.db clock args).2 := by
  unfold Store.handleMemoryStore handleMemoryStore
  cases hp : args.store with
  | error err => exact ⟨s, rfl, rfl⟩
  | ok p =>
    simp only
    by_cases hj : p.Journal ≠ ""
    · rw [if_pos hj, if_pos hj]
      obtain ⟨s1, h1, h2⟩ := Store.exec_no_delete tokens s
        (.appendJournal (clock.ms 0) p.Journal p.Tags) corruptVtab
        (AppendJournal s.db (clock.ms 0) p.Journal p.Tags).1 rfl
      have hA : Store.AppendJournal tokens s (clock.ms 0) p.Journal p.Tags =
          ((AppendJournal s.db (clock.ms 0) p.Journal p.Tags).1, s1) := h1
      have hdb : s1.db = (AppendJournal s.db (clock.ms 0) p.Journal p.Tags).2 := h2
      rw [hA]
      cases hq : AppendJournal s.db (clock.ms 0) p.Journal p.Tags with
      | mk res db1 =>
        rw [hq] at hdb
        cases res with
        | error e => exact ⟨s1, rfl, hdb⟩
        | ok entry => exact ⟨s1, rfl, hdb⟩
    · rw [if_neg hj, if_neg hj]
      by_cases he : p.Entities.length = 0
      · rw [if_pos he, if_pos he]
        exact ⟨s, rfl, rfl⟩
      · rw [if_neg he, if_neg he]
        have hin : s.InStep tokens := by
          rcases h with h | h
          · exact h
          · rcases h p hp with h | h
            · exact absurd h hj
            · exact absurd h he
        obtain ⟨s2, h1, h2, -⟩ := StoreEntities_refine tokens (stamp p.Entities clock.batch) s hin
        rw [h1]
        cases hq : StoreEntities s.db (stamp p.Entities clock.batch) with
        | mk res db1 =>
          rw [hq] at h2
          cases res with
          | error e => exact ⟨s2, rfl, h2⟩
          | ok rs => exact ⟨s2, rfl, h2⟩

/-- C25 (amended): the two modes of `memory_store`, on a store that satisfies the schema
constraints and with params that decode.  A non-empty journal of at most 10240 bytes
appends one journal row with a new id and returns stored = journal with that id;
entities, observations and relations are untouched, whatever `entities` holds.  With an
empty journal and a non-empty list of entities whose names have 1 to 1024 bytes, types at
most 256 bytes and observations at most 10240 bytes each, on a store whose index totals
are in step, the call returns stored = entities with count the number of inputs and one
entity per input (its name, its type or `concept`, its tags, live, holding its
observations), and afterwards the store has a live row of each input's name that holds
the input's observations; journal and relations are untouched.  With both empty the call
returns an error and the store is unchanged. -/
theorem handleMemoryStore_spec {κ γ : Type} (tokens : String → Nat) {s : Store}
    (hwf : s.db.WF) (clock : Clock) (args : Arguments) (p : StoreParams)
    (hp : args.store = .ok p) :
    (p.Journal ≠ "" → p.Journal.utf8ByteSize ≤ 10240 →
      ∃ s2, @Store.handleMemoryStore κ γ tokens s clock args =
          (.ok (.storedJournal (s.db.seq_journal + 1)), s2) ∧
        s2.db.journal = s.db.journal ++
          [JournalRow.mk (s.db.seq_journal + 1) p.Journal p.Tags (clock.ms 0)] ∧
        (∀ j ∈ s.db.journal, j.id ≠ s.db.seq_journal + 1) ∧
        s2.db.entities = s.db.entities ∧ s2.db.observations = s.db.observations ∧
        s2.db.relations = s.db.relations) ∧
    (p.Journal = "" → p.Entities ≠ [] →
      (∀ inp ∈ p.Entities, 0 < inp.Name.utf8ByteSize ∧ inp.Name.utf8ByteSize ≤ 1024 ∧
        inp.EntityType.utf8ByteSize ≤ 256 ∧ ∀ c ∈ inp.Observations, c.utf8ByteSize ≤ 10240) →
      s.InStep tokens →
      ∃ rs s2, @Store.handleMemoryStore κ γ tokens s clock args =
          (.ok (.storedEntities p.Entities.length rs), s2) ∧
        List.Forall₂ (fun (inp : EntityInput) (r : Entity) =>
          r.Name = inp.Name ∧
          r.EntityType = (if inp.EntityType = "" then "concept" else inp.EntityType) ∧
          r.Tags = inp.Tags ∧ r.DeletedAt = none ∧
          ∀ c ∈ inp.Observations, c ∈ r.Observations) p.Entities rs ∧
        (∀ inp ∈ p.Entities, ∃ row ∈ s2.db.entities, row.name = inp.Name ∧
          row.deleted_at = none ∧
          ∀ c ∈ inp.Observations, c ∈ ListObservationsByEntityID s2.db row.id) ∧
        s2.db.journal = s.db.journal ∧ s2.db.relations = s.db.relations) ∧
    (p.Journal = "" → p.Entities = [] →
      @Store.handleMemoryStore κ γ tokens s clock args =
        (.error "entities or journal is required", s)) := by
  obtain ⟨hJ, hE, hN⟩ := @handleMemoryStore_spec_accepted κ γ s.db hwf clock args p hp
  refine ⟨fun hj hsize => ?_, fun hj hne hv hin => ?_, fun hj he => ?_⟩
  · obtain ⟨db2, h1, h2, h3, h4, h5, h6⟩ := hJ hj hsize
    obtain ⟨s2, r1, r2⟩ := @handleMemoryStore_refine κ γ tokens s clock args
      (Or.inr (fun q hq => by
        rw [hp] at hq
        injection hq with hq
        rw [← hq]
        exact Or.inl hj))
    rw [h1] at r1 r2
    exact ⟨s2, r1, by rw [r2]; exact h2, h3, by rw [r2]; exact h4, by rw [r2]; exact h5,
      by rw [r2]; exact h6⟩
  · obtain ⟨rs, db2, h1, h2, h3, h4, h5⟩ := hE hj hne hv
    obtain ⟨s2, r1, r2⟩ := @handleMemoryStore_refine κ γ tokens s clock args (Or.inl hin)
    rw [h1] at r1 r2
    exact ⟨rs, s2, r1, h2, by rw [r2]; exact h3, by rw [r2]; exact h4, by rw [r2]; exact h5⟩
  · unfold Store.handleMemoryStore
    simp only [hp]
    rw [if_neg (not_not.2 hj), if_pos (by rw [he]; rfl)]

/-- Witness of C25, on the store that holds `Redis`: a call with the journal text
`shipped v2` appends the journal row 1 and returns its id, and a call with the one input
`Redis` (whose upsert rewrites the live row and replaces its index document) returns
stored = entities with count 1. -/
theorem handleMemoryStore_spec_witness :
    (Store.run asciiTokens Store.empty [Op.upsertEntity 1 "Redis" "system" []]).db.WF ∧
    (∃ s2, @Store.handleMemoryStore Nat Unit asciiTokens
        (Store.run asciiTokens Store.empty [Op.upsertEntity 1 "Redis" "system" []])
        (Clock.mk (fun _ => 5) [] 0)
        { Arguments.empty with store := .ok (StoreParams.mk [] "shipped v2" [] "") } =
          (.ok (.storedJournal 1), s2) ∧
        s2.db.journal = [JournalRow.mk 1 "shipped v2" [] 5] ∧
        (∀ j ∈ (Store.run asciiTokens Store.empty
          [Op.upsertEntity 1 "Redis" "system" []]).db.journal, j.id ≠ 1) ∧
        s2.db.entities = (Store.run asciiTokens Store.empty
          [Op.upsertEntity 1 "Redis" "system" []]).db.entities ∧
        s2.db.observations = [] ∧ s2.db.relations = []) ∧
    ∃ rs s2, @Store.handleMemoryStore Nat Unit asciiTokens
        (Store.run asciiTokens Store.empty [Op.upsertEntity 1 "Redis" "system" []])
        (Clock.mk (fun _ => 5) [(6, [7])] 0)
        { Arguments.empty with
          store := .ok (StoreParams.mk [EntityInput.mk "Redis" "" ["Port 6379"] []] "" [] "") } =
          (.ok (.storedEntities 1 rs), s2) ∧
      List.Forall₂ (fun (inp : EntityInput) (r : Entity) =>
        r.Name = inp.Name ∧
        r.EntityType = (if inp.EntityType = "" then "concept" else inp.EntityType) ∧
        r.Tags = inp.Tags ∧ r.DeletedAt = none ∧
        ∀ c ∈ inp.Observations, c ∈ r.Observations)
        [EntityInput.mk "Redis" "" ["Port 6379"] []] rs ∧
      (∀ inp ∈ [EntityInput.mk "Redis" "" ["Port 6379"] []], ∃ row ∈ s2.db.entities,
        row.name = inp.Name ∧ row.deleted_at = none ∧
        ∀ c ∈ inp.Observations, c ∈ ListObservationsByEntityID s2.db row.id) ∧
      s2.db.journal = [] ∧ s2.db.relations = [] :=
  ⟨(Store.run_inStep_of_clean asciiTokens [Op.upsertEntity 1 "Redis" "system" []]
      (fun _ h _ => by
        rw [List.mem_singleton.1 h]
        trivial)).1.1,
    (handleMemoryStore_spec asciiTokens
      (Store.run_inStep_of_clean asciiTokens [Op.upsertEntity 1 "Redis" "system" []]
        (fun _ h _ => by
          rw [List.mem_singleton.1 h]
          trivial)).1.1 (Clock.mk (fun _ => 5) [] 0)
      { Arguments.empty with store := .ok (StoreParams.mk [] "shipped v2" [] "") }
      (StoreParams.mk [] "shipped v2" [] "") rfl).1 (by decide) (by decide),
    (handleMemoryStore_spec asciiTokens
      (Store.run_inStep_of_clean asciiTokens [Op.upsertEntity 1 "Redis" "system" []]
        (fun _ h _ => by
          rw [List.mem_singleton.1 h]
          trivial)).1.1 (Clock.mk (fun _ => 5) [(6, [7])] 0)
      { Arguments.empty with
        store := .ok (StoreParams.mk [EntityInput.mk "Redis" "" ["Port 6379"] []] "" [] "") }
      (StoreParams.mk [EntityInput.mk "Redis" "" ["Port 6379"] []] "" [] "") rfl).2.1 rfl
      (List.cons_ne_nil _ _) (by decide)
      (Store.run_inStep_of_clean asciiTokens [Op.upsertEntity 1 "Redis" "system" []]
        (fun _ h _ => by
          rw [List.mem_singleton.1 h]
          trivial)).1⟩

/-- A call that sends the entity index no command and leaves the tables as they were is
accepted and leaves the store as it was. -/
theorem Store.exec_noop {α : Type} (tokens : String → Nat) (s : Store) (op : Op)
    (refused : String) (result : Except String α) (hD : op.ftsDeleted s.db = [])
    (hI : op.ftsInserted s.db = []) (hdb : op.apply s.db = s.db) :
    s.exec tokens op refused result = (result, s) := by
  unfold Store.exec Store.apply
  rw [hD, hI, hdb]
  simp

/-- The size bounds of `UpsertEntity` and `AddObservation` as the engine runs them.
`UpsertEntity` returns its size errors, leaving the store as it was, when the name has no
byte or more than 1024 bytes or the type more than 256 bytes.  With sizes inside the
bounds it succeeds on every store whose index totals are in step, and on any store it
either succeeds or returns the refusal of the engine and leaves the store as it was.
`AddObservation` returns its size error, leaving the store as it was, when the content has
more than 10240 bytes, and succeeds on an existing entity when it has at most 10240. -/
theorem size_bounds (tokens : String → Nat) (s : Store) (now : Nat) (name ty : String)
    (tags : List String) (id : Nat) (content : String) :
    (name.utf8ByteSize = 0 →
      Store.UpsertEntity tokens s now name ty tags =
        (.error "entity name cannot be empty", s)) ∧
    (1024 < name.utf8ByteSize →
      Store.UpsertEntity tokens s now name ty tags =
        (.error "entity name exceeds 1KB limit", s)) ∧
    (0 < name.utf8ByteSize → name.utf8ByteSize ≤ 1024 → 256 < ty.utf8ByteSize →
      Store.UpsertEntity tokens s now name ty tags =
        (.error "entity type exceeds 256-byte limit", s)) ∧
    (0 < name.utf8ByteSize → name.utf8ByteSize ≤ 1024 → ty.utf8ByteSize ≤ 256 →
      s.InStep tokens → ∃ i s1, Store.UpsertEntity tokens s now name ty tags = (.ok i, s1)) ∧
    (0 < name.utf8ByteSize → name.utf8ByteSize ≤ 1024 → ty.utf8ByteSize ≤ 256 →
      (∃ i s1, Store.UpsertEntity tokens s now name ty tags = (.ok i, s1)) ∨
        Store.UpsertEntity tokens s now name ty tags =
          (.error ("upsert entity: " ++ corruptVtab), s)) ∧
    (10240 < content.utf8ByteSize →
      Store.AddObservation tokens s now id content =
        (.error "observation content exceeds 10KB limit", s)) ∧
    (content.utf8ByteSize ≤ 10240 → (∃ e ∈ s.db.entities, e.id = id) →
      ∃ s1, Store.AddObservation tokens s now id content = (.ok (), s1)) := by
  obtain ⟨h1, h2, h3, h4, h5, h6⟩ := size_bounds_accepted s.db now name ty tags id content
  have hinv : (name.utf8ByteSize = 0 ∨ name.utf8ByteSize > 1024 ∨ ty.utf8ByteSize > 256) →
      ∀ msg, Aimemo.UpsertEntity s.db now name ty tags = (.error msg, s.db) →
      Store.UpsertEntity tokens s now name ty tags = (.error msg, s) := by
    intro hsz msg hE
    unfold Store.UpsertEntity
    rw [Store.exec_noop tokens s (.upsertEntity now name ty tags) _ _
      (by simp only [Op.ftsDeleted, if_pos hsz])
      (by simp only [Op.ftsInserted, if_pos hsz])
      (by show (Aimemo.UpsertEntity s.db now name ty tags).2 = s.db; rw [hE]), hE]
  refine ⟨fun h => hinv (Or.inl h) _ (h1 h), fun h => hinv (Or.inr (Or.inl h)) _ (h2 h),
    fun a b c => hinv (Or.inr (Or.inr c)) _ (h3 a b c), fun a b c hin => ?_, fun a b c => ?_,
    fun h => ?_, fun h he => ?_⟩
  · obtain ⟨i, hi⟩ := h4 a b c
    obtain ⟨s1, hs1, -, -⟩ := Store.exec_inStep hin (.upsertEntity now name ty tags) trivial
      ("upsert entity: " ++ corruptVtab) (Aimemo.UpsertEntity s.db now name ty tags).1
    refine ⟨i, s1, ?_⟩
    unfold Store.UpsertEntity
    rw [hs1, hi]
  · obtain ⟨i, hi⟩ := h4 a b c
    unfold Store.UpsertEntity
    rcases Store.exec_cases tokens s (.upsertEntity now name ty tags)
      ("upsert entity: " ++ corruptVtab) (Aimemo.UpsertEntity s.db now name ty tags).1 with
      ⟨-, hx⟩ | ⟨s1, -, -, hx⟩
    · exact Or.inr hx
    · exact Or.inl ⟨i, s1, by rw [hx, hi]⟩
  · unfold Store.AddObservation
    have hE := h5 h
    rw [Store.exec_noop tokens s (.addObservation now id content) _ _ rfl rfl
      (by show (Aimemo.AddObservation s.db now id content).2 = s.db; rw [hE]), hE]
  · obtain ⟨s1, hs1, -⟩ := Store.exec_no_delete tokens s (.addObservation now id content)
      corruptVtab (Aimemo.AddObservation s.db now id content).1 rfl
    refine ⟨s1, ?_⟩
    unfold Store.AddObservation
    rw [hs1, h6 h he]

/-- The size bounds at their edges, on a new store: a name of 1024 bytes is accepted and
one of 1025 bytes rejected, a content of 10240 bytes is accepted and one of 10241 bytes
rejected. -/
theorem size_bounds_edges :
    (∃ i s1, Store.UpsertEntity asciiTokens Store.empty 0 (String.mk (List.replicate 1024 'a'))
      "t" [] = (.ok i, s1)) ∧
    Store.UpsertEntity asciiTokens Store.empty 0 (String.mk (List.replicate 1025 'a')) "t" [] =
      (.error "entity name exceeds 1KB limit", Store.empty) ∧
    (∃ s1, Store.AddObservation asciiTokens
      (Store.run asciiTokens Store.empty [Op.upsertEntity 0 "X" "t" []]) 1 1
      (String.mk (List.replicate 10240 'a')) = (.ok (), s1)) ∧
    Store.AddObservation asciiTokens
        (Store.run asciiTokens Store.empty [Op.upsertEntity 0 "X" "t" []]) 1 1
        (String.mk (List.replicate 10241 'a')) =
      (.error "observation content exceeds 10KB limit",
        Store.run asciiTokens Store.empty [Op.upsertEntity 0 "X" "t" []]) :=
  ⟨(size_bounds asciiTokens Store.empty 0 _ "t" [] 0 "").2.2.2.1
      (by rw [utf8ByteSize_replicate_a]; decide) (by rw [utf8ByteSize_replicate_a])
      (by decide) (Store.empty_inStep asciiTokens),
    (size_bounds asciiTokens Store.empty 0 _ "t" [] 0 "").2.1
      (by rw [utf8ByteSize_replicate_a]; decide),
    (size_bounds asciiTokens _ 1 "" "" [] 1 _).2.2.2.2.2.2 (by rw [utf8ByteSize_replicate_a])
      ⟨EntityRow.mk 1 "X" "t" [] 0 0 none 0 none, by decide, rfl⟩,
    (size_bounds asciiTokens _ 1 "" "" [] 1 _).2.2.2.2.2.1
      (by rw [utf8ByteSize_replicate_a]; decide)⟩

/-- C8 (as amended): `UpsertRelationByName` is idempotent up to the rowid counters.  For
every store and every triple the call succeeds, and a second call with the same triple
succeeds too and leaves every table and index exactly as the first call left them; of the
whole database state only the AUTOINCREMENT counters of `entities` and `relations`
advance, by two and by one.  `ListRelationsByEntity` therefore returns the same list after
the second call as after the first, and in a store that satisfies the schema constraints
that list holds the edge exactly once when both endpoint rows are live and one of them
matches the name asked for, and does not hold it otherwise. -/
theorem UpsertRelationByName_idempotent (db : DB) (t1 t2 t3 u1 u2 u3 : Nat)
    (f t rel : String) :
    ∃ s1 s2, UpsertRelationByName db t1 t2 t3 f t rel = (.ok (), s1) ∧
      UpsertRelationByName s1 u1 u2 u3 f t rel = (.ok (), s2) ∧
      s2 = { s1 with seq_entities := s1.seq_entities + 2,
                     seq_relations := s1.seq_relations + 1 } ∧
      s2.contents = s1.contents ∧
      (∀ n, ListRelationsByEntity s2 n = ListRelationsByEntity s1 n) ∧
      (db.WF → ∃ fe ∈ s1.entities, ∃ te ∈ s1.entities, fe.name = f ∧ te.name = t ∧
        ∀ n, ((ListRelationsByEntity s2 n).filter
            (fun x => decide (x.FromName = f ∧ x.ToName = t ∧ x.Relation = rel))).length =
          if fe.live = true ∧ te.live = true ∧
              (fe.nameMatches n = true ∨ te.nameMatches n = true) then 1 else 0) := by
  obtain ⟨h1, h2, h3, h4, h5, h6, h7⟩ := UpsertRelationByName_twice db t1 t2 t3 u1 u2 u3 f t rel
  refine ⟨(UpsertRelationByName db t1 t2 t3 f t rel).2,
    (UpsertRelationByName (UpsertRelationByName db t1 t2 t3 f t rel).2 u1 u2 u3 f t rel).2,
    Prod.ext h1 rfl, Prod.ext h2 rfl, h4, h3, h5, fun hwf => ?_⟩
  obtain ⟨fe, te, added, edge, heq, hfe, hte, -, -⟩ :=
    UpsertRelationByName_spec db t1 t2 t3 f t rel
  have hfe1 : fe ∈ (UpsertRelationByName db t1 t2 t3 f t rel).2.entities := by
    rw [heq]
    exact List.mem_of_find?_eq_some hfe
  have hte1 : te ∈ (UpsertRelationByName db t1 t2 t3 f t rel).2.entities := by
    rw [heq]
    exact List.mem_of_find?_eq_some hte
  have hfn : fe.name = f := by simpa using List.find?_some hfe
  have htn : te.name = t := by simpa using List.find?_some hte
  have hwf1 := UpsertRelationByName_WF hwf t1 t2 t3 f t rel
  refine ⟨fe, hfe1, te, hte1, hfn, htn, fun n => ?_⟩
  split_ifs with hc
  · obtain ⟨hl1, hl2, hm⟩ := hc
    obtain ⟨x, hx, hxk⟩ := h7 n fe hfe1 te hte1 hfn htn hl1 hl2 hm hwf
    have hpos : 0 < ((ListRelationsByEntity
        (UpsertRelationByName (UpsertRelationByName db t1 t2 t3 f t rel).2 u1 u2 u3 f t
          rel).2 n).filter
        (fun x => decide (x.FromName = f ∧ x.ToName = t ∧ x.Relation = rel))).length :=
      List.length_pos_of_mem (List.mem_filter.2 ⟨hx, by simpa using hxk⟩)
    have := h6 hwf n
    omega
  · rw [List.length_eq_zero, List.filter_eq_nil_iff]
    intro x hx hk
    apply hc
    rw [h5 n] at hx
    obtain ⟨r, -, a, ha, b, hb, -, -, hm, hal, hbl, rfl⟩ := mem_ListRelationsByEntity.1 hx
    simp only [decide_eq_true_eq] at hk
    have ea : a = fe := hwf1.entity_eq_of_name ha hfe1 (hk.1.trans hfn.symm)
    have eb : b = te := hwf1.entity_eq_of_name hb hte1 (hk.2.1.trans htn.symm)
    subst ea eb
    exact ⟨hal, hbl, hm⟩

/-- Witness of C8 on `TestRelation_UpsertAndList`: on the new store, which satisfies the
schema constraints, the two calls succeed, and after them `ListRelationsByEntity("Redis")`
holds the edge exactly once. -/
theorem UpsertRelationByName_idempotent_witness :
    DB.empty.WF ∧
    ∃ s1 s2, UpsertRelationByName DB.empty 1 1 1 "Redis" "Gateway" "used-by" = (.ok (), s1) ∧
      UpsertRelationByName s1 2 2 2 "Redis" "Gateway" "used-by" = (.ok (), s2) ∧
      s2.contents = s1.contents ∧
      ((ListRelationsByEntity s2 "Redis").filter (fun x =>
        decide (x.FromName = "Redis" ∧ x.ToName = "Gateway" ∧
          x.Relation = "used-by"))).length = 1 := by
  obtain ⟨s1, s2, h1, h2, -, h4, -, h6⟩ :=
    UpsertRelationByName_idempotent DB.empty 1 1 1 2 2 2 "Redis" "Gateway" "used-by"
  refine ⟨DB.empty_WF, s1, s2, h1, h2, h4, ?_⟩
  obtain ⟨fe, hfe, te, hte, hfn, htn, hcount⟩ := h6 DB.empty_WF
  have hs1 : s1 = (UpsertRelationByName DB.empty 1 1 1 "Redis" "Gateway" "used-by").2 := by
    rw [h1]
  rw [hcount "Redis", if_pos]
  subst hs1
  have hfe2 : fe = EntityRow.mk 1 "Redis" "concept" [] 1 1 none 0 none := by
    have : fe ∈ [EntityRow.mk 1 "Redis" "concept" [] 1 1 none 0 none,
        EntityRow.mk 2 "Gateway" "concept" [] 1 1 none 0 none] := hfe
    simp only [List.mem_cons, List.mem_singleton, List.not_mem_nil, or_false] at this
    rcases this with h | h
    · exact h
    · rw [h] at hfn
      exact absurd hfn (by decide)
  have hte2 : te = EntityRow.mk 2 "Gateway" "concept" [] 1 1 none 0 none := by
    have : te ∈ [EntityRow.mk 1 "Redis" "concept" [] 1 1 none 0 none,
        EntityRow.mk 2 "Gateway" "concept" [] 1 1 none 0 none] := hte
    simp only [List.mem_cons, List.mem_singleton, List.not_mem_nil, or_false] at this
    rcases this with h | h
    · rw [h] at htn
      exact absurd htn (by decide)
    · exact h
  rw [hfe2, hte2]
  exact ⟨rfl, rfl, Or.inl (by decide)⟩

/-- C8, counterexample.  On the new store the second call of
`UpsertRelationByName("Redis", "Gateway", "used-by")` does not leave the store as the first
left it: each ignored insert has drawn a rowid, so that an entity created next gets the id
5 instead of 3.  And on the store in which `Redis` was upserted and soft-deleted both
calls succeed, after which `ListRelationsByEntity` returns the edge neither for `Redis` nor
for `Gateway`, although the row is in `relations`. -/
theorem UpsertRelationByName_idempotent_counterexample :
    ((UpsertRelationByName (UpsertRelationByName DB.empty 1 1 1 "Redis" "Gateway"
        "used-by").2 2 2 2 "Redis" "Gateway" "used-by").2 ≠
      (UpsertRelationByName DB.empty 1 1 1 "Redis" "Gateway" "used-by").2 ∧
     (UpsertEntity (UpsertRelationByName DB.empty 1 1 1 "Redis" "Gateway" "used-by").2
        3 "Kafka" "system" []).1 = .ok 3 ∧
     (UpsertEntity (UpsertRelationByName (UpsertRelationByName DB.empty 1 1 1 "Redis" "Gateway"
        "used-by").2 2 2 2 "Redis" "Gateway" "used-by").2 3 "Kafka" "system" []).1 = .ok 5) ∧
    ((UpsertRelationByName (run DB.empty [Op.upsertEntity 1 "Redis" "system" [],
        Op.softDeleteEntity 2 "Redis"]) 3 3 3 "Redis" "Gateway" "used-by").1 = .ok () ∧
     (UpsertRelationByName (UpsertRelationByName (run DB.empty
        [Op.upsertEntity 1 "Redis" "system" [], Op.softDeleteEntity 2 "Redis"])
          3 3 3 "Redis" "Gateway" "used-by").2 4 4 4 "Redis" "Gateway" "used-by").1 = .ok () ∧
     (UpsertRelationByName (UpsertRelationByName (run DB.empty
        [Op.upsertEntity 1 "Redis" "system" [], Op.softDeleteEntity 2 "Redis"])
          3 3 3 "Redis" "Gateway" "used-by").2 4 4 4 "Redis" "Gateway" "used-by").2.relations =
        [RelationRow.mk 1 1 3 "used-by" 3] ∧
     ListRelationsByEntity (UpsertRelationByName (UpsertRelationByName (run DB.empty
        [Op.upsertEntity 1 "Redis" "system" [], Op.softDeleteEntity 2 "Redis"])
          3 3 3 "Redis" "Gateway" "used-by").2 4 4 4 "Redis" "Gateway" "used-by").2 "Redis" =
        [] ∧
     ListRelationsByEntity (UpsertRelationByName (UpsertRelationByName (run DB.empty
        [Op.upsertEntity 1 "Redis" "system" [], Op.softDeleteEntity 2 "Redis"])
          3 3 3 "Redis" "Gateway" "used-by").2 4 4 4 "Redis" "Gateway" "used-by").2 "Gateway" =
        []) := by
  refine ⟨⟨by decide, rfl, rfl⟩, rfl, rfl, by decide, by decide, by decide⟩

/-- The verb `%d` stops in front of an underscore: `1_0d` is read as one day. -/
theorem sscanInt_underscore (localMidnight : Nat → Nat → Nat → Int) (now : Int) :
    sscanInt "1_0" = some 1 ∧
      ParseSince localMidnight now "1_0d" = ParseSince localMidnight now "1d" :=
  ⟨rfl, rfl⟩

/-- Witness of C6 on the store of `TestEntity_SoftDelete`: the store that holds `Redis` has
its index totals in step and one live row that matches `redis`, the call succeeds, and no
call on that store returns an error while a live row matches. -/
theorem SoftDeleteEntity_effect_witness :
    (Store.run asciiTokens Store.empty [Op.upsertEntity 1 "Redis" "system" []]).InStep
        asciiTokens ∧
      liveMatches (Store.run asciiTokens Store.empty
        [Op.upsertEntity 1 "Redis" "system" []]).db "redis" =
          [EntityRow.mk 1 "Redis" "system" [] 1 1 none 0 none] ∧
      (∃ s1, Store.SoftDeleteEntity asciiTokens
        (Store.run asciiTokens Store.empty [Op.upsertEntity 1 "Redis" "system" []]) 2 "redis" =
          (.ok (), s1)) ∧
      (Store.SoftDeleteEntity asciiTokens
        (Store.run asciiTokens Store.empty [Op.upsertEntity 1 "Redis" "system" []]) 2
          "redis").2.db.entities = [EntityRow.mk 1 "Redis" "system" [] 1 1 (some 2) 0 none] :=
  ⟨(Store.run_inStep_of_clean asciiTokens [Op.upsertEntity 1 "Redis" "system" []]
      (fun _ h _ => by
        rw [List.mem_singleton.1 h]
        trivial)).1,
    by decide,
    (SoftDeleteEntity_effect asciiTokens
      (Store.run asciiTokens Store.empty [Op.upsertEntity 1 "Redis" "system" []]) 2
      "redis").2.2.2.1
      (Store.run_inStep_of_clean asciiTokens [Op.upsertEntity 1 "Redis" "system" []]
        (fun _ h _ => by
          rw [List.mem_singleton.1 h]
          trivial)).1 (by decide),
    by decide⟩

end Aimemo
